import Mathlib

/-!
# stb_audio_mixer / stb_synth: a shallow embedding

The mixer core (`stb_audio_mixer.h`, "mixlow") is embedded as pure functions on an
explicit state record `MixLow` that gathers the file's static variables, the two
pre-mix rings and the sample memory that playback blocks point into.

Conventions of the embedding:

* `stb_mixint` is `unsigned int`: values are naturals and every arithmetic operation
  on them is reduced modulo `2^32` (`uadd`, `usub`, `umul`).
* `float` values are rationals: arithmetic is exact. Conversions `(int) x` truncate
  toward zero (`float_to_int`); the x87 store `fistp` rounds to nearest, ties to even
  (`fistp`).
* the parts of the file under `#ifdef _MSC_VER` are selected by the field `msc_ver` of
  the state, which no function assigns: both builds are embedded.
* pointers are byte addresses (naturals, `0` is `NULL`); sample memory is typed
  (`mem16` for `short`, `memf` for `float`) and indexed by byte address; rings are
  indexed by element.
* `assert` has no effect on the state (release build); asserted conditions are
  stated as separate predicates where a property needs them.
-/

namespace Stb

/-! ## Machine arithmetic -/

/-- Unsigned 32-bit addition. -/
def uadd (a b : Nat) : Nat := (a + b) % 4294967296

/-- Unsigned 32-bit subtraction. -/
def usub (a b : Nat) : Nat := (a % 4294967296 + (4294967296 - b % 4294967296)) % 4294967296

/-- Unsigned 32-bit multiplication. -/
def umul (a b : Nat) : Nat := (a * b) % 4294967296

/-- Conversion of an `unsigned int` bit pattern to `int` (two's complement). -/
def toInt32 (n : Nat) : Int :=
  if n % 4294967296 < 2147483648 then ((n % 4294967296 : Nat) : Int)
  else ((n % 4294967296 : Nat) : Int) - 4294967296

/-- Conversion of an `int` to `unsigned int`. -/
def ofInt32 (k : Int) : Nat := (k % 4294967296).toNat

/-- Conversion of an `int` to `unsigned char`. -/
def toUChar (k : Int) : Nat := (k % 256).toNat

/-- Truncation of a rational toward zero. -/
def truncQ (q : ℚ) : Int := if 0 ≤ q then ⌊q⌋ else ⌈q⌉

/-- C conversion `(int) x` of a float: truncation toward zero. Outside the range of
`int` the conversion is undefined in C; the x86 conversion instructions store the
"integer indefinite" value `INT_MIN` there, and that is the value taken here. -/
def float_to_int (q : ℚ) : Int :=
  if -2147483648 ≤ truncQ q ∧ truncQ q < 2147483648 then truncQ q else -2147483648

/-- Rounding of a rational to the nearest integer, ties to the even one. -/
def round_even (q : ℚ) : Int :=
  if q - (⌊q⌋ : ℚ) < 1 / 2 then ⌊q⌋
  else if q - (⌊q⌋ : ℚ) > 1 / 2 then ⌊q⌋ + 1
  else if ⌊q⌋ % 2 = 0 then ⌊q⌋ else ⌊q⌋ + 1

/-- The x87 sequence `fld p; fistp k` with the default control word: the value rounded
to the nearest integer, ties to even; the integer indefinite `0x80000000` when the
result does not fit an `int`. -/
def fistp (q : ℚ) : Int :=
  if -2147483648 ≤ round_even q ∧ round_even q < 2147483648 then round_even q
  else -2147483648

/-! ## Data model -/

/-- `MAX_BLOCKS`. -/
def MAX_BLOCKS : Nat := 1000

/-- `ENVELOPE_SAMPLE_TIME`: the envelope is evaluated 100 times per second. -/
def ENVELOPE_SAMPLE_TIME : Nat := 441

/-- `Fademode` enumerators. -/
def FADE_none : Nat := 0

/-- `FADE_linear`. -/
def FADE_linear : Nat := 1

/-- `FADE_equalpower`. -/
def FADE_equalpower : Nat := 2

/-- `FADE_release`. -/
def FADE_release : Nat := 3

/-- `FADE_pulserelease`. -/
def FADE_pulserelease : Nat := 4

/-- The record `stb__block`: one scheduled playback. -/
structure stb__block where
  samples : Nat
  fsamples : Nat
  sample_len : Int
  must_free : Nat
  safe : Nat
  channels : Nat
  fadein_mode : Nat
  fadeout_mode : Nat
  first : ℚ
  start_time : Nat
  duration : Nat
  fadein_start : Nat
  fadein_len : Nat
  fadeout_start : Nat
  fadeout_len : Nat
  step : ℚ
  vol : ℚ
  lpan : ℚ
  rpan : ℚ
  handle : Nat
deriving DecidableEq

/-- A zero-initialised `stb__block` (static storage). -/
def stb__block.zero : stb__block :=
  { samples := 0, fsamples := 0, sample_len := 0, must_free := 0, safe := 0, channels := 0,
    fadein_mode := 0, fadeout_mode := 0, first := 0, start_time := 0, duration := 0,
    fadein_start := 0, fadein_len := 0, fadeout_start := 0, fadeout_len := 0,
    step := 0, vol := 0, lpan := 0, rpan := 0, handle := 0 }

/-- The state of the mixer core: the static variables of `stb_audio_mixer.h`
(`stb__bl`, `stb__num_blocks`, the pre-mix rings and their window, `stb__global_volume`,
`stb__mix_time`, `stb__has_sse2`, `stb__has_sse`) together with the sample memory (`mem16`,
`memf`) and the allocation frontier `brk` of `malloc`. Two fields describe the build and
the machine and are never assigned: `msc_ver` tells whether the file is compiled with
`_MSC_VER` defined, and `cpuid_features` is the value that `stb__cpuid_features()` returns.
Both rings start at addresses that are multiples of 16 (`stb_mixlow_init` rounds the two
pointers up), so the alignment of an element is that of its byte offset. -/
structure MixLow where
  bl : Nat → stb__block
  num_blocks : Nat
  premix_int : Nat → Int
  premix_float : Nat → ℚ
  premix_size : Nat
  premix_offset : Nat
  premix_time : Nat
  premix_len : Nat
  global_volume : ℚ
  mix_time : Nat
  mem16 : Int → Int
  memf : Int → ℚ
  brk : Nat
  msc_ver : Bool
  cpuid_features : Nat
  has_sse2 : Int
  has_sse : Int

/-- The arguments of `stb_mixlow_add_playback_raw`, in the order of its parameter list. -/
structure Playback where
  samples : Nat
  fsamples : Nat
  sample_len : Int
  safe : Int
  channels : Int
  first : ℚ
  start_time : Nat
  duration : Nat
  step : ℚ
  fadein_mode : Int
  fadein_start : Nat
  fadein_len : Nat
  vol : ℚ
  pan : ℚ
  handle : Nat

/-- The process state before any call, in a build without `_MSC_VER`: statics are
zero-initialised, `stb__global_volume` is initialised to 1; the sample memory is the
caller's. -/
def boot (mem16 : Int → Int) (memf : Int → ℚ) (brk : Nat) : MixLow :=
  { bl := fun _ => stb__block.zero, num_blocks := 0,
    premix_int := fun _ => 0, premix_float := fun _ => 0,
    premix_size := 0, premix_offset := 0, premix_time := 0, premix_len := 0,
    global_volume := 1, mix_time := 0, mem16 := mem16, memf := memf, brk := brk,
    msc_ver := false, cpuid_features := 0, has_sse2 := 0, has_sse := 0 }

/-- The process state before any call, in a build with `_MSC_VER` on a machine whose
`cpuid` feature word is `features`. -/
def boot_msvc (features : Nat) (mem16 : Int → Int) (memf : Int → ℚ) (brk : Nat) : MixLow :=
  { boot mem16 memf brk with msc_ver := true, cpuid_features := features }

/-- The active table as a list: slots `0 .. num_blocks-1` of `stb__bl`. -/
def active (s : MixLow) : List stb__block := (List.range s.num_blocks).map s.bl

/-! ## Time and lifecycle -/

/-- `stb_mixlow_global_volume`. -/
def stb_mixlow_global_volume (s : MixLow) (v : ℚ) : MixLow :=
  { s with global_volume := v, premix_len := 0 }

/-- `stb__wrap` of the mixer core. -/
def stb__wrap (s : MixLow) (t : Nat) : Nat :=
  if t ≥ s.premix_size then usub t s.premix_size else t

/-- `stb_mixlow_init`: the rings are allocated (the 16-bit ring is cleared by
`memset`, the float ring is left as allocated), the window and the table are
emptied. Under `_MSC_VER` the CPU features are read:
`if (features & (1 << 26)) stb__has_sse2 = 1; if (features & (1 << 25)) stb__has_sse = 1;`. -/
def stb_mixlow_init (s : MixLow) (premix_samples : Nat) : MixLow :=
  { s with
    premix_size := premix_samples,
    premix_int := fun i => if 2 * i < umul 4 premix_samples then 0 else s.premix_int i,
    premix_offset := 0, premix_time := 0, premix_len := 0, num_blocks := 0,
    has_sse2 :=
      if s.msc_ver = true ∧ s.cpuid_features &&& (1 <<< 26) ≠ 0 then 1 else s.has_sse2,
    has_sse :=
      if s.msc_ver = true ∧ s.cpuid_features &&& (1 <<< 25) ≠ 0 then 1 else s.has_sse }

/-- `end_block`: releases owned sample data; `free` does not change the modelled state. -/
def end_block (s : MixLow) (_i : Nat) : MixLow := s

/-- `stb_mixlow_reset`. -/
def stb_mixlow_reset (s : MixLow) (curtime : Nat) : MixLow :=
  { s with num_blocks := 0, mix_time := curtime,
           premix_time := 0, premix_len := 0, premix_offset := 0 }

/-- `stb_mixlow_num_active`. -/
def stb_mixlow_num_active (s : MixLow) : Nat := s.num_blocks

/-- `stb_mixlow_get_curtime`. -/
def stb_mixlow_get_curtime (s : MixLow) : Nat := s.mix_time

/-- The swap-with-last loop of `stb_mixlow_set_curtime`:
`for (i=0; i < stb__num_blocks; ) { if (ended) stb__bl[i] = stb__bl[--stb__num_blocks]; else ++i; }`.
Every iteration decreases `stb__num_blocks - i` by one; the first argument bounds the
number of iterations. -/
def set_curtime_loop (curtime : Nat) :
    Nat → Nat → (Nat → stb__block) → Nat → (Nat → stb__block) × Nat
  | 0, _, bl, nb => (bl, nb)
  | fuel + 1, i, bl, nb =>
    if i < nb then
      if uadd (bl i).start_time (bl i).duration ≤ curtime then
        set_curtime_loop curtime fuel i (Function.update bl i (bl (nb - 1))) (nb - 1)
      else
        set_curtime_loop curtime fuel (i + 1) bl nb
    else (bl, nb)

/-- `stb_mixlow_set_curtime`. -/
def stb_mixlow_set_curtime (s : MixLow) (curtime : Nat) : MixLow :=
  if curtime < s.mix_time then s
  else
    let r := set_curtime_loop curtime s.num_blocks 0 s.bl s.num_blocks
    let s1 : MixLow := { s with mix_time := curtime, bl := r.1, num_blocks := r.2 }
    if s1.premix_time < curtime then
      if uadd s1.premix_time s1.premix_len < curtime then
        { s1 with premix_len := 0, premix_offset := 0, premix_time := curtime }
      else
        { s1 with
          premix_offset := stb__wrap s1 (uadd s1.premix_offset (usub curtime s1.premix_time)),
          premix_len := usub s1.premix_len (usub curtime s1.premix_time),
          premix_time := curtime }
    else s1

/-! ## Float to 16-bit conversion -/

/-- `stb__integerize_one`: under `_MSC_VER` the conversion is `fld p; fistp k`, otherwise
`k = (int) *z`; then the clamp. -/
def stb__integerize_one (msc_ver : Bool) (z : ℚ) : Int :=
  let k := if msc_ver = true then fistp z else float_to_int z
  if ofInt32 (k + 32768) > 65535 then
    if k < -32768 then -32768 else 32767
  else k

/-- One element of the SSE loops of `stb__mix_integerize`: `cvttps2dq` (or `cvttps2pi`)
truncates toward zero and gives `0x80000000` out of range, `packssdw` saturates the
result to 16 bits. -/
def sse_convert (z : ℚ) : Int :=
  if float_to_int z < -32768 then -32768
  else if float_to_int z > 32767 then 32767 else float_to_int z

/-- The alignment loop of `stb__mix_integerize`:
`while (((int) output | (int) outi) & 0xf) { *outi++ = stb__integerize_one(output++);
if (!--len) break; }`. The pointers are at element `e` of the rings, i.e. at the byte
offsets `4*e` and `2*e`. The result is the element reached, the remaining count and the
16-bit ring. The loop stops within 8 iterations; the first argument bounds them. -/
def integerize_head (msc_ver : Bool) (F : Nat → ℚ) :
    Nat → Nat → Nat → (Nat → Int) → Nat × Nat × (Nat → Int)
  | 0, e, len, I => (e, len, I)
  | fuel + 1, e, len, I =>
    if (4 * e ||| 2 * e) &&& 15 ≠ 0 then
      if usub len 1 = 0 then
        (e + 1, 0, Function.update I e (stb__integerize_one msc_ver (F e)))
      else
        integerize_head msc_ver F fuel (e + 1) (usub len 1)
          (Function.update I e (stb__integerize_one msc_ver (F e)))
    else (e, len, I)

/-- One iteration of an SSE loop of `stb__mix_integerize`: the 16 elements from element
`e` on are converted and stored. -/
def sse_block (F : Nat → ℚ) (e : Nat) (I : Nat → Int) : Nat → Int :=
  fun j => if e ≤ j ∧ j < e + 16 then sse_convert (F j) else I j

/-- An SSE loop of `stb__mix_integerize`, `for (; i+15 < len; i += 16) { ... }`, on the
elements from element `e` on: the result is the final `i` and the 16-bit ring. The
first argument bounds the number of iterations. -/
def integerize_sse (F : Nat → ℚ) (e len : Nat) : Nat → Nat → (Nat → Int) → Nat × (Nat → Int)
  | 0, i, I => (i, I)
  | fuel + 1, i, I =>
    if i + 15 < len then integerize_sse F e len fuel (i + 16) (sse_block F (e + i) I)
    else (i, I)

/-- The scalar loop of `stb__mix_integerize`,
`for (; i < len; ++i) outi[i] = stb__integerize_one(&output[i]);`, for `n` consecutive
elements starting at element `i` of the rings. -/
def integerize_loop (msc_ver : Bool) (F : Nat → ℚ) : Nat → Nat → (Nat → Int) → (Nat → Int)
  | 0, _, I => I
  | n + 1, i, I =>
    integerize_loop msc_ver F n (i + 1) (Function.update I i (stb__integerize_one msc_ver (F i)))

/-- `stb__mix_integerize`: converts `len` frames at frame offset `off` of the float
ring into the 16-bit ring: the alignment loop, under `_MSC_VER` the SSE2 or the SSE loop
when the CPU has the feature (the two store the same values), and the scalar loop for the
rest. -/
def stb__mix_integerize (s : MixLow) (off len : Nat) : MixLow :=
  if len = 0 then s
  else
    let h := integerize_head s.msc_ver s.premix_float 8 (off * 2) (umul len 2) s.premix_int
    let v :=
      if s.msc_ver = true then
        if s.has_sse2 ≠ 0 then
          integerize_sse s.premix_float h.1 h.2.1 (h.2.1 / 16 + 1) 0 h.2.2
        else if s.has_sse ≠ 0 then
          integerize_sse s.premix_float h.1 h.2.1 (h.2.1 / 16 + 1) 0 h.2.2
        else (0, h.2.2)
      else (0, h.2.2)
    { s with premix_int :=
        integerize_loop s.msc_ver s.premix_float (h.2.1 - v.1) (h.1 + v.1) v.2 }

/-! ## Fades -/

/-- `stb__fade`. The float literals are the decimal fractions written in the source. -/
def stb__fade (mode : Nat) (t : ℚ) : ℚ :=
  if mode = FADE_linear then t
  else if mode = FADE_equalpower then (157 / 100) * t + t * t * (-(43 / 100) * t - 14 / 100)
  else if mode = FADE_pulserelease then
    let d := |(1 - t) * 20 - 1|
    let p := if d < 1 then 1 + (1 - (3 * d * d - 2 * d * d * d)) * (2 / 10) else 1
    let r := (t * t * t) * (t * t * t) * (5 / 10)
    let d2 := if t < 95 / 100 then 1 - (95 / 100 - t) * 16 else 1
    p * (if r < d2 then d2 else r)
  else if mode = FADE_release then
    let r := (t * t * t) * (t * t * t) * (5 / 10)
    let d := 1 - (1 - t) * 15
    if r < d then d else r
  else 1

/-- `stb__compute_fade`. -/
def stb__compute_fade (b : stb__block) (t : Nat) : ℚ :=
  if t < uadd b.fadein_start b.fadein_len then
    if t < b.fadein_start then 0
    else stb__fade b.fadein_mode (((usub t b.fadein_start : Nat) : ℚ) / (b.fadein_len : ℚ))
  else if t > b.fadeout_start then
    if t > uadd b.fadeout_start b.fadeout_len then 0
    else stb__fade b.fadeout_mode (1 - ((usub t b.fadeout_start : Nat) : ℚ) / (b.fadeout_len : ℚ))
  else 1

/-! ## Inner kernels

The loops of `stb__mix_block_short` and `stb__mix_block_float` are the same text up
to the element type of the source; they are written once over a read function `rd`,
where `rd k` is element `k` relative to the block's sample pointer. `out` is an
element index into the float ring and `data` an element index into the source. -/

/-- The `step == 1`, `channels == 2` loop. -/
def loop_direct_stereo (rd : Int → ℚ) (lstep rstep : ℚ) :
    Nat → (Nat → ℚ) → Nat → Int → ℚ → ℚ → (Nat → ℚ)
  | 0, F, _, _, _, _ => F
  | n + 1, F, out, data, latt, ratt =>
    let F1 := Function.update F out (F out + rd data * latt)
    let F2 := Function.update F1 (out + 1) (F1 (out + 1) + rd (data + 1) * ratt)
    loop_direct_stereo rd lstep rstep n F2 (out + 2) (data + 2) (latt + lstep) (ratt + rstep)

/-- The `step == 1`, mono loop. -/
def loop_direct_mono (rd : Int → ℚ) (lstep rstep : ℚ) :
    Nat → (Nat → ℚ) → Nat → Int → ℚ → ℚ → (Nat → ℚ)
  | 0, F, _, _, _, _ => F
  | n + 1, F, out, data, latt, ratt =>
    let F1 := Function.update F out (F out + rd data * latt)
    let F2 := Function.update F1 (out + 1) (F1 (out + 1) + rd data * ratt)
    loop_direct_mono rd lstep rstep n F2 (out + 2) (data + 1) (latt + lstep) (ratt + rstep)

/-- The resampling, `channels == 2` loop; `istep` is already doubled. -/
def loop_resample_stereo (rd : Int → ℚ) (lstep rstep : ℚ) (step : ℚ) (istep : Int) :
    Nat → (Nat → ℚ) → Nat → Int → ℚ → ℚ → ℚ → (Nat → ℚ)
  | 0, F, _, _, _, _, _ => F
  | n + 1, F, out, data, first, latt, ratt =>
    let F1 := Function.update F out
      (F out + (rd data + first * (rd (data + 2) - rd data)) * latt)
    let F2 := Function.update F1 (out + 1)
      (F1 (out + 1) + (rd (data + 1) + first * (rd (data + 3) - rd (data + 1))) * ratt)
    let first1 := first + step
    if first1 ≥ 1 then
      loop_resample_stereo rd lstep rstep step istep n F2 (out + 2) (data + (2 + istep))
        (first1 - 1) (latt + lstep) (ratt + rstep)
    else
      loop_resample_stereo rd lstep rstep step istep n F2 (out + 2) (data + istep)
        first1 (latt + lstep) (ratt + rstep)

/-- The resampling, mono loop. -/
def loop_resample_mono (rd : Int → ℚ) (lstep rstep : ℚ) (step : ℚ) (istep : Int) :
    Nat → (Nat → ℚ) → Nat → Int → ℚ → ℚ → ℚ → (Nat → ℚ)
  | 0, F, _, _, _, _, _ => F
  | n + 1, F, out, data, first, latt, ratt =>
    let z := rd data + (rd (data + 1) - rd data) * first
    let F1 := Function.update F out (F out + z * latt)
    let F2 := Function.update F1 (out + 1) (F1 (out + 1) + z * ratt)
    let first1 := first + step
    if first1 ≥ 1 then
      loop_resample_mono rd lstep rstep step istep n F2 (out + 2) (data + (1 + istep))
        (first1 - 1) (latt + lstep) (ratt + rstep)
    else
      loop_resample_mono rd lstep rstep step istep n F2 (out + 2) (data + istep)
        first1 (latt + lstep) (ratt + rstep)

/-- The body shared by `stb__mix_block_short` and `stb__mix_block_float` after the
gain endpoints `start`, `end` are fixed: gain ramps, then the four loops. -/
def mix_kernel (rd : Int → ℚ) (F : Nat → ℚ) (output : Nat) (len : Nat) (b : stb__block)
    (start end_ first : ℚ) : Nat → ℚ :=
  if start = end_ ∧ start = 0 then F
  else
    let vstep := (end_ - start) / (len : ℚ)
    let latt := b.lpan * start
    let ratt := b.rpan * start
    let lstep := if start = end_ then 0 else b.lpan * vstep
    let rstep := if start = end_ then 0 else b.rpan * vstep
    if b.step = 1 then
      let data : Int := float_to_int first * (b.channels : Int)
      if b.channels = 2 then loop_direct_stereo rd lstep rstep len F output data latt ratt
      else loop_direct_mono rd lstep rstep len F output data latt ratt
    else
      let ff : Int := ⌊first⌋
      let data : Int := float_to_int (ff : ℚ) * (b.channels : Int)
      let first1 := first - (ff : ℚ)
      let istep : Int := float_to_int ((⌊b.step⌋ : Int) : ℚ)
      let step1 := b.step - (istep : ℚ)
      if b.channels = 2 then
        loop_resample_stereo rd lstep rstep step1 (istep * 2) len F output data first1 latt ratt
      else
        loop_resample_mono rd lstep rstep step1 istep len F output data first1 latt ratt

/-- Element `k` of a `short` array at byte address `p`. -/
def rd16 (mem16 : Int → Int) (p : Nat) (k : Int) : ℚ := ((mem16 ((p : Int) + 2 * k) : Int) : ℚ)

/-- Element `k` of a `float` array at byte address `p`. -/
def rdf (memf : Int → ℚ) (p : Nat) (k : Int) : ℚ := memf ((p : Int) + 4 * k)

/-- `stb__mix_block_short`. -/
def stb__mix_block_short (s : MixLow) (F : Nat → ℚ) (output : Nat) (_start_time len : Nat)
    (b : stb__block) (start end_ first : ℚ) : Nat → ℚ :=
  mix_kernel (rd16 s.mem16 b.samples) F output len b start end_ first

/-- `stb__mix_block_float`: the gain endpoints are scaled by 32767 first. -/
def stb__mix_block_float (s : MixLow) (F : Nat → ℚ) (output : Nat) (_start_time len : Nat)
    (b : stb__block) (start end_ first : ℚ) : Nat → ℚ :=
  mix_kernel (rdf s.memf b.fsamples) F output len b (start * 32767) (end_ * 32767) first

/-- `stb__mix_block_base`. -/
def stb__mix_block_base (s : MixLow) (F : Nat → ℚ) (output : Nat) (start_time len : Nat)
    (b : stb__block) (start end_ first : ℚ) : Nat → ℚ :=
  if b.samples ≠ 0 then stb__mix_block_short s F output start_time len b start end_ first
  else stb__mix_block_float s F output start_time len b start end_ first

/-- The loop variables of the envelope loop of `stb__mix_block`. -/
structure SegState where
  F : Nat → ℚ
  output : Nat
  first : ℚ
  vstart : ℚ
  tstart : Nat
  tend : Nat

/-- The envelope loop of `stb__mix_block`:
`for (; tend <= start_time+len;) { ... tstart = tend; tend += ENVELOPE_SAMPLE_TIME; }`.
The first argument bounds the number of iterations. -/
def mix_block_loop (s : MixLow) (b : stb__block) (att : ℚ) (limit : Nat) :
    Nat → SegState → SegState
  | 0, st => st
  | fuel + 1, st =>
    if st.tend ≤ limit then
      let vend := stb__compute_fade b st.tend * att
      let F1 := stb__mix_block_base s st.F st.output st.tstart (usub st.tend st.tstart) b
        st.vstart vend st.first
      mix_block_loop s b att limit fuel
        { F := F1, output := st.output + ENVELOPE_SAMPLE_TIME * 2,
          first := st.first + (ENVELOPE_SAMPLE_TIME : ℚ) * b.step,
          vstart := vend, tstart := st.tend, tend := uadd st.tend ENVELOPE_SAMPLE_TIME }
    else st

/-- `stb__mix_block`: accumulates block `b` into the float ring for the `len` ticks
from `start_time`, whose first frame is frame-element `output` of the ring. -/
def stb__mix_block (s : MixLow) (output start_time len : Nat) (b : stb__block) : MixLow :=
  let skip := usub b.start_time start_time
  let len1 := if b.start_time > start_time then usub len skip else len
  let output1 := if b.start_time > start_time then output + umul skip 2 else output
  let start_time1 := if b.start_time > start_time then b.start_time else start_time
  let first := b.first + ((usub start_time1 b.start_time : Nat) : ℚ) * b.step
  let len2 :=
    if uadd b.start_time b.duration < uadd start_time1 len1 then
      usub (uadd b.start_time b.duration) start_time1
    else len1
  let att := b.vol * s.global_volume
  let st := mix_block_loop s b att (uadd start_time1 len2) (len2 / ENVELOPE_SAMPLE_TIME + 1)
    { F := s.premix_float, output := output1, first := first,
      vstart := stb__compute_fade b start_time1 * att,
      tstart := start_time1, tend := uadd start_time1 ENVELOPE_SAMPLE_TIME }
  let tend := uadd start_time1 len2
  if st.tstart ≠ tend then
    let vend := stb__compute_fade b tend * att
    { s with premix_float :=
        (stb__mix_block_base s st.F st.output st.tstart (usub tend st.tstart) b st.vstart vend
          st.first) }
  else { s with premix_float := st.F }

/-! ## Pre-mixing -/

/-- The clearing loop of `mix`: `for (i=0; i < len*2; ++i) output[i] = 0;`. -/
def zero_loop : Nat → Nat → (Nat → ℚ) → (Nat → ℚ)
  | 0, _, F => F
  | n + 1, i, F => zero_loop n (i + 1) (Function.update F i 0)

/-- The block loop of `mix`. -/
def mix_blocks (t off len : Nat) : List Nat → MixLow → MixLow
  | [], s => s
  | i :: rest, s =>
    let b := s.bl i
    if b.start_time < uadd t len ∧ uadd b.start_time b.duration ≥ t then
      mix_blocks t off len rest (stb__mix_block s (off * 2) t len b)
    else mix_blocks t off len rest s

/-- The static function `mix`: clear, accumulate every overlapping block, convert.
Its `len` parameter is an `int`: the clearing loop runs `len*2` times as a signed count. -/
def mix (s : MixLow) (t off len : Nat) : MixLow :=
  let s1 : MixLow :=
    { s with premix_float := zero_loop (toInt32 len * 2).toNat (off * 2) s.premix_float }
  let s2 := mix_blocks t off len (List.range s1.num_blocks) s1
  stb__mix_integerize s2 off len

/-- `stb__premix_to`. -/
def stb__premix_to (s : MixLow) (when_ : Nat) : MixLow :=
  if when_ < s.mix_time then s
  else
    let w := if when_ > uadd s.mix_time s.premix_size then uadd s.mix_time s.premix_size
             else when_
    if uadd s.premix_time s.premix_len < w then
      let t := uadd s.premix_time s.premix_len
      let newlen := usub w (uadd s.premix_time s.premix_len)
      let offset := stb__wrap s (uadd s.premix_offset s.premix_len)
      let s1 :=
        if uadd offset newlen > s.premix_size then
          let left := usub s.premix_size offset
          mix (mix s t offset left) (uadd t left) 0 (usub newlen left)
        else mix s t offset newlen
      { s1 with premix_len := uadd s1.premix_len newlen }
    else s

/-- `memcpy` of `nbytes` bytes from element `src_off` of a `short` array to element
`dst_off` of another. -/
def memcpy16 (dst : Nat → Int) (dst_off : Nat) (src : Nat → Int) (src_off : Nat)
    (nbytes : Nat) : Nat → Int :=
  fun j => if dst_off ≤ j ∧ j < dst_off + nbytes / 2 then src (src_off + (j - dst_off)) else dst j

/-- The result of `stb_mixlow_mix`: the returned count, the caller's output buffer
after the call, and the state after the call. -/
structure MixResult where
  ret : Int
  output : Nat → Int
  state : MixLow

/-- `stb_mixlow_mix`. -/
def stb_mixlow_mix (s : MixLow) (output : Nat → Int) (start_time duration : Nat) : MixResult :=
  if uadd start_time duration ≤ s.mix_time then { ret := 0, output := output, state := s }
  else
    let s1 := stb__premix_to s (uadd start_time duration)
    if start_time < s1.premix_time then { ret := 0, output := output, state := s1 }
    else
      let duration1 :=
        if uadd start_time duration > uadd s1.premix_time s1.premix_len then
          usub (uadd s1.premix_time s1.premix_len) start_time
        else duration
      let offset0 := uadd s1.premix_offset (usub start_time s1.premix_time)
      let offset := if offset0 > s1.premix_size then usub offset0 s1.premix_size else offset0
      if duration1 > usub s1.premix_size offset then
        let first := usub s1.premix_size offset
        let out1 := memcpy16 output 0 s1.premix_int (offset * 2) (umul first 4)
        let out2 := memcpy16 out1 (first * 2) s1.premix_int 0 (umul (usub duration1 first) 4)
        { ret := toInt32 duration1, output := out2, state := s1 }
      else
        { ret := toInt32 duration1,
          output := memcpy16 output 0 s1.premix_int (offset * 2) (umul duration1 4),
          state := s1 }

/-! ## Scheduling -/

/-- `malloc(n)` for a signed byte count: a negative count is a request too large to
satisfy and yields `NULL`; otherwise the block at the allocation frontier. -/
def malloc (s : MixLow) (num_bytes : Int) : Nat × MixLow :=
  if num_bytes < 0 then (0, s) else (s.brk, { s with brk := s.brk + num_bytes.toNat })

/-- `memcpy` of `nbytes` bytes inside the typed sample memory. -/
def memcpy_mem {α : Type} (mem : Int → α) (dst src : Nat) (nbytes : Int) : Int → α :=
  fun a => if (dst : Int) ≤ a ∧ a < (dst : Int) + nbytes then mem ((src : Int) + (a - dst)) else mem a

/-- `stb__copy_samples`, applied to the block in slot `i` of the table. -/
def stb__copy_samples (s : MixLow) (i : Nat) : MixLow :=
  let b := s.bl i
  if b.safe ≠ 0 then s
  else
    let num_samples0 : Int :=
      if b.step = 1 then toInt32 (ofInt32 (float_to_int b.first) + b.duration)
      else float_to_int ((⌈b.first + (b.duration : ℚ) * b.step + 1⌉ : Int) : ℚ)
    let num_samples := if num_samples0 > b.sample_len then b.sample_len else num_samples0
    let num_bytes0 : Int := 2 * (b.channels : Int) * num_samples
    let num_bytes := if b.fsamples ≠ 0 then num_bytes0 * 2 else num_bytes0
    if b.must_free = 0 then
      let r := malloc s num_bytes
      let data := r.1
      let s1 := r.2
      let s2 : MixLow :=
        if data ≠ 0 then
          if b.samples ≠ 0 then { s1 with mem16 := memcpy_mem s1.mem16 data b.samples num_bytes }
          else { s1 with memf := memcpy_mem s1.memf data b.fsamples num_bytes }
        else s1
      let b1 : stb__block :=
        if b.samples ≠ 0 then { b with samples := data } else { b with fsamples := data }
      { s2 with bl := Function.update s2.bl i { b1 with must_free := 1 } }
    else { s with bl := Function.update s.bl i { b with must_free := 1 } }

/-- `stb__add_to_premix`, applied to the block in slot `i` of the table. -/
def stb__add_to_premix (s : MixLow) (i : Nat) : MixLow :=
  let b := s.bl i
  if uadd s.premix_offset s.premix_len > s.premix_size then
    let left := usub s.premix_size s.premix_offset
    let s1 :=
      if b.start_time < uadd s.premix_time left ∧ uadd b.start_time b.duration > s.premix_time then
        stb__mix_integerize (stb__mix_block s (s.premix_offset * 2) s.premix_time left b)
          s.premix_offset left
      else s
    if b.start_time < uadd s1.premix_time s1.premix_len
        ∧ uadd b.start_time b.duration > uadd s1.premix_time left then
      stb__mix_integerize
        (stb__mix_block s1 0 (uadd s1.premix_time left) (usub s1.premix_len left) b)
        0 (usub s1.premix_len left)
    else s1
  else
    if b.start_time < uadd s.premix_time s.premix_len
        ∧ uadd b.start_time b.duration > s.premix_time then
      stb__mix_integerize (stb__mix_block s (s.premix_offset * 2) s.premix_time s.premix_len b)
        s.premix_offset s.premix_len
    else s

/-- The field assignments of `stb_mixlow_add_playback_raw` (`b->samples = samples; ...`),
including the pan law and the inert fade-out. -/
def new_block (a : Playback) : stb__block :=
  let pan1 := if a.pan < 0 then (if a.pan < -1 then -1 else a.pan)
              else (if a.pan > 1 then 1 else a.pan)
  { samples := a.samples, fsamples := a.fsamples, sample_len := a.sample_len,
    must_free := 0, safe := toUChar a.safe, channels := toUChar a.channels,
    fadein_mode := toUChar a.fadein_mode, fadeout_mode := FADE_none,
    first := a.first, start_time := a.start_time, duration := a.duration,
    fadein_start := a.fadein_start, fadein_len := a.fadein_len,
    fadeout_start := 4294967295, fadeout_len := 0,
    step := a.step, vol := a.vol,
    lpan := if a.pan = 0 then 1 else if a.pan < 0 then 1 else 1 - pan1,
    rpan := if a.pan = 0 then 1 else if a.pan < 0 then 1 + pan1 else 1,
    handle := a.handle }

/-- `stb_mixlow_add_playback_raw`. -/
def stb_mixlow_add_playback_raw (s : MixLow) (a : Playback) : MixLow :=
  let i := s.num_blocks
  if a.duration = 0 then s
  else if s.num_blocks = MAX_BLOCKS then s
  else
    let s1 : MixLow := { s with num_blocks := s.num_blocks + 1 }
    if (a.samples = 0 ∧ a.fsamples ≤ 65536) ∨ (a.samples ≠ 0 ∧ a.samples ≤ 65536) then s1
    else
      let s2 : MixLow := { s1 with bl := Function.update s1.bl i (new_block a) }
      let s3 := if a.handle = 0 then stb__copy_samples s2 i else s2
      if a.start_time < uadd s3.premix_time s3.premix_len then stb__add_to_premix s3 i
      else s3

/-- `stb_mixlow_add_playback`: 16-bit source. The `fsamples` field of the argument
record is not a parameter of this entry point and is passed as `NULL`. -/
def stb_mixlow_add_playback (s : MixLow) (a : Playback) : MixLow :=
  if a.samples ≠ 0 then stb_mixlow_add_playback_raw s { a with fsamples := 0 } else s

/-- `stb_mixlow_add_playback_float`: float source. The `samples` field of the argument
record is not a parameter of this entry point and is passed as `NULL`. -/
def stb_mixlow_add_playback_float (s : MixLow) (a : Playback) : MixLow :=
  if a.fsamples ≠ 0 then stb_mixlow_add_playback_raw s { a with samples := 0 } else s

/-- `stb_mixlow_present`. -/
def stb_mixlow_present (s : MixLow) (handle : Nat) : Int :=
  if ∃ i, i < s.num_blocks ∧ (s.bl i).handle = handle then 1 else 0

/-! ## Abbreviations used in statements -/

/-- The clamped frame count of `stb_mixlow_mix`: the value of `duration` after
"if we didn't mix as much as requested, compute the actual amount". -/
def mix_duration (s1 : MixLow) (a n : Nat) : Nat :=
  if uadd a n > uadd s1.premix_time s1.premix_len then
    usub (uadd s1.premix_time s1.premix_len) a
  else n

/-- The ring offset computed by `stb_mixlow_mix` ("compute the offset"). -/
def mix_offset (s1 : MixLow) (a : Nat) : Nat :=
  if uadd s1.premix_offset (usub a s1.premix_time) > s1.premix_size then
    usub (uadd s1.premix_offset (usub a s1.premix_time)) s1.premix_size
  else uadd s1.premix_offset (usub a s1.premix_time)

/-- The copy into the output made by `stb_mixlow_mix` (one or two `memcpy`). -/
def mix_copy (s1 : MixLow) (out : Nat → Int) (a n : Nat) : Nat → Int :=
  if mix_duration s1 a n > usub s1.premix_size (mix_offset s1 a) then
    memcpy16
      (memcpy16 out 0 s1.premix_int (mix_offset s1 a * 2)
        (umul (usub s1.premix_size (mix_offset s1 a)) 4))
      (usub s1.premix_size (mix_offset s1 a) * 2) s1.premix_int 0
      (umul (usub (mix_duration s1 a n) (usub s1.premix_size (mix_offset s1 a))) 4)
  else memcpy16 out 0 s1.premix_int (mix_offset s1 a * 2) (umul (mix_duration s1 a n) 4)

/-- The window invariant of the mixer core: the window starts at the clock (the
condition asserted by `stb__premix_to`), lies inside the ring, and neither the ticks
of the ring's capacity nor the byte size of the 16-bit ring overflow 32 bits. -/
def WindowFits (s : MixLow) : Prop :=
  s.premix_time = s.mix_time ∧ s.premix_offset < s.premix_size
    ∧ s.premix_len ≤ s.premix_size ∧ s.mix_time + s.premix_size < 4294967296
    ∧ 4 * s.premix_size < 4294967296

/-- The 16-bit ring holds values of type `short`. -/
def RingIsShort (s : MixLow) : Prop :=
  ∀ i, -32768 ≤ s.premix_int i ∧ s.premix_int i ≤ 32767

/-! ## Concrete inputs used by the worked instances -/

/-- A `short` memory holding the ramp `1, 2, 3, ...` from byte address `1048576` on
(one `short` every two bytes) and zero elsewhere. -/
def demo_mem16 : Int → Int :=
  fun a => if 1048576 ≤ a ∧ a < 1048576 + 2 * 64 then (a - 1048576) / 2 + 1 else 0

/-- A `float` memory holding the ramp `1, 2, 3, ...` from byte address `2097152` on
(one `float` every four bytes) and zero elsewhere. -/
def demo_memf : Int → ℚ :=
  fun a => if 2097152 ≤ a ∧ a < 2097152 + 4 * 64 then (((a - 2097152) / 4 + 1 : Int) : ℚ) else 0

/-- An output buffer filled with the marker value `-1`. -/
def demo_out : Nat → Int := fun _ => -1

/-- The state after `stb_mixlow_init(P)` in a fresh process. -/
def demo_init (P : Nat) : MixLow := stb_mixlow_init (boot demo_mem16 demo_memf 4194304) P

/-- A mono 16-bit playback of the demo ramp, borrowed (`safe = 1`), with unit gain,
no pan and no fade-in. -/
def demo_playback (start_time duration : Nat) : Playback :=
  { samples := 1048576, fsamples := 0, sample_len := 64, safe := 1, channels := 1, first := 0,
    start_time := start_time, duration := duration, step := 1,
    fadein_mode := 0, fadein_start := 0, fadein_len := 0, vol := 1, pan := 0, handle := 0 }

/-- The state after `init(8); set_curtime(5); add_playback(start_time 0, duration 1)`:
the clock is 5 and the table holds one block that ended at tick 1. -/
def demo_ended : MixLow :=
  stb_mixlow_add_playback (stb_mixlow_set_curtime (demo_init 8) 5) (demo_playback 0 1)

/-- The state after `init(8); add_playback(start 0, duration 3); add_playback(start 2,
duration 10)`. -/
def demo_two : MixLow :=
  stb_mixlow_add_playback (stb_mixlow_add_playback (demo_init 8) (demo_playback 0 3))
    (demo_playback 2 10)

/-! ## Closed forms used in statements and proofs -/

/-- A loop that adds a pair of values to two consecutive elements per iteration and
advances a loop state: the common shape of the four kernel loops. -/
def accum_loop {σ : Type} (val : σ → ℚ × ℚ) (next : σ → σ) :
    Nat → (Nat → ℚ) → Nat → σ → (Nat → ℚ)
  | 0, F, _, _ => F
  | n + 1, F, out, st =>
    accum_loop val next n
      (Function.update (Function.update F out (F out + (val st).1)) (out + 1)
        (F (out + 1) + (val st).2))
      (out + 2) (next st)

/-- Adds `c u ch` to the element of channel `ch` of the frame of tick `u`, for the `len`
ticks from `t`, whose first frame is at element `output`. -/
def ring_add (F : Nat → ℚ) (output t len : Nat) (c : Nat → Nat → ℚ) : Nat → ℚ :=
  fun j => F j + (if output ≤ j ∧ j < output + 2 * len
    then c (t + (j - output) / 2) ((j - output) % 2) else 0)

/-- Source value of channel `ch` at integer frame `i`, direct tap (`step == 1`). -/
def direct_value (rd : Int → ℚ) (channels : Nat) (i : Int) (ch : Nat) : ℚ :=
  if channels = 2 then rd (2 * i + (ch : Int)) else rd i

/-- Source value of channel `ch` at fractional frame position `p`: linear
interpolation between the two frames around `p`. -/
def interp_value (rd : Int → ℚ) (channels : Nat) (p : ℚ) (ch : Nat) : ℚ :=
  if channels = 2 then
    rd (2 * ⌊p⌋ + (ch : Int)) + (p - (⌊p⌋ : ℚ)) * (rd (2 * ⌊p⌋ + 2 + (ch : Int)) - rd (2 * ⌊p⌋ + (ch : Int)))
  else rd ⌊p⌋ + (rd (⌊p⌋ + 1) - rd ⌊p⌋) * (p - (⌊p⌋ : ℚ))

/-- Source value that a kernel call starting at source position `first` reads for its
`k`-th output frame, channel `ch`. -/
def seg_value (rd : Int → ℚ) (b : stb__block) (first : ℚ) (k : Nat) (ch : Nat) : ℚ :=
  if b.step = 1 then direct_value rd b.channels (⌊first⌋ + (k : Int)) ch
  else interp_value rd b.channels (first + (k : ℚ) * b.step) ch

/-- Pan gain of channel `ch` (0 is left, anything else right). -/
def pan_gain (b : stb__block) (ch : Nat) : ℚ := if ch = 0 then b.lpan else b.rpan

/-- The read function of a block: `samples` when it is set, else `fsamples`
(the dispatch of `stb__mix_block_base`). -/
def block_rd (s : MixLow) (b : stb__block) : Int → ℚ :=
  if b.samples ≠ 0 then rd16 s.mem16 b.samples else rdf s.memf b.fsamples

/-- The factor that `stb__mix_block_float` applies to the gain of a float source. -/
def block_scale (b : stb__block) : ℚ := if b.samples ≠ 0 then 1 else 32767

/-- The source value block `b` plays at tick `u` on channel `ch`. -/
def block_value (s : MixLow) (b : stb__block) (u : Nat) (ch : Nat) : ℚ :=
  seg_value (block_rd s b) b b.first (u - b.start_time) ch

/-- The contribution of a block without fades to the accumulator of tick `u`,
channel `ch`: its source value times volume, global volume and pan gain while the block
is live, nothing outside its life. -/
def block_contrib (s : MixLow) (b : stb__block) (u : Nat) (ch : Nat) : ℚ :=
  if b.start_time ≤ u ∧ u < b.start_time + b.duration then
    block_value s b u ch * (pan_gain b ch * (b.vol * s.global_volume * block_scale b))
  else 0

/-- The number of source frames a block needs: the value `num_samples` that
`stb__copy_samples` computes, in exact arithmetic. -/
def frames_needed (b : stb__block) : Int :=
  if b.step = 1 then ⌊b.first⌋ + (b.duration : Int)
  else ⌈b.first + (b.duration : ℚ) * b.step + 1⌉

/-- A well-formed block: mono or stereo, a non-negative start offset, a positive step
and duration, an end tick and a frame count that fit their machine types. -/
def GoodBlock (b : stb__block) : Prop :=
  (b.channels = 1 ∨ b.channels = 2) ∧ 0 ≤ b.first ∧ 0 < b.step ∧ 0 < b.duration
    ∧ b.start_time + b.duration < 4294967296 ∧ frames_needed b < 2147483648

/-- A block without fades: its fade-in is over when it starts and its fade-out does not
begin before it ends. -/
def FadeFree (b : stb__block) : Prop :=
  b.fadein_start + b.fadein_len ≤ b.start_time ∧ b.start_time + b.duration ≤ b.fadeout_start

/-- The byte count `num_bytes` that `stb__copy_samples` computes for a block whose
source is long enough, in exact arithmetic. -/
def copy_bytes (b : stb__block) : Int :=
  if b.fsamples ≠ 0 then 2 * (b.channels : Int) * frames_needed b * 2
  else 2 * (b.channels : Int) * frames_needed b

/-- A well-formed scheduling request: exactly one valid source pointer, mono or stereo,
a non-negative start offset, a positive step and duration, an end tick within the
32-bit counter, and a source long enough for the playback (the condition
`num_samples <= sample_len` asserted by `stb__copy_samples`). -/
def GoodPlayback (a : Playback) : Prop :=
  ((65536 < a.samples ∧ a.fsamples = 0) ∨ (a.samples = 0 ∧ 65536 < a.fsamples))
    ∧ (a.channels = 1 ∨ a.channels = 2) ∧ 0 ≤ a.first ∧ 0 < a.step ∧ 0 < a.duration
    ∧ a.start_time + a.duration < 4294967296
    ∧ frames_needed (new_block a) ≤ a.sample_len ∧ a.sample_len < 2147483648

/-- The state after the store and the immediate copy of `stb_mixlow_add_playback_raw`,
before the block is added to the materialized window: the new block is in slot
`num_blocks`; when no handle is given and the source is not `safe`, the block points
to a fresh copy at the allocation frontier. -/
def sched (s : MixLow) (a : Playback) : MixLow :=
  if a.handle = 0 ∧ toUChar a.safe = 0 then
    { s with
      num_blocks := s.num_blocks + 1,
      brk := s.brk + (copy_bytes (new_block a)).toNat,
      mem16 := if a.samples ≠ 0
        then memcpy_mem s.mem16 s.brk a.samples (copy_bytes (new_block a)) else s.mem16,
      memf := if a.samples ≠ 0 then s.memf
        else memcpy_mem s.memf s.brk a.fsamples (copy_bytes (new_block a)),
      bl := Function.update s.bl s.num_blocks
        (if a.samples ≠ 0 then { new_block a with samples := s.brk, must_free := 1 }
         else { new_block a with fsamples := s.brk, must_free := 1 }) }
  else
    { s with num_blocks := s.num_blocks + 1,
             bl := Function.update s.bl s.num_blocks (new_block a) }

/-- The state `s1` differs from `s` in the two rings only. -/
def SameButRings (s s1 : MixLow) : Prop :=
  s1 = { s with premix_float := s1.premix_float, premix_int := s1.premix_int }

/-- The body of `stb__mix_block` after the range has been trimmed to the `l2` ticks from
`t1` (first frame at element `o1`): the envelope loop and the final partial segment. -/
def trimmed_mix (s : MixLow) (b : stb__block) (o1 t1 l2 : Nat) : Nat → ℚ :=
  let att := b.vol * s.global_volume
  let st := mix_block_loop s b att (t1 + l2) (l2 / ENVELOPE_SAMPLE_TIME + 1)
    { F := s.premix_float, output := o1,
      first := b.first + ((t1 - b.start_time : Nat) : ℚ) * b.step,
      vstart := stb__compute_fade b t1 * att, tstart := t1, tend := t1 + 441 }
  if st.tstart ≠ t1 + l2 then
    stb__mix_block_base s st.F st.output st.tstart (usub (t1 + l2) st.tstart) b st.vstart
      (stb__compute_fade b (t1 + l2) * att) st.first
  else st.F

/-- The exact accumulator of tick `u`, channel `ch`: the sum of the contributions of
the active blocks, in table order. -/
def acc (s : MixLow) (u ch : Nat) : ℚ :=
  ((List.range s.num_blocks).map (fun i => block_contrib s (s.bl i) u ch)).sum

/-- The ring frame that holds tick `u` of the window:
`(premix_offset + (u - premix_time)) mod premix_size`. -/
def slot (s : MixLow) (u : Nat) : Nat :=
  if s.premix_offset + (u - s.premix_time) ≥ s.premix_size then
    s.premix_offset + (u - s.premix_time) - s.premix_size
  else s.premix_offset + (u - s.premix_time)

/-- The 16-bit value `k` is a conversion of `z` by `stb__mix_integerize`: by its scalar
code (`stb__integerize_one` of the build) or by an SSE loop, whose elements are those of
the truncating `stb__integerize_one`. -/
def Converted (s : MixLow) (z : ℚ) (k : Int) : Prop :=
  k = stb__integerize_one s.msc_ver z ∨ k = stb__integerize_one false z

/-- Whether `stb__mix_integerize(off, len)` converts element `j` of its span by the
`fistp` code: in a build with `_MSC_VER`, the elements of the alignment loop (up to the
next multiple of 8 elements) and of the scalar loop (what is left after the blocks of 16
of an SSE loop, or everything when the CPU has neither SSE nor SSE2). -/
def conv_mode (s : MixLow) (off len j : Nat) : Bool :=
  s.msc_ver && decide (¬ ((s.has_sse2 ≠ 0 ∨ s.has_sse ≠ 0)
    ∧ off * 2 + min (2 * len) ((8 - off * 2 % 8) % 8) ≤ j
    ∧ j < off * 2 + min (2 * len) ((8 - off * 2 % 8) % 8)
        + 16 * ((2 * len - min (2 * len) ((8 - off * 2 % 8) % 8)) / 16)))

/-- The rings are coherent with the table on the `len` ticks from `premix_time`:
the float ring holds the exact accumulator and the 16-bit ring a conversion of it. -/
def CoherentOn (s : MixLow) (len : Nat) : Prop :=
  ∀ u ch, s.premix_time ≤ u → u < s.premix_time + len → ch < 2 →
    s.premix_float (2 * slot s u + ch) = acc s u ch
      ∧ Converted s (acc s u ch) (s.premix_int (2 * slot s u + ch))

/-- The first byte address after the source elements a block reads. -/
def region_end (b : stb__block) : Int :=
  if b.samples ≠ 0 then (b.samples : Int) + 2 * ((b.channels : Int) * frames_needed b)
  else (b.fsamples : Int) + 4 * ((b.channels : Int) * frames_needed b)

/-- A block the mixing closed forms apply to: well-formed, without fades, and reading
only memory below the allocation frontier. -/
def BlockOK (s : MixLow) (b : stb__block) : Prop :=
  GoodBlock b ∧ FadeFree b ∧ region_end b ≤ (s.brk : Int)

/-- The invariant of the mixer core between calls when every scheduled block is
without fades: the window invariant, room for one envelope segment below the end of the
tick counter, a live allocator, well-formed blocks, and rings coherent with the table
over the materialized window. -/
def Inv (s : MixLow) : Prop :=
  WindowFits s ∧ s.mix_time + s.premix_size + 441 < 4294967296 ∧ 0 < s.brk
    ∧ (∀ i, i < s.num_blocks → BlockOK s (s.bl i)) ∧ CoherentOn s s.premix_len

/-- A scheduling request the closed forms apply to, given an allocation frontier:
well-formed, its fade-in over when it starts, and, when the source is borrowed rather
than copied, the source below the frontier. -/
def SchedOK (frontier : Nat) (a : Playback) : Prop :=
  GoodPlayback a ∧ a.fadein_start + a.fadein_len ≤ a.start_time
    ∧ ((a.handle = 0 ∧ toUChar a.safe = 0) ∨ region_end (new_block a) ≤ (frontier : Int))

/-- One call of a trace: a scheduling call or an extract. -/
inductive MixOp where
  | add (a : Playback)
  | extract (start n : Nat)

/-- The state after one call of a trace; the frames an extract delivers go to a
scratch buffer. -/
def run_op (s : MixLow) : MixOp → MixLow
  | MixOp.add a => stb_mixlow_add_playback_raw s a
  | MixOp.extract start n => (stb_mixlow_mix s (fun _ => 0) start n).state

/-- The state after a trace. -/
def run (s : MixLow) (ops : List MixOp) : MixLow := ops.foldl run_op s

/-- Whether a call is a scheduling call. -/
def is_add : MixOp → Bool
  | MixOp.add _ => true
  | MixOp.extract _ _ => false

/-- The scheduling calls of a trace, in order. -/
def adds_only (ops : List MixOp) : List MixOp := ops.filter is_add

/-- The state `s1` has the same block table, sample memory, allocation frontier and
global volume as `s`. -/
def SameTable (s s1 : MixLow) : Prop :=
  s1.bl = s.bl ∧ s1.num_blocks = s.num_blocks ∧ s1.mem16 = s.mem16 ∧ s1.memf = s.memf
    ∧ s1.global_volume = s.global_volume ∧ s1.brk = s.brk

/-- A mono 16-bit playback of the demo ramp at tick 0 for 4 ticks with a linear fade-in
over its first two ticks. -/
def fade_playback : Playback :=
  { samples := 1048576, fsamples := 0, sample_len := 64, safe := 1, channels := 1, first := 0,
    start_time := 0, duration := 4, step := 1,
    fadein_mode := 1, fadein_start := 0, fadein_len := 2, vol := 1, pan := 0, handle := 0 }

/-- A mono 16-bit playback of the demo ramp at tick 0 for 4 ticks with `fadein_len = 0`
and `fadein_start = 2`, after the start of the block. -/
def late_gate_playback : Playback :=
  { samples := 1048576, fsamples := 0, sample_len := 64, safe := 1, channels := 1, first := 0,
    start_time := 0, duration := 4, step := 1,
    fadein_mode := 0, fadein_start := 2, fadein_len := 0, vol := 1, pan := 0, handle := 0 }

/-- A mono float playback of the demo float ramp at tick 1 for 3 ticks, borrowed, with
volume 1/2, pan 1/2 and fade-in mode, start and length 0. -/
def demo_float_playback : Playback :=
  { samples := 0, fsamples := 2097152, sample_len := 64, safe := 1, channels := 1, first := 0,
    start_time := 1, duration := 3, step := 1,
    fadein_mode := 0, fadein_start := 0, fadein_len := 0, vol := 1 / 2, pan := 1 / 2,
    handle := 0 }

/-- A mono 16-bit playback of the demo ramp at tick 1 for 3 ticks with no handle and
`safe = 0`: the mixer copies the source. -/
def demo_owned_playback : Playback :=
  { samples := 1048576, fsamples := 0, sample_len := 64, safe := 0, channels := 1, first := 0,
    start_time := 1, duration := 3, step := 1,
    fadein_mode := 0, fadein_start := 0, fadein_len := 0, vol := 1, pan := 0, handle := 0 }

/-- The 16-bit sample memory of `s` after the caller has overwritten the buffer of the
demo ramp with zeros. -/
def demo_overwritten (s : MixLow) : Int → Int :=
  fun addr => if 1048576 ≤ addr ∧ addr < 1048576 + 128 then 0 else s.mem16 addr

/-! ## Ending a set of playbacks -/

/-- The first loop of `stb_mixlow_end_set` ("delete all blocks that have no effect"):
`for (i=0; i < stb__num_blocks; ) if (bl[i].handle == handle && bl[i].start_time >= end_final)
bl[i] = bl[--stb__num_blocks]; else ++i;`. Every iteration decreases `stb__num_blocks - i`
by one; the first argument bounds the number of iterations. -/
def end_set_delete_loop (handle end_final : Nat) :
    Nat → Nat → (Nat → stb__block) → Nat → (Nat → stb__block) × Nat
  | 0, _, bl, nb => (bl, nb)
  | fuel + 1, i, bl, nb =>
    if i < nb then
      if (bl i).handle = handle ∧ (bl i).start_time ≥ end_final then
        end_set_delete_loop handle end_final fuel i (Function.update bl i (bl (nb - 1))) (nb - 1)
      else
        end_set_delete_loop handle end_final fuel (i + 1) bl nb
    else (bl, nb)

/-- The body of the second loop of `stb_mixlow_end_set` ("reset them all") for slot `i`:
a block that bears the handle is copied if needed, loses its handle, receives the
fade-out, and is shortened when the fade-out ends before the block does. -/
def end_set_reset_one (handle : Nat) (mode : Int) (end_start_time end_duration : Nat)
    (s : MixLow) (i : Nat) : MixLow :=
  if (s.bl i).handle = handle then
    let s1 := stb__copy_samples s i
    let b := s1.bl i
    let b1 : stb__block :=
      { b with handle := 0, fadeout_mode := toUChar mode, fadeout_start := end_start_time,
               fadeout_len := end_duration }
    let b2 : stb__block :=
      if uadd b1.fadeout_start b1.fadeout_len < uadd b1.start_time b1.duration then
        { b1 with duration := usub (uadd b1.fadeout_start b1.fadeout_len) b1.start_time }
      else b1
    { s1 with bl := Function.update s1.bl i b2 }
  else s

/-- The second loop of `stb_mixlow_end_set`: `n` iterations from slot `i`. -/
def end_set_reset_loop (handle : Nat) (mode : Int) (end_start_time end_duration : Nat) :
    Nat → Nat → MixLow → MixLow
  | 0, _, s => s
  | n + 1, i, s =>
    end_set_reset_loop handle mode end_start_time end_duration n (i + 1)
      (end_set_reset_one handle mode end_start_time end_duration s i)

/-- The effective end start time of `stb_mixlow_end_set`:
`if (end_start_time == 0) end_start_time = stb__mix_time;`. -/
def end_start (s : MixLow) (end_start_time : Nat) : Nat :=
  if end_start_time = 0 then s.mix_time else end_start_time

/-- `stb_mixlow_end_set`. -/
def stb_mixlow_end_set (s : MixLow) (handle : Nat) (mode : Int)
    (end_start_time end_duration : Nat) : MixLow :=
  if handle = 0 then s
  else
    let est := end_start s end_start_time
    let end_final := uadd est end_duration
    let s1 : MixLow :=
      if est < uadd s.premix_time s.premix_len then
        if est < s.premix_time then { s with premix_len := 0 }
        else { s with premix_len := usub est s.premix_time }
      else s
    let r := end_set_delete_loop handle end_final s1.num_blocks 0 s1.bl s1.num_blocks
    let s2 : MixLow := { s1 with bl := r.1, num_blocks := r.2 }
    end_set_reset_loop handle mode est end_duration s2.num_blocks 0 s2

/-! ## Sequences of calls -/

/-- One call of the public interface of the mixer core. -/
inductive LowOp where
  | reset (t : Nat)
  | set_curtime (t : Nat)
  | global_volume (v : ℚ)
  | add_playback (a : Playback)
  | add_playback_float (a : Playback)
  | end_set (handle : Nat) (mode : Int) (end_start_time end_duration : Nat)
  | mix (start_time duration : Nat)

/-- The state after one call; the frames a `mix` call delivers go to a scratch buffer. -/
def low_step (s : MixLow) : LowOp → MixLow
  | LowOp.reset t => stb_mixlow_reset s t
  | LowOp.set_curtime t => stb_mixlow_set_curtime s t
  | LowOp.global_volume v => stb_mixlow_global_volume s v
  | LowOp.add_playback a => stb_mixlow_add_playback s a
  | LowOp.add_playback_float a => stb_mixlow_add_playback_float s a
  | LowOp.end_set h m t d => stb_mixlow_end_set s h m t d
  | LowOp.mix st n => (stb_mixlow_mix s (fun _ => 0) st n).state

/-- The state after a sequence of calls. -/
def low_run (s : MixLow) (ops : List LowOp) : MixLow := ops.foldl low_step s

/-- Whether a call is `stb_mixlow_reset`. -/
def is_reset : LowOp → Bool
  | LowOp.reset _ => true
  | _ => false

/-- A mono 16-bit playback of the demo ramp at tick 0 for 50 ticks, borrowed, bearing
handle 7. -/
def demo_handle_playback : Playback :=
  { samples := 1048576, fsamples := 0, sample_len := 64, safe := 1, channels := 1, first := 0,
    start_time := 0, duration := 50, step := 1,
    fadein_mode := 0, fadein_start := 0, fadein_len := 0, vol := 1, pan := 0, handle := 7 }

/-- The state after `init(8); add_playback(handle 7, start 0, duration 50); set_curtime(10)`:
the clock is 10 and one block bearing handle 7 is active. -/
def demo_at_clock_10 : MixLow :=
  stb_mixlow_set_curtime (stb_mixlow_add_playback (demo_init 8) demo_handle_playback) 10

/-- A stereo 16-bit playback of the demo ramp (frames `(1,2), (3,4), ...`) at tick 0 for 4
ticks, borrowed, with unit gain and `pan = 1`. -/
def demo_stereo_playback : Playback :=
  { samples := 1048576, fsamples := 0, sample_len := 32, safe := 1, channels := 2, first := 0,
    start_time := 0, duration := 4, step := 1,
    fadein_mode := 0, fadein_start := 0, fadein_len := 0, vol := 1, pan := 1, handle := 0 }

/-- The demo memory with every left-channel sample of the stereo reading of the ramp
(the elements at even index) replaced by 1000. -/
def demo_mem16_left : Int → Int :=
  fun a => if 1048576 ≤ a ∧ a < 1048576 + 2 * 64 ∧ ((a - 1048576) / 2) % 2 = 0 then 1000
    else demo_mem16 a

/-- A mono 16-bit playback whose source pointer is the low address 100. -/
def demo_bogus_playback : Playback :=
  { samples := 100, fsamples := 0, sample_len := 64, safe := 1, channels := 1, first := 0,
    start_time := 0, duration := 1, step := 1,
    fadein_mode := 0, fadein_start := 0, fadein_len := 0, vol := 1, pan := 0, handle := 0 }

/-- The state `s1` has the same clock and the same pre-mix window (capacity, offset, time,
length) as `s`. -/
def SameWindow (s s1 : MixLow) : Prop :=
  s1.premix_size = s.premix_size ∧ s1.premix_offset = s.premix_offset
    ∧ s1.premix_time = s.premix_time ∧ s1.premix_len = s.premix_len ∧ s1.mix_time = s.mix_time

/-- What `stb_mixlow_end_set` does to a block `b` that bears the handle and is kept: `b1`
is `b` without its handle, with the fade-out `(mode, est, d)`, and shortened to end when
the fade-out ends if that is earlier; the sample pointers and the ownership flag are
those left by `stb__copy_samples`. -/
def EndedFrom (mode : Int) (est d : Nat) (b b1 : stb__block) : Prop :=
  b1 = { b with
    samples := b1.samples, fsamples := b1.fsamples, must_free := b1.must_free,
    handle := 0, fadeout_mode := toUChar mode, fadeout_start := est, fadeout_len := d,
    duration := (if uadd est d < uadd b.start_time b.duration
      then usub (uadd est d) b.start_time else b.duration) }

/-- The relation between a kept block and its slot after `stb_mixlow_end_set`: a block
bearing the handle is ended, any other block is unchanged. -/
def EndRel (handle : Nat) (mode : Int) (est d : Nat) (b b1 : stb__block) : Prop :=
  if b.handle = handle then EndedFrom mode est d b b1 else b1 = b

/-- Whether `stb_mixlow_end_set` keeps a block: it deletes the blocks that bear the handle
and start at or after the end of the fade-out. -/
def end_keeps (handle end_final : Nat) (b : stb__block) : Bool :=
  decide (¬ (b.handle = handle ∧ end_final ≤ b.start_time))

/-- The state after `init(8); add_playback(handle 7, start 0, duration 50); mix(out, 0, 8)`:
the clock is 0, one block bearing handle 7 is active and the window holds the ticks
`[0, 8)`. -/
def demo_windowed : MixLow :=
  (stb_mixlow_mix (stb_mixlow_add_playback (demo_init 8) demo_handle_playback) demo_out 0 8).state

/-- The gain of the envelope at tick `u` when `stb__mix_block` mixes the ticks from `t1`
up to `lim`: the envelope (times volume and global volume) is evaluated at `t1`, every
`ENVELOPE_SAMPLE_TIME` ticks from there and at `lim`, and interpolated linearly in
between. -/
def env_gain (s : MixLow) (b : stb__block) (t1 lim u : Nat) : ℚ :=
  let ts := t1 + 441 * ((u - t1) / 441)
  let te := min (ts + 441) lim
  let vs := stb__compute_fade b ts * (b.vol * s.global_volume)
  let ve := stb__compute_fade b te * (b.vol * s.global_volume)
  vs + ((u - ts : Nat) : ℚ) * ((ve - vs) / ((te - ts : Nat) : ℚ))

/-- The signal of a block at tick `u`, channel `ch`, before panning: the source value
times the envelope gain (and the factor 32767 of a float source). -/
def unpanned (s : MixLow) (b : stb__block) (t1 lim u ch : Nat) : ℚ :=
  block_value s b u ch * (env_gain s b t1 lim u * block_scale b)

/-- The contribution of a block to the accumulator of tick `u`, channel `ch`, when the
ticks `[t1, lim)` of its life are mixed by one call of `stb__mix_block`. -/
def gen_contrib (s : MixLow) (b : stb__block) (t1 lim u ch : Nat) : ℚ :=
  if t1 ≤ u ∧ u < lim then pan_gain b ch * unpanned s b t1 lim u ch else 0

/-- The block that an accepted scheduling call stores: the slot at the old
`stb__num_blocks`, after the call. -/
def scheduled_block (s : MixLow) (a : Playback) : stb__block :=
  (stb_mixlow_add_playback_raw s a).bl s.num_blocks

/-! ## The fade curves in closed form -/

/-- The pre-pulse factor of the pulse-release fade in the words of the specification:
with `d = |(1 - t) * 20 - 1|` it is `1 + (1 - (3 d^2 - 2 d^3)) * 0.2` if `d < 1` and `1`
otherwise. -/
def pre_pulse (t : ℚ) : ℚ :=
  if |(1 - t) * 20 - 1| < 1 then
    1 + (1 - (3 * |(1 - t) * 20 - 1| ^ 2 - 2 * |(1 - t) * 20 - 1| ^ 3)) * (2 / 10)
  else 1

/-- The release curve in the words of the specification: `max((t^3)^2 * 0.5, 1 - (1-t)*15)`. -/
def release_curve (t : ℚ) : ℚ := max ((t ^ 3) ^ 2 * (5 / 10)) (1 - (1 - t) * 15)

/-- The pulse-release curve in the words of the specification: the release curve
multiplied by the pre-pulse factor. -/
def pulse_release_spec (t : ℚ) : ℚ := release_curve t * pre_pulse t

/-- The linear term of the pulse-release case of `stb__fade`:
`(t < 0.95f) ? 1-(0.95f-t)*16 : 1`. -/
def pulse_ramp (t : ℚ) : ℚ := if t < 95 / 100 then 1 - (95 / 100 - t) * 16 else 1

/-! ## The envelope ordering -/

/-- The envelope ordering of a block, with exact sums:
`fadein_start ≤ fadein_start + fadein_len ≤ fadeout_start ≤ fadeout_start + fadeout_len`. -/
def EnvelopeOrdered (b : stb__block) : Prop :=
  b.fadein_start ≤ b.fadein_start + b.fadein_len
    ∧ b.fadein_start + b.fadein_len ≤ b.fadeout_start
    ∧ b.fadeout_start ≤ b.fadeout_start + b.fadeout_len

/-- A mono 16-bit playback of the demo ramp at tick 0 for 50 ticks, borrowed, bearing
handle 7, with a linear fade-in over the ticks `[0, 20)`. -/
def demo_fadein_handle_playback : Playback :=
  { samples := 1048576, fsamples := 0, sample_len := 64, safe := 1, channels := 1, first := 0,
    start_time := 0, duration := 50, step := 1,
    fadein_mode := 1, fadein_start := 0, fadein_len := 20, vol := 1, pan := 0, handle := 7 }

/-- A mono 16-bit playback of the ramp `0, 1, 2, ...` (the demo memory read from one
element before its ramp `1, 2, 3, ...`) at half speed: `first = 0`, `step = 1/2`, unit
volume, no pan, no fade-in, borrowed, at tick 1 for 10 ticks. -/
def demo_half_step_playback : Playback :=
  { samples := 1048574, fsamples := 0, sample_len := 65, safe := 1, channels := 1, first := 0,
    start_time := 1, duration := 10, step := 1 / 2,
    fadein_mode := 0, fadein_start := 0, fadein_len := 0, vol := 1, pan := 0, handle := 0 }

/-- A trace of extracts: one `stb_mixlow_mix` call per pair `(start_time, duration)`. -/
def extracts (es : List (Nat × Nat)) : List MixOp := es.map (fun e => MixOp.extract e.1 e.2)

/-- The contribution of a block to tick `u`, channel `ch`, when one call of the static
function `mix` mixes the ticks `[t, t + len)`: that of `stb__mix_block` over the part of
the range inside the life of the block, if the block overlaps the range. -/
def piece_contrib (s : MixLow) (b : stb__block) (t len u ch : Nat) : ℚ :=
  if b.start_time < t + len ∧ b.start_time + b.duration ≥ t then
    gen_contrib s b (max t b.start_time) (min (t + len) (b.start_time + b.duration)) u ch
  else 0

/-- A `short` memory holding 512 samples of value 600 from byte address `1048576` on and
zero elsewhere. -/
def demo_flat_mem16 : Int → Int :=
  fun a => if 1048576 ≤ a ∧ a < 1048576 + 2 * 512 then 600 else 0

/-- A mono 16-bit playback of the flat demo source at tick 190 for 200 ticks, borrowed,
with unit gain, no pan and no fade-in, bearing the given handle. -/
def demo_flat_playback (handle : Nat) : Playback :=
  { samples := 1048576, fsamples := 0, sample_len := 512, safe := 1, channels := 1, first := 0,
    start_time := 190, duration := 200, step := 1,
    fadein_mode := 0, fadein_start := 0, fadein_len := 0, vol := 1, pan := 0, handle := handle }

/-- The state after `init(512); set_curtime(196); add_playback(handle 1); add_playback(handle
2); end_set(1, linear, 200, 100)` on the flat demo source: the window is empty at tick 196. -/
def demo_faded : MixLow :=
  stb_mixlow_end_set
    (stb_mixlow_add_playback
      (stb_mixlow_add_playback
        (stb_mixlow_set_curtime (stb_mixlow_init (boot demo_flat_mem16 demo_memf 4194304) 512) 196)
        (demo_flat_playback 1))
      (demo_flat_playback 2))
    1 1 200 100

/-! ## The synthesizer (`stb_synth.h`)

`float` values are rationals, as in the mixer. The library function `pow(2.0, x)` of
`stb__pitch_to_freq` is a parameter `pow2` of the model. A division by zero, which gives an
infinity or a NaN in `float` arithmetic, gives 0 here; the properties below do not depend
on it. The pointers `adsr` and `waveform2`, which may be `NULL`, are optional values; the
output buffer is a function of the (signed) index. -/

/-- The record `stb_synth_waveform`. -/
structure stb_synth_waveform where
  zero_wait : ℚ
  peak_time : ℚ
  half_height : ℚ
  reflect : Int

/-- The record `stb_synth_adsr`. -/
structure stb_synth_adsr where
  attack_time : ℚ
  decay_time : ℚ
  sustain_level : ℚ
  release_time : ℚ

/-- The record `stb_synth__right`. -/
structure stb_synth__right where
  start_height : ℚ
  start_zero : ℚ
  peak_time : ℚ
  end_height : ℚ
  end_zero : ℚ

/-- `stb__pitch_to_freq`: `440.0 * pow(2.0, (pitch - 69.0) / 12.0)`. -/
def stb__pitch_to_freq (pow2 : ℚ → ℚ) (pitch : ℚ) : ℚ := 440 * pow2 ((pitch - 69) / 12)

/-- `stb__synth_lerp(t,a,b)`, also the local macro `stb_s_lerp`. -/
def stb__synth_lerp (t a b : ℚ) : ℚ := a + (b - a) * t

/-- `stb__synth_reciprocal(a,b)`. -/
def stb__synth_reciprocal (a b : ℚ) : ℚ := if b ≠ a then 1 / (b - a) else 1

/-- `stb__synth_remap_r(t,a,r,c,d)`. -/
def stb__synth_remap_r (t a r c d : ℚ) : ℚ := c + (d - c) * (t - a) * r

/-- `stb__make_right`. -/
def stb__make_right (src : stb_synth_waveform) : stb_synth__right :=
  let p := stb__synth_lerp src.peak_time src.zero_wait 1
  let wave : stb_synth__right :=
    if src.reflect ≠ 0 then
      { start_height := -src.half_height, start_zero := 0, peak_time := 1 - p,
        end_height := 0, end_zero := 1 - src.zero_wait }
    else
      { start_height := 0, start_zero := src.zero_wait, peak_time := p,
        end_height := -src.half_height, end_zero := 1 }
  { wave with start_zero := wave.start_zero + 1, peak_time := wave.peak_time + 1,
              end_zero := wave.end_zero + 1 }

/-- `stb__default_adsr = { 0.001f,0,1,0.002f }`. -/
def stb__default_adsr : stb_synth_adsr :=
  { attack_time := 1 / 1000, decay_time := 0, sustain_level := 1, release_time := 2 / 1000 }

/-- `STB_SYNTH_BLOCK_SIZE`. -/
def STB_SYNTH_BLOCK_SIZE : Int := 256

/-- Addition of two `int` values, wrapping to 32 bits. -/
def iadd (a b : Int) : Int := toInt32 (ofInt32 (a + b))

/-- The initial value of the local `env` of `stb__synth_raw`:
`*(adsr ? adsr : &stb__default_adsr)`. -/
def adsr_or_default (adsr : Option stb_synth_adsr) : stb_synth_adsr :=
  match adsr with
  | some a => a
  | none => stb__default_adsr

/-- The locals of `stb__synth_raw` that the sample loops only read: the envelope (its
`decay_time` already made absolute), the parameters `note_duration_until_release`, `volume`
and `zero`, the increments `dsec`, `dt` (already multiplied by the wavelength) and
`wavesteps`, the two pairs of half waves, and the reciprocals `r4`, `r5`, `r6`. -/
structure SynthConsts where
  env : stb_synth_adsr
  note_duration_until_release : ℚ
  volume : ℚ
  zero : Int
  dsec : ℚ
  dt : ℚ
  wavesteps : ℚ
  left_half_a : stb_synth_waveform
  left_half_b : stb_synth_waveform
  right_half_a : stb_synth__right
  right_half_b : stb_synth__right
  r4 : ℚ
  r5 : ℚ
  r6 : ℚ

/-- The locals of `stb__synth_raw` that the shape loop carries from sample to sample: the
phase `p`, the morph parameter `t`, the current half waves and the reciprocals `r0..r3`. -/
structure SynthWave where
  p : ℚ
  t : ℚ
  left_half : stb_synth_waveform
  right_half : stb_synth__right
  r0 : ℚ
  r1 : ℚ
  r2 : ℚ
  r3 : ℚ

/-- The locals of `stb__synth_raw` that the envelope loop carries from sample to sample. -/
structure SynthEnv where
  sec : ℚ
  scale : ℚ
  release_level : ℚ

/-- The initialisation of `stb__synth_raw`, from the declarations down to `dt *= wavelength`:
the locals that the loops only read. -/
def synth_consts (pow2 : ℚ → ℚ) (zero samples_per_second : Int)
    (note_duration_until_release pitch volume : ℚ) (adsr : Option stb_synth_adsr)
    (waveform1 : stb_synth_waveform) (waveform2 : Option stb_synth_waveform) : SynthConsts :=
  let env0 := adsr_or_default adsr
  let dsec : ℚ := 1 / (samples_per_second : ℚ)
  let dt0 : ℚ :=
    1 / ((note_duration_until_release + env0.release_time / 4) * (samples_per_second : ℚ))
  let freq := stb__pitch_to_freq pow2 pitch
  let wavelength : ℚ := (samples_per_second : ℚ) / freq
  let wavesteps : ℚ := 2 / wavelength
  let env : stb_synth_adsr := { env0 with decay_time := env0.decay_time + env0.attack_time }
  let left_half_a : stb_synth_waveform :=
    { waveform1 with
      peak_time := stb__synth_lerp waveform1.peak_time waveform1.zero_wait 1 }
  let right_half_a := stb__make_right waveform1
  let left_half_b : stb_synth_waveform := match waveform2 with
    | some w2 => w2
    | none => left_half_a
  let right_half_b : stb_synth__right := match waveform2 with
    | some w2 => stb__make_right w2
    | none => right_half_a
  { env := env, note_duration_until_release := note_duration_until_release,
    volume := volume, zero := zero, dsec := dsec, dt := dt0 * wavelength,
    wavesteps := wavesteps,
    left_half_a := left_half_a, left_half_b := left_half_b,
    right_half_a := right_half_a, right_half_b := right_half_b,
    r4 := stb__synth_reciprocal 0 env.attack_time,
    r5 := stb__synth_reciprocal env.attack_time env.decay_time,
    r6 := stb__synth_reciprocal 0 env.release_time }

/-- The length computed by `stb__synth_raw`:
`len = (int) ((note_duration_until_release + env.release_time) * samples_per_second);
if (len > buffer_limit) len = buffer_limit;`. -/
def synth_len (buffer_limit samples_per_second : Int) (note_duration_until_release : ℚ)
    (adsr : Option stb_synth_adsr) : Int :=
  let env0 := adsr_or_default adsr
  let len := float_to_int
    ((note_duration_until_release + env0.release_time) * (samples_per_second : ℚ))
  if len > buffer_limit then buffer_limit else len

/-- The loop-carried locals of the shape loop before the first sample: `p = 0`, `t = 0`,
the half waves of `waveform1`, and their reciprocals. -/
def synth_wave_init (c : SynthConsts) : SynthWave :=
  { p := 0, t := 0, left_half := c.left_half_a, right_half := c.right_half_a,
    r0 := stb__synth_reciprocal c.right_half_a.start_zero c.right_half_a.peak_time,
    r1 := stb__synth_reciprocal c.right_half_a.peak_time c.right_half_a.end_zero,
    r2 := stb__synth_reciprocal c.left_half_a.zero_wait c.left_half_a.peak_time,
    r3 := stb__synth_reciprocal c.left_half_a.peak_time 1 }

/-- The loop-carried locals of the envelope loop before the first sample:
`scale = 0`, `sec = 0`, `release_level = -1`. -/
def synth_env_init : SynthEnv := { sec := 0, scale := 0, release_level := -1 }

/-- The shape evaluation of the first inner loop: the value `pcm` at the current phase. -/
def wave_pcm (w : SynthWave) : ℚ :=
  if w.p ≥ 1 then
    if w.p < w.right_half.start_zero ∨ w.p > w.right_half.end_zero then 0
    else if w.p < w.right_half.peak_time then
      stb__synth_remap_r w.p w.right_half.start_zero w.r0 w.right_half.start_height (-1)
    else stb__synth_remap_r w.p w.right_half.peak_time w.r1 (-1) w.right_half.end_height
  else
    if w.p < w.left_half.zero_wait then 0
    else if w.p < w.left_half.peak_time then
      stb__synth_remap_r w.p w.left_half.zero_wait w.r2 0 1
    else stb__synth_remap_r w.p w.left_half.peak_time w.r3 1 w.left_half.half_height

/-- The rest of the body of the first inner loop: `p += wavesteps;` and, when `p >= 2`, the
wrap of the phase, the advance of the morph parameter, the blend of the half waves and
the refresh of `r0..r3`. -/
def wave_advance (c : SynthConsts) (w : SynthWave) : SynthWave :=
  let p := w.p + c.wavesteps
  if p ≥ 2 then
    let t0 := w.t + c.dt
    let t := if t0 > 1 then 1 else t0
    let left_half : stb_synth_waveform :=
      { w.left_half with
        zero_wait := stb__synth_lerp t c.left_half_a.zero_wait c.left_half_b.zero_wait,
        peak_time := stb__synth_lerp t c.left_half_a.peak_time c.left_half_b.peak_time,
        half_height := stb__synth_lerp t c.left_half_a.half_height c.left_half_b.half_height }
    let right_half : stb_synth__right :=
      { start_height :=
          stb__synth_lerp t c.right_half_a.start_height c.right_half_b.start_height,
        start_zero := stb__synth_lerp t c.right_half_a.start_zero c.right_half_b.start_zero,
        peak_time := stb__synth_lerp t c.right_half_a.peak_time c.right_half_b.peak_time,
        end_height := stb__synth_lerp t c.right_half_a.end_height c.right_half_b.end_height,
        end_zero := stb__synth_lerp t c.right_half_a.end_zero c.right_half_b.end_zero }
    { p := p - 2, t := t, left_half := left_half, right_half := right_half,
      r0 := stb__synth_reciprocal right_half.start_zero right_half.peak_time,
      r1 := stb__synth_reciprocal right_half.peak_time right_half.end_zero,
      r2 := stb__synth_reciprocal left_half.zero_wait left_half.peak_time,
      r3 := stb__synth_reciprocal left_half.peak_time 1 }
  else { w with p := p }

/-- The first inner loop of a block, `for (i=j; i < end; ++i) { ...; data[i-j] = pcm; ... }`:
`n` samples from element `k` of `data`. -/
def wave_loop (c : SynthConsts) : Nat → Nat → (Nat → ℚ) → SynthWave → (Nat → ℚ) × SynthWave
  | 0, _, data, w => (data, w)
  | n + 1, k, data, w =>
    wave_loop c n (k + 1) (Function.update data k (wave_pcm w)) (wave_advance c w)

/-- The envelope evaluation of the second inner loop: the assignments to `scale` and
`release_level` of one iteration. -/
def env_scale (c : SynthConsts) (e : SynthEnv) : SynthEnv :=
  if e.sec < c.env.attack_time then
    { e with scale := stb__synth_remap_r e.sec 0 c.r4 0 1 }
  else if e.sec < c.env.decay_time then
    { e with scale := stb__synth_remap_r e.sec c.env.attack_time c.r5 1 c.env.sustain_level }
  else if e.sec > c.note_duration_until_release then
    let release_level := if e.release_level = -1 then e.scale else e.release_level
    let x := 1 - (e.sec - c.note_duration_until_release) * c.r6
    { e with release_level := release_level, scale := x * x * x * release_level }
  else { e with scale := c.env.sustain_level }

/-- The second inner loop of a block,
`for (i=j; i < end; ++i) { ...; data[i-j] *= scale; sec += dsec; }`. -/
def env_loop (c : SynthConsts) : Nat → Nat → (Nat → ℚ) → SynthEnv → (Nat → ℚ) × SynthEnv
  | 0, _, data, e => (data, e)
  | n + 1, k, data, e =>
    env_loop c n (k + 1) (Function.update data k (data k * (env_scale c e).scale))
      { env_scale c e with sec := (env_scale c e).sec + c.dsec }

/-- The output loop `for (i=j; i < end; ++i) output_buffer[i] = data[i-j] * volume;`. -/
def store_loop (volume : ℚ) (data : Nat → ℚ) : Nat → Int → Nat → (Int → ℚ) → (Int → ℚ)
  | 0, _, _, out => out
  | n + 1, i, k, out =>
    store_loop volume data n (i + 1) (k + 1) (Function.update out i (data k * volume))

/-- The output loop `for (i=j; i < end; ++i) output_buffer[i] += data[i-j] * volume;`. -/
def add_loop (volume : ℚ) (data : Nat → ℚ) : Nat → Int → Nat → (Int → ℚ) → (Int → ℚ)
  | 0, _, _, out => out
  | n + 1, i, k, out =>
    add_loop volume data n (i + 1) (k + 1) (Function.update out i (out i + data k * volume))

/-- The locals and the buffer that the block loop of `stb__synth_raw` carries. -/
structure SynthState where
  wave : SynthWave
  env : SynthEnv
  output : Int → ℚ

/-- The block loop of `stb__synth_raw`,
`for(j=0; j < len; j += STB_SYNTH_BLOCK_SIZE) { ... }`. The array `data` is local to an
iteration; every element that is read has been written in the same iteration, and the
array starts as zeros here. The first argument bounds the number of iterations. -/
def synth_blocks (c : SynthConsts) (len : Int) : Nat → Int → SynthState → SynthState
  | 0, _, st => st
  | fuel + 1, j, st =>
    if j < len then
      let end0 := iadd j STB_SYNTH_BLOCK_SIZE
      let end_ := if end0 > len then len else end0
      let n := (end_ - j).toNat
      let r1 := wave_loop c n 0 (fun _ => 0) st.wave
      let r2 := env_loop c n 0 r1.1 st.env
      let out :=
        if c.zero ≠ 0 then store_loop c.volume r2.1 n j 0 st.output
        else add_loop c.volume r2.1 n j 0 st.output
      synth_blocks c len fuel (iadd j STB_SYNTH_BLOCK_SIZE)
        { wave := r1.2, env := r2.2, output := out }
    else st

/-- The result of a synthesizer call: the returned count and the buffer after the call. -/
structure SynthResult where
  ret : Int
  output : Int → ℚ

/-- `stb__synth_raw`. The block loop runs at most `len` times. -/
def stb__synth_raw (pow2 : ℚ → ℚ) (output_buffer : Int → ℚ) (buffer_limit zero : Int)
    (samples_per_second : Int) (note_duration_until_release pitch volume : ℚ)
    (adsr : Option stb_synth_adsr) (waveform1 : stb_synth_waveform)
    (waveform2 : Option stb_synth_waveform) : SynthResult :=
  let c := synth_consts pow2 zero samples_per_second note_duration_until_release pitch volume
    adsr waveform1 waveform2
  let len := synth_len buffer_limit samples_per_second note_duration_until_release adsr
  let st := synth_blocks c len len.toNat 0
    { wave := synth_wave_init c, env := synth_env_init, output := output_buffer }
  { ret := len, output := st.output }

/-- `stb_synth`. -/
def stb_synth (pow2 : ℚ → ℚ) (output_buffer : Int → ℚ) (buffer_limit : Int)
    (samples_per_second : Int) (note_duration_until_release pitch volume : ℚ)
    (adsr : Option stb_synth_adsr) (waveform1 : stb_synth_waveform)
    (waveform2 : Option stb_synth_waveform) : SynthResult :=
  stb__synth_raw pow2 output_buffer buffer_limit 1 samples_per_second
    note_duration_until_release pitch volume adsr waveform1 waveform2

/-- `stb_synth_add`. -/
def stb_synth_add (pow2 : ℚ → ℚ) (output_buffer : Int → ℚ) (buffer_limit : Int)
    (samples_per_second : Int) (note_duration_until_release pitch volume : ℚ)
    (adsr : Option stb_synth_adsr) (waveform1 : stb_synth_waveform)
    (waveform2 : Option stb_synth_waveform) : SynthResult :=
  stb__synth_raw pow2 output_buffer buffer_limit 0 samples_per_second
    note_duration_until_release pitch volume adsr waveform1 waveform2

/-! ### Closed forms of the synthesizer -/

/-- The shape locals before sample `n`: the initial ones advanced `n` times. -/
def wave_at (c : SynthConsts) (n : Nat) : SynthWave := (wave_advance c)^[n] (synth_wave_init c)

/-- One iteration of the envelope loop on its locals. -/
def env_next (c : SynthConsts) (e : SynthEnv) : SynthEnv :=
  { env_scale c e with sec := (env_scale c e).sec + c.dsec }

/-- The envelope locals before sample `n`. -/
def env_at (c : SynthConsts) (n : Nat) : SynthEnv := (env_next c)^[n] synth_env_init

/-- The value synthesized for sample `n`: shape value times envelope scale times volume,
in the order the code multiplies. -/
def synth_sample (c : SynthConsts) (n : Nat) : ℚ :=
  wave_pcm (wave_at c n) * (env_scale c (env_at c n)).scale * c.volume

/-- The shape of `waveform1`: the value `pcm` at phase `p` with the half waves the
synthesis starts with. -/
def wave_shape (c : SynthConsts) (p : ℚ) : ℚ := wave_pcm { synth_wave_init c with p := p }

/-- The phase after one sample: `p += wavesteps; if (p >= 2) p -= 2;`. -/
def phase_next (wavesteps p : ℚ) : ℚ := if p + wavesteps ≥ 2 then p + wavesteps - 2 else p + wavesteps

/-- The phase before sample `n`. -/
def phase_at (wavesteps : ℚ) (n : Nat) : ℚ := (phase_next wavesteps)^[n] 0

/-- Two sets of loop constants agree on everything but the half waves. -/
def SameButWaves (c0 c1 : SynthConsts) : Prop :=
  c1 = { c0 with left_half_a := c1.left_half_a, left_half_b := c1.left_half_b,
                 right_half_a := c1.right_half_a, right_half_b := c1.right_half_b }

/-- The canonical triangle wave `Z=0, P=0.5, H=0` with reflect flag `m`. -/
def triangle_wave (m : Int) : stb_synth_waveform :=
  { zero_wait := 0, peak_time := 1 / 2, half_height := 0, reflect := m }

/-- The canonical square wave `Z=0, P=0, H=1` with reflect flag `m`. -/
def square_wave (m : Int) : stb_synth_waveform :=
  { zero_wait := 0, peak_time := 0, half_height := 1, reflect := m }

/-- A stand-in for `pow(2.0, x)` in worked instances: exact where `x` is an integer (the
only arguments the instances use) and the power of the integer part elsewhere. -/
def demo_pow2 (x : ℚ) : ℚ := (2 : ℚ) ^ ⌊x⌋

/-- An envelope for worked instances: no attack, no decay, sustain level 1, no release. -/
def demo_flat_adsr : stb_synth_adsr :=
  { attack_time := 0, decay_time := 0, sustain_level := 1, release_time := 0 }

/-- A waveform for worked instances: `Z = 0.5`, `P = 0.5`, `H = 0`, `M = 0`. -/
def demo_pwm_wave : stb_synth_waveform :=
  { zero_wait := 1 / 2, peak_time := 1 / 2, half_height := 0, reflect := 0 }

/-- The shape locals hold the half waves the synthesis starts with: only the phase and the
morph parameter have moved. -/
def NoMorph (c : SynthConsts) (w : SynthWave) : Prop :=
  w = { synth_wave_init c with p := w.p, t := w.t }

/-- The square shape: `+1` on the first half of the cycle, `-1` on the second, and 0
outside the cycle. -/
def square_shape (p : ℚ) : ℚ :=
  if p ≥ 1 then (if p > 2 then 0 else -1) else (if p < 0 then 0 else 1)

/-- The envelope `{0.01, 0.01, 0.5, 0.1}` of the worked synthesizer example. -/
def example_adsr : stb_synth_adsr :=
  { attack_time := 1 / 100, decay_time := 1 / 100, sustain_level := 1 / 2,
    release_time := 1 / 10 }

/-! ## The streaming layer (`stb_mixhigh`) -/

/-- Subtraction of two `int` values, wrapping to 32 bits. -/
def isub (a b : Int) : Int := toInt32 (ofInt32 (a - b))

/-- Multiplication of two `int` values, wrapping to 32 bits. -/
def imul (a b : Int) : Int := toInt32 (ofInt32 (a * b))

/-- The file-scope variables of the streaming layer that `stb_mixhigh_step_raw` uses,
together with the state of the mixer core it drives: `stb__write_cursor_offset`,
`stb__mixhigh_time`, `stb__dsound_buffer_size` (the size of the sound buffer in frames),
`stb__dsound_buffer_bytes`, the elements of `stb__mixbuf`, and `stb__prev_write`. -/
structure MixHigh where
  low : MixLow
  write_cursor_offset : Int
  mixhigh_time : Nat
  dsound_buffer_size : Int
  dsound_buffer_bytes : Int
  mixbuf : Nat → Int
  prev_write : Int

/-- The second function named `stb__wrap` of the file, the one of the streaming layer:
`if (t < 0) return t + stb__dsound_buffer_size;
return (t > stb__dsound_buffer_size) ? t-stb__dsound_buffer_size : t;`. -/
def MixHigh.stb__wrap (h : MixHigh) (t : Int) : Int :=
  if t < 0 then iadd t h.dsound_buffer_size
  else if t > h.dsound_buffer_size then isub t h.dsound_buffer_size else t

/-- `stb__dist`: `if (early > late) late += stb__dsound_buffer_size; return late - early;`. -/
def stb__dist (h : MixHigh) (early late : Int) : Int :=
  isub (if early > late then iadd late h.dsound_buffer_size else late) early

/-- A call `stb_dsound_writesound(write_loc_bytes, size_in_bytes, data)`, where `data` points
to element `data` of `stb__mixbuf`. -/
structure SinkWrite where
  write_loc_bytes : Int
  size_in_bytes : Int
  data : Int

/-- The result of `stb_mixhigh_step_raw`: the returned time, the state after the call, and
the call of `stb_dsound_writesound` it made, if any. -/
structure HighStep where
  ret : Nat
  state : MixHigh
  sink : Option SinkWrite

/-- `stb_mixhigh_step_raw`. The two calls of `stb_dsound_getcursors` are inputs: they
return the byte cursors `(play1, write1)` and `(_play2, write2)` (the second play cursor is
not used); `x >>= 2` on a cursor is the division by 4 rounding down. -/
def stb_mixhigh_step_raw (h : MixHigh) (play1 write1 _play2 write2 : Int)
    (premix_samples : Int) : HighStep :=
  let play := play1 / 4
  let write := write1 / 4
  let advance := stb__dist h h.prev_write write
  let time := uadd h.mixhigh_time (ofInt32 advance)
  let low1 := stb_mixlow_set_curtime h.low time
  let available := isub (stb__dist h write play) h.write_cursor_offset
  let samples := if available < premix_samples then available else premix_samples
  let m := stb_mixlow_mix low1 h.mixbuf time (ofInt32 samples)
  let write_again := write2 / 4
  let h1 : MixHigh :=
    { h with low := m.state, mixhigh_time := time, prev_write := write, mixbuf := m.output }
  let d := stb__dist h1 h1.prev_write write_again
  if d < m.ret then
    let pos := MixHigh.stb__wrap h1 (iadd (iadd write_again h1.write_cursor_offset) (imul d 4))
    { ret := time, state := h1,
      sink := some { write_loc_bytes := imul pos 4, size_in_bytes := imul (isub m.ret d) 4,
                     data := imul d 2 } }
  else { ret := time, state := h1, sink := none }

/-- A streaming state for worked instances: a sound buffer of 1000 frames (4000 bytes), the
mixer core just initialised with a capacity of 64 frames, streaming time 0, the previous
write cursor at frame 0, and the given write cursor offset. -/
def demo_high (write_cursor_offset : Int) : MixHigh :=
  { low := demo_init 64, write_cursor_offset := write_cursor_offset, mixhigh_time := 0,
    dsound_buffer_size := 1000, dsound_buffer_bytes := 4000, mixbuf := demo_out,
    prev_write := 0 }

/-! ## Counting the cycles of the synthesizer -/

/-- The number of times the branch `if (p >= 2)` of the shape loop is taken while the first
`n` samples are produced: iteration `k` takes it when the phase before it plus `wavesteps`
reaches 2. -/
def phase_wraps (c : SynthConsts) : Nat → Nat
  | 0 => 0
  | n + 1 => phase_wraps c n + (if (wave_at c n).p + c.wavesteps ≥ 2 then 1 else 0)

/-! ## Bounds of the synthesizer -/

/-- The shape locals are consistent and bounded: `r0..r3` are the reciprocals of the current
half waves, the height of the first half wave lies in `[0, 1]`, the heights of the second
lie in `[-1, 0]`, and the morph parameter lies in `[0, 1]`. -/
def WaveOK (w : SynthWave) : Prop :=
  w.r0 = stb__synth_reciprocal w.right_half.start_zero w.right_half.peak_time
  ∧ w.r1 = stb__synth_reciprocal w.right_half.peak_time w.right_half.end_zero
  ∧ w.r2 = stb__synth_reciprocal w.left_half.zero_wait w.left_half.peak_time
  ∧ w.r3 = stb__synth_reciprocal w.left_half.peak_time 1
  ∧ (0 ≤ w.left_half.half_height ∧ w.left_half.half_height ≤ 1)
  ∧ (-1 ≤ w.right_half.start_height ∧ w.right_half.start_height ≤ 0)
  ∧ (-1 ≤ w.right_half.end_height ∧ w.right_half.end_height ≤ 0)
  ∧ (0 ≤ w.t ∧ w.t ≤ 1)

/-- The half waves the synthesis blends have bounded heights, and the morph parameter does
not decrease. -/
def HalvesOK (c : SynthConsts) : Prop :=
  (0 ≤ c.left_half_a.half_height ∧ c.left_half_a.half_height ≤ 1)
  ∧ (0 ≤ c.left_half_b.half_height ∧ c.left_half_b.half_height ≤ 1)
  ∧ (-1 ≤ c.right_half_a.start_height ∧ c.right_half_a.start_height ≤ 0)
  ∧ (-1 ≤ c.right_half_b.start_height ∧ c.right_half_b.start_height ≤ 0)
  ∧ (-1 ≤ c.right_half_a.end_height ∧ c.right_half_a.end_height ≤ 0)
  ∧ (-1 ≤ c.right_half_b.end_height ∧ c.right_half_b.end_height ≤ 0)
  ∧ 0 ≤ c.dt

/-- The envelope locals are bounded: `scale` lies in `[0, 1]`, and `release_level` is either
still the marker `-1` or lies in `[0, 1]`. -/
def EnvOK (e : SynthEnv) : Prop :=
  (0 ≤ e.scale ∧ e.scale ≤ 1)
  ∧ (e.release_level = -1 ∨ (0 ≤ e.release_level ∧ e.release_level ≤ 1))

/-! ## Worked inputs for the conversion to 16 bits -/

/-- The state after `stb_mixlow_init(P)` in a fresh process of a build with `_MSC_VER` on
a CPU with SSE2 (bit 26 of the feature word), over the flat demo source. -/
def demo_msvc_init (P : Nat) : MixLow :=
  stb_mixlow_init (boot_msvc 67108864 demo_flat_mem16 demo_memf 4194304) P

/-- A mono 16-bit playback of the flat demo source (every sample is 600) at tick 0 for 9
ticks with volume `1/16`, borrowed, no pan, no fade-in: every tick accumulates `37.5`. -/
def demo_sixteenth_playback : Playback :=
  { samples := 1048576, fsamples := 0, sample_len := 512, safe := 1, channels := 1, first := 0,
    start_time := 0, duration := 9, step := 1,
    fadein_mode := 0, fadein_start := 0, fadein_len := 0, vol := 1 / 16, pan := 0, handle := 0 }

/-- A playback whose mixing involves whole numbers only, so that the arithmetic of the
mixer is exact in `float` as well: a 16-bit source of fewer than `2^24` frames, step 1, a
whole start offset, unit gain (`vol * global volume = 1`) and pan -1, 0 or 1. -/
def WholePlayback (global_volume : ℚ) (a : Playback) : Prop :=
  a.samples ≠ 0 ∧ a.step = 1 ∧ (∃ n : Nat, a.first = (n : ℚ)) ∧ a.vol * global_volume = 1
    ∧ (a.pan = 0 ∨ a.pan = 1 ∨ a.pan = -1) ∧ a.sample_len ≤ 16777216

/-- A block whose contributions are whole numbers: a 16-bit source played at step 1 with
unit gain and pan gains 0 or 1. -/
def WholeBlock (global_volume : ℚ) (b : stb__block) : Prop :=
  b.samples ≠ 0 ∧ b.step = 1 ∧ b.vol * global_volume = 1
    ∧ (b.lpan = 0 ∨ b.lpan = 1) ∧ (b.rpan = 0 ∨ b.rpan = 1)

/-! # Properties -/

/-! ## Machine arithmetic and conversion -/

theorem ofInt32_bias_gt (k : Int) (h1 : -2147483648 ≤ k) (h2 : k < 2147483648) :
    (ofInt32 (k + 32768) > 65535 ↔ (k < -32768 ∨ 32767 < k)) := by
  unfold ofInt32
  omega

theorem float_to_int_range (q : ℚ) :
    -2147483648 ≤ float_to_int q ∧ float_to_int q < 2147483648 := by
  unfold float_to_int
  split_ifs with h
  · exact h
  · constructor <;> norm_num

theorem fistp_range (q : ℚ) : -2147483648 ≤ fistp q ∧ fistp q < 2147483648 := by
  unfold fistp
  split_ifs with h
  · exact h
  · constructor <;> norm_num

/-- The value converted by `stb__integerize_one` before the clamp. -/
theorem integerize_one_clamp (m : Bool) (z : ℚ) :
    stb__integerize_one m z
      = max (-32768) (min 32767 (if m = true then fistp z else float_to_int z)) := by
  have hr : -2147483648 ≤ (if m = true then fistp z else float_to_int z)
      ∧ (if m = true then fistp z else float_to_int z) < 2147483648 := by
    split_ifs
    · exact fistp_range z
    · exact float_to_int_range z
  have hb := ofInt32_bias_gt _ hr.1 hr.2
  unfold stb__integerize_one
  dsimp only
  generalize (if m = true then fistp z else float_to_int z) = k at hr hb ⊢
  split_ifs with h1 h2
  · omega
  · have := hb.1 h1
    omega
  · have : ¬ (k < -32768 ∨ 32767 < k) := fun hc => h1 (hb.2 hc)
    omega

theorem integerize_one_range (m : Bool) (z : ℚ) :
    -32768 ≤ stb__integerize_one m z ∧ stb__integerize_one m z ≤ 32767 := by
  rw [integerize_one_clamp]
  omega

theorem integerize_one_eq (z : ℚ) (h : -2147483648 ≤ truncQ z ∧ truncQ z < 2147483648) :
    stb__integerize_one false z = max (-32768) (min 32767 (truncQ z)) := by
  rw [integerize_one_clamp]
  have e : (if false = true then fistp z else float_to_int z) = truncQ z := by
    rw [if_neg (by decide)]
    unfold float_to_int
    rw [if_pos h]
  rw [e]

/-- An element of an SSE loop is converted as by the truncating `stb__integerize_one`. -/
theorem sse_convert_eq (z : ℚ) : sse_convert z = stb__integerize_one false z := by
  rw [integerize_one_clamp, if_neg (by decide)]
  unfold sse_convert
  split_ifs <;> omega

theorem round_even_intCast (v : Int) : round_even (v : ℚ) = v := by
  unfold round_even
  rw [Int.floor_intCast, sub_self, if_pos (by norm_num)]

theorem truncQ_intCast (k : Int) : truncQ (k : ℚ) = k := by
  unfold truncQ
  split_ifs
  · exact Int.floor_intCast k
  · exact Int.ceil_intCast k

/-- On a whole number the two conversions agree. -/
theorem integerize_one_int (m : Bool) (v : Int) :
    stb__integerize_one m (v : ℚ) = stb__integerize_one false (v : ℚ) := by
  rw [integerize_one_clamp, integerize_one_clamp, if_neg (by decide : ¬ (false = true))]
  have e : fistp (v : ℚ) = float_to_int (v : ℚ) := by
    unfold fistp float_to_int
    rw [round_even_intCast, truncQ_intCast]
  split_ifs
  · rw [e]
  · rfl

theorem integerize_one_short (m : Bool) (v : Int) (h1 : -32768 ≤ v) (h2 : v ≤ 32767) :
    stb__integerize_one m (v : ℚ) = v := by
  rw [integerize_one_int, integerize_one_eq (v : ℚ) (by rw [truncQ_intCast]; omega),
    truncQ_intCast]
  omega

theorem integerize_one_zero (m : Bool) : stb__integerize_one m 0 = 0 := by
  have h := integerize_one_short m 0 (by decide) (by decide)
  simpa using h

theorem converted_of_mode (s : MixLow) (b : Bool) (z : ℚ) :
    Converted s z (stb__integerize_one (s.msc_ver && b) z) := by
  unfold Converted
  cases b
  · right
    rw [Bool.and_false]
  · left
    rw [Bool.and_true]

theorem converted_int (s : MixLow) (v k : Int) (h : Converted s (v : ℚ) k) :
    k = stb__integerize_one false (v : ℚ) := by
  rcases h with h | h
  · rw [h, integerize_one_int]
  · exact h

theorem converted_portable (s : MixLow) (z : ℚ) (k : Int) (hm : s.msc_ver = false)
    (h : Converted s z k) : k = stb__integerize_one false z := by
  rcases h with h | h
  · rw [h, hm]
  · exact h

theorem converted_range (s : MixLow) (z : ℚ) (k : Int) (h : Converted s z k) :
    -32768 ≤ k ∧ k ≤ 32767 := by
  rcases h with h | h <;> rw [h] <;> exact integerize_one_range _ _

theorem converted_congr (s s1 : MixLow) (h : s1.msc_ver = s.msc_ver) (z : ℚ) (k : Int) :
    Converted s1 z k ↔ Converted s z k := by
  unfold Converted
  rw [h]

theorem converted_conv_mode (s s1 : MixLow) (h : s1.msc_ver = s.msc_ver) (off len j : Nat)
    (z : ℚ) : Converted s1 z (stb__integerize_one (conv_mode s off len j) z) := by
  rw [converted_congr s s1 h]
  unfold conv_mode
  exact converted_of_mode s _ z

/-- Two conversions of the same whole number are equal. -/
theorem converted_unique_int (s s1 : MixLow) (v k k1 : Int) (h : Converted s (v : ℚ) k)
    (h1 : Converted s1 (v : ℚ) k1) : k = k1 := by
  rw [converted_int s v k h, converted_int s1 v k1 h1]

/-- The alignment test of `stb__mix_integerize` on element `e`: the byte offsets `4*e` and
`2*e` are both multiples of 16 exactly when `e` is a multiple of 8. -/
theorem align_test (e : Nat) : ((4 * e ||| 2 * e) &&& 15) ≠ 0 ↔ e % 8 ≠ 0 := by
  have h15 : (15 : Nat) = 2 ^ 4 - 1 := by norm_num
  rw [Nat.and_comm, Nat.and_or_distrib_left, Nat.and_comm 15, Nat.and_comm 15, h15,
    Nat.and_pow_two_sub_one_eq_mod, Nat.and_pow_two_sub_one_eq_mod]
  have h1 : 4 * e % 2 ^ 4 = 4 * (e % 8 % 4) := by omega
  have h2 : 2 * e % 2 ^ 4 = 2 * (e % 8) := by omega
  rw [h1, h2]
  have h4 : e % 8 < 8 := Nat.mod_lt _ (by decide)
  generalize e % 8 = r at h4
  interval_cases r <;> decide

/-- Closed form of the alignment loop: with enough fuel it converts the elements up to the
next multiple of 8, or the whole span if that is shorter. -/
theorem integerize_head_spec (m : Bool) (F : Nat → ℚ) (fuel e len : Nat) (I : Nat → Int)
    (hf : (8 - e % 8) % 8 < fuel) (hl : 0 < len) (hl2 : len < 4294967296) :
    (integerize_head m F fuel e len I).1 = e + min len ((8 - e % 8) % 8)
    ∧ (integerize_head m F fuel e len I).2.1 = len - min len ((8 - e % 8) % 8)
    ∧ ∀ j, (integerize_head m F fuel e len I).2.2 j
        = if e ≤ j ∧ j < e + min len ((8 - e % 8) % 8) then stb__integerize_one m (F j)
          else I j := by
  induction fuel generalizing e len I with
  | zero => omega
  | succ fuel ih =>
    rw [integerize_head]
    by_cases ha : e % 8 ≠ 0
    · rw [if_pos ((align_test e).mpr ha)]
      have hu : usub len 1 = len - 1 := by unfold usub; omega
      rw [hu]
      have hk : (8 - e % 8) % 8 = (8 - (e + 1) % 8) % 8 + 1 := by omega
      by_cases h1 : len - 1 = 0
      · rw [if_pos h1]
        have hm : min len ((8 - e % 8) % 8) = 1 := by omega
        rw [hm]
        refine ⟨rfl, by show 0 = len - 1; omega, fun j => ?_⟩
        show Function.update I e (stb__integerize_one m (F e)) j = _
        by_cases hj : j = e
        · subst hj
          rw [Function.update_same, if_pos (by omega)]
        · rw [Function.update_noteq hj, if_neg (by omega)]
      · rw [if_neg h1]
        obtain ⟨i1, i2, i3⟩ := ih (e + 1) (len - 1)
          (Function.update I e (stb__integerize_one m (F e))) (by omega) (by omega) (by omega)
        have hm : min len ((8 - e % 8) % 8) = min (len - 1) ((8 - (e + 1) % 8) % 8) + 1 := by
          omega
        refine ⟨by rw [i1, hm]; omega, by rw [i2, hm]; omega, fun j => ?_⟩
        rw [i3 j, hm]
        by_cases hj : j = e
        · subst hj
          rw [if_neg (by omega), Function.update_same, if_pos (by omega)]
        · rw [Function.update_noteq hj]
          by_cases hin : e + 1 ≤ j ∧ j < e + 1 + min (len - 1) ((8 - (e + 1) % 8) % 8)
          · rw [if_pos hin, if_pos (by omega)]
          · rw [if_neg hin, if_neg (by omega)]
    · have ha0 : e % 8 = 0 := not_not.mp ha
      rw [if_neg (fun hc => ha ((align_test e).mp hc))]
      have hm : min len ((8 - e % 8) % 8) = 0 := by omega
      rw [hm]
      refine ⟨rfl, rfl, fun j => ?_⟩
      rw [if_neg (by omega)]

/-- Closed form of an SSE loop: it converts the whole blocks of 16 elements. -/
theorem integerize_sse_spec (F : Nat → ℚ) (e len fuel i : Nat) (I : Nat → Int)
    (hi : i % 16 = 0) (hil : i ≤ len) (hf : (len - i) / 16 < fuel) :
    (integerize_sse F e len fuel i I).1 = 16 * (len / 16)
    ∧ ∀ j, (integerize_sse F e len fuel i I).2 j
        = if e + i ≤ j ∧ j < e + 16 * (len / 16) then sse_convert (F j) else I j := by
  induction fuel generalizing i I with
  | zero => omega
  | succ fuel ih =>
    rw [integerize_sse]
    by_cases h1 : i + 15 < len
    · rw [if_pos h1]
      obtain ⟨a1, a2⟩ := ih (i + 16) (sse_block F (e + i) I) (by omega) (by omega) (by omega)
      refine ⟨a1, fun j => ?_⟩
      rw [a2 j]
      unfold sse_block
      by_cases hin : e + (i + 16) ≤ j ∧ j < e + 16 * (len / 16)
      · rw [if_pos hin, if_pos (by omega)]
      · rw [if_neg hin]
        by_cases hb : e + i ≤ j ∧ j < e + i + 16
        · rw [if_pos hb, if_pos (by omega)]
        · rw [if_neg hb, if_neg (by omega)]
    · rw [if_neg h1]
      refine ⟨by show i = _; omega, fun j => ?_⟩
      rw [if_neg (by omega)]

theorem integerize_loop_apply (m : Bool) (F : Nat → ℚ) (n i : Nat) (I : Nat → Int) (j : Nat) :
    integerize_loop m F n i I j
      = if i ≤ j ∧ j < i + n then stb__integerize_one m (F j) else I j := by
  induction n generalizing i I with
  | zero =>
    have h0 : ¬ (i ≤ j ∧ j < i + 0) := by omega
    rw [integerize_loop, if_neg h0]
  | succ n ih =>
    rw [integerize_loop, ih]
    by_cases h1 : i + 1 ≤ j ∧ j < i + 1 + n
    · have h2 : i ≤ j ∧ j < i + (n + 1) := by omega
      rw [if_pos h1, if_pos h2]
    · rw [if_neg h1]
      by_cases h3 : j = i
      · subst h3
        have h2 : j ≤ j ∧ j < j + (n + 1) := by omega
        rw [if_pos h2, Function.update_same]
      · have h2 : ¬ (i ≤ j ∧ j < i + (n + 1)) := by omega
        rw [if_neg h2, Function.update_noteq h3]

theorem mix_integerize_eta (s : MixLow) (off len : Nat) :
    stb__mix_integerize s off len
      = { s with premix_int := (stb__mix_integerize s off len).premix_int } := by
  unfold stb__mix_integerize
  split_ifs <;> rfl


theorem integerize_head_cases (m : Bool) (F : Nat → ℚ) (fuel e len : Nat) (I : Nat → Int)
    (j : Nat) :
    (integerize_head m F fuel e len I).2.2 j = I j
      ∨ ∃ z, (integerize_head m F fuel e len I).2.2 j = stb__integerize_one m z := by
  induction fuel generalizing e len I with
  | zero => exact Or.inl rfl
  | succ fuel ih =>
    rw [integerize_head]
    have hu : ∀ k, Function.update I e (stb__integerize_one m (F e)) k = I k
        ∨ ∃ z, Function.update I e (stb__integerize_one m (F e)) k = stb__integerize_one m z := by
      intro k
      by_cases hk : k = e
      · subst hk
        exact Or.inr ⟨_, Function.update_same _ _ _⟩
      · exact Or.inl (Function.update_noteq hk _ _)
    split_ifs
    · exact hu j
    · rcases ih (e + 1) (usub len 1) (Function.update I e (stb__integerize_one m (F e)))
        with h | h
      · rw [h]
        exact hu j
      · exact Or.inr h
    · exact Or.inl rfl

theorem integerize_sse_cases (F : Nat → ℚ) (e len fuel i : Nat) (I : Nat → Int) (j : Nat) :
    (integerize_sse F e len fuel i I).2 j = I j
      ∨ ∃ z, (integerize_sse F e len fuel i I).2 j = stb__integerize_one false z := by
  induction fuel generalizing i I with
  | zero => exact Or.inl rfl
  | succ fuel ih =>
    rw [integerize_sse]
    split_ifs
    · rcases ih (i + 16) (sse_block F (e + i) I) with h | h
      · rw [h]
        unfold sse_block
        split_ifs
        · exact Or.inr ⟨_, sse_convert_eq _⟩
        · exact Or.inl rfl
      · exact Or.inr h
    · exact Or.inl rfl

/-- Every element of the 16-bit ring after `stb__mix_integerize` is the element before or a
value of `stb__integerize_one`. -/
theorem mix_integerize_cases (s : MixLow) (off len j : Nat) :
    (stb__mix_integerize s off len).premix_int j = s.premix_int j
      ∨ ∃ m z, (stb__mix_integerize s off len).premix_int j = stb__integerize_one m z := by
  unfold stb__mix_integerize
  by_cases h0 : len = 0
  · rw [if_pos h0]
    exact Or.inl rfl
  rw [if_neg h0]
  dsimp only
  rw [integerize_loop_apply]
  split_ifs with c1 c2 c3 c4
  · exact Or.inr ⟨_, _, rfl⟩
  · rcases integerize_sse_cases s.premix_float _ _ _ 0 _ j with h | ⟨z, h⟩
    · rw [h]
      rcases integerize_head_cases s.msc_ver s.premix_float 8 (off * 2) (umul len 2)
        s.premix_int j with k | ⟨z, k⟩
      · exact Or.inl k
      · exact Or.inr ⟨_, z, k⟩
    · exact Or.inr ⟨_, z, h⟩
  · exact Or.inr ⟨_, _, rfl⟩
  · rcases integerize_sse_cases s.premix_float _ _ _ 0 _ j with h | ⟨z, h⟩
    · rw [h]
      rcases integerize_head_cases s.msc_ver s.premix_float 8 (off * 2) (umul len 2)
        s.premix_int j with k | ⟨z, k⟩
      · exact Or.inl k
      · exact Or.inr ⟨_, z, k⟩
    · exact Or.inr ⟨_, z, h⟩
  · exact Or.inr ⟨_, _, rfl⟩
  · rcases integerize_head_cases s.msc_ver s.premix_float 8 (off * 2) (umul len 2)
      s.premix_int j with k | ⟨z, k⟩
    · exact Or.inl k
    · exact Or.inr ⟨_, z, k⟩
  · exact Or.inr ⟨_, _, rfl⟩
  · rcases integerize_head_cases s.msc_ver s.premix_float 8 (off * 2) (umul len 2)
      s.premix_int j with k | ⟨z, k⟩
    · exact Or.inl k
    · exact Or.inr ⟨_, z, k⟩

/-- Closed form of `stb__mix_integerize`: every element of the span holds the conversion of
the float element, by `fistp` or by truncation as `conv_mode` tells; the rest of the 16-bit
ring is unchanged. -/
theorem mix_integerize_int_apply (s : MixLow) (off len j : Nat) (hl : 2 * len < 4294967296) :
    (stb__mix_integerize s off len).premix_int j
      = if len ≠ 0 ∧ off * 2 ≤ j ∧ j < off * 2 + 2 * len
        then stb__integerize_one (conv_mode s off len j) (s.premix_float j)
        else s.premix_int j := by
  unfold stb__mix_integerize
  by_cases h0 : len = 0
  · rw [if_pos h0, if_neg (by simp [h0])]
  rw [if_neg h0]
  have hum : umul len 2 = 2 * len := by unfold umul; omega
  obtain ⟨a1, a2, a3⟩ := integerize_head_spec s.msc_ver s.premix_float 8 (off * 2) (2 * len)
    s.premix_int (by omega) (by omega) hl
  dsimp only
  rw [hum]
  generalize hhd : integerize_head s.msc_ver s.premix_float 8 (off * 2) (2 * len) s.premix_int
    = hd at a1 a2 a3
  generalize hc : min (2 * len) ((8 - off * 2 % 8) % 8) = c at a1 a2 a3
  have hcl : c ≤ 2 * len := by rw [← hc]; exact min_le_left _ _
  rw [a1, a2]
  by_cases hsse : s.msc_ver = true ∧ (s.has_sse2 ≠ 0 ∨ s.has_sse ≠ 0)
  · obtain ⟨b1, b2⟩ := integerize_sse_spec s.premix_float (off * 2 + c) (2 * len - c)
      ((2 * len - c) / 16 + 1) 0 hd.2.2 (by decide) (Nat.zero_le _) (by omega)
    have hv : (if s.msc_ver = true then
          if s.has_sse2 ≠ 0 then
            integerize_sse s.premix_float (off * 2 + c) (2 * len - c) ((2 * len - c) / 16 + 1)
              0 hd.2.2
          else if s.has_sse ≠ 0 then
            integerize_sse s.premix_float (off * 2 + c) (2 * len - c) ((2 * len - c) / 16 + 1)
              0 hd.2.2
          else (0, hd.2.2)
        else (0, hd.2.2))
        = integerize_sse s.premix_float (off * 2 + c) (2 * len - c) ((2 * len - c) / 16 + 1)
            0 hd.2.2 := by
      rw [if_pos hsse.1]
      rcases hsse.2 with h2 | h2
      · rw [if_pos h2]
      · by_cases h3 : s.has_sse2 ≠ 0
        · rw [if_pos h3]
        · rw [if_neg h3, if_pos h2]
    rw [hv, integerize_loop_apply, b1, b2 j, a3 j]
    have hmode : conv_mode s off len j
        = (s.msc_ver && decide (¬ (off * 2 + c ≤ j
            ∧ j < off * 2 + c + 16 * ((2 * len - c) / 16)))) := by
      unfold conv_mode
      rw [hc]
      congr 1
      apply decide_eq_decide.mpr
      constructor
      · intro h hc2
        exact h ⟨hsse.2, hc2⟩
      · intro h hc2
        exact h hc2.2
    rw [hmode, hsse.1, Bool.true_and]
    have hd16 : 16 * ((2 * len - c) / 16) ≤ 2 * len - c := Nat.mul_div_le _ _
    generalize (2 * len - c) / 16 = q at hd16 ⊢
    by_cases hT : off * 2 + c + 16 * q ≤ j
        ∧ j < off * 2 + c + 16 * q + (2 * len - c - 16 * q)
    · have hP : len ≠ 0 ∧ off * 2 ≤ j ∧ j < off * 2 + 2 * len := ⟨h0, by omega, by omega⟩
      have hD : ¬ (off * 2 + c ≤ j ∧ j < off * 2 + c + 16 * q) := by omega
      rw [if_pos hT, if_pos hP, decide_eq_true hD]
    · rw [if_neg hT]
      by_cases hS : off * 2 + c + 0 ≤ j ∧ j < off * 2 + c + 16 * q
      · have hP : len ≠ 0 ∧ off * 2 ≤ j ∧ j < off * 2 + 2 * len := ⟨h0, by omega, by omega⟩
        have hD : ¬ ¬ (off * 2 + c ≤ j ∧ j < off * 2 + c + 16 * q) := by omega
        rw [if_pos hS, if_pos hP, decide_eq_false hD, sse_convert_eq]
      · rw [if_neg hS]
        by_cases hH : off * 2 ≤ j ∧ j < off * 2 + c
        · have hP : len ≠ 0 ∧ off * 2 ≤ j ∧ j < off * 2 + 2 * len := ⟨h0, by omega, by omega⟩
          have hD : ¬ (off * 2 + c ≤ j ∧ j < off * 2 + c + 16 * q) := by omega
          rw [if_pos hH, if_pos hP, decide_eq_true hD]
        · have hP : ¬ (len ≠ 0 ∧ off * 2 ≤ j ∧ j < off * 2 + 2 * len) := by omega
          rw [if_neg hH, if_neg hP]
  · have hv : (if s.msc_ver = true then
          if s.has_sse2 ≠ 0 then
            integerize_sse s.premix_float (off * 2 + c) (2 * len - c) ((2 * len - c) / 16 + 1)
              0 hd.2.2
          else if s.has_sse ≠ 0 then
            integerize_sse s.premix_float (off * 2 + c) (2 * len - c) ((2 * len - c) / 16 + 1)
              0 hd.2.2
          else (0, hd.2.2)
        else (0, hd.2.2)) = (0, hd.2.2) := by
      by_cases hm : s.msc_ver = true
      · have h2 : ¬ (s.has_sse2 ≠ 0 ∨ s.has_sse ≠ 0) := fun hc2 => hsse ⟨hm, hc2⟩
        rw [if_pos hm, if_neg (fun hc2 => h2 (Or.inl hc2)), if_neg (fun hc2 => h2 (Or.inr hc2))]
      · rw [if_neg hm]
    rw [hv, integerize_loop_apply, a3 j]
    have hmode : conv_mode s off len j = s.msc_ver := by
      unfold conv_mode
      by_cases hm : s.msc_ver = true
      · have h2 : ¬ (s.has_sse2 ≠ 0 ∨ s.has_sse ≠ 0) := fun hc2 => hsse ⟨hm, hc2⟩
        have h3 : ¬ ((s.has_sse2 ≠ 0 ∨ s.has_sse ≠ 0)
            ∧ off * 2 + min (2 * len) ((8 - off * 2 % 8) % 8) ≤ j
            ∧ j < off * 2 + min (2 * len) ((8 - off * 2 % 8) % 8)
                + 16 * ((2 * len - min (2 * len) ((8 - off * 2 % 8) % 8)) / 16)) :=
          fun hc2 => h2 hc2.1
        rw [hm, Bool.true_and, decide_eq_true h3]
      · have hm2 : s.msc_ver = false := by
          cases hmv : s.msc_ver
          · rfl
          · exact absurd hmv hm
        rw [hm2, Bool.false_and]
    rw [hmode]
    dsimp only
    by_cases hT : off * 2 + c + 0 ≤ j ∧ j < off * 2 + c + 0 + (2 * len - c - 0)
    · have hP : len ≠ 0 ∧ off * 2 ≤ j ∧ j < off * 2 + 2 * len := ⟨h0, by omega, by omega⟩
      rw [if_pos hT, if_pos hP]
    · rw [if_neg hT]
      by_cases hH : off * 2 ≤ j ∧ j < off * 2 + c
      · have hP : len ≠ 0 ∧ off * 2 ≤ j ∧ j < off * 2 + 2 * len := ⟨h0, by omega, by omega⟩
        rw [if_pos hH, if_pos hP]
      · have hP : ¬ (len ≠ 0 ∧ off * 2 ≤ j ∧ j < off * 2 + 2 * len) := by omega
        rw [if_neg hH, if_neg hP]


/-! ## Frame lemmas -/

theorem mix_block_eta (s : MixLow) (o t l : Nat) (b : stb__block) :
    stb__mix_block s o t l b
      = { s with premix_float := (stb__mix_block s o t l b).premix_float } := by
  unfold stb__mix_block
  simp only
  split_ifs <;> rfl

theorem mix_blocks_eta (t off len : Nat) (l : List Nat) (s : MixLow) :
    mix_blocks t off len l s
      = { s with premix_float := (mix_blocks t off len l s).premix_float } := by
  induction l generalizing s with
  | nil => rfl
  | cons i rest ih =>
    rw [mix_blocks]
    split_ifs with h
    · rw [ih, mix_block_eta s]
    · exact ih s

theorem mix_eta (s : MixLow) (t off len : Nat) :
    mix s t off len
      = { s with premix_float := (mix s t off len).premix_float,
                 premix_int := (mix s t off len).premix_int } := by
  unfold mix
  simp only
  rw [mix_integerize_eta, mix_blocks_eta]

/-! ## Expiry of blocks -/

/-- Count of a block in the first `n` slots. -/
theorem count_slots_succ (bl : Nat → stb__block) (n : Nat) (a : stb__block) :
    List.count a ((List.range (n + 1)).map bl)
      = List.count a ((List.range n).map bl) + (if bl n = a then 1 else 0) := by
  rw [List.range_succ, List.map_append, List.count_append]
  simp [List.count_singleton]

theorem map_update_of_le (bl : Nat → stb__block) (i n : Nat) (x : stb__block) (h : n ≤ i) :
    (List.range n).map (Function.update bl i x) = (List.range n).map bl := by
  apply List.map_congr_left
  intro j hj
  have : j < n := List.mem_range.mp hj
  exact Function.update_noteq (by omega) _ _

theorem count_slots_update (bl : Nat → stb__block) (i n : Nat) (x a : stb__block) (h : i < n) :
    List.count a ((List.range n).map (Function.update bl i x)) + (if bl i = a then 1 else 0)
      = List.count a ((List.range n).map bl) + (if x = a then 1 else 0) := by
  induction n with
  | zero => omega
  | succ n ih =>
    rw [count_slots_succ, count_slots_succ]
    by_cases hin : i = n
    · subst hin
      rw [map_update_of_le bl i i x (le_refl i), Function.update_same]
      omega
    · have hlt : i < n := by omega
      have := ih hlt
      rw [Function.update_noteq (Ne.symm hin)]
      omega

theorem set_curtime_loop_spec (t : Nat) (fuel i : Nat) (bl : Nat → stb__block) (nb : Nat)
    (hf : nb - i ≤ fuel) (hi : i ≤ nb)
    (hkeep : ∀ j, j < i → t < uadd (bl j).start_time (bl j).duration) :
    (∀ j, j < (set_curtime_loop t fuel i bl nb).2 →
        t < uadd ((set_curtime_loop t fuel i bl nb).1 j).start_time
              ((set_curtime_loop t fuel i bl nb).1 j).duration)
    ∧ ∀ a : stb__block, t < uadd a.start_time a.duration →
        List.count a ((List.range (set_curtime_loop t fuel i bl nb).2).map
            (set_curtime_loop t fuel i bl nb).1)
          = List.count a ((List.range nb).map bl) := by
  induction fuel generalizing i bl nb with
  | zero =>
    have hin : i = nb := by omega
    subst hin
    rw [set_curtime_loop]
    exact ⟨hkeep, fun a _ => rfl⟩
  | succ fuel ih =>
    rw [set_curtime_loop]
    by_cases h1 : i < nb
    · rw [if_pos h1]
      by_cases h2 : uadd (bl i).start_time (bl i).duration ≤ t
      · rw [if_pos h2]
        have hk : ∀ j, j < i → t < uadd ((Function.update bl i (bl (nb - 1))) j).start_time
            ((Function.update bl i (bl (nb - 1))) j).duration := by
          intro j hj
          rw [Function.update_noteq (by omega)]
          exact hkeep j hj
        obtain ⟨r1, r2⟩ := ih i (Function.update bl i (bl (nb - 1))) (nb - 1) (by omega)
          (by omega) hk
        refine ⟨r1, fun a ha => ?_⟩
        rw [r2 a ha]
        have hne : bl i ≠ a := by
          intro he
          rw [he] at h2
          omega
        obtain ⟨m, hm⟩ : ∃ m, nb = m + 1 := ⟨nb - 1, by omega⟩
        subst hm
        rw [Nat.add_sub_cancel, count_slots_succ]
        by_cases him : i = m
        · subst him
          rw [map_update_of_le bl i i _ (le_refl i), if_neg hne]
          rfl
        · have := count_slots_update bl i m (bl m) a (by omega)
          rw [if_neg hne] at this
          omega
      · rw [if_neg h2]
        have hk : ∀ j, j < i + 1 → t < uadd (bl j).start_time (bl j).duration := by
          intro j hj
          by_cases hji : j = i
          · subst hji; omega
          · exact hkeep j (by omega)
        exact ih (i + 1) bl nb (by omega) (by omega) hk
    · rw [if_neg h1]
      have hin : i = nb := by omega
      subst hin
      exact ⟨hkeep, fun a _ => rfl⟩

theorem set_curtime_active (s : MixLow) (t : Nat) (h : s.mix_time ≤ t) :
    active (stb_mixlow_set_curtime s t)
      = (List.range (set_curtime_loop t s.num_blocks 0 s.bl s.num_blocks).2).map
          (set_curtime_loop t s.num_blocks 0 s.bl s.num_blocks).1 := by
  unfold stb_mixlow_set_curtime active
  rw [if_neg (by omega)]
  simp only
  split_ifs <;> rfl

/-- C9. Expiry by `set_curtime`: for every state and every `t` not before the clock, the
active table after `set_curtime(t)` holds, up to order, exactly the blocks that were active
before and end after `t` (`start_time + duration > t`, the sum being the 32-bit sum the
code computes); when no block's end overflows 32 bits the same holds with the exact sum. -/
theorem set_curtime_expires_ended_blocks (s : MixLow) (t : Nat) (h : s.mix_time ≤ t) :
    (active (stb_mixlow_set_curtime s t)).Perm
        ((active s).filter (fun b => decide (t < uadd b.start_time b.duration)))
    ∧ ((∀ b ∈ active s, b.start_time + b.duration < 4294967296) →
        (active (stb_mixlow_set_curtime s t)).Perm
          ((active s).filter (fun b => decide (t < b.start_time + b.duration)))) := by
  have hspec := set_curtime_loop_spec t s.num_blocks 0 s.bl s.num_blocks (by omega) (by omega)
    (by intro j hj; omega)
  have hperm : (active (stb_mixlow_set_curtime s t)).Perm
      ((active s).filter (fun b => decide (t < uadd b.start_time b.duration))) := by
    rw [set_curtime_active s t h, List.perm_iff_count]
    intro a
    by_cases ha : t < uadd a.start_time a.duration
    · rw [List.count_filter (by simpa using ha)]
      exact hspec.2 a ha
    · have h0 : List.count a
          ((active s).filter (fun b => decide (t < uadd b.start_time b.duration))) = 0 := by
        rw [List.count_eq_zero]
        intro hmem
        have := (List.mem_filter.mp hmem).2
        exact ha (by simpa using this)
      rw [h0, List.count_eq_zero]
      intro hmem
      obtain ⟨j, hj, hje⟩ := List.mem_map.mp hmem
      have := hspec.1 j (List.mem_range.mp hj)
      rw [hje] at this
      exact ha this
  refine ⟨hperm, fun hno => ?_⟩
  have hfilt : (active s).filter (fun b => decide (t < b.start_time + b.duration))
      = (active s).filter (fun b => decide (t < uadd b.start_time b.duration)) := by
    apply List.filter_congr
    intro b hb
    have := hno b hb
    unfold uadd
    rw [Nat.mod_eq_of_lt this]
  rw [hfilt]
  exact hperm

/-! ## The extract operation -/

theorem premix_to_eta (s : MixLow) (w : Nat) :
    stb__premix_to s w
      = { s with premix_float := (stb__premix_to s w).premix_float,
                 premix_int := (stb__premix_to s w).premix_int,
                 premix_len := (stb__premix_to s w).premix_len } := by
  unfold stb__premix_to
  simp only
  split_ifs
  · rfl
  · rw [mix_eta, mix_eta s]
  · rw [mix_eta]
  · rfl
  · rw [mix_eta, mix_eta s]
  · rw [mix_eta]
  · rfl

theorem premix_to_len (s : MixLow) (w : Nat) :
    (stb__premix_to s w).premix_len
      = if w < s.mix_time then s.premix_len
        else if uadd s.premix_time s.premix_len
            < (if w > uadd s.mix_time s.premix_size then uadd s.mix_time s.premix_size else w)
        then uadd s.premix_len
          (usub (if w > uadd s.mix_time s.premix_size then uadd s.mix_time s.premix_size else w)
            (uadd s.premix_time s.premix_len))
        else s.premix_len := by
  unfold stb__premix_to
  simp only
  split_ifs
  · rfl
  · rw [mix_eta, mix_eta s]
  · rw [mix_eta]
  · rfl
  · rw [mix_eta, mix_eta s]
  · rw [mix_eta]
  · rfl

theorem premix_to_time (s : MixLow) (w : Nat) :
    (stb__premix_to s w).premix_time = s.premix_time := by rw [premix_to_eta]

theorem premix_to_offset (s : MixLow) (w : Nat) :
    (stb__premix_to s w).premix_offset = s.premix_offset := by rw [premix_to_eta]

theorem premix_to_size (s : MixLow) (w : Nat) :
    (stb__premix_to s w).premix_size = s.premix_size := by rw [premix_to_eta]

theorem premix_to_mix_time (s : MixLow) (w : Nat) :
    (stb__premix_to s w).mix_time = s.mix_time := by rw [premix_to_eta]

theorem mix_ret (s : MixLow) (out : Nat → Int) (a n : Nat) :
    (stb_mixlow_mix s out a n).ret
      = if uadd a n ≤ s.mix_time then 0
        else if a < (stb__premix_to s (uadd a n)).premix_time then 0
        else toInt32
          (if uadd a n > uadd (stb__premix_to s (uadd a n)).premix_time
                (stb__premix_to s (uadd a n)).premix_len
           then usub (uadd (stb__premix_to s (uadd a n)).premix_time
                (stb__premix_to s (uadd a n)).premix_len) a
           else n) := by
  unfold stb_mixlow_mix
  generalize stb__premix_to s (uadd a n) = s1
  dsimp only
  split_ifs <;> rfl

theorem mix_state (s : MixLow) (out : Nat → Int) (a n : Nat) :
    (stb_mixlow_mix s out a n).state
      = if uadd a n ≤ s.mix_time then s else stb__premix_to s (uadd a n) := by
  unfold stb_mixlow_mix
  generalize stb__premix_to s (uadd a n) = s1
  dsimp only
  split_ifs <;> rfl

theorem mix_output (s : MixLow) (out : Nat → Int) (a n : Nat) :
    (stb_mixlow_mix s out a n).output
      = if uadd a n ≤ s.mix_time then out
        else if a < (stb__premix_to s (uadd a n)).premix_time then out
        else mix_copy (stb__premix_to s (uadd a n)) out a n := by
  unfold stb_mixlow_mix mix_copy mix_duration mix_offset
  generalize stb__premix_to s (uadd a n) = s1
  dsimp only
  split_ifs <;> rfl

/-- Frame `j` of the copy made by `stb_mixlow_mix`, when the window fits the ring. -/
theorem mix_copy_apply (s1 : MixLow) (out : Nat → Int) (a n j : Nat)
    (hoff : mix_offset s1 a ≤ s1.premix_size) (hd : mix_duration s1 a n ≤ s1.premix_size)
    (hP : 4 * s1.premix_size < 4294967296) (hj : j < 2 * mix_duration s1 a n) :
    mix_copy s1 out a n j
      = if j < 2 * (s1.premix_size - mix_offset s1 a) then s1.premix_int (mix_offset s1 a * 2 + j)
        else s1.premix_int (j - 2 * (s1.premix_size - mix_offset s1 a)) := by
  unfold mix_copy
  generalize mix_offset s1 a = off at *
  generalize mix_duration s1 a n = d at *
  have hu : usub s1.premix_size off = s1.premix_size - off := by unfold usub; omega
  rw [hu]
  by_cases hc : d > s1.premix_size - off
  · rw [if_pos hc]
    have hu2 : usub d (s1.premix_size - off) = d - (s1.premix_size - off) := by unfold usub; omega
    rw [hu2]
    unfold memcpy16 umul
    by_cases hj1 : j < 2 * (s1.premix_size - off)
    · rw [if_pos hj1]
      by_cases hz : j < (s1.premix_size - off) * 2 
      · have c1 : ¬ ((s1.premix_size - off) * 2 ≤ j ∧ j < (s1.premix_size - off) * 2 + (d - (s1.premix_size - off)) * 4 % 4294967296 / 2) := by omega
        have c2 : (0 ≤ j ∧ j < 0 + (s1.premix_size - off) * 4 % 4294967296 / 2) := by omega
        simp only [if_neg c1, if_pos c2]
        congr 1
      · omega
    · rw [if_neg hj1]
      have c1 : ((s1.premix_size - off) * 2 ≤ j ∧ j < (s1.premix_size - off) * 2 + (d - (s1.premix_size - off)) * 4 % 4294967296 / 2) := by omega
      simp only [if_pos c1]
      congr 1
      omega
  · rw [if_neg hc]
    unfold memcpy16 umul
    have hj1 : j < 2 * (s1.premix_size - off) := by omega
    have c2 : (0 ≤ j ∧ j < 0 + d * 4 % 4294967296 / 2) := by omega
    rw [if_pos hj1]
    simp only [if_pos c2]
    congr 1

/-! ## Re-extraction -/

theorem mix_offset_cases (s1 : MixLow) (a : Nat) (h1 : s1.premix_offset < s1.premix_size)
    (h2 : s1.premix_time ≤ a) (h3 : a - s1.premix_time ≤ s1.premix_size)
    (h4 : a < 4294967296) (hP : 4 * s1.premix_size < 4294967296) :
    mix_offset s1 a ≤ s1.premix_size
      ∧ (mix_offset s1 a = s1.premix_offset + (a - s1.premix_time)
        ∨ mix_offset s1 a + s1.premix_size = s1.premix_offset + (a - s1.premix_time)) := by
  unfold mix_offset uadd usub
  split_ifs <;> omega

theorem mix_duration_unclamped (s1 : MixLow) (a n : Nat) (h1 : a + n < 4294967296)
    (h2 : a + n ≤ s1.premix_time + s1.premix_len)
    (h3 : s1.premix_time + s1.premix_len < 4294967296) :
    mix_duration s1 a n = n := by
  unfold mix_duration uadd usub
  split_ifs <;> omega

theorem ring_short_integerize (s : MixLow) (off len : Nat) (h : RingIsShort s) :
    RingIsShort (stb__mix_integerize s off len) := by
  intro j
  rcases mix_integerize_cases s off len j with k | ⟨m, z, k⟩
  · rw [k]
    exact h j
  · rw [k]
    exact integerize_one_range m z

theorem mix_blocks_int (t off len : Nat) (l : List Nat) (s : MixLow) :
    (mix_blocks t off len l s).premix_int = s.premix_int := by
  rw [mix_blocks_eta]

theorem conv_mode_congr (s s1 : MixLow) (h1 : s1.msc_ver = s.msc_ver)
    (h2 : s1.has_sse2 = s.has_sse2) (h3 : s1.has_sse = s.has_sse) (off len j : Nat) :
    conv_mode s1 off len j = conv_mode s off len j := by
  unfold conv_mode
  rw [h1, h2, h3]

/-- The 16-bit ring after the static function `mix`: the elements of the range hold the
conversion of the float elements. -/
theorem mix_int_apply (s : MixLow) (t off len j : Nat) (hl : 2 * len < 4294967296) :
    (mix s t off len).premix_int j
      = if len ≠ 0 ∧ off * 2 ≤ j ∧ j < off * 2 + 2 * len
        then stb__integerize_one (conv_mode s off len j) ((mix s t off len).premix_float j)
        else s.premix_int j := by
  have hfe : (mix s t off len).premix_float
      = (mix_blocks t off len (List.range s.num_blocks)
        { s with premix_float := zero_loop (toInt32 len * 2).toNat (off * 2) s.premix_float
          }).premix_float := by
    unfold mix
    dsimp only
    rw [mix_integerize_eta]
  rw [hfe]
  unfold mix
  dsimp only
  rw [mix_integerize_int_apply _ _ _ _ hl, mix_blocks_int]
  have hc : conv_mode (mix_blocks t off len (List.range s.num_blocks)
      { s with premix_float := zero_loop (toInt32 len * 2).toNat (off * 2) s.premix_float })
      off len j = conv_mode s off len j := by
    apply conv_mode_congr <;> rw [mix_blocks_eta]
  rw [hc]

theorem ring_short_mix (s : MixLow) (t off len : Nat) (h : RingIsShort s) :
    RingIsShort (mix s t off len) := by
  unfold mix
  apply ring_short_integerize
  intro j
  rw [mix_blocks_int]
  exact h j

theorem ring_short_premix_to (s : MixLow) (w : Nat) (h : RingIsShort s) :
    RingIsShort (stb__premix_to s w) := by
  unfold stb__premix_to
  dsimp only
  split_ifs
  · exact h
  · exact ring_short_mix _ _ _ _ (ring_short_mix _ _ _ _ h)
  · exact ring_short_mix _ _ _ _ h
  · exact h
  · exact ring_short_mix _ _ _ _ (ring_short_mix _ _ _ _ h)
  · exact ring_short_mix _ _ _ _ h
  · exact h

theorem memcpy16_cases (dst : Nat → Int) (d : Nat) (src : Nat → Int) (o nb j : Nat) :
    memcpy16 dst d src o nb j = dst j ∨ ∃ i, memcpy16 dst d src o nb j = src i := by
  unfold memcpy16
  split_ifs
  · exact Or.inr ⟨_, rfl⟩
  · exact Or.inl rfl

theorem mix_copy_cases (s1 : MixLow) (out : Nat → Int) (a n j : Nat) :
    mix_copy s1 out a n j = out j ∨ ∃ i, mix_copy s1 out a n j = s1.premix_int i := by
  unfold mix_copy
  split_ifs
  · rcases memcpy16_cases (memcpy16 out 0 s1.premix_int (mix_offset s1 a * 2)
        (umul (usub s1.premix_size (mix_offset s1 a)) 4))
        (usub s1.premix_size (mix_offset s1 a) * 2) s1.premix_int 0
        (umul (usub (mix_duration s1 a n) (usub s1.premix_size (mix_offset s1 a))) 4) j
      with h | h
    · rw [h]
      exact memcpy16_cases _ _ _ _ _ _
    · exact Or.inr h
  · exact memcpy16_cases _ _ _ _ _ _

/-- C8, failing inputs. The portable branch of `stb__integerize_one` and the elements of
the SSE loops are the truncation toward zero clamped to `[-32768, 32767]` (for values whose
truncation fits an `int`), and every converted sample lies in `[-32768, 32767]`, in the
output of `stb_mixlow_mix` too. But in a build with `_MSC_VER` the scalar code rounds to
nearest: `37.5` becomes 38, not 37. After `init(16)` on a CPU with SSE2 and a playback that
accumulates `37.5` on every tick, `mix(out, 0, 9)` converts 18 elements, 16 of them in an SSE
block and the last two in the scalar loop: frame 2 of the output is 37 and frame 8 is 38.
A value beyond the range of `int`, `2^31`, is converted to `-32768` by every path, not to
`32767`. -/
theorem integerize_rounds_outside_sse_blocks :
    (∀ z : ℚ, -2147483648 ≤ truncQ z ∧ truncQ z < 2147483648 →
        stb__integerize_one false z = max (-32768) (min 32767 (truncQ z))
        ∧ sse_convert z = max (-32768) (min 32767 (truncQ z)))
    ∧ (∀ k : Int, -2147483648 ≤ k → k < 2147483648 →
        (ofInt32 (k + 32768) > 65535 ↔ (k < -32768 ∨ 32767 < k)))
    ∧ (∀ (m : Bool) (z : ℚ), -32768 ≤ stb__integerize_one m z ∧ stb__integerize_one m z ≤ 32767)
    ∧ (∀ (s : MixLow) (out : Nat → Int) (a n j : Nat), RingIsShort s →
        (stb_mixlow_mix s out a n).output j = out j
          ∨ (-32768 ≤ (stb_mixlow_mix s out a n).output j
              ∧ (stb_mixlow_mix s out a n).output j ≤ 32767))
    ∧ truncQ (75 / 2) = 37
    ∧ stb__integerize_one false (75 / 2) = 37
    ∧ stb__integerize_one true (75 / 2) = 38
    ∧ (stb_mixlow_mix (stb_mixlow_add_playback (demo_msvc_init 16) demo_sixteenth_playback)
        demo_out 0 9).state.premix_float (2 * 2) = 75 / 2
    ∧ (stb_mixlow_mix (stb_mixlow_add_playback (demo_msvc_init 16) demo_sixteenth_playback)
        demo_out 0 9).state.premix_float (2 * 8) = 75 / 2
    ∧ (stb_mixlow_mix (stb_mixlow_add_playback (demo_msvc_init 16) demo_sixteenth_playback)
        demo_out 0 9).output (2 * 2) = 37
    ∧ (stb_mixlow_mix (stb_mixlow_add_playback (demo_msvc_init 16) demo_sixteenth_playback)
        demo_out 0 9).output (2 * 8) = 38
    ∧ stb__integerize_one true 2147483648 = -32768
    ∧ stb__integerize_one false 2147483648 = -32768
    ∧ sse_convert 2147483648 = -32768 := by
  refine ⟨fun z hz => ⟨integerize_one_eq z hz, by rw [sse_convert_eq]; exact integerize_one_eq z hz⟩,
    ofInt32_bias_gt, integerize_one_range, ?_, by decide!, by decide!, by decide!, by decide!,
    by decide!, by decide!, by decide!, by decide!, by decide!, by decide!⟩
  intro s out a n j hs
  rw [mix_output]
  split_ifs
  · exact Or.inl rfl
  · exact Or.inl rfl
  · rcases mix_copy_cases (stb__premix_to s (uadd a n)) out a n j with h | ⟨i, h⟩
    · exact Or.inl h
    · right
      rw [h]
      exact ring_short_premix_to s _ hs i

theorem set_curtime_loop_keep (t : Nat) (fuel i : Nat) (bl : Nat → stb__block) (nb : Nat)
    (h : ∀ j, j < nb → t < uadd (bl j).start_time (bl j).duration) :
    set_curtime_loop t fuel i bl nb = (bl, nb) := by
  induction fuel generalizing i with
  | zero => rfl
  | succ fuel ih =>
    rw [set_curtime_loop]
    by_cases h1 : i < nb
    · have := h i h1
      rw [if_pos h1, if_neg (by omega)]
      exact ih (i + 1)
    · rw [if_neg h1]

/-- C10, as amended. For every state and every `t` before the clock, `set_curtime(t)` is
a no-op: the whole state (clock, active table, pre-mix window) is unchanged. At `t` equal to
the clock the call is not skipped: the clock is unchanged, and the call is a no-op when no
active block has already ended and the window does not start before the clock. -/
theorem set_curtime_before_clock_is_noop (s : MixLow) (t : Nat) :
    (t < s.mix_time → stb_mixlow_set_curtime s t = s)
    ∧ (t = s.mix_time →
        (stb_mixlow_set_curtime s t).mix_time = s.mix_time
        ∧ ((∀ j, j < s.num_blocks → t < uadd (s.bl j).start_time (s.bl j).duration) →
            s.mix_time ≤ s.premix_time → stb_mixlow_set_curtime s t = s)) := by
  refine ⟨fun h => ?_, fun h => ⟨?_, fun hb hp => ?_⟩⟩
  · unfold stb_mixlow_set_curtime
    rw [if_pos h]
  · unfold stb_mixlow_set_curtime
    rw [if_neg (by omega)]
    dsimp only
    split_ifs <;> exact h
  · unfold stb_mixlow_set_curtime
    rw [if_neg (by omega), set_curtime_loop_keep t _ _ _ _ hb]
    dsimp only
    rw [if_neg (by omega), h]

/-! ## Worked instances -/

/-- C7, failing input: after `init(4)` (clock 0, capacity 4) the request
`mix(out, 10, 1)`, whose `start_time` lies beyond `curtime + P`, returns `-6`: the clamp
`premix_time + premix_len - start_time` underflows. -/
theorem mix_beyond_capacity_returns_negative :
    (demo_init 4).premix_time = (demo_init 4).mix_time
    ∧ (demo_init 4).mix_time ≤ 10
    ∧ (stb_mixlow_mix (demo_init 4) demo_out 10 1).ret = -6 := by
  decide

/-- C9, instance: with blocks `[0,3)` and `[2,12)` active, `set_curtime(5)` keeps exactly
the second. -/
theorem set_curtime_expires_ended_blocks_witness :
    demo_two.mix_time ≤ 5
    ∧ (active (stb_mixlow_set_curtime demo_two 5)).Perm
        ((active demo_two).filter (fun b => decide (5 < uadd b.start_time b.duration))) :=
  ⟨by decide, (set_curtime_expires_ended_blocks demo_two 5 (by decide)).1⟩

/-- C10, counterexample: in the state reached by `init(8); set_curtime(5);
add_playback(start_time 0, duration 1)` the clock is 5 and one block is active;
`set_curtime(5)` removes it. -/
theorem set_curtime_at_clock_drops_block :
    demo_ended.mix_time = 5 ∧ stb_mixlow_num_active demo_ended = 1
    ∧ stb_mixlow_num_active (stb_mixlow_set_curtime demo_ended 5) = 0 := by
  decide

/-- C10, instance of the amended statement: `set_curtime(3)` at clock 5 changes nothing. -/
theorem set_curtime_before_clock_is_noop_witness :
    stb_mixlow_set_curtime demo_ended 3 = demo_ended :=
  (set_curtime_before_clock_is_noop demo_ended 3).1 (by decide)

/-! ## The kernel loops -/

theorem accum_loop_outside {σ : Type} (val : σ → ℚ × ℚ) (next : σ → σ) (n : Nat)
    (F : Nat → ℚ) (out : Nat) (st : σ) (j : Nat) (h : j < out ∨ out + 2 * n ≤ j) :
    accum_loop val next n F out st j = F j := by
  induction n generalizing F out st with
  | zero => rfl
  | succ n ih =>
    rw [accum_loop, ih _ _ _ (by omega)]
    rw [Function.update_noteq (by omega), Function.update_noteq (by omega)]

theorem accum_loop_left {σ : Type} (val : σ → ℚ × ℚ) (next : σ → σ) (n : Nat)
    (F : Nat → ℚ) (out : Nat) (st : σ) (k : Nat) (h : k < n) :
    accum_loop val next n F out st (out + 2 * k) = F (out + 2 * k) + (val (next^[k] st)).1 := by
  induction n generalizing F out st k with
  | zero => omega
  | succ n ih =>
    rw [accum_loop]
    cases k with
    | zero =>
      rw [accum_loop_outside _ _ _ _ _ _ _ (by omega)]
      rw [Function.update_noteq (by omega)]
      simp
    | succ k =>
      have e : out + 2 * (k + 1) = out + 2 + 2 * k := by ring
      rw [e, ih _ _ _ k (by omega)]
      rw [Function.update_noteq (by omega), Function.update_noteq (by omega)]
      rw [Function.iterate_succ_apply]

theorem accum_loop_right {σ : Type} (val : σ → ℚ × ℚ) (next : σ → σ) (n : Nat)
    (F : Nat → ℚ) (out : Nat) (st : σ) (k : Nat) (h : k < n) :
    accum_loop val next n F out st (out + 2 * k + 1)
      = F (out + 2 * k + 1) + (val (next^[k] st)).2 := by
  induction n generalizing F out st k with
  | zero => omega
  | succ n ih =>
    rw [accum_loop]
    cases k with
    | zero =>
      rw [accum_loop_outside _ _ _ _ _ _ _ (by omega)]
      simp
    | succ k =>
      have e : out + 2 * (k + 1) + 1 = out + 2 + 2 * k + 1 := by ring
      rw [e, ih _ _ _ k (by omega)]
      rw [Function.update_noteq (by omega), Function.update_noteq (by omega)]
      rw [Function.iterate_succ_apply]

/-- Pointwise form of `accum_loop`. -/
theorem accum_loop_apply {σ : Type} (val : σ → ℚ × ℚ) (next : σ → σ) (n : Nat)
    (F : Nat → ℚ) (out : Nat) (st : σ) (j : Nat) :
    accum_loop val next n F out st j
      = F j + (if out ≤ j ∧ j < out + 2 * n then
          (if (j - out) % 2 = 0 then (val (next^[(j - out) / 2] st)).1
           else (val (next^[(j - out) / 2] st)).2) else 0) := by
  by_cases h : out ≤ j ∧ j < out + 2 * n
  · rw [if_pos h]
    by_cases hp : (j - out) % 2 = 0
    · rw [if_pos hp]
      have e : j = out + 2 * ((j - out) / 2) := by omega
      conv_lhs => rw [e]
      rw [accum_loop_left _ _ _ _ _ _ _ (by omega), ← e]
    · rw [if_neg hp]
      have e : j = out + 2 * ((j - out) / 2) + 1 := by omega
      conv_lhs => rw [e]
      rw [accum_loop_right _ _ _ _ _ _ _ (by omega), ← e]
  · rw [if_neg h, add_zero]
    exact accum_loop_outside _ _ _ _ _ _ _ (by omega)

/-- The four kernel loops as instances of `accum_loop`. -/
theorem loop_direct_mono_eq (rd : Int → ℚ) (lstep rstep : ℚ) (n : Nat) (F : Nat → ℚ)
    (out : Nat) (data : Int) (latt ratt : ℚ) :
    loop_direct_mono rd lstep rstep n F out data latt ratt
      = accum_loop (fun st : Int × ℚ × ℚ => (rd st.1 * st.2.1, rd st.1 * st.2.2))
          (fun st => (st.1 + 1, st.2.1 + lstep, st.2.2 + rstep)) n F out (data, latt, ratt) := by
  induction n generalizing F out data latt ratt with
  | zero => rfl
  | succ n ih =>
    rw [loop_direct_mono, accum_loop, ih]
    simp only [Function.update_noteq (Nat.succ_ne_self out)]

theorem loop_direct_stereo_eq (rd : Int → ℚ) (lstep rstep : ℚ) (n : Nat) (F : Nat → ℚ)
    (out : Nat) (data : Int) (latt ratt : ℚ) :
    loop_direct_stereo rd lstep rstep n F out data latt ratt
      = accum_loop (fun st : Int × ℚ × ℚ => (rd st.1 * st.2.1, rd (st.1 + 1) * st.2.2))
          (fun st => (st.1 + 2, st.2.1 + lstep, st.2.2 + rstep)) n F out (data, latt, ratt) := by
  induction n generalizing F out data latt ratt with
  | zero => rfl
  | succ n ih =>
    rw [loop_direct_stereo, accum_loop, ih]
    simp only [Function.update_noteq (Nat.succ_ne_self out)]

/-- The loop state of the resampling loops: `(data, first, latt, ratt)`. -/
theorem loop_resample_mono_eq (rd : Int → ℚ) (lstep rstep step : ℚ) (istep : Int) (n : Nat)
    (F : Nat → ℚ) (out : Nat) (data : Int) (first latt ratt : ℚ) :
    loop_resample_mono rd lstep rstep step istep n F out data first latt ratt
      = accum_loop (fun st : Int × ℚ × ℚ × ℚ =>
            ((rd st.1 + (rd (st.1 + 1) - rd st.1) * st.2.1) * st.2.2.1,
             (rd st.1 + (rd (st.1 + 1) - rd st.1) * st.2.1) * st.2.2.2))
          (fun st => (if st.2.1 + step ≥ 1 then st.1 + (1 + istep) else st.1 + istep,
                      if st.2.1 + step ≥ 1 then st.2.1 + step - 1 else st.2.1 + step,
                      st.2.2.1 + lstep, st.2.2.2 + rstep))
          n F out (data, first, latt, ratt) := by
  induction n generalizing F out data first latt ratt with
  | zero => rfl
  | succ n ih =>
    rw [loop_resample_mono, accum_loop]
    simp only [Function.update_noteq (Nat.succ_ne_self out)]
    split_ifs with h
    · rw [ih]
    · rw [ih]

theorem loop_resample_stereo_eq (rd : Int → ℚ) (lstep rstep step : ℚ) (istep : Int) (n : Nat)
    (F : Nat → ℚ) (out : Nat) (data : Int) (first latt ratt : ℚ) :
    loop_resample_stereo rd lstep rstep step istep n F out data first latt ratt
      = accum_loop (fun st : Int × ℚ × ℚ × ℚ =>
            ((rd st.1 + st.2.1 * (rd (st.1 + 2) - rd st.1)) * st.2.2.1,
             (rd (st.1 + 1) + st.2.1 * (rd (st.1 + 3) - rd (st.1 + 1))) * st.2.2.2))
          (fun st => (if st.2.1 + step ≥ 1 then st.1 + (2 + istep) else st.1 + istep,
                      if st.2.1 + step ≥ 1 then st.2.1 + step - 1 else st.2.1 + step,
                      st.2.2.1 + lstep, st.2.2.2 + rstep))
          n F out (data, first, latt, ratt) := by
  induction n generalizing F out data first latt ratt with
  | zero => rfl
  | succ n ih =>
    rw [loop_resample_stereo, accum_loop]
    simp only [Function.update_noteq (Nat.succ_ne_self out)]
    split_ifs with h
    · rw [ih]
    · rw [ih]


theorem iterate_direct (inc : Int) (lstep rstep : ℚ) (k : Nat) (d : Int) (l r : ℚ) :
    (fun st : Int × ℚ × ℚ => (st.1 + inc, st.2.1 + lstep, st.2.2 + rstep))^[k] (d, l, r)
      = (d + k * inc, l + k * lstep, r + k * rstep) := by
  induction k generalizing d l r with
  | zero => simp
  | succ k ih =>
    rw [Function.iterate_succ_apply, ih]
    simp only [Prod.mk.injEq]
    push_cast
    refine ⟨by ring, by ring, by ring⟩

theorem iterate_resample (c istep : Int) (lstep rstep step : ℚ) (hs0 : 0 ≤ step) (hs1 : step < 1)
    (k : Nat) (d : Int) (f l r : ℚ) (hf0 : 0 ≤ f) (hf1 : f < 1) :
    (fun st : Int × ℚ × ℚ × ℚ =>
        (if st.2.1 + step ≥ 1 then st.1 + (c + istep) else st.1 + istep,
         if st.2.1 + step ≥ 1 then st.2.1 + step - 1 else st.2.1 + step,
         st.2.2.1 + lstep, st.2.2.2 + rstep))^[k] (d, f, l, r)
      = (d + c * ⌊f + k * step⌋ + k * istep, f + k * step - (⌊f + k * step⌋ : ℚ),
         l + k * lstep, r + k * rstep) := by
  induction k with
  | zero =>
    have h0 : ⌊f⌋ = 0 := Int.floor_eq_zero_iff.mpr ⟨hf0, hf1⟩
    simp [h0]
  | succ k ih =>
    rw [Function.iterate_succ_apply', ih]
    have hfl := Int.floor_le (f + k * step)
    have hfu := Int.lt_floor_add_one (f + k * step)
    set m := ⌊f + k * step⌋ with hm
    by_cases hc : f + ↑k * step - ↑m + step ≥ 1
    · have hfloor : ⌊f + ((k + 1 : Nat) : ℚ) * step⌋ = m + 1 := by
        rw [Int.floor_eq_iff]
        push_cast
        constructor <;> linarith
      simp only [hc, if_true, hfloor, Prod.mk.injEq]
      push_cast
      refine ⟨by ring, by ring, by ring, by ring⟩
    · have hfloor : ⌊f + ((k + 1 : Nat) : ℚ) * step⌋ = m := by
        rw [Int.floor_eq_iff]
        push_cast
        push_neg at hc
        constructor <;> linarith
      simp only [hc, if_false, hfloor, Prod.mk.injEq]
      push_cast
      refine ⟨by ring, by ring, by ring, by ring⟩

theorem float_to_int_intCast (n : Int) (h1 : -2147483648 ≤ n) (h2 : n < 2147483648) :
    float_to_int (n : ℚ) = n := by
  unfold float_to_int
  rw [truncQ_intCast, if_pos ⟨h1, h2⟩]

theorem float_to_int_nonneg (q : ℚ) (h0 : 0 ≤ q) (h1 : ⌊q⌋ < 2147483648) :
    float_to_int q = ⌊q⌋ := by
  have hf : 0 ≤ ⌊q⌋ := Int.floor_nonneg.mpr h0
  unfold float_to_int truncQ
  rw [if_pos h0, if_pos ⟨by omega, h1⟩]

theorem floor_split (first step : ℚ) (k : Nat) :
    ⌊first + (k : ℚ) * step⌋
      = ⌊first⌋ + ⌊first - (⌊first⌋ : ℚ) + (k : ℚ) * (step - (⌊step⌋ : ℚ))⌋ + (k : Int) * ⌊step⌋ := by
  have e : first + (k : ℚ) * step
      = (first - (⌊first⌋ : ℚ) + (k : ℚ) * (step - (⌊step⌋ : ℚ)))
        + ((⌊first⌋ + (k : Int) * ⌊step⌋ : Int) : ℚ) := by
    push_cast; ring
  rw [e, Int.floor_add_int]
  ring

theorem mix_kernel_closed (rd : Int → ℚ) (F : Nat → ℚ) (out len : Nat) (b : stb__block)
    (start end_ first : ℚ) (hch : b.channels = 1 ∨ b.channels = 2)
    (hfirst : 0 ≤ first) (hfr : ⌊first⌋ < 2147483648)
    (hstep : -2147483648 ≤ ⌊b.step⌋ ∧ ⌊b.step⌋ < 2147483648) :
    mix_kernel rd F out len b start end_ first
      = ring_add F out 0 len (fun k ch => seg_value rd b first k ch
          * (pan_gain b ch * start
              + (k : ℚ) * (if start = end_ then 0 else pan_gain b ch * ((end_ - start) / (len : ℚ))))) := by
  funext j
  unfold mix_kernel ring_add
  by_cases h0 : start = end_ ∧ start = 0
  · rw [if_pos h0]
    obtain ⟨h1, h2⟩ := h0
    subst h1
    subst h2
    simp
  · rw [if_neg h0]
    have hfl0 : (0 : Int) ≤ ⌊first⌋ := Int.floor_nonneg.mpr hfirst
    have hfi : float_to_int first = ⌊first⌋ := float_to_int_nonneg first hfirst hfr
    have hfi2 : float_to_int ((⌊first⌋ : Int) : ℚ) = ⌊first⌋ :=
      float_to_int_intCast _ (by omega) hfr
    have hst : float_to_int ((⌊b.step⌋ : Int) : ℚ) = ⌊b.step⌋ :=
      float_to_int_intCast _ hstep.1 hstep.2
    have hf0 : 0 ≤ first - (⌊first⌋ : ℚ) := by linarith [Int.floor_le first]
    have hf1 : first - (⌊first⌋ : ℚ) < 1 := by linarith [Int.lt_floor_add_one first]
    have hs0 : 0 ≤ b.step - (⌊b.step⌋ : ℚ) := by linarith [Int.floor_le b.step]
    have hs1 : b.step - (⌊b.step⌋ : ℚ) < 1 := by linarith [Int.lt_floor_add_one b.step]
    dsimp only
    rw [hfi, hfi2, hst]
    by_cases hr : out ≤ j ∧ j < out + 2 * len
    swap
    · rw [if_neg hr]
      by_cases hone : b.step = 1
      · rw [if_pos hone]
        by_cases h2 : b.channels = 2
        · rw [if_pos h2, loop_direct_stereo_eq, accum_loop_apply, if_neg hr]
        · rw [if_neg h2, loop_direct_mono_eq, accum_loop_apply, if_neg hr]
      · rw [if_neg hone]
        by_cases h2 : b.channels = 2
        · rw [if_pos h2, loop_resample_stereo_eq, accum_loop_apply, if_neg hr]
        · rw [if_neg h2, loop_resample_mono_eq, accum_loop_apply, if_neg hr]
    rw [if_pos hr, Nat.zero_add]
    have hpar : (j - out) % 2 = 0 ∨ (j - out) % 2 = 1 := by omega
    generalize hk : (j - out) / 2 = k at *
    have hfs := floor_split first b.step k
    unfold seg_value direct_value interp_value pan_gain
    by_cases hone : b.step = 1
    · rw [if_pos hone, if_pos hone]
      by_cases h2 : b.channels = 2
      · rw [if_pos h2, if_pos h2, loop_direct_stereo_eq, accum_loop_apply, if_pos hr,
          iterate_direct, hk]
        have e0 : ⌊first⌋ * ((b.channels : Nat) : Int) + (k : Int) * 2
            = 2 * (⌊first⌋ + (k : Int)) + ((0 : Nat) : Int) := by rw [h2]; push_cast; ring
        have e1 : ⌊first⌋ * ((b.channels : Nat) : Int) + (k : Int) * 2 + 1
            = 2 * (⌊first⌋ + (k : Int)) + ((1 : Nat) : Int) := by rw [h2]; push_cast; ring
        rcases hpar with hp | hp
        · simp only [hp, ↓reduceIte]
          rw [e0]
        · simp only [hp, one_ne_zero, ↓reduceIte]
          rw [e1]
      · have h1 : b.channels = 1 := by omega
        rw [if_neg h2, if_neg h2, loop_direct_mono_eq, accum_loop_apply, if_pos hr,
          iterate_direct, hk]
        have e0 : ⌊first⌋ * ((b.channels : Nat) : Int) + (k : Int) * 1
            = ⌊first⌋ + (k : Int) := by rw [h1]; push_cast; ring
        rcases hpar with hp | hp
        · simp only [hp, ↓reduceIte]
          rw [e0]
        · simp only [hp, one_ne_zero, ↓reduceIte]
          rw [e0]
    · rw [if_neg hone, if_neg hone]
      by_cases h2 : b.channels = 2
      · rw [if_pos h2, if_pos h2, loop_resample_stereo_eq, accum_loop_apply, if_pos hr,
          iterate_resample 2 _ _ _ _ hs0 hs1 _ _ _ _ _ hf0 hf1, hk]
        have hidx : ⌊first⌋ * ((b.channels : Nat) : Int)
            + 2 * ⌊first - (⌊first⌋ : ℚ) + (k : ℚ) * (b.step - (⌊b.step⌋ : ℚ))⌋
            + (k : Int) * (⌊b.step⌋ * 2)
            = 2 * ⌊first + (k : ℚ) * b.step⌋ := by
          rw [hfs, h2]; push_cast; ring
        have hfrac : first - (⌊first⌋ : ℚ) + (k : ℚ) * (b.step - (⌊b.step⌋ : ℚ))
            - ((⌊first - (⌊first⌋ : ℚ) + (k : ℚ) * (b.step - (⌊b.step⌋ : ℚ))⌋ : Int) : ℚ)
            = first + (k : ℚ) * b.step - ((⌊first + (k : ℚ) * b.step⌋ : Int) : ℚ) := by
          rw [hfs]; push_cast; ring
        rcases hpar with hp | hp
        · simp only [hp, ↓reduceIte]
          rw [hidx, hfrac]
          simp only [Nat.cast_zero, add_zero]
        · simp only [hp, one_ne_zero, ↓reduceIte]
          rw [hidx, hfrac]
          have a1 : 2 * ⌊first + (k : ℚ) * b.step⌋ + 3
              = 2 * ⌊first + (k : ℚ) * b.step⌋ + 2 + ((1 : Nat) : Int) := by push_cast; ring
          have a2 : 2 * ⌊first + (k : ℚ) * b.step⌋ + 1
              = 2 * ⌊first + (k : ℚ) * b.step⌋ + ((1 : Nat) : Int) := by push_cast; ring
          rw [a1, a2]
      · have h1 : b.channels = 1 := by omega
        rw [if_neg h2, if_neg h2, loop_resample_mono_eq, accum_loop_apply, if_pos hr,
          iterate_resample 1 _ _ _ _ hs0 hs1 _ _ _ _ _ hf0 hf1, hk]
        have hidx : ⌊first⌋ * ((b.channels : Nat) : Int)
            + 1 * ⌊first - (⌊first⌋ : ℚ) + (k : ℚ) * (b.step - (⌊b.step⌋ : ℚ))⌋
            + (k : Int) * ⌊b.step⌋
            = ⌊first + (k : ℚ) * b.step⌋ := by
          rw [hfs, h1]; push_cast; ring
        have hfrac : first - (⌊first⌋ : ℚ) + (k : ℚ) * (b.step - (⌊b.step⌋ : ℚ))
            - ((⌊first - (⌊first⌋ : ℚ) + (k : ℚ) * (b.step - (⌊b.step⌋ : ℚ))⌋ : Int) : ℚ)
            = first + (k : ℚ) * b.step - ((⌊first + (k : ℚ) * b.step⌋ : Int) : ℚ) := by
          rw [hfs]; push_cast; ring
        rcases hpar with hp | hp
        · simp only [hp, ↓reduceIte]
          rw [hidx, hfrac]
        · simp only [hp, one_ne_zero, ↓reduceIte]
          rw [hidx, hfrac]

/-! ## Blocks without fades -/

theorem ring_add_zero_len (F : Nat → ℚ) (o t : Nat) (c : Nat → Nat → ℚ) :
    ring_add F o t 0 c = F := by
  funext j
  unfold ring_add
  rw [if_neg (by omega), add_zero]

theorem ring_add_append (F : Nat → ℚ) (o t l1 l2 : Nat) (c : Nat → Nat → ℚ) :
    ring_add (ring_add F o t l1 c) (o + 2 * l1) (t + l1) l2 c = ring_add F o t (l1 + l2) c := by
  funext j
  unfold ring_add
  by_cases h1 : o ≤ j ∧ j < o + 2 * l1
  · rw [if_pos h1, if_neg (by omega), if_pos (by omega), add_zero]
  · rw [if_neg h1, add_zero]
    by_cases h2 : o + 2 * l1 ≤ j ∧ j < o + 2 * l1 + 2 * l2
    · rw [if_pos h2, if_pos (by omega)]
      have e1 : t + l1 + (j - (o + 2 * l1)) / 2 = t + (j - o) / 2 := by omega
      have e2 : (j - (o + 2 * l1)) % 2 = (j - o) % 2 := by omega
      rw [e1, e2]
    · rw [if_neg h2, if_neg (by omega)]

theorem ring_add_congr (F : Nat → ℚ) (o t len : Nat) (c c' : Nat → Nat → ℚ)
    (h : ∀ u ch, t ≤ u → u < t + len → ch < 2 → c u ch = c' u ch) :
    ring_add F o t len c = ring_add F o t len c' := by
  funext j
  unfold ring_add
  by_cases h1 : o ≤ j ∧ j < o + 2 * len
  · rw [if_pos h1, if_pos h1, h _ _ (by omega) (by omega) (by omega)]
  · rw [if_neg h1, if_neg h1]

theorem ring_add_shift (F : Nat → ℚ) (o t len : Nat) (c : Nat → Nat → ℚ) :
    ring_add F o 0 len (fun k ch => c (t + k) ch) = ring_add F o t len c := by
  funext j
  unfold ring_add
  simp only [Nat.zero_add]

/-- Restriction of `ring_add` to the part of the range where the added value is not
known to vanish. -/
theorem ring_add_restrict (F : Nat → ℚ) (o t len t1 l1 : Nat) (c : Nat → Nat → ℚ)
    (h1 : t ≤ t1) (h2 : t1 + l1 ≤ t + len)
    (hz : ∀ u ch, t ≤ u → u < t + len → (u < t1 ∨ t1 + l1 ≤ u) → c u ch = 0) :
    ring_add F (o + 2 * (t1 - t)) t1 l1 c = ring_add F o t len c := by
  funext j
  unfold ring_add
  by_cases ha : o + 2 * (t1 - t) ≤ j ∧ j < o + 2 * (t1 - t) + 2 * l1
  · rw [if_pos ha, if_pos (by omega)]
    have e1 : t1 + (j - (o + 2 * (t1 - t))) / 2 = t + (j - o) / 2 := by omega
    have e2 : (j - (o + 2 * (t1 - t))) % 2 = (j - o) % 2 := by omega
    rw [e1, e2]
  · rw [if_neg ha]
    by_cases hb : o ≤ j ∧ j < o + 2 * len
    · rw [if_pos hb, hz _ _ (by omega) (by omega) (by omega)]
    · rw [if_neg hb]

theorem seg_value_shift (rd : Int → ℚ) (b : stb__block) (m k ch : Nat) :
    seg_value rd b (b.first + (m : ℚ) * b.step) k ch = seg_value rd b b.first (m + k) ch := by
  unfold seg_value
  by_cases h1 : b.step = 1
  · rw [if_pos h1, if_pos h1, h1, mul_one, Int.floor_add_nat]
    congr 1
    push_cast
    ring
  · rw [if_neg h1, if_neg h1]
    congr 1
    push_cast
    ring

theorem compute_fade_one (b : stb__block) (t : Nat) (hf : FadeFree b)
    (h1 : b.start_time ≤ t) (h2 : t ≤ b.start_time + b.duration)
    (h3 : b.start_time + b.duration < 4294967296) :
    stb__compute_fade b t = 1 := by
  obtain ⟨hf1, hf2⟩ := hf
  unfold stb__compute_fade uadd
  rw [if_neg (by omega), if_neg (by omega)]

theorem mix_block_base_eq (s : MixLow) (F : Nat → ℚ) (o ts len : Nat) (b : stb__block)
    (st en first : ℚ) :
    stb__mix_block_base s F o ts len b st en first
      = mix_kernel (block_rd s b) F o len b (st * block_scale b) (en * block_scale b) first := by
  unfold stb__mix_block_base block_rd block_scale stb__mix_block_short stb__mix_block_float
  split_ifs <;> simp only [mul_one]

/-- Position bound used by the kernels: every source position inside the block's life
has a floor below `2^31`. -/
theorem good_floor_lt (b : stb__block) (hb : GoodBlock b) (m : Nat) (hm : m ≤ b.duration) :
    0 ≤ b.first + (m : ℚ) * b.step ∧ ⌊b.first + (m : ℚ) * b.step⌋ < 2147483648 := by
  obtain ⟨_, h0, hs, hd, _, hn⟩ := hb
  have hmq : (m : ℚ) ≤ (b.duration : ℚ) := by exact_mod_cast hm
  have hm0 : (0 : ℚ) ≤ (m : ℚ) := Nat.cast_nonneg m
  constructor
  · have := mul_nonneg hm0 hs.le
    linarith
  · unfold frames_needed at hn
    by_cases h1 : b.step = 1
    · rw [if_pos h1] at hn
      rw [h1, mul_one, Int.floor_add_nat]
      have : (m : Int) ≤ (b.duration : Int) := by exact_mod_cast hm
      omega
    · rw [if_neg h1] at hn
      have hle : b.first + (m : ℚ) * b.step ≤ b.first + (b.duration : ℚ) * b.step + 1 := by
        have := mul_le_mul_of_nonneg_right hmq hs.le
        linarith
      have h2 : ⌊b.first + (m : ℚ) * b.step⌋ ≤ ⌈b.first + (b.duration : ℚ) * b.step + 1⌉ :=
        le_trans (Int.floor_le_floor hle) (Int.floor_le_ceil _)
      omega

theorem good_step_floor (b : stb__block) (hb : GoodBlock b) :
    -2147483648 ≤ ⌊b.step⌋ ∧ ⌊b.step⌋ < 2147483648 := by
  have h := good_floor_lt b hb 1 (by obtain ⟨_, _, _, hd, _⟩ := hb; omega)
  obtain ⟨_, h0, hs, hd, _, hn⟩ := hb
  have hs0 : 0 ≤ ⌊b.step⌋ := Int.floor_nonneg.mpr hs.le
  have hle : b.step ≤ b.first + ((1 : Nat) : ℚ) * b.step := by
    push_cast; linarith
  have := Int.floor_le_floor hle
  omega

/-- One kernel call over `len` ticks from `ts` inside the life of a block without
fades adds the block's contribution. -/
theorem mix_block_base_closed (s : MixLow) (F : Nat → ℚ) (o ts len : Nat) (b : stb__block)
    (hb : GoodBlock b) (h1 : b.start_time ≤ ts) (h2 : ts + len ≤ b.start_time + b.duration) :
    stb__mix_block_base s F o ts len b (1 * (b.vol * s.global_volume))
        (1 * (b.vol * s.global_volume))
        (b.first + ((ts - b.start_time : Nat) : ℚ) * b.step)
      = ring_add F o ts len (block_contrib s b) := by
  have hpos := good_floor_lt b hb (ts - b.start_time) (by omega)
  rw [mix_block_base_eq, mix_kernel_closed _ _ _ _ _ _ _ _ hb.1 hpos.1 hpos.2 (good_step_floor b hb)]
  rw [← ring_add_shift F o ts len (block_contrib s b)]
  apply ring_add_congr
  intro k ch hk1 hk2 hch
  rw [if_pos rfl, mul_zero, add_zero, seg_value_shift]
  unfold block_contrib block_value
  rw [if_pos (by omega)]
  have e : ts - b.start_time + k = ts + k - b.start_time := by omega
  rw [e]
  ring

/-- The envelope loop of `stb__mix_block` on a block without fades: with enough
iterations allowed it stops at the last multiple of 441 ticks below the limit, having
added the block's contribution for every tick it passed. -/
theorem mix_block_loop_closed (s : MixLow) (b : stb__block) (limit : Nat)
    (hb : GoodBlock b) (hf : FadeFree b) (hl1 : limit ≤ b.start_time + b.duration)
    (hl2 : limit + 441 < 4294967296) (fuel : Nat) (st : SegState)
    (h1 : b.start_time ≤ st.tstart) (h2 : st.tstart ≤ limit) (h3 : st.tend = st.tstart + 441)
    (h4 : st.first = b.first + ((st.tstart - b.start_time : Nat) : ℚ) * b.step)
    (h5 : st.vstart = 1 * (b.vol * s.global_volume))
    (hfuel : (limit - st.tstart) / 441 < fuel) :
    (mix_block_loop s b (b.vol * s.global_volume) limit fuel st).tstart ≤ limit
    ∧ limit < (mix_block_loop s b (b.vol * s.global_volume) limit fuel st).tstart + 441
    ∧ st.tstart ≤ (mix_block_loop s b (b.vol * s.global_volume) limit fuel st).tstart
    ∧ (mix_block_loop s b (b.vol * s.global_volume) limit fuel st).output
        = st.output + 2 * ((mix_block_loop s b (b.vol * s.global_volume) limit fuel st).tstart
            - st.tstart)
    ∧ (mix_block_loop s b (b.vol * s.global_volume) limit fuel st).first
        = b.first + (((mix_block_loop s b (b.vol * s.global_volume) limit fuel st).tstart
            - b.start_time : Nat) : ℚ) * b.step
    ∧ (mix_block_loop s b (b.vol * s.global_volume) limit fuel st).vstart
        = 1 * (b.vol * s.global_volume)
    ∧ (mix_block_loop s b (b.vol * s.global_volume) limit fuel st).F
        = ring_add st.F st.output st.tstart
            ((mix_block_loop s b (b.vol * s.global_volume) limit fuel st).tstart - st.tstart)
            (block_contrib s b) := by
  induction fuel generalizing st with
  | zero => omega
  | succ fuel ih =>
    rw [mix_block_loop]
    by_cases hc : st.tend ≤ limit
    · rw [if_pos hc]
      have hfade : stb__compute_fade b st.tend = 1 :=
        compute_fade_one b st.tend hf (by omega) (by omega) hb.2.2.2.2.1
      have hsub : usub st.tend st.tstart = 441 := by unfold usub; omega
      have hadd : uadd st.tend ENVELOPE_SAMPLE_TIME = st.tend + 441 := by
        unfold uadd ENVELOPE_SAMPLE_TIME; omega
      have hbase := mix_block_base_closed s st.F st.output st.tstart 441 b hb h1 (by omega)
      dsimp only
      rw [hfade, hsub, h5, h4, hbase, hadd]
      have hE : ENVELOPE_SAMPLE_TIME = 441 := rfl
      have key := ih
        { F := ring_add st.F st.output st.tstart 441 (block_contrib s b),
          output := st.output + ENVELOPE_SAMPLE_TIME * 2,
          first := b.first + ((st.tstart - b.start_time : Nat) : ℚ) * b.step
            + (ENVELOPE_SAMPLE_TIME : ℚ) * b.step,
          vstart := 1 * (b.vol * s.global_volume), tstart := st.tend, tend := st.tend + 441 }
        (by show b.start_time ≤ st.tend; omega) (by show st.tend ≤ limit; omega) rfl
        (by
          show b.first + ((st.tstart - b.start_time : Nat) : ℚ) * b.step
              + (ENVELOPE_SAMPLE_TIME : ℚ) * b.step
            = b.first + ((st.tend - b.start_time : Nat) : ℚ) * b.step
          have e : st.tend - b.start_time = (st.tstart - b.start_time) + 441 := by omega
          rw [e, hE]
          push_cast
          ring)
        rfl
        (by show (limit - st.tend) / 441 < fuel; omega)
      generalize mix_block_loop s b (b.vol * s.global_volume) limit fuel
        { F := ring_add st.F st.output st.tstart 441 (block_contrib s b),
          output := st.output + ENVELOPE_SAMPLE_TIME * 2,
          first := b.first + ((st.tstart - b.start_time : Nat) : ℚ) * b.step
            + (ENVELOPE_SAMPLE_TIME : ℚ) * b.step,
          vstart := 1 * (b.vol * s.global_volume), tstart := st.tend, tend := st.tend + 441 }
        = R at key ⊢
      obtain ⟨r1, r2, r3, r4, r5, r6, r7⟩ := key
      dsimp only at r1 r2 r3 r4 r5 r6 r7
      refine ⟨r1, r2, by omega, by omega, r5, r6, ?_⟩
      rw [r7]
      have hap := ring_add_append st.F st.output st.tstart 441 (R.tstart - st.tend)
        (block_contrib s b)
      have e1 : st.output + ENVELOPE_SAMPLE_TIME * 2 = st.output + 2 * 441 := by omega
      have e3 : 441 + (R.tstart - st.tend) = R.tstart - st.tstart := by omega
      rw [h3] at hap e3
      rw [e1, h3, hap, e3]
    · rw [if_neg hc]
      refine ⟨h2, by omega, le_refl _, by omega, ?_, h5, ?_⟩
      · exact h4
      · rw [Nat.sub_self, ring_add_zero_len]

theorem block_contrib_dead (s : MixLow) (b : stb__block) (u ch : Nat)
    (h : u < b.start_time ∨ b.start_time + b.duration ≤ u) : block_contrib s b u ch = 0 := by
  unfold block_contrib
  rw [if_neg (by omega)]

/-- The trimmed form of `stb__mix_block`: what the function does once the range has
been cut to `[t1, t1 + l2)`, the part of the request inside the block's life. -/
theorem mix_block_trimmed (s : MixLow) (b : stb__block) (o1 t1 l2 : Nat)
    (hb : GoodBlock b) (hf : FadeFree b) (h1 : b.start_time ≤ t1)
    (h2 : t1 + l2 ≤ b.start_time + b.duration) (h3 : t1 + l2 + 441 < 4294967296) :
    (if (mix_block_loop s b (b.vol * s.global_volume) (t1 + l2) (l2 / ENVELOPE_SAMPLE_TIME + 1)
          { F := s.premix_float, output := o1,
            first := b.first + ((t1 - b.start_time : Nat) : ℚ) * b.step,
            vstart := stb__compute_fade b t1 * (b.vol * s.global_volume),
            tstart := t1, tend := t1 + 441 }).tstart ≠ t1 + l2 then
        stb__mix_block_base s
          (mix_block_loop s b (b.vol * s.global_volume) (t1 + l2) (l2 / ENVELOPE_SAMPLE_TIME + 1)
            { F := s.premix_float, output := o1,
              first := b.first + ((t1 - b.start_time : Nat) : ℚ) * b.step,
              vstart := stb__compute_fade b t1 * (b.vol * s.global_volume),
              tstart := t1, tend := t1 + 441 }).F
          (mix_block_loop s b (b.vol * s.global_volume) (t1 + l2) (l2 / ENVELOPE_SAMPLE_TIME + 1)
            { F := s.premix_float, output := o1,
              first := b.first + ((t1 - b.start_time : Nat) : ℚ) * b.step,
              vstart := stb__compute_fade b t1 * (b.vol * s.global_volume),
              tstart := t1, tend := t1 + 441 }).output
          (mix_block_loop s b (b.vol * s.global_volume) (t1 + l2) (l2 / ENVELOPE_SAMPLE_TIME + 1)
            { F := s.premix_float, output := o1,
              first := b.first + ((t1 - b.start_time : Nat) : ℚ) * b.step,
              vstart := stb__compute_fade b t1 * (b.vol * s.global_volume),
              tstart := t1, tend := t1 + 441 }).tstart
          (usub (t1 + l2)
            (mix_block_loop s b (b.vol * s.global_volume) (t1 + l2) (l2 / ENVELOPE_SAMPLE_TIME + 1)
              { F := s.premix_float, output := o1,
                first := b.first + ((t1 - b.start_time : Nat) : ℚ) * b.step,
                vstart := stb__compute_fade b t1 * (b.vol * s.global_volume),
                tstart := t1, tend := t1 + 441 }).tstart)
          b
          (mix_block_loop s b (b.vol * s.global_volume) (t1 + l2) (l2 / ENVELOPE_SAMPLE_TIME + 1)
            { F := s.premix_float, output := o1,
              first := b.first + ((t1 - b.start_time : Nat) : ℚ) * b.step,
              vstart := stb__compute_fade b t1 * (b.vol * s.global_volume),
              tstart := t1, tend := t1 + 441 }).vstart
          (stb__compute_fade b (t1 + l2) * (b.vol * s.global_volume))
          (mix_block_loop s b (b.vol * s.global_volume) (t1 + l2) (l2 / ENVELOPE_SAMPLE_TIME + 1)
            { F := s.premix_float, output := o1,
              first := b.first + ((t1 - b.start_time : Nat) : ℚ) * b.step,
              vstart := stb__compute_fade b t1 * (b.vol * s.global_volume),
              tstart := t1, tend := t1 + 441 }).first
      else
        (mix_block_loop s b (b.vol * s.global_volume) (t1 + l2) (l2 / ENVELOPE_SAMPLE_TIME + 1)
          { F := s.premix_float, output := o1,
            first := b.first + ((t1 - b.start_time : Nat) : ℚ) * b.step,
            vstart := stb__compute_fade b t1 * (b.vol * s.global_volume),
            tstart := t1, tend := t1 + 441 }).F)
      = ring_add s.premix_float o1 t1 l2 (block_contrib s b) := by
  have hE : ENVELOPE_SAMPLE_TIME = 441 := rfl
  have hfade1 : stb__compute_fade b t1 = 1 :=
    compute_fade_one b t1 hf h1 (by omega) hb.2.2.2.2.1
  have hfade2 : stb__compute_fade b (t1 + l2) = 1 :=
    compute_fade_one b (t1 + l2) hf (by omega) h2 hb.2.2.2.2.1
  have key := mix_block_loop_closed s b (t1 + l2) hb hf h2 h3 (l2 / ENVELOPE_SAMPLE_TIME + 1)
    { F := s.premix_float, output := o1,
      first := b.first + ((t1 - b.start_time : Nat) : ℚ) * b.step,
      vstart := stb__compute_fade b t1 * (b.vol * s.global_volume),
      tstart := t1, tend := t1 + 441 }
    h1 (by show t1 ≤ t1 + l2; omega) rfl rfl
    (by show stb__compute_fade b t1 * (b.vol * s.global_volume) = _; rw [hfade1])
    (by show (t1 + l2 - t1) / 441 < l2 / ENVELOPE_SAMPLE_TIME + 1; rw [hE]; omega)
  generalize mix_block_loop s b (b.vol * s.global_volume) (t1 + l2) (l2 / ENVELOPE_SAMPLE_TIME + 1)
    { F := s.premix_float, output := o1,
      first := b.first + ((t1 - b.start_time : Nat) : ℚ) * b.step,
      vstart := stb__compute_fade b t1 * (b.vol * s.global_volume),
      tstart := t1, tend := t1 + 441 } = R at key ⊢
  obtain ⟨r1, r2, r3, r4, r5, r6, r7⟩ := key
  dsimp only at r1 r2 r3 r4 r5 r6 r7
  by_cases hne : R.tstart ≠ t1 + l2
  · rw [if_pos hne]
    have hsub : usub (t1 + l2) R.tstart = t1 + l2 - R.tstart := by unfold usub; omega
    have hbase := mix_block_base_closed s R.F R.output R.tstart (t1 + l2 - R.tstart) b hb
      (by omega) (by omega)
    rw [hsub, r6, r5, hfade2, hbase, r7, r4]
    have hap := ring_add_append s.premix_float o1 t1 (R.tstart - t1) (t1 + l2 - R.tstart)
      (block_contrib s b)
    have e1 : t1 + (R.tstart - t1) = R.tstart := by omega
    have e2 : R.tstart - t1 + (t1 + l2 - R.tstart) = l2 := by omega
    rw [e1, e2] at hap
    exact hap
  · rw [if_neg hne]
    push_neg at hne
    have e : t1 + l2 - t1 = l2 := by omega
    rw [r7, hne, e]

/-- Closed form of `stb__mix_block` for a block without fades: the contribution of
the block is added to every frame of the requested range, nothing else changes. -/
theorem mix_block_closed (s : MixLow) (output t len : Nat) (b : stb__block)
    (hb : GoodBlock b) (hf : FadeFree b) (hc1 : b.start_time < t + len)
    (hc2 : t ≤ b.start_time + b.duration) (hr : t + len + 441 < 4294967296)
    (hl : 2 * len < 4294967296) :
    (stb__mix_block s output t len b).premix_float
      = ring_add s.premix_float output t len (block_contrib s b) := by
  have hE : ENVELOPE_SAMPLE_TIME = 441 := rfl
  have hend : b.start_time + b.duration < 4294967296 := hb.2.2.2.2.1
  unfold stb__mix_block
  dsimp only
  by_cases hA : b.start_time > t
  · -- the block starts inside the range
    simp only [if_pos hA]
    have hskip : usub b.start_time t = b.start_time - t := by unfold usub; omega
    have hlen1 : usub len (b.start_time - t) = len - (b.start_time - t) := by unfold usub; omega
    have hmul : umul (b.start_time - t) 2 = 2 * (b.start_time - t) := by unfold umul; omega
    have hz : usub b.start_time b.start_time = b.start_time - b.start_time := by
      unfold usub; omega
    have he : uadd b.start_time b.duration = b.start_time + b.duration := by unfold uadd; omega
    have hs : uadd b.start_time (len - (b.start_time - t))
        = b.start_time + (len - (b.start_time - t)) := by unfold uadd; omega
    rw [hskip, hlen1, hmul, hz, he, hs]
    by_cases hB : b.start_time + b.duration < b.start_time + (len - (b.start_time - t))
    · simp only [if_pos hB]
      have hd : usub (b.start_time + b.duration) b.start_time = b.duration := by unfold usub; omega
      have htd : uadd b.start_time b.duration = b.start_time + b.duration := he
      have hte : uadd b.start_time ENVELOPE_SAMPLE_TIME = b.start_time + 441 := by
        unfold uadd; rw [hE]; omega
      rw [hd, htd, hte]
      split_ifs with hq
      all_goals
        dsimp only
        have := mix_block_trimmed s b (output + 2 * (b.start_time - t)) b.start_time b.duration
          hb hf (le_refl _) (le_refl _) (by omega)
        first
        | rw [if_pos hq] at this
        | rw [if_neg hq] at this
        rw [this]
        exact ring_add_restrict _ _ _ _ _ _ _ (by omega) (by omega)
          (fun u ch h1 h2 h3 => block_contrib_dead s b u ch (by omega))
    · simp only [if_neg hB]
      have hte : uadd b.start_time ENVELOPE_SAMPLE_TIME = b.start_time + 441 := by
        unfold uadd; rw [hE]; omega
      rw [hs, hte]
      split_ifs with hq
      all_goals
        dsimp only
        have := mix_block_trimmed s b (output + 2 * (b.start_time - t)) b.start_time
          (len - (b.start_time - t)) hb hf (le_refl _) (by omega) (by omega)
        first
        | rw [if_pos hq] at this
        | rw [if_neg hq] at this
        rw [this]
        exact ring_add_restrict _ _ _ _ _ _ _ (by omega) (by omega)
          (fun u ch h1 h2 h3 => block_contrib_dead s b u ch (by omega))
  · simp only [if_neg hA]
    have hz : usub t b.start_time = t - b.start_time := by unfold usub; omega
    have he : uadd b.start_time b.duration = b.start_time + b.duration := by unfold uadd; omega
    have hs : uadd t len = t + len := by unfold uadd; omega
    have hte : uadd t ENVELOPE_SAMPLE_TIME = t + 441 := by unfold uadd; rw [hE]; omega
    rw [hz, he, hs, hte]
    by_cases hB : b.start_time + b.duration < t + len
    · simp only [if_pos hB]
      have hd : usub (b.start_time + b.duration) t = b.start_time + b.duration - t := by
        unfold usub; omega
      have htd : uadd t (b.start_time + b.duration - t) = t + (b.start_time + b.duration - t) := by
        unfold uadd; omega
      rw [hd, htd]
      split_ifs with hq
      all_goals
        dsimp only
        have := mix_block_trimmed s b output t (b.start_time + b.duration - t)
          hb hf (by omega) (by omega) (by omega)
        first
        | rw [if_pos hq] at this
        | rw [if_neg hq] at this
        rw [this]
        have hr := ring_add_restrict s.premix_float output t len t
          (b.start_time + b.duration - t) (block_contrib s b) (le_refl _) (by omega)
          (fun u ch h1 h2 h3 => block_contrib_dead s b u ch (by omega))
        rw [Nat.sub_self, Nat.mul_zero, Nat.add_zero] at hr
        exact hr
    · simp only [if_neg hB]
      rw [hs]
      split_ifs with hq
      all_goals
        dsimp only
        have := mix_block_trimmed s b output t len hb hf (by omega) (by omega) (by omega)
        first
        | rw [if_pos hq] at this
        | rw [if_neg hq] at this
        rw [this]

/-! ## Scheduling -/

theorem toUChar_small (k : Int) (h0 : 0 ≤ k) (h1 : k < 256) : toUChar k = k.toNat := by
  unfold toUChar
  rw [Int.emod_eq_of_lt h0 h1]

theorem good_new_block (a : Playback) (h : GoodPlayback a) : GoodBlock (new_block a) := by
  obtain ⟨_, hch, hf, hs, hd, he, hn, hl⟩ := h
  refine ⟨?_, hf, hs, hd, he, by omega⟩
  show toUChar a.channels = 1 ∨ toUChar a.channels = 2
  rcases hch with h | h <;> rw [h] <;> [left; right] <;> rfl

theorem num_samples_eq (b : stb__block) (hb : GoodBlock b) :
    (if b.step = 1 then toInt32 (ofInt32 (float_to_int b.first) + b.duration)
      else float_to_int ((⌈b.first + (b.duration : ℚ) * b.step + 1⌉ : Int) : ℚ))
      = frames_needed b := by
  obtain ⟨_, h0, hs, hd, he, hn⟩ := hb
  unfold frames_needed at hn ⊢
  by_cases h1 : b.step = 1
  · rw [if_pos h1] at hn ⊢
    rw [if_pos h1]
    have hfl : 0 ≤ ⌊b.first⌋ := Int.floor_nonneg.mpr h0
    rw [float_to_int_nonneg b.first h0 (by omega)]
    unfold toInt32 ofInt32
    split_ifs <;> omega
  · rw [if_neg h1] at hn ⊢
    rw [if_neg h1]
    have hpos : (0 : ℚ) < b.first + (b.duration : ℚ) * b.step + 1 := by
      have : (0 : ℚ) ≤ (b.duration : ℚ) * b.step :=
        mul_nonneg (Nat.cast_nonneg _) hs.le
      linarith
    have hc : 0 < ⌈b.first + (b.duration : ℚ) * b.step + 1⌉ := Int.ceil_pos.mpr hpos
    exact float_to_int_intCast _ (by omega) hn

theorem frames_needed_pos (b : stb__block) (hb : GoodBlock b) : 0 < frames_needed b := by
  obtain ⟨_, h0, hs, hd, he, hn⟩ := hb
  unfold frames_needed
  split_ifs
  · have hfl : 0 ≤ ⌊b.first⌋ := Int.floor_nonneg.mpr h0
    omega
  · apply Int.ceil_pos.mpr
    have : (0 : ℚ) ≤ (b.duration : ℚ) * b.step := mul_nonneg (Nat.cast_nonneg _) hs.le
    linarith

/-- `stb__copy_samples` on a freshly stored, well-formed, unsafe block: the source is
copied to the allocation frontier and the block points to the copy. -/
theorem copy_samples_fresh (s : MixLow) (i : Nat) (hb : GoodBlock (s.bl i))
    (hsafe : (s.bl i).safe = 0) (hmf : (s.bl i).must_free = 0)
    (hlen : frames_needed (s.bl i) ≤ (s.bl i).sample_len) (hbrk : 0 < s.brk) :
    stb__copy_samples s i
      = { s with
          brk := s.brk + (copy_bytes (s.bl i)).toNat,
          mem16 := if (s.bl i).samples ≠ 0
            then memcpy_mem s.mem16 s.brk (s.bl i).samples (copy_bytes (s.bl i)) else s.mem16,
          memf := if (s.bl i).samples ≠ 0 then s.memf
            else memcpy_mem s.memf s.brk (s.bl i).fsamples (copy_bytes (s.bl i)),
          bl := Function.update s.bl i
            (if (s.bl i).samples ≠ 0 then { s.bl i with samples := s.brk, must_free := 1 }
             else { s.bl i with fsamples := s.brk, must_free := 1 }) } := by
  have hns := num_samples_eq (s.bl i) hb
  have hpos := frames_needed_pos (s.bl i) hb
  have hch : (0 : Int) ≤ ((s.bl i).channels : Int) := Int.natCast_nonneg _
  have hbytes0 : 0 ≤ 2 * ((s.bl i).channels : Int) * frames_needed (s.bl i) :=
    mul_nonneg (mul_nonneg (by norm_num) hch) hpos.le
  have hgt : ¬ frames_needed (s.bl i) > (s.bl i).sample_len := by omega
  have hn1 : ¬ (2 * ((s.bl i).channels : Int) * frames_needed (s.bl i) < 0) := by omega
  have hn2 : ¬ (2 * ((s.bl i).channels : Int) * frames_needed (s.bl i) * 2 < 0) := by omega
  have hbrk0 : ¬ s.brk = 0 := by omega
  unfold stb__copy_samples malloc copy_bytes
  by_cases hf : (s.bl i).fsamples = 0 <;> by_cases hsm : (s.bl i).samples = 0 <;>
    simp only [hsafe, hmf, hns, hgt, hf, hsm, hn1, hn2, hbrk0, ne_eq, not_true_eq_false,
      not_false_eq_true, if_false, if_true, ↓reduceIte]

theorem same_but_rings_refl (s : MixLow) : SameButRings s s := rfl

theorem same_but_rings_trans (s s1 s2 : MixLow) (h1 : SameButRings s s1)
    (h2 : SameButRings s1 s2) : SameButRings s s2 := by
  unfold SameButRings at *
  rw [h2]
  dsimp only
  rw [h1]

theorem same_but_rings_mix_block (s : MixLow) (o t l : Nat) (b : stb__block) :
    SameButRings s (stb__mix_block s o t l b) := by
  have h : (stb__mix_block s o t l b).premix_int = s.premix_int := by rw [mix_block_eta]
  unfold SameButRings
  rw [h]
  exact mix_block_eta s o t l b

theorem same_but_rings_integerize (s : MixLow) (off len : Nat) :
    SameButRings s (stb__mix_integerize s off len) := by
  have h : (stb__mix_integerize s off len).premix_float = s.premix_float := by
    rw [mix_integerize_eta]
  unfold SameButRings
  rw [h]
  exact mix_integerize_eta s off len

theorem same_but_rings_add_to_premix (s : MixLow) (i : Nat) :
    SameButRings s (stb__add_to_premix s i) := by
  have step : ∀ (s0 : MixLow) (o t l off len : Nat) (b : stb__block),
      SameButRings s0 (stb__mix_integerize (stb__mix_block s0 o t l b) off len) :=
    fun s0 o t l off len b => same_but_rings_trans _ _ _ (same_but_rings_mix_block s0 o t l b)
      (same_but_rings_integerize _ off len)
  unfold stb__add_to_premix
  dsimp only
  split_ifs
  · exact same_but_rings_trans _ _ _ (step _ _ _ _ _ _ _) (step _ _ _ _ _ _ _)
  · exact step _ _ _ _ _ _ _
  · exact step _ _ _ _ _ _ _
  · exact same_but_rings_refl s
  · exact step _ _ _ _ _ _ _
  · exact same_but_rings_refl s

theorem add_to_premix_eta (s : MixLow) (i : Nat) :
    stb__add_to_premix s i
      = { s with premix_float := (stb__add_to_premix s i).premix_float,
                 premix_int := (stb__add_to_premix s i).premix_int } :=
  same_but_rings_add_to_premix s i

/-- `stb_mixlow_add_playback_raw` on a well-formed request: store and copy (`sched`),
then the addition to the materialized window when the block starts inside it. -/
theorem add_playback_raw_eq (s : MixLow) (a : Playback) (ha : GoodPlayback a)
    (hfull : s.num_blocks ≠ MAX_BLOCKS) (hbrk : 0 < s.brk) :
    stb_mixlow_add_playback_raw s a
      = if a.start_time < uadd s.premix_time s.premix_len
        then stb__add_to_premix (sched s a) s.num_blocks else sched s a := by
  have hgb := good_new_block a ha
  obtain ⟨hptr, hch, hf, hs, hd, he, hn, hl⟩ := ha
  unfold stb_mixlow_add_playback_raw
  dsimp only
  rw [if_neg (by omega), if_neg hfull, if_neg (by omega)]
  by_cases hh : a.handle = 0
  · rw [if_pos hh]
    by_cases hsafe : toUChar a.safe = 0
    · have hcopy := copy_samples_fresh
        { s with num_blocks := s.num_blocks + 1,
                 bl := Function.update s.bl s.num_blocks (new_block a) } s.num_blocks
        (by show GoodBlock (Function.update s.bl s.num_blocks (new_block a) s.num_blocks)
            rw [Function.update_same]; exact hgb)
        (by show (Function.update s.bl s.num_blocks (new_block a) s.num_blocks).safe = 0
            rw [Function.update_same]; exact hsafe)
        (by show (Function.update s.bl s.num_blocks (new_block a) s.num_blocks).must_free = 0
            rw [Function.update_same]; rfl)
        (by show frames_needed (Function.update s.bl s.num_blocks (new_block a) s.num_blocks)
              ≤ (Function.update s.bl s.num_blocks (new_block a) s.num_blocks).sample_len
            rw [Function.update_same]; exact hn)
        hbrk
      have hsched : sched s a
          = { s with
              num_blocks := s.num_blocks + 1,
              brk := s.brk + (copy_bytes (new_block a)).toNat,
              mem16 := if a.samples ≠ 0
                then memcpy_mem s.mem16 s.brk a.samples (copy_bytes (new_block a)) else s.mem16,
              memf := if a.samples ≠ 0 then s.memf
                else memcpy_mem s.memf s.brk a.fsamples (copy_bytes (new_block a)),
              bl := Function.update s.bl s.num_blocks
                (if a.samples ≠ 0 then { new_block a with samples := s.brk, must_free := 1 }
                 else { new_block a with fsamples := s.brk, must_free := 1 }) } := by
        unfold sched
        rw [if_pos ⟨hh, hsafe⟩]
      rw [hcopy, hsched]
      dsimp only
      rw [Function.update_same, Function.update_idem]
      rfl
    · have hnc : stb__copy_samples
          { s with num_blocks := s.num_blocks + 1,
                   bl := Function.update s.bl s.num_blocks (new_block a) } s.num_blocks
          = { s with num_blocks := s.num_blocks + 1,
                     bl := Function.update s.bl s.num_blocks (new_block a) } := by
        unfold stb__copy_samples
        dsimp only
        rw [Function.update_same, if_pos (by exact hsafe)]
      have hsched : sched s a
          = { s with num_blocks := s.num_blocks + 1,
                     bl := Function.update s.bl s.num_blocks (new_block a) } := by
        unfold sched
        rw [if_neg (fun h => hsafe h.2)]
      rw [hnc, hsched]
  · have hsched : sched s a
        = { s with num_blocks := s.num_blocks + 1,
                   bl := Function.update s.bl s.num_blocks (new_block a) } := by
      unfold sched
      rw [if_neg (fun h => hh h.1)]
    rw [if_neg hh, hsched]

/-- The block that `sched` stores: the new block, with its sample pointer redirected to
the copy when one is made. -/
theorem sched_block (s : MixLow) (a : Playback) :
    (sched s a).bl s.num_blocks
      = if a.handle = 0 ∧ toUChar a.safe = 0 then
          (if a.samples ≠ 0 then { new_block a with samples := s.brk, must_free := 1 }
           else { new_block a with fsamples := s.brk, must_free := 1 })
        else new_block a := by
  unfold sched
  split_ifs <;> simp only [Function.update_same]

theorem sched_block_other (s : MixLow) (a : Playback) (j : Nat) (hj : j ≠ s.num_blocks) :
    (sched s a).bl j = s.bl j := by
  unfold sched
  split_ifs <;> simp only [Function.update_noteq hj]

theorem sched_num_blocks (s : MixLow) (a : Playback) :
    (sched s a).num_blocks = s.num_blocks + 1 := by
  unfold sched
  split_ifs <;> rfl

theorem sched_rest (s : MixLow) (a : Playback) :
    (sched s a).premix_float = s.premix_float ∧ (sched s a).premix_int = s.premix_int
    ∧ (sched s a).premix_size = s.premix_size ∧ (sched s a).premix_offset = s.premix_offset
    ∧ (sched s a).premix_time = s.premix_time ∧ (sched s a).premix_len = s.premix_len
    ∧ (sched s a).global_volume = s.global_volume ∧ (sched s a).mix_time = s.mix_time := by
  unfold sched
  split_ifs <;> exact ⟨rfl, rfl, rfl, rfl, rfl, rfl, rfl, rfl⟩

/-- The stored block keeps every field of the new block except the sample pointers and
the ownership flag. -/
theorem sched_block_good (s : MixLow) (a : Playback) (ha : GoodPlayback a) :
    GoodBlock ((sched s a).bl s.num_blocks)
    ∧ frames_needed ((sched s a).bl s.num_blocks) = frames_needed (new_block a)
    ∧ ((sched s a).bl s.num_blocks).start_time = a.start_time
    ∧ ((sched s a).bl s.num_blocks).duration = a.duration
    ∧ ((sched s a).bl s.num_blocks).first = a.first
    ∧ ((sched s a).bl s.num_blocks).step = a.step
    ∧ ((sched s a).bl s.num_blocks).channels = toUChar a.channels
    ∧ ((sched s a).bl s.num_blocks).vol = a.vol
    ∧ ((sched s a).bl s.num_blocks).lpan = (new_block a).lpan
    ∧ ((sched s a).bl s.num_blocks).rpan = (new_block a).rpan
    ∧ ((sched s a).bl s.num_blocks).fadein_start = a.fadein_start
    ∧ ((sched s a).bl s.num_blocks).fadein_len = a.fadein_len
    ∧ ((sched s a).bl s.num_blocks).fadeout_start = 4294967295 := by
  have hg := good_new_block a ha
  rw [sched_block]
  split_ifs <;> exact ⟨hg, rfl, rfl, rfl, rfl, rfl, rfl, rfl, rfl, rfl, rfl, rfl, rfl⟩

/-- The stored block reads the caller's source: every element below
`channels * frames_needed` read through the stored block in the state after `sched` is the
element the caller's buffer held when the block was scheduled. -/
theorem sched_block_rd (s : MixLow) (a : Playback) (ha : GoodPlayback a) (hbrk : 0 < s.brk)
    (k : Int) (h0 : 0 ≤ k)
    (h1 : k < ((toUChar a.channels : Nat) : Int) * frames_needed (new_block a)) :
    block_rd (sched s a) ((sched s a).bl s.num_blocks) k = block_rd s (new_block a) k := by
  obtain ⟨hptr, hch, hf, hs, hd, he, hn, hl⟩ := ha
  have hbrk0 : s.brk ≠ 0 := by omega
  have hnbch : (new_block a).channels = toUChar a.channels := rfl
  have hnbs : (new_block a).samples = a.samples := rfl
  have hnbf : (new_block a).fsamples = a.fsamples := rfl
  rw [sched_block]
  unfold sched block_rd
  by_cases hc : a.handle = 0 ∧ toUChar a.safe = 0
  · rw [if_pos hc, if_pos hc]
    rcases hptr with ⟨hp1, hp2⟩ | ⟨hp1, hp2⟩
    · have hs0 : a.samples ≠ 0 := by omega
      have hcb : copy_bytes (new_block a)
          = 2 * ((toUChar a.channels : Nat) : Int) * frames_needed (new_block a) := by
        unfold copy_bytes
        rw [hnbf, hnbch, if_neg (by simp [hp2])]
      simp only [if_pos hs0, hnbs]
      try rw [if_pos hbrk0]
      try rw [if_pos hs0]
      unfold rd16 memcpy_mem
      rw [if_pos (by rw [hcb]; constructor <;> linarith)]
      congr 2
      ring
    · have hs0 : ¬ a.samples ≠ 0 := by simp [hp1]
      have hcb : copy_bytes (new_block a)
          = 2 * ((toUChar a.channels : Nat) : Int) * frames_needed (new_block a) * 2 := by
        unfold copy_bytes
        rw [hnbf, hnbch, if_pos (by omega)]
      simp only [if_neg hs0, hnbs]
      try rw [if_neg hs0]
      try rw [hp1]
      rw [hnbf]
      unfold rdf memcpy_mem
      rw [if_pos (by rw [hcb]; constructor <;> linarith)]
      congr 1
      ring
  · rw [if_neg hc, if_neg hc]

/-! ## Float sources -/

theorem add_playback_raw_rings (s : MixLow) (a : Playback) (ha : GoodPlayback a)
    (hfull : s.num_blocks ≠ MAX_BLOCKS) (hbrk : 0 < s.brk) :
    SameButRings (sched s a) (stb_mixlow_add_playback_raw s a) := by
  rw [add_playback_raw_eq s a ha hfull hbrk]
  split_ifs
  · exact same_but_rings_add_to_premix _ _
  · exact same_but_rings_refl _

/-- The fields that a state shares with every state that differs from it in the rings. -/
theorem same_but_rings_fields (s s1 : MixLow) (h : SameButRings s s1) :
    s1.bl = s.bl ∧ s1.num_blocks = s.num_blocks ∧ s1.premix_size = s.premix_size
    ∧ s1.premix_offset = s.premix_offset ∧ s1.premix_time = s.premix_time
    ∧ s1.premix_len = s.premix_len ∧ s1.global_volume = s.global_volume
    ∧ s1.mix_time = s.mix_time ∧ s1.mem16 = s.mem16 ∧ s1.memf = s.memf ∧ s1.brk = s.brk := by
  unfold SameButRings at h
  refine ⟨?_, ?_, ?_, ?_, ?_, ?_, ?_, ?_, ?_, ?_, ?_⟩ <;> rw [h]

theorem block_rd_congr_state (s s1 : MixLow) (b : stb__block) (h1 : s1.mem16 = s.mem16)
    (h2 : s1.memf = s.memf) : block_rd s1 b = block_rd s b := by
  unfold block_rd
  rw [h1, h2]

theorem fade_free_of_no_fadein (b : stb__block) (h1 : b.fadein_start + b.fadein_len ≤ b.start_time)
    (h2 : b.fadeout_start = 4294967295) (h3 : b.start_time + b.duration < 4294967296) :
    FadeFree b := by
  unfold FadeFree
  omega

/-- The float case of C2 on `stb_mixlow_add_playback_raw`. -/
theorem float_block_core (s : MixLow) (a : Playback) (output t len : Nat)
    (hs0 : a.samples = 0)
    (hptr : 65536 < a.fsamples) (hch : a.channels = 1) (hfirst : a.first = 0)
    (hstep : a.step = 1) (hfs : a.fadein_start = 0)
    (hfl : a.fadein_len = 0) (hd : 0 < a.duration)
    (hend : a.start_time + a.duration < 4294967296)
    (hlen : (a.duration : Int) ≤ a.sample_len) (hsl : a.sample_len < 2147483648)
    (hfull : s.num_blocks ≠ MAX_BLOCKS) (hbrk : 0 < s.brk)
    (hc1 : a.start_time < t + len) (hc2 : t ≤ a.start_time + a.duration)
    (hr : t + len + 441 < 4294967296) (hl : 2 * len < 4294967296) :
    (stb__mix_block (stb_mixlow_add_playback_raw s a) output t len
        ((stb_mixlow_add_playback_raw s a).bl s.num_blocks)).premix_float
      = ring_add (stb_mixlow_add_playback_raw s a).premix_float output t len
          (fun u ch => if a.start_time ≤ u ∧ u < a.start_time + a.duration then
              32767 * a.vol * s.global_volume
                * pan_gain ((stb_mixlow_add_playback_raw s a).bl s.num_blocks) ch
                * s.memf ((a.fsamples : Int) + 4 * ((u - a.start_time : Nat) : Int))
            else 0) := by
  have hfn : frames_needed (new_block a) = (a.duration : Int) := by
    unfold frames_needed
    show (if a.step = 1 then ⌊a.first⌋ + (a.duration : Int) else _) = _
    rw [if_pos hstep, hfirst]
    simp
  have ha : GoodPlayback a := by
    refine ⟨Or.inr ⟨hs0, hptr⟩, Or.inl hch, ?_, ?_, hd, hend, ?_, hsl⟩
    · rw [hfirst]
    · rw [hstep]; norm_num
    · rw [hfn]; exact hlen
  have hsbr := add_playback_raw_rings s _ ha hfull hbrk
  obtain ⟨hbl, _, _, _, _, _, hgv, _, hm16, hmf, _⟩ := same_but_rings_fields _ _ hsbr
  obtain ⟨hgood, hfn2, hst, hdu, hfi, hstp, hchn, hvol, _, _, hfis, hfil, hfos⟩ :=
    sched_block_good s _ ha
  have hgv2 : (sched s a).global_volume = s.global_volume := (sched_rest s _).2.2.2.2.2.2.1
  have hrd : ∀ k : Int, 0 ≤ k → k < (a.duration : Int) →
      block_rd (sched s a) ((sched s a).bl s.num_blocks) k
        = s.memf ((a.fsamples : Int) + 4 * k) := by
    intro k hk0 hk1
    rw [sched_block_rd s a ha hbrk k hk0 (by
      rw [hfn, hch]
      have : toUChar 1 = 1 := rfl
      rw [this]
      simpa using hk1)]
    unfold block_rd rdf
    have hnbs : (new_block a).samples = 0 := hs0
    rw [if_neg (by simp [hnbs])]
    rfl
  have hsamp : ((sched s a).bl s.num_blocks).samples = 0 := by
    rw [sched_block]
    split_ifs with h1 h2
    · exact absurd hs0 h2
    · exact hs0
    · exact hs0
  rw [hbl]
  generalize (sched s a).bl s.num_blocks = b at *
  have hff : FadeFree b := by
    apply fade_free_of_no_fadein b _ hfos
    · rw [hst, hdu]; exact hend
    · rw [hfis, hfil, hst]
      omega
  rw [mix_block_closed _ output t len b hgood hff (by rw [hst]; exact hc1)
    (by rw [hst, hdu]; exact hc2) hr hl]
  apply ring_add_congr
  intro u ch hu1 hu2 hch2
  unfold block_contrib
  rw [hst, hdu]
  by_cases hlive : a.start_time ≤ u ∧ u < a.start_time + a.duration
  swap
  · rw [if_neg hlive, if_neg hlive]
  rw [if_pos hlive, if_pos hlive]
  have hch1 : b.channels = 1 := by rw [hchn, hch]; rfl
  have hval : block_value (stb_mixlow_add_playback_raw s a) b u ch
      = s.memf ((a.fsamples : Int) + 4 * ((u - a.start_time : Nat) : Int)) := by
    unfold block_value seg_value direct_value
    rw [hstp, hfi, hst, if_pos hstep, hch1, if_neg (by norm_num), hfirst]
    rw [block_rd_congr_state _ _ b hm16 hmf]
    have e : ⌊(0 : ℚ)⌋ + ((u - a.start_time : Nat) : Int) = ((u - a.start_time : Nat) : Int) := by
      simp
    rw [e]
    exact hrd _ (by omega) (by omega)
  have hsc : block_scale b = 32767 := by
    unfold block_scale
    rw [hsamp, if_neg (by simp)]
  rw [hval, hsc, hvol, hgv, hgv2]
  ring

/-- C2. For a mono float source scheduled through `stb_mixlow_add_playback_float` with
`channels = 1`, `first = 0`, `step = 1` and fade-in start and length 0 (whatever its mode),
volume `v`,
under global volume `g`: mixing the scheduled block over any range that overlaps it adds
exactly `32767 * v * g * lpan * x[k]` to the left accumulator and `32767 * v * g * rpan * x[k]`
to the right accumulator of tick `start_time + k` for every `k < duration`, where `x[k]` is
element `k` of the caller's source, and changes no other element of the accumulator. -/
theorem float_block_adds_scaled_source (s : MixLow) (p : Playback) (output t len : Nat)
    (hptr : 65536 < p.fsamples) (hch : p.channels = 1) (hfirst : p.first = 0)
    (hstep : p.step = 1) (hfs : p.fadein_start = 0)
    (hfl : p.fadein_len = 0) (hd : 0 < p.duration)
    (hend : p.start_time + p.duration < 4294967296)
    (hlen : (p.duration : Int) ≤ p.sample_len) (hsl : p.sample_len < 2147483648)
    (hfull : s.num_blocks ≠ MAX_BLOCKS) (hbrk : 0 < s.brk)
    (hc1 : p.start_time < t + len) (hc2 : t ≤ p.start_time + p.duration)
    (hr : t + len + 441 < 4294967296) (hl : 2 * len < 4294967296) :
    (stb__mix_block (stb_mixlow_add_playback_float s p) output t len
        ((stb_mixlow_add_playback_float s p).bl s.num_blocks)).premix_float
      = ring_add (stb_mixlow_add_playback_float s p).premix_float output t len
          (fun u ch => if p.start_time ≤ u ∧ u < p.start_time + p.duration then
              32767 * p.vol * s.global_volume
                * pan_gain ((stb_mixlow_add_playback_float s p).bl s.num_blocks) ch
                * s.memf ((p.fsamples : Int) + 4 * ((u - p.start_time : Nat) : Int))
            else 0) := by
  have heq : stb_mixlow_add_playback_float s p
      = stb_mixlow_add_playback_raw s { p with samples := 0 } := by
    unfold stb_mixlow_add_playback_float
    rw [if_pos (by omega)]
  rw [heq]
  exact float_block_core s { p with samples := 0 } output t len rfl hptr hch hfirst hstep hfs
    hfl hd hend hlen hsl hfull hbrk hc1 hc2 hr hl

/-! ## Dependence on the sample memory -/

/-- Every element a well-formed block reads during its life lies below
`channels * frames_needed`: two read functions that agree there give the same source
values. -/
theorem seg_value_congr (rd rd' : Int → ℚ) (b : stb__block) (hb : GoodBlock b)
    (hagree : ∀ k : Int, 0 ≤ k → k < (b.channels : Int) * frames_needed b → rd k = rd' k)
    (k ch : Nat) (hk : k < b.duration) (hch : ch < 2) :
    seg_value rd b b.first k ch = seg_value rd' b b.first k ch := by
  obtain ⟨hc, h0, hs, hd, he, hn⟩ := hb
  have hfl : 0 ≤ ⌊b.first⌋ := Int.floor_nonneg.mpr h0
  have hkd : (k : Int) < (b.duration : Int) := by exact_mod_cast hk
  have hchi : ((ch : Nat) : Int) < 2 := by exact_mod_cast hch
  have hch0 : (0 : Int) ≤ ((ch : Nat) : Int) := Int.natCast_nonneg _
  unfold seg_value direct_value interp_value
  unfold frames_needed at hagree
  by_cases h1 : b.step = 1
  · simp only [if_pos h1] at hagree ⊢
    by_cases h2 : b.channels = 2
    · rw [h2] at hagree
      simp only [if_pos h2]
      exact hagree _ (by omega) (by push_cast; omega)
    · have h3 : b.channels = 1 := by omega
      rw [h3] at hagree
      simp only [if_neg h2]
      exact hagree _ (by omega) (by push_cast; omega)
  · simp only [if_neg h1] at hagree ⊢
    have hkq : ((k : ℚ) + 1) ≤ (b.duration : ℚ) := by exact_mod_cast hk
    have hk0 : (0 : ℚ) ≤ (k : ℚ) := Nat.cast_nonneg k
    have hp0 : 0 ≤ b.first + (k : ℚ) * b.step := by
      have := mul_nonneg hk0 hs.le
      linarith
    have hi0 : 0 ≤ ⌊b.first + (k : ℚ) * b.step⌋ := Int.floor_nonneg.mpr hp0
    have hi1 : ⌊b.first + (k : ℚ) * b.step⌋ + 1 < ⌈b.first + (b.duration : ℚ) * b.step + 1⌉ := by
      have hA : ((⌊b.first + (k : ℚ) * b.step⌋ : Int) : ℚ) ≤ b.first + (k : ℚ) * b.step :=
        Int.floor_le _
      have hB : b.first + (b.duration : ℚ) * b.step + 1
          ≤ ((⌈b.first + (b.duration : ℚ) * b.step + 1⌉ : Int) : ℚ) := Int.le_ceil _
      have hC : ((k : ℚ) + 1) * b.step ≤ (b.duration : ℚ) * b.step :=
        mul_le_mul_of_nonneg_right hkq hs.le
      have hD : ((⌊b.first + (k : ℚ) * b.step⌋ + 1 : Int) : ℚ)
          < ((⌈b.first + (b.duration : ℚ) * b.step + 1⌉ : Int) : ℚ) := by
        push_cast
        nlinarith
      exact_mod_cast hD
    by_cases h2 : b.channels = 2
    · rw [h2] at hagree
      simp only [if_pos h2]
      rw [hagree _ (by omega) (by push_cast; omega), hagree _ (by omega) (by push_cast; omega)]
    · have h3 : b.channels = 1 := by omega
      rw [h3] at hagree
      simp only [if_neg h2]
      rw [hagree _ (by omega) (by push_cast; omega), hagree _ (by omega) (by push_cast; omega)]

theorem block_value_congr (s s1 : MixLow) (b : stb__block) (hb : GoodBlock b)
    (hagree : ∀ k : Int, 0 ≤ k → k < (b.channels : Int) * frames_needed b →
      block_rd s b k = block_rd s1 b k)
    (u ch : Nat) (h1 : b.start_time ≤ u) (h2 : u < b.start_time + b.duration) (hch : ch < 2) :
    block_value s b u ch = block_value s1 b u ch := by
  unfold block_value
  exact seg_value_congr _ _ b hb hagree _ ch (by omega) hch

/-- One kernel call inside the life of a well-formed block, for any gain ramp. -/
theorem mix_block_base_general (s : MixLow) (F : Nat → ℚ) (o ts len : Nat) (b : stb__block)
    (st en : ℚ) (hb : GoodBlock b) (h1 : b.start_time ≤ ts)
    (h2 : ts + len ≤ b.start_time + b.duration) :
    stb__mix_block_base s F o ts len b st en
        (b.first + ((ts - b.start_time : Nat) : ℚ) * b.step)
      = ring_add F o ts len (fun u ch => block_value s b u ch
          * (pan_gain b ch * (st * block_scale b)
            + ((u - ts : Nat) : ℚ) * (if st * block_scale b = en * block_scale b then 0
                else pan_gain b ch * ((en * block_scale b - st * block_scale b) / (len : ℚ))))) := by
  have hpos := good_floor_lt b hb (ts - b.start_time) (by omega)
  rw [mix_block_base_eq, mix_kernel_closed _ _ _ _ _ _ _ _ hb.1 hpos.1 hpos.2 (good_step_floor b hb)]
  rw [← ring_add_shift F o ts len]
  apply ring_add_congr
  intro k ch hk1 hk2 hch
  rw [seg_value_shift]
  unfold block_value
  have e : ts - b.start_time + k = ts + k - b.start_time := by omega
  have e2 : ts + k - ts = k := by omega
  rw [e, e2]

theorem mix_block_base_congr (s s1 : MixLow) (F : Nat → ℚ) (o ts len : Nat) (b : stb__block)
    (st en : ℚ) (hb : GoodBlock b) (h1 : b.start_time ≤ ts)
    (h2 : ts + len ≤ b.start_time + b.duration)
    (hagree : ∀ k : Int, 0 ≤ k → k < (b.channels : Int) * frames_needed b →
      block_rd s b k = block_rd s1 b k) :
    stb__mix_block_base s F o ts len b st en
        (b.first + ((ts - b.start_time : Nat) : ℚ) * b.step)
      = stb__mix_block_base s1 F o ts len b st en
        (b.first + ((ts - b.start_time : Nat) : ℚ) * b.step) := by
  rw [mix_block_base_general s F o ts len b st en hb h1 h2,
    mix_block_base_general s1 F o ts len b st en hb h1 h2]
  apply ring_add_congr
  intro u ch hu1 hu2 hch
  rw [block_value_congr s s1 b hb hagree u ch (by omega) (by omega) hch]

theorem mix_block_loop_congr (s s1 : MixLow) (b : stb__block) (att : ℚ) (limit : Nat)
    (hb : GoodBlock b) (hl1 : limit ≤ b.start_time + b.duration)
    (hl2 : limit + 441 < 4294967296)
    (hagree : ∀ k : Int, 0 ≤ k → k < (b.channels : Int) * frames_needed b →
      block_rd s b k = block_rd s1 b k)
    (fuel : Nat) (st : SegState)
    (h1 : b.start_time ≤ st.tstart) (h3 : st.tend = st.tstart + 441)
    (h4 : st.first = b.first + ((st.tstart - b.start_time : Nat) : ℚ) * b.step) :
    mix_block_loop s b att limit fuel st = mix_block_loop s1 b att limit fuel st := by
  induction fuel generalizing st with
  | zero => rfl
  | succ fuel ih =>
    rw [mix_block_loop, mix_block_loop]
    by_cases hc : st.tend ≤ limit
    · rw [if_pos hc, if_pos hc]
      dsimp only
      have hE : ENVELOPE_SAMPLE_TIME = 441 := rfl
      have hsub : usub st.tend st.tstart = 441 := by unfold usub; omega
      have hadd : uadd st.tend ENVELOPE_SAMPLE_TIME = st.tend + 441 := by
        unfold uadd; rw [hE]; omega
      rw [hsub, hadd, h4,
        mix_block_base_congr s s1 st.F st.output st.tstart 441 b _ _ hb h1 (by omega) hagree]
      apply ih
      · show b.start_time ≤ st.tend
        omega
      · rfl
      · show b.first + ((st.tstart - b.start_time : Nat) : ℚ) * b.step
            + (ENVELOPE_SAMPLE_TIME : ℚ) * b.step
          = b.first + ((st.tend - b.start_time : Nat) : ℚ) * b.step
        have e : st.tend - b.start_time = (st.tstart - b.start_time) + 441 := by omega
        rw [e, hE]
        push_cast
        ring
    · rw [if_neg hc, if_neg hc]

/-- Normal form of `stb__mix_block` on a range that overlaps the block: the trimmed
range is the intersection of the request with the block's life. -/
theorem mix_block_normal (s : MixLow) (output t len : Nat) (b : stb__block)
    (hend : b.start_time + b.duration < 4294967296) (hc1 : b.start_time < t + len)
    (hc2 : t ≤ b.start_time + b.duration) (hr : t + len + 441 < 4294967296)
    (hl : 2 * len < 4294967296) :
    (stb__mix_block s output t len b).premix_float
      = trimmed_mix s b (output + 2 * (max t b.start_time - t)) (max t b.start_time)
          (min (t + len) (b.start_time + b.duration) - max t b.start_time) := by
  have hE : ENVELOPE_SAMPLE_TIME = 441 := rfl
  unfold stb__mix_block trimmed_mix
  dsimp only
  by_cases hA : b.start_time > t
  · simp only [if_pos hA]
    have hmax : max t b.start_time = b.start_time := by omega
    have hskip : usub b.start_time t = b.start_time - t := by unfold usub; omega
    have hlen1 : usub len (b.start_time - t) = len - (b.start_time - t) := by unfold usub; omega
    have hmul : umul (b.start_time - t) 2 = 2 * (b.start_time - t) := by unfold umul; omega
    have hz : usub b.start_time b.start_time = b.start_time - b.start_time := by
      unfold usub; omega
    have he : uadd b.start_time b.duration = b.start_time + b.duration := by unfold uadd; omega
    have hs : uadd b.start_time (len - (b.start_time - t))
        = b.start_time + (len - (b.start_time - t)) := by unfold uadd; omega
    have hte : uadd b.start_time ENVELOPE_SAMPLE_TIME = b.start_time + 441 := by
      unfold uadd; rw [hE]; omega
    rw [hskip, hlen1, hmul, hz, he, hs, hmax, hte]
    by_cases hB : b.start_time + b.duration < b.start_time + (len - (b.start_time - t))
    · simp only [if_pos hB]
      have hd : usub (b.start_time + b.duration) b.start_time = b.duration := by unfold usub; omega
      have hmin : min (t + len) (b.start_time + b.duration) - b.start_time = b.duration := by
        omega
      rw [hd, he, hmin]
      split_ifs <;> rfl
    · simp only [if_neg hB]
      have hmin : min (t + len) (b.start_time + b.duration) - b.start_time
          = len - (b.start_time - t) := by omega
      rw [hs, hmin]
      split_ifs <;> rfl
  · simp only [if_neg hA]
    have hmax : max t b.start_time = t := by omega
    have hz : usub t b.start_time = t - b.start_time := by unfold usub; omega
    have he : uadd b.start_time b.duration = b.start_time + b.duration := by unfold uadd; omega
    have hs : uadd t len = t + len := by unfold uadd; omega
    have hte : uadd t ENVELOPE_SAMPLE_TIME = t + 441 := by unfold uadd; rw [hE]; omega
    rw [hz, he, hs, hte, hmax]
    simp only [Nat.sub_self, Nat.mul_zero, Nat.add_zero]
    by_cases hB : b.start_time + b.duration < t + len
    · simp only [if_pos hB]
      have hd : usub (b.start_time + b.duration) t = b.start_time + b.duration - t := by
        unfold usub; omega
      have htd : uadd t (b.start_time + b.duration - t) = t + (b.start_time + b.duration - t) := by
        unfold uadd; omega
      have hmin : min (t + len) (b.start_time + b.duration) - t
          = b.start_time + b.duration - t := by omega
      rw [hd, htd, hmin]
      split_ifs <;> rfl
    · simp only [if_neg hB]
      have hmin : min (t + len) (b.start_time + b.duration) - t = len := by omega
      rw [hs, hmin]
      split_ifs <;> rfl

/-- What the envelope loop preserves, whatever the fades: the loop stops inside the
range with its source position in step with its tick. -/
theorem mix_block_loop_inv (s : MixLow) (b : stb__block) (att : ℚ) (limit : Nat)
    (hl2 : limit + 441 < 4294967296) (fuel : Nat) (st : SegState)
    (h1 : b.start_time ≤ st.tstart) (h2 : st.tstart ≤ limit) (h3 : st.tend = st.tstart + 441)
    (h4 : st.first = b.first + ((st.tstart - b.start_time : Nat) : ℚ) * b.step) :
    b.start_time ≤ (mix_block_loop s b att limit fuel st).tstart
    ∧ (mix_block_loop s b att limit fuel st).tstart ≤ limit
    ∧ (mix_block_loop s b att limit fuel st).first
        = b.first + (((mix_block_loop s b att limit fuel st).tstart - b.start_time : Nat) : ℚ)
            * b.step := by
  induction fuel generalizing st with
  | zero => exact ⟨h1, h2, h4⟩
  | succ fuel ih =>
    rw [mix_block_loop]
    by_cases hc : st.tend ≤ limit
    · rw [if_pos hc]
      dsimp only
      have hE : ENVELOPE_SAMPLE_TIME = 441 := rfl
      have hadd : uadd st.tend ENVELOPE_SAMPLE_TIME = st.tend + 441 := by
        unfold uadd; rw [hE]; omega
      rw [hadd]
      apply ih
      · show b.start_time ≤ st.tend
        omega
      · exact hc
      · rfl
      · show st.first + (ENVELOPE_SAMPLE_TIME : ℚ) * b.step
          = b.first + ((st.tend - b.start_time : Nat) : ℚ) * b.step
        have e : st.tend - b.start_time = (st.tstart - b.start_time) + 441 := by omega
        rw [e, hE, h4]
        push_cast
        ring
    · rw [if_neg hc]
      exact ⟨h1, h2, h4⟩

theorem trimmed_mix_congr (s s1 : MixLow) (b : stb__block) (o1 t1 l2 : Nat)
    (hb : GoodBlock b) (h1 : b.start_time ≤ t1) (h2 : t1 + l2 ≤ b.start_time + b.duration)
    (h3 : t1 + l2 + 441 < 4294967296)
    (hF : s1.premix_float = s.premix_float) (hg : s1.global_volume = s.global_volume)
    (hagree : ∀ k : Int, 0 ≤ k → k < (b.channels : Int) * frames_needed b →
      block_rd s b k = block_rd s1 b k) :
    trimmed_mix s b o1 t1 l2 = trimmed_mix s1 b o1 t1 l2 := by
  unfold trimmed_mix
  dsimp only
  rw [hF, hg]
  have hloop := mix_block_loop_congr s s1 b (b.vol * s.global_volume) (t1 + l2) hb h2 h3 hagree
    (l2 / ENVELOPE_SAMPLE_TIME + 1)
    { F := s.premix_float, output := o1,
      first := b.first + ((t1 - b.start_time : Nat) : ℚ) * b.step,
      vstart := stb__compute_fade b t1 * (b.vol * s.global_volume),
      tstart := t1, tend := t1 + 441 } h1 rfl rfl
  have hinv := mix_block_loop_inv s b (b.vol * s.global_volume) (t1 + l2) h3
    (l2 / ENVELOPE_SAMPLE_TIME + 1)
    { F := s.premix_float, output := o1,
      first := b.first + ((t1 - b.start_time : Nat) : ℚ) * b.step,
      vstart := stb__compute_fade b t1 * (b.vol * s.global_volume),
      tstart := t1, tend := t1 + 441 } h1 (by show t1 ≤ t1 + l2; omega) rfl rfl
  rw [← hloop]
  generalize mix_block_loop s b (b.vol * s.global_volume) (t1 + l2)
    (l2 / ENVELOPE_SAMPLE_TIME + 1)
    { F := s.premix_float, output := o1,
      first := b.first + ((t1 - b.start_time : Nat) : ℚ) * b.step,
      vstart := stb__compute_fade b t1 * (b.vol * s.global_volume),
      tstart := t1, tend := t1 + 441 } = R at hinv ⊢
  obtain ⟨r1, r2, r3⟩ := hinv
  by_cases hne : R.tstart ≠ t1 + l2
  · rw [if_pos hne, if_pos hne]
    have hsub : usub (t1 + l2) R.tstart = t1 + l2 - R.tstart := by unfold usub; omega
    rw [hsub, r3]
    exact mix_block_base_congr s s1 R.F R.output R.tstart (t1 + l2 - R.tstart) b _ _ hb r1
      (by omega) hagree
  · rw [if_neg hne, if_neg hne]

/-- The accumulator after `stb__mix_block` depends on the sample memory only through
the elements of the block's source below `channels * frames_needed`. -/
theorem mix_block_congr (s s1 : MixLow) (output t len : Nat) (b : stb__block)
    (hb : GoodBlock b) (hc1 : b.start_time < t + len)
    (hc2 : t ≤ b.start_time + b.duration) (hr : t + len + 441 < 4294967296)
    (hl : 2 * len < 4294967296)
    (hF : s1.premix_float = s.premix_float) (hg : s1.global_volume = s.global_volume)
    (hagree : ∀ k : Int, 0 ≤ k → k < (b.channels : Int) * frames_needed b →
      block_rd s b k = block_rd s1 b k) :
    (stb__mix_block s output t len b).premix_float
      = (stb__mix_block s1 output t len b).premix_float := by
  have hend := hb.2.2.2.2.1
  rw [mix_block_normal s output t len b hend hc1 hc2 hr hl,
    mix_block_normal s1 output t len b hend hc1 hc2 hr hl]
  exact trimmed_mix_congr s s1 b _ _ _ hb (by omega) (by omega) (by omega) hF hg hagree

/-! ## Owned copies -/

/-- C3. A block scheduled with no handle and `safe = 0` (well-formed request: positive
step, non-negative start offset, `sample_len` large enough for the playback) is stored with
an owned copy of the source: the block is marked `must_free` and points to the fresh
allocation; the copy agrees with the caller's source on every element below
`channels * frames_needed`; and the mixing kernels read nothing else during the block's whole
duration: for any sample memory that agrees with the memory after the call on the copy,
whatever it holds elsewhere (in particular in the caller's buffer), `stb__mix_block`
accumulates the same values over any range. -/
theorem owned_copy_covers_reads (s : MixLow) (a : Playback) (output t len : Nat)
    (m16 : Int → Int) (mf : Int → ℚ)
    (ha : GoodPlayback a) (hh : a.handle = 0) (hsafe : a.safe = 0)
    (hfull : s.num_blocks ≠ MAX_BLOCKS) (hbrk : 0 < s.brk)
    (hc1 : a.start_time < t + len) (hc2 : t ≤ a.start_time + a.duration)
    (hr : t + len + 441 < 4294967296) (hl : 2 * len < 4294967296)
    (hm : ∀ addr : Int, (s.brk : Int) ≤ addr →
      addr < (s.brk : Int) + copy_bytes (new_block a) →
      m16 addr = (stb_mixlow_add_playback_raw s a).mem16 addr
        ∧ mf addr = (stb_mixlow_add_playback_raw s a).memf addr) :
    ((stb_mixlow_add_playback_raw s a).bl s.num_blocks).must_free = 1
    ∧ (if a.samples ≠ 0 then ((stb_mixlow_add_playback_raw s a).bl s.num_blocks).samples = s.brk
        else ((stb_mixlow_add_playback_raw s a).bl s.num_blocks).fsamples = s.brk)
    ∧ (∀ k : Int, 0 ≤ k →
        k < ((toUChar a.channels : Nat) : Int) * frames_needed (new_block a) →
        block_rd (stb_mixlow_add_playback_raw s a)
            ((stb_mixlow_add_playback_raw s a).bl s.num_blocks) k
          = block_rd s (new_block a) k)
    ∧ (stb__mix_block { stb_mixlow_add_playback_raw s a with mem16 := m16, memf := mf }
          output t len ((stb_mixlow_add_playback_raw s a).bl s.num_blocks)).premix_float
        = (stb__mix_block (stb_mixlow_add_playback_raw s a) output t len
            ((stb_mixlow_add_playback_raw s a).bl s.num_blocks)).premix_float := by
  have hsbr := add_playback_raw_rings s a ha hfull hbrk
  obtain ⟨hbl, _, _, _, _, _, hgv, _, hm16, hmf, _⟩ := same_but_rings_fields _ _ hsbr
  obtain ⟨hgood, hfn2, hst, hdu, hfi, hstp, hchn, hvol, _, _, hfis, hfil, hfos⟩ :=
    sched_block_good s a ha
  have hsafe' : toUChar a.safe = 0 := by rw [hsafe]; rfl
  have hblk := sched_block s a
  rw [if_pos ⟨hh, hsafe'⟩] at hblk
  have hrd : ∀ k : Int, 0 ≤ k →
      k < ((toUChar a.channels : Nat) : Int) * frames_needed (new_block a) →
      block_rd (stb_mixlow_add_playback_raw s a) ((sched s a).bl s.num_blocks) k
        = block_rd s (new_block a) k := by
    intro k hk0 hk1
    rw [block_rd_congr_state _ _ _ hm16 hmf]
    exact sched_block_rd s a ha hbrk k hk0 hk1
  have hptr := ha.1
  rw [hbl]
  refine ⟨?_, ?_, hrd, ?_⟩
  · rw [hblk]
    split_ifs <;> rfl
  · rw [hblk]
    split_ifs <;> rfl
  · have hc1' : ((sched s a).bl s.num_blocks).start_time < t + len := by rw [hst]; exact hc1
    have hc2' : t ≤ ((sched s a).bl s.num_blocks).start_time
        + ((sched s a).bl s.num_blocks).duration := by rw [hst, hdu]; exact hc2
    refine mix_block_congr
      { stb_mixlow_add_playback_raw s a with mem16 := m16, memf := mf }
      (stb_mixlow_add_playback_raw s a) output t len ((sched s a).bl s.num_blocks)
      hgood hc1' hc2' hr hl rfl rfl ?_
    intro k hk0 hk1
    rw [hchn, hfn2] at hk1
    have hcb : (if a.samples ≠ 0 then 2 * k else 4 * k) < copy_bytes (new_block a) := by
      unfold copy_bytes
      have hnbf : (new_block a).fsamples = a.fsamples := rfl
      have hnbc : (new_block a).channels = toUChar a.channels := rfl
      rw [hnbf, hnbc]
      rcases hptr with ⟨hp1, hp2⟩ | ⟨hp1, hp2⟩
      · rw [if_pos (by omega), if_neg (by simp [hp2])]
        linarith
      · rw [if_neg (by simp [hp1]), if_pos (by omega)]
        linarith
    unfold block_rd
    rw [hblk]
    by_cases hs0 : a.samples ≠ 0
    · rw [if_pos hs0] at hcb ⊢
      have hbrk0 : s.brk ≠ 0 := by omega
      simp only [if_pos hbrk0]
      unfold rd16
      rw [(hm ((s.brk : Int) + 2 * k) (by omega) (by omega)).1]
    · rw [if_neg hs0] at hcb ⊢
      have hnbs : (new_block a).samples = a.samples := rfl
      simp only [hnbs, if_neg hs0]
      unfold rdf
      rw [(hm ((s.brk : Int) + 4 * k) (by omega) (by omega)).2]

/-! ## Coherence of the rings with the table -/

theorem zero_loop_apply (n i : Nat) (F : Nat → ℚ) (j : Nat) :
    zero_loop n i F j = if i ≤ j ∧ j < i + n then 0 else F j := by
  induction n generalizing i F with
  | zero =>
    have h0 : ¬ (i ≤ j ∧ j < i + 0) := by omega
    rw [zero_loop, if_neg h0]
  | succ n ih =>
    rw [zero_loop, ih]
    by_cases h1 : i + 1 ≤ j ∧ j < i + 1 + n
    · rw [if_pos h1, if_pos (by omega)]
    · rw [if_neg h1]
      by_cases h3 : j = i
      · subst h3
        rw [if_pos (by omega), Function.update_same]
      · rw [if_neg (by omega), Function.update_noteq h3]

theorem block_contrib_same (s s1 : MixLow) (b : stb__block) (u ch : Nat)
    (h1 : s1.mem16 = s.mem16) (h2 : s1.memf = s.memf) (h3 : s1.global_volume = s.global_volume) :
    block_contrib s1 b u ch = block_contrib s b u ch := by
  unfold block_contrib block_value
  rw [block_rd_congr_state s s1 b h1 h2, h3]

/-- Closed form of the block loop of `mix` when every listed block is well-formed and
without fades. -/
theorem mix_blocks_closed (t off len : Nat) (l : List Nat) (s : MixLow)
    (hok : ∀ i ∈ l, GoodBlock (s.bl i) ∧ FadeFree (s.bl i))
    (hr : t + len + 441 < 4294967296) (hl : 2 * len < 4294967296) (j : Nat) :
    (mix_blocks t off len l s).premix_float j
      = s.premix_float j + (if off * 2 ≤ j ∧ j < off * 2 + 2 * len then
          (l.map (fun i => block_contrib s (s.bl i) (t + (j - off * 2) / 2)
            ((j - off * 2) % 2))).sum else 0) := by
  induction l generalizing s with
  | nil => simp [mix_blocks]
  | cons i rest ih =>
    rw [mix_blocks]
    have hu : uadd t len = t + len := by unfold uadd; omega
    obtain ⟨hg, hf⟩ := hok i (List.mem_cons_self i rest)
    have hend := hg.2.2.2.2.1
    have hue : uadd (s.bl i).start_time (s.bl i).duration
        = (s.bl i).start_time + (s.bl i).duration := by unfold uadd; omega
    rw [hu, hue]
    by_cases hc : (s.bl i).start_time < t + len ∧ (s.bl i).start_time + (s.bl i).duration ≥ t
    · rw [if_pos hc]
      have hsb := same_but_rings_fields _ _ (same_but_rings_mix_block s (off * 2) t len (s.bl i))
      obtain ⟨hbl, _, _, _, _, _, hgv, _, hm16, hmf, _⟩ := hsb
      rw [ih (stb__mix_block s (off * 2) t len (s.bl i)) (by
        intro i' hi'
        rw [hbl]
        exact hok i' (List.mem_cons_of_mem i hi'))]
      rw [mix_block_closed s (off * 2) t len (s.bl i) hg hf hc.1 hc.2 hr hl, hbl]
      unfold ring_add
      by_cases hin : off * 2 ≤ j ∧ j < off * 2 + 2 * len
      · have : ∀ i' u c, block_contrib (stb__mix_block s (off * 2) t len (s.bl i)) (s.bl i') u c
            = block_contrib s (s.bl i') u c :=
          fun i' u c => block_contrib_same _ _ _ _ _ hm16 hmf hgv
        simp only [if_pos hin, List.map_cons, List.sum_cons, this]
        ring
      · simp only [if_neg hin, add_zero]
    · rw [if_neg hc, ih s (fun i' hi' => hok i' (List.mem_cons_of_mem i hi'))]
      by_cases hin : off * 2 ≤ j ∧ j < off * 2 + 2 * len
      · simp only [if_pos hin, List.map_cons, List.sum_cons]
        rw [block_contrib_dead s (s.bl i) _ _ (by omega), zero_add]
      · simp only [if_neg hin]

/-- Closed form of the static function `mix`: the frames of the range hold the exact
accumulator and its conversion, every other element of the rings is unchanged. -/
theorem mix_closed (s : MixLow) (t off len : Nat)
    (hok : ∀ i, i < s.num_blocks → GoodBlock (s.bl i) ∧ FadeFree (s.bl i))
    (hr : t + len + 441 < 4294967296) (hl : 2 * len < 4294967296) (j : Nat) :
    (mix s t off len).premix_float j
        = (if off * 2 ≤ j ∧ j < off * 2 + 2 * len then
            acc s (t + (j - off * 2) / 2) ((j - off * 2) % 2) else s.premix_float j)
    ∧ (mix s t off len).premix_int j
        = (if off * 2 ≤ j ∧ j < off * 2 + 2 * len then
            stb__integerize_one (conv_mode s off len j)
              (acc s (t + (j - off * 2) / 2) ((j - off * 2) % 2))
           else s.premix_int j) := by
  have hti : (toInt32 len * 2).toNat = 2 * len := by
    unfold toInt32
    split_ifs <;> omega
  have hfl : (mix s t off len).premix_float j
      = (if off * 2 ≤ j ∧ j < off * 2 + 2 * len then
          acc s (t + (j - off * 2) / 2) ((j - off * 2) % 2) else s.premix_float j) := by
    unfold mix
    dsimp only
    have e : (stb__mix_integerize
        (mix_blocks t off len (List.range s.num_blocks)
          { s with premix_float := zero_loop (toInt32 len * 2).toNat (off * 2) s.premix_float })
        off len).premix_float
        = (mix_blocks t off len (List.range s.num_blocks)
          { s with premix_float := zero_loop (toInt32 len * 2).toNat (off * 2) s.premix_float
            }).premix_float := by
      rw [mix_integerize_eta]
    rw [e, mix_blocks_closed t off len (List.range s.num_blocks)
      { s with premix_float := zero_loop (toInt32 len * 2).toNat (off * 2) s.premix_float }
      (fun i hi => hok i (List.mem_range.mp hi)) hr hl]
    dsimp only
    rw [zero_loop_apply, hti]
    by_cases hin : off * 2 ≤ j ∧ j < off * 2 + 2 * len
    · rw [if_pos hin, if_pos hin, if_pos hin, zero_add]
      unfold acc
      have : ∀ i u c, block_contrib
          { s with premix_float := zero_loop (2 * len) (off * 2) s.premix_float } (s.bl i) u c
          = block_contrib s (s.bl i) u c := fun i u c => block_contrib_same _ _ _ _ _ rfl rfl rfl
      simp only [this]
    · rw [if_neg hin, if_neg hin, if_neg hin, add_zero]
  refine ⟨hfl, ?_⟩
  rw [mix_int_apply s t off len j hl, hfl]
  by_cases hin : off * 2 ≤ j ∧ j < off * 2 + 2 * len
  · rw [if_pos hin, if_pos ⟨by omega, hin⟩, if_pos hin]
  · rw [if_neg hin, if_neg (fun h => hin h.2), if_neg hin]

theorem acc_same (s s1 : MixLow) (h1 : s1.bl = s.bl) (h2 : s1.num_blocks = s.num_blocks)
    (h3 : s1.mem16 = s.mem16) (h4 : s1.memf = s.memf) (h5 : s1.global_volume = s.global_volume)
    (u ch : Nat) : acc s1 u ch = acc s u ch := by
  unfold acc
  rw [h2, h1]
  have : ∀ i, block_contrib s1 (s.bl i) u ch = block_contrib s (s.bl i) u ch :=
    fun i => block_contrib_same _ _ _ _ _ h3 h4 h5
  simp only [this]

theorem slot_same (s s1 : MixLow) (h1 : s1.premix_offset = s.premix_offset)
    (h2 : s1.premix_time = s.premix_time) (h3 : s1.premix_size = s.premix_size) (u : Nat) :
    slot s1 u = slot s u := by
  unfold slot
  rw [h1, h2, h3]

/-- Extension of the coherent part of the window by one piece mixed by `mix`: the piece
starts at the tick after the coherent part and lies in the ring without wrapping, at the
frames `slot` assigns to its ticks. -/
theorem coherent_mix_piece (s : MixLow) (L t off len : Nat)
    (hoff : s.premix_offset < s.premix_size) (hL : L + len ≤ s.premix_size)
    (ht : t = s.premix_time + L) (hfit : off + len ≤ s.premix_size)
    (hslot : off = slot s t ∨ len = 0)
    (hok : ∀ i, i < s.num_blocks → GoodBlock (s.bl i) ∧ FadeFree (s.bl i))
    (hr : t + len + 441 < 4294967296) (hl : 2 * len < 4294967296)
    (hco : CoherentOn s L) :
    CoherentOn (mix s t off len) (L + len) := by
  have hsb := mix_eta s t off len
  have hbl : (mix s t off len).bl = s.bl := by rw [hsb]
  have hnb : (mix s t off len).num_blocks = s.num_blocks := by rw [hsb]
  have hm1 : (mix s t off len).mem16 = s.mem16 := by rw [hsb]
  have hm2 : (mix s t off len).memf = s.memf := by rw [hsb]
  have hgv : (mix s t off len).global_volume = s.global_volume := by rw [hsb]
  have hpo : (mix s t off len).premix_offset = s.premix_offset := by rw [hsb]
  have hpt : (mix s t off len).premix_time = s.premix_time := by rw [hsb]
  have hps : (mix s t off len).premix_size = s.premix_size := by rw [hsb]
  have hmv : (mix s t off len).msc_ver = s.msc_ver := by rw [hsb]
  intro u ch hu1 hu2 hch
  rw [hpt] at hu1 hu2
  rw [acc_same s _ hbl hnb hm1 hm2 hgv, slot_same s _ hpo hpt hps]
  obtain ⟨hF, hI⟩ := mix_closed s t off len hok hr hl (2 * slot s u + ch)
  rw [hF, hI]
  by_cases hold : u < t
  · -- a tick of the part that was coherent already: its frame is outside the piece
    have hout : ¬ (off * 2 ≤ 2 * slot s u + ch ∧ 2 * slot s u + ch < off * 2 + 2 * len) := by
      rcases hslot with hs | hs
      · rw [hs]
        unfold slot
        split_ifs <;> omega
      · omega
    rw [if_neg hout, if_neg hout]
    exact ⟨(hco u ch hu1 (by omega) hch).1,
      (converted_congr s _ hmv _ _).mpr (hco u ch hu1 (by omega) hch).2⟩
  · have hlen : len ≠ 0 := by omega
    have hs := hslot.resolve_right hlen
    have hsu : slot s u = off + (u - t) := by
      rw [hs]
      unfold slot at hs ⊢
      split_ifs at hs ⊢ <;> omega
    have hin : off * 2 ≤ 2 * slot s u + ch ∧ 2 * slot s u + ch < off * 2 + 2 * len := by
      rw [hsu]; omega
    have e1 : t + (2 * slot s u + ch - off * 2) / 2 = u := by rw [hsu]; omega
    have e2 : (2 * slot s u + ch - off * 2) % 2 = ch := by rw [hsu]; omega
    rw [if_pos hin, if_pos hin, e1, e2]
    exact ⟨rfl, converted_conv_mode s _ hmv off len _ _⟩

theorem same_but_rings_mix (s : MixLow) (t off len : Nat) :
    SameButRings s (mix s t off len) := mix_eta s t off len

/-- The invariant is re-established on a state that differs only in its rings and its
window length, once the rings are coherent on the new length. -/
theorem inv_of_rings (s s2 : MixLow) (n m : Nat) (h : Inv s) (hsb : SameButRings s s2)
    (hm : m = n) (hn : n ≤ s.premix_size) (hco : CoherentOn s2 n) :
    Inv { s2 with premix_len := m } := by
  obtain ⟨⟨hpt, hoff, hlen, hw, hP⟩, h441, hbrk, hblocks, _⟩ := h
  obtain ⟨g_bl, g_nb, g_ps, g_po, g_pt, g_pl, g_gv, g_mt, g_m16, g_mf, g_brk⟩ :=
    same_but_rings_fields s s2 hsb
  subst hm
  refine ⟨⟨?_, ?_, ?_, ?_, ?_⟩, ?_, ?_, ?_, ?_⟩
  · show s2.premix_time = s2.mix_time
    rw [g_pt, g_mt]; exact hpt
  · show s2.premix_offset < s2.premix_size
    rw [g_po, g_ps]; exact hoff
  · show m ≤ s2.premix_size
    rw [g_ps]; exact hn
  · show s2.mix_time + s2.premix_size < 4294967296
    rw [g_mt, g_ps]; exact hw
  · show 4 * s2.premix_size < 4294967296
    rw [g_ps]; exact hP
  · show s2.mix_time + s2.premix_size + 441 < 4294967296
    rw [g_mt, g_ps]; exact h441
  · show 0 < s2.brk
    rw [g_brk]; exact hbrk
  · intro i hi
    show BlockOK _ (s2.bl i)
    have hi' : i < s.num_blocks := by rw [← g_nb]; exact hi
    rw [g_bl]
    obtain ⟨a1, a2, a3⟩ := hblocks i hi'
    exact ⟨a1, a2, by show region_end (s.bl i) ≤ (s2.brk : Int); rw [g_brk]; exact a3⟩
  · exact hco

/-- `stb__premix_to` keeps the invariant. -/
theorem premix_to_inv (s : MixLow) (w : Nat) (h : Inv s) : Inv (stb__premix_to s w) := by
  have hInv := h
  obtain ⟨⟨hpt, hoff, hlen, hw, hP⟩, h441, hbrk, hblocks, hco⟩ := h
  have hok : ∀ i, i < s.num_blocks → GoodBlock (s.bl i) ∧ FadeFree (s.bl i) :=
    fun i hi => ⟨(hblocks i hi).1, (hblocks i hi).2.1⟩
  unfold stb__premix_to
  dsimp only
  by_cases h1 : w < s.mix_time
  · rw [if_pos h1]
    exact hInv
  rw [if_neg h1]
  have hcp : uadd s.mix_time s.premix_size = s.mix_time + s.premix_size := by
    unfold uadd; omega
  have htl : uadd s.premix_time s.premix_len = s.premix_time + s.premix_len := by
    unfold uadd; omega
  rw [hcp, htl]
  by_cases h2 : s.premix_time + s.premix_len
      < (if w > s.mix_time + s.premix_size then s.mix_time + s.premix_size else w)
  swap
  · rw [if_neg h2]
    exact hInv
  rw [if_pos h2]
  generalize hw' : (if w > s.mix_time + s.premix_size then s.mix_time + s.premix_size else w)
    = w' at h2 ⊢
  have hw'le : w' ≤ s.mix_time + s.premix_size := by
    rw [← hw']; split_ifs <;> omega
  have hnl : usub w' (s.premix_time + s.premix_len) = w' - (s.premix_time + s.premix_len) := by
    unfold usub; omega
  have hpol : uadd s.premix_offset s.premix_len = s.premix_offset + s.premix_len := by
    unfold uadd; omega
  rw [hnl, hpol]
  generalize hnew : w' - (s.premix_time + s.premix_len) = newlen at *
  have hoffset : stb__wrap s (s.premix_offset + s.premix_len)
      = slot s (s.premix_time + s.premix_len) := by
    unfold stb__wrap slot usub
    split_ifs <;> omega
  have hslotle : slot s (s.premix_time + s.premix_len) < s.premix_size := by
    unfold slot
    split_ifs <;> omega
  have hslotv : slot s (s.premix_time + s.premix_len) = s.premix_offset + s.premix_len
      ∨ slot s (s.premix_time + s.premix_len) + s.premix_size
          = s.premix_offset + s.premix_len := by
    unfold slot
    split_ifs <;> omega
  have hun : ∀ x, x = s.premix_len → uadd x newlen = s.premix_len + newlen := by
    intro x hx; rw [hx]; unfold uadd; omega
  rw [hoffset]
  generalize hoffd : slot s (s.premix_time + s.premix_len) = offset at *
  by_cases h3 : uadd offset newlen > s.premix_size
  · -- the new region wraps: two pieces
    rw [if_pos h3]
    have h3' : offset + newlen > s.premix_size := by unfold uadd at h3; omega
    have hleft : usub s.premix_size offset = s.premix_size - offset := by unfold usub; omega
    have hrest : usub newlen (s.premix_size - offset) = newlen - (s.premix_size - offset) := by
      unfold usub; omega
    have htl2 : uadd (s.premix_time + s.premix_len) (s.premix_size - offset)
        = s.premix_time + s.premix_len + (s.premix_size - offset) := by unfold uadd; omega
    rw [hleft, hrest, htl2]
    have hopl : offset = s.premix_offset + s.premix_len := by omega
    have e : s.premix_len + (s.premix_size - offset) + (newlen - (s.premix_size - offset))
        = s.premix_len + newlen := by omega
    have a1 : s.premix_len + (s.premix_size - offset) ≤ s.premix_size := by omega
    have a2 : offset + (s.premix_size - offset) ≤ s.premix_size := by omega
    have a3 : s.premix_time + s.premix_len + (s.premix_size - offset) + 441 < 4294967296 := by
      omega
    have a4 : 2 * (s.premix_size - offset) < 4294967296 := by omega
    have a5 : s.premix_len + (s.premix_size - offset) + (newlen - (s.premix_size - offset))
        ≤ s.premix_size := by omega
    have a6 : s.premix_time + s.premix_len + (s.premix_size - offset)
        = s.premix_time + (s.premix_len + (s.premix_size - offset)) := by omega
    have a7 : 0 + (newlen - (s.premix_size - offset)) ≤ s.premix_size := by omega
    have a8 : s.premix_time + s.premix_len + (s.premix_size - offset)
        + (newlen - (s.premix_size - offset)) + 441 < 4294967296 := by omega
    have a9 : 2 * (newlen - (s.premix_size - offset)) < 4294967296 := by omega
    have a10 : s.premix_len + newlen ≤ s.premix_size := by omega
    have hslot2 : 0 = slot s (s.premix_time + s.premix_len + (s.premix_size - offset)) := by
      unfold slot
      split_ifs <;> omega
    have c1 := coherent_mix_piece s s.premix_len (s.premix_time + s.premix_len) offset
      (s.premix_size - offset) hoff a1 rfl a2 (Or.inl hoffd.symm) hok a3 a4 hco
    have hsb := same_but_rings_mix s (s.premix_time + s.premix_len) offset
      (s.premix_size - offset)
    generalize mix s (s.premix_time + s.premix_len) offset (s.premix_size - offset) = s1
      at c1 hsb ⊢
    obtain ⟨f_bl, f_nb, f_ps, f_po, f_pt, f_pl, f_gv, f_mt, f_m16, f_mf, f_brk⟩ :=
      same_but_rings_fields s s1 hsb
    have hslot2b : 0 = slot s1 (s.premix_time + s.premix_len + (s.premix_size - offset)) := by
      rw [slot_same s s1 f_po f_pt f_ps]
      exact hslot2
    have c2 := coherent_mix_piece s1 (s.premix_len + (s.premix_size - offset))
      (s.premix_time + s.premix_len + (s.premix_size - offset)) 0
      (newlen - (s.premix_size - offset)) (by rw [f_po, f_ps]; exact hoff)
      (by rw [f_ps]; exact a5) (by rw [f_pt]; exact a6) (by rw [f_ps]; exact a7)
      (Or.inl hslot2b)
      (by rw [f_bl, f_nb]; exact hok) a8 a9 c1
    have hsb2 := same_but_rings_mix s1 (s.premix_time + s.premix_len + (s.premix_size - offset))
      0 (newlen - (s.premix_size - offset))
    generalize mix s1 (s.premix_time + s.premix_len + (s.premix_size - offset)) 0
      (newlen - (s.premix_size - offset)) = s2 at c2 hsb2 ⊢
    have hsb3 := same_but_rings_trans s s1 s2 hsb hsb2
    rw [e] at c2
    have g_pl := (same_but_rings_fields s s2 hsb3).2.2.2.2.2.1
    exact inv_of_rings s s2 (s.premix_len + newlen) _ hInv hsb3 (hun _ g_pl) a10 c2
  · rw [if_neg h3]
    have h3' : offset + newlen ≤ s.premix_size := by unfold uadd at h3; omega
    have a1 : s.premix_len + newlen ≤ s.premix_size := by omega
    have a3 : s.premix_time + s.premix_len + newlen + 441 < 4294967296 := by omega
    have a4 : 2 * newlen < 4294967296 := by omega
    have c1 := coherent_mix_piece s s.premix_len (s.premix_time + s.premix_len) offset
      newlen hoff a1 rfl h3' (Or.inl hoffd.symm) hok a3 a4 hco
    have hsb := same_but_rings_mix s (s.premix_time + s.premix_len) offset newlen
    generalize mix s (s.premix_time + s.premix_len) offset newlen = s1 at c1 hsb ⊢
    have g_pl := (same_but_rings_fields s s1 hsb).2.2.2.2.2.1
    exact inv_of_rings s s1 (s.premix_len + newlen) _ hInv hsb (hun _ g_pl) a1 c1

theorem mix_integerize_float (s : MixLow) (off len : Nat) :
    (stb__mix_integerize s off len).premix_float = s.premix_float := by
  unfold stb__mix_integerize
  split_ifs <;> rfl

theorem mix_block_int (s : MixLow) (o t l : Nat) (b : stb__block) :
    (stb__mix_block s o t l b).premix_int = s.premix_int := by
  rw [mix_block_eta]

/-- One piece of `stb__add_to_premix`: over the ticks of the window the float ring gains
the contribution of the block on the ticks of the piece, and the 16-bit ring stays the
conversion of the float ring. -/
theorem add_piece (s : MixLow) (b : stb__block) (Lw t off len : Nat)
    (hoff : s.premix_offset < s.premix_size) (hLw : Lw ≤ s.premix_size)
    (ht1 : s.premix_time ≤ t) (ht2 : t + len ≤ s.premix_time + Lw)
    (hfit : off + len ≤ s.premix_size) (hslot : off = slot s t)
    (hb : GoodBlock b) (hf : FadeFree b)
    (hr : t + len + 441 < 4294967296) (hl : 2 * len < 4294967296)
    (s1 : MixLow) (c : Prop) [Decidable c]
    (hc : c ↔ (b.start_time < t + len ∧ b.start_time + b.duration > t))
    (hs1 : s1 = if c
      then stb__mix_integerize (stb__mix_block s (off * 2) t len b) off len else s)
    (hI : ∀ u ch, s.premix_time ≤ u → u < s.premix_time + Lw → ch < 2 →
      Converted s (s.premix_float (2 * slot s u + ch)) (s.premix_int (2 * slot s u + ch))) :
    ∀ u ch, s.premix_time ≤ u → u < s.premix_time + Lw → ch < 2 →
      s1.premix_float (2 * slot s u + ch)
          = s.premix_float (2 * slot s u + ch)
            + (if t ≤ u ∧ u < t + len then block_contrib s b u ch else 0)
        ∧ Converted s (s1.premix_float (2 * slot s u + ch))
            (s1.premix_int (2 * slot s u + ch)) := by
  intro u ch hu1 hu2 hch
  by_cases hlive0 : c
  swap
  · rw [if_neg hlive0] at hs1
    have hlive : ¬ (b.start_time < t + len ∧ b.start_time + b.duration > t) :=
      fun h => hlive0 (hc.2 h)
    subst hs1
    have hz : (if t ≤ u ∧ u < t + len then block_contrib s1 b u ch else 0) = 0 := by
      split_ifs with h
      · exact block_contrib_dead s1 b u ch (by omega)
      · rfl
    rw [hz, add_zero]
    exact ⟨rfl, hI u ch hu1 hu2 hch⟩
  rw [if_pos hlive0] at hs1
  have hlive := hc.1 hlive0
  have hF : s1.premix_float = ring_add s.premix_float (off * 2) t len (block_contrib s b) := by
    rw [hs1, mix_integerize_float]
    exact mix_block_closed s (off * 2) t len b hb hf hlive.1 (by omega) hr hl
  have hIv : ∀ j, s1.premix_int j
      = if len ≠ 0 ∧ off * 2 ≤ j ∧ j < off * 2 + 2 * len
        then stb__integerize_one (conv_mode s off len j) (s1.premix_float j)
        else s.premix_int j := by
    intro j
    have hF' : s1.premix_float = (stb__mix_block s (off * 2) t len b).premix_float := by
      rw [hs1, mix_integerize_float]
    have hcm : conv_mode (stb__mix_block s (off * 2) t len b) off len j
        = conv_mode s off len j := by
      apply conv_mode_congr <;> rw [mix_block_eta]
    rw [hF', hs1, mix_integerize_int_apply _ _ _ _ hl, mix_block_int, hcm]
  rw [hIv, hF]
  unfold ring_add
  by_cases hin : t ≤ u ∧ u < t + len
  · have hsu : slot s u = off + (u - t) := by
      rw [hslot]
      unfold slot
      unfold slot at hslot
      split_ifs at hslot ⊢ <;> omega
    have hin2 : off * 2 ≤ 2 * slot s u + ch ∧ 2 * slot s u + ch < off * 2 + 2 * len := by
      rw [hsu]; omega
    have e1 : t + (2 * slot s u + ch - off * 2) / 2 = u := by rw [hsu]; omega
    have e2 : (2 * slot s u + ch - off * 2) % 2 = ch := by rw [hsu]; omega
    have hlen : len ≠ 0 := by omega
    rw [if_pos hin2, if_pos hin, if_pos ⟨hlen, hin2⟩, e1, e2]
    exact ⟨rfl, converted_conv_mode s s rfl off len _ _⟩
  · have hout : ¬ (off * 2 ≤ 2 * slot s u + ch ∧ 2 * slot s u + ch < off * 2 + 2 * len) := by
      rw [hslot]
      unfold slot
      unfold slot at hslot
      split_ifs at hslot ⊢ <;> omega
    have hout2 : ¬ (len ≠ 0 ∧ off * 2 ≤ 2 * slot s u + ch
        ∧ 2 * slot s u + ch < off * 2 + 2 * len) := fun h => hout h.2
    rw [if_neg hout, if_neg hin, if_neg hout2, add_zero]
    exact ⟨rfl, hI u ch hu1 hu2 hch⟩

theorem piece_same (s : MixLow) (b : stb__block) (o t off len : Nat) (c : Prop)
    [Decidable c] :
    SameButRings s (if c then stb__mix_integerize (stb__mix_block s o t len b) off len
      else s) := by
  split_ifs
  · exact same_but_rings_trans _ _ _ (same_but_rings_mix_block s o t len b)
      (same_but_rings_integerize _ off len)
  · exact same_but_rings_refl s

/-- The effect of `stb__add_to_premix` on the materialized window: every tick of the
window gains the contribution of the block, in both rings. -/
theorem add_to_premix_window (s : MixLow) (i : Nat) (hw : WindowFits s)
    (h441 : s.mix_time + s.premix_size + 441 < 4294967296)
    (hb : GoodBlock (s.bl i)) (hf : FadeFree (s.bl i))
    (hI : ∀ u ch, s.premix_time ≤ u → u < s.premix_time + s.premix_len → ch < 2 →
      Converted s (s.premix_float (2 * slot s u + ch)) (s.premix_int (2 * slot s u + ch))) :
    ∀ u ch, s.premix_time ≤ u → u < s.premix_time + s.premix_len → ch < 2 →
      (stb__add_to_premix s i).premix_float (2 * slot s u + ch)
          = s.premix_float (2 * slot s u + ch) + block_contrib s (s.bl i) u ch
        ∧ Converted s ((stb__add_to_premix s i).premix_float (2 * slot s u + ch))
            ((stb__add_to_premix s i).premix_int (2 * slot s u + ch)) := by
  obtain ⟨hpt, hoff, hlen, hww, hP⟩ := hw
  unfold stb__add_to_premix
  dsimp only
  generalize s.bl i = b at *
  have hbd : uadd b.start_time b.duration = b.start_time + b.duration := by
    unfold uadd; have := hb.2.2.2.2.1; omega
  have e1 : uadd s.premix_offset s.premix_len = s.premix_offset + s.premix_len := by
    unfold uadd; omega
  have e2 : usub s.premix_size s.premix_offset = s.premix_size - s.premix_offset := by
    unfold usub; omega
  have e3 : uadd s.premix_time (s.premix_size - s.premix_offset)
      = s.premix_time + (s.premix_size - s.premix_offset) := by unfold uadd; omega
  have e4 : uadd s.premix_time s.premix_len = s.premix_time + s.premix_len := by
    unfold uadd; omega
  have hs0 : s.premix_offset = slot s s.premix_time := by
    unfold slot
    split_ifs <;> omega
  rw [hbd, e1, e2, e3, e4]
  by_cases h2 : s.premix_offset + s.premix_len > s.premix_size
  · rw [if_pos h2]
    have e5 : usub s.premix_len (s.premix_size - s.premix_offset)
        = s.premix_len - (s.premix_size - s.premix_offset) := by unfold usub; omega
    have p1 := add_piece s b s.premix_len s.premix_time s.premix_offset
      (s.premix_size - s.premix_offset) hoff hlen (le_refl _) (by omega) (by omega) hs0 hb hf
      (by omega) (by omega) _ _ Iff.rfl rfl hI
    have sb1 := piece_same s b (s.premix_offset * 2) s.premix_time s.premix_offset
      (s.premix_size - s.premix_offset)
      (b.start_time < s.premix_time + (s.premix_size - s.premix_offset)
        ∧ b.start_time + b.duration > s.premix_time)
    generalize (if b.start_time < s.premix_time + (s.premix_size - s.premix_offset)
        ∧ b.start_time + b.duration > s.premix_time
      then stb__mix_integerize (stb__mix_block s (s.premix_offset * 2) s.premix_time
        (s.premix_size - s.premix_offset) b) s.premix_offset (s.premix_size - s.premix_offset)
      else s) = s1 at p1 sb1 ⊢
    obtain ⟨f_bl, f_nb, f_ps, f_po, f_pt, f_pl, f_gv, f_mt, f_m16, f_mf, f_brk⟩ :=
      same_but_rings_fields s s1 sb1
    rw [f_pt, f_pl, e3, e4, e5]
    have hs2 : 0 = slot s1 (s.premix_time + (s.premix_size - s.premix_offset)) := by
      rw [slot_same s s1 f_po f_pt f_ps]
      unfold slot
      split_ifs <;> omega
    have f_mv : s1.msc_ver = s.msc_ver := by
      unfold SameButRings at sb1
      rw [sb1]
    have hI1 : ∀ u ch, s1.premix_time ≤ u → u < s1.premix_time + s.premix_len → ch < 2 →
        Converted s1 (s1.premix_float (2 * slot s1 u + ch))
          (s1.premix_int (2 * slot s1 u + ch)) := by
      intro u ch h1 h2 h3
      rw [slot_same s s1 f_po f_pt f_ps]
      rw [f_pt] at h1 h2
      exact (converted_congr s s1 f_mv _ _).mpr (p1 u ch h1 h2 h3).2
    have p2 := add_piece s1 b s.premix_len (s.premix_time + (s.premix_size - s.premix_offset)) 0
      (s.premix_len - (s.premix_size - s.premix_offset)) (by rw [f_po, f_ps]; exact hoff)
      (by rw [f_ps]; exact hlen) (by rw [f_pt]; omega) (by rw [f_pt]; omega)
      (by rw [f_ps]; omega) hs2 hb hf (by omega) (by omega)
      _ (b.start_time < s.premix_time + s.premix_len
        ∧ b.start_time + b.duration > s.premix_time + (s.premix_size - s.premix_offset))
      (by constructor <;> intro h <;> constructor <;> omega) rfl hI1
    rw [Nat.zero_mul] at p2
    intro u ch hu1 hu2 hch
    obtain ⟨q1, -⟩ := p1 u ch hu1 hu2 hch
    have hu1' : s1.premix_time ≤ u := by rw [f_pt]; exact hu1
    have hu2' : u < s1.premix_time + s.premix_len := by rw [f_pt]; exact hu2
    obtain ⟨q2, q3⟩ := p2 u ch hu1' hu2' hch
    rw [slot_same s s1 f_po f_pt f_ps] at q2 q3
    refine ⟨?_, (converted_congr s s1 f_mv _ _).mp q3⟩
    rw [q2, q1, block_contrib_same s s1 b u ch f_m16 f_mf f_gv]
    by_cases hu : u < s.premix_time + (s.premix_size - s.premix_offset)
    · rw [if_pos ⟨hu1, hu⟩, if_neg (by omega), add_zero]
    · rw [if_neg (by omega), if_pos ⟨by omega, by omega⟩, add_zero]
  · rw [if_neg h2]
    have p1 := add_piece s b s.premix_len s.premix_time s.premix_offset
      s.premix_len hoff hlen (le_refl _) (le_refl _) (by omega) hs0 hb hf
      (by omega) (by omega) _ _ Iff.rfl rfl hI
    intro u ch hu1 hu2 hch
    obtain ⟨q1, q2⟩ := p1 u ch hu1 hu2 hch
    refine ⟨?_, q2⟩
    rw [q1, if_pos ⟨hu1, hu2⟩]

theorem add_playback_raw_full (s : MixLow) (a : Playback) (h : s.num_blocks = MAX_BLOCKS) :
    stb_mixlow_add_playback_raw s a = s := by
  unfold stb_mixlow_add_playback_raw
  dsimp only
  split_ifs <;> rfl

/-- The store and copy of a scheduling call leave the memory below the allocation
frontier alone and only move the frontier up. -/
theorem sched_memory (s : MixLow) (a : Playback) :
    s.brk ≤ (sched s a).brk
    ∧ (∀ x : Int, x < (s.brk : Int) → (sched s a).mem16 x = s.mem16 x)
    ∧ (∀ x : Int, x < (s.brk : Int) → (sched s a).memf x = s.memf x) := by
  unfold sched
  by_cases hc : a.handle = 0 ∧ toUChar a.safe = 0
  · rw [if_pos hc]
    refine ⟨Nat.le_add_right _ _, ?_, ?_⟩
    · intro x hx
      show (if a.samples ≠ 0
        then memcpy_mem s.mem16 s.brk a.samples (copy_bytes (new_block a)) else s.mem16) x
        = s.mem16 x
      split_ifs
      · unfold memcpy_mem
        rw [if_neg (by omega)]
      · rfl
    · intro x hx
      show (if a.samples ≠ 0 then s.memf
        else memcpy_mem s.memf s.brk a.fsamples (copy_bytes (new_block a))) x = s.memf x
      split_ifs
      · rfl
      · unfold memcpy_mem
        rw [if_neg (by omega)]
  · rw [if_neg hc]
    exact ⟨le_refl _, fun _ _ => rfl, fun _ _ => rfl⟩

/-- A block whose source lies below a frontier reads the same values in two memories
that agree below the frontier. -/
theorem block_rd_below (s s1 : MixLow) (b : stb__block) (f : Nat)
    (hreg : region_end b ≤ (f : Int))
    (h16 : ∀ x : Int, x < (f : Int) → s1.mem16 x = s.mem16 x)
    (hf : ∀ x : Int, x < (f : Int) → s1.memf x = s.memf x)
    (k : Int) (_h0 : 0 ≤ k) (h1 : k < (b.channels : Int) * frames_needed b) :
    block_rd s b k = block_rd s1 b k := by
  unfold block_rd
  unfold region_end at hreg
  split_ifs at hreg ⊢
  · unfold rd16
    rw [h16 _ (by omega)]
  · unfold rdf
    rw [hf _ (by omega)]

theorem block_contrib_below (s s1 : MixLow) (b : stb__block) (f : Nat) (hb : GoodBlock b)
    (hreg : region_end b ≤ (f : Int))
    (h16 : ∀ x : Int, x < (f : Int) → s1.mem16 x = s.mem16 x)
    (hf : ∀ x : Int, x < (f : Int) → s1.memf x = s.memf x)
    (hg : s1.global_volume = s.global_volume) (u ch : Nat) (hch : ch < 2) :
    block_contrib s1 b u ch = block_contrib s b u ch := by
  unfold block_contrib
  split_ifs with h
  · rw [block_value_congr s s1 b hb (block_rd_below s s1 b f hreg h16 hf) u ch h.1 h.2 hch, hg]
  · rfl

theorem acc_succ (s : MixLow) (n : Nat) (hn : s.num_blocks = n + 1) (u ch : Nat) :
    acc s u ch
      = ((List.range n).map (fun i => block_contrib s (s.bl i) u ch)).sum
        + block_contrib s (s.bl n) u ch := by
  unfold acc
  rw [hn, List.range_succ, List.map_append, List.sum_append]
  simp

/-- After the store and copy of a scheduling call the target sum of every tick is the
old one plus the contribution of the new block. -/
theorem sched_acc (s : MixLow) (a : Playback)
    (hblocks : ∀ i, i < s.num_blocks → BlockOK s (s.bl i)) (u ch : Nat) (hch : ch < 2) :
    acc (sched s a) u ch
      = acc s u ch + block_contrib (sched s a) ((sched s a).bl s.num_blocks) u ch := by
  rw [acc_succ (sched s a) s.num_blocks (sched_num_blocks s a)]
  congr 1
  unfold acc
  congr 1
  apply List.map_congr_left
  intro i hi
  have hi' : i < s.num_blocks := List.mem_range.mp hi
  rw [sched_block_other s a i (by omega)]
  obtain ⟨hg, _, hreg⟩ := hblocks i hi'
  obtain ⟨_, h16, hf⟩ := sched_memory s a
  exact block_contrib_below s (sched s a) (s.bl i) s.brk hg hreg h16 hf
    (sched_rest s a).2.2.2.2.2.2.1 u ch hch

theorem region_end_copy (a : Playback) (ha : GoodPlayback a) (x : Nat) (hx : 0 < x) :
    region_end (if a.samples ≠ 0 then { new_block a with samples := x, must_free := 1 }
      else { new_block a with fsamples := x, must_free := 1 })
      = (x : Int) + copy_bytes (new_block a) ∧ 0 ≤ copy_bytes (new_block a) := by
  have hg := good_new_block a ha
  have hpos := frames_needed_pos (new_block a) hg
  have hchn : (0 : Int) ≤ ((new_block a).channels : Int) := Int.natCast_nonneg _
  have hprod : 0 ≤ ((new_block a).channels : Int) * frames_needed (new_block a) :=
    mul_nonneg hchn hpos.le
  obtain ⟨hptr, -⟩ := ha
  have hx0 : x ≠ 0 := by omega
  rcases hptr with ⟨hp1, hp2⟩ | ⟨hp1, hp2⟩
  · have hs0 : a.samples ≠ 0 := by omega
    rw [if_pos hs0]
    have hf0 : (new_block a).fsamples = 0 := hp2
    unfold region_end copy_bytes
    rw [hf0]
    simp only [ne_eq, not_true_eq_false, if_false, hx0, not_false_eq_true, if_true]
    have e : frames_needed { new_block a with samples := x, must_free := 1 }
        = frames_needed (new_block a) := rfl
    rw [e]
    have e2 : ({ new_block a with samples := x, must_free := 1 } : stb__block).channels
        = (new_block a).channels := rfl
    rw [e2]
    constructor <;> linarith
  · have hs0 : ¬ a.samples ≠ 0 := by omega
    rw [if_neg hs0]
    have hf0 : (new_block a).fsamples ≠ 0 := by
      show a.fsamples ≠ 0
      omega
    have hs1 : (new_block a).samples = 0 := hp1
    unfold region_end copy_bytes
    rw [if_pos hf0]
    have e0 : ({ new_block a with fsamples := x, must_free := 1 } : stb__block).samples = 0 := hp1
    rw [e0]
    simp only [ne_eq, not_true_eq_false, if_false]
    have e : frames_needed { new_block a with fsamples := x, must_free := 1 }
        = frames_needed (new_block a) := rfl
    rw [e]
    have e2 : ({ new_block a with fsamples := x, must_free := 1 } : stb__block).channels
        = (new_block a).channels := rfl
    rw [e2]
    constructor <;> linarith

/-- After the store and copy of an admissible scheduling call every block of the table is
well-formed, without fades, and reads below the new allocation frontier. -/
theorem sched_blocks_ok (s : MixLow) (a : Playback) (f : Nat) (hf : f ≤ s.brk)
    (hbrk : 0 < s.brk) (ha : SchedOK f a)
    (hblocks : ∀ i, i < s.num_blocks → BlockOK s (s.bl i)) :
    ∀ i, i < (sched s a).num_blocks → BlockOK (sched s a) ((sched s a).bl i) := by
  obtain ⟨hgp, hfade, hsrc⟩ := ha
  obtain ⟨hbrk', -, -⟩ := sched_memory s a
  intro i hi
  rw [sched_num_blocks] at hi
  by_cases hin : i = s.num_blocks
  · subst hin
    obtain ⟨g1, g2, g3, g4, g5, g6, g7, g8, g9, g10, g11, g12, g13⟩ := sched_block_good s a hgp
    refine ⟨g1, fade_free_of_no_fadein _ (by rw [g11, g12, g3]; exact hfade) g13
      (by rw [g3, g4]; exact hgp.2.2.2.2.2.1), ?_⟩
    rw [sched_block]
    by_cases hc : a.handle = 0 ∧ toUChar a.safe = 0
    · rw [if_pos hc]
      obtain ⟨r1, r2⟩ := region_end_copy a hgp s.brk hbrk
      rw [r1]
      have : (sched s a).brk = s.brk + (copy_bytes (new_block a)).toNat := by
        unfold sched
        rw [if_pos hc]
      rw [this]
      push_cast
      rw [Int.toNat_of_nonneg r2]
    · rw [if_neg hc]
      have := hsrc.resolve_left hc
      omega
  · rw [sched_block_other s a i hin]
    obtain ⟨a1, a2, a3⟩ := hblocks i (by omega)
    exact ⟨a1, a2, by omega⟩

/-- An admissible scheduling call keeps the invariant, and the allocation frontier does
not move down. -/
theorem add_playback_inv (s : MixLow) (a : Playback) (f : Nat) (hf : f ≤ s.brk)
    (h : Inv s) (ha : SchedOK f a) :
    Inv (stb_mixlow_add_playback_raw s a) ∧ s.brk ≤ (stb_mixlow_add_playback_raw s a).brk := by
  by_cases hfull : s.num_blocks = MAX_BLOCKS
  · rw [add_playback_raw_full s a hfull]
    exact ⟨h, le_refl _⟩
  obtain ⟨⟨hpt, hoff, hlen, hw, hP⟩, h441, hbrk, hblocks, hco⟩ := h
  have hgp := ha.1
  have hsb := add_playback_raw_rings s a hgp hfull hbrk
  have heq := add_playback_raw_eq s a hgp hfull hbrk
  have hblk := sched_blocks_ok s a f hf hbrk ha hblocks
  have hacc := sched_acc s a hblocks
  obtain ⟨hbrk', -, -⟩ := sched_memory s a
  obtain ⟨r_F, r_I, r_ps, r_po, r_pt, r_pl, r_gv, r_mt⟩ := sched_rest s a
  have hnb := sched_num_blocks s a
  have r_mv : (sched s a).msc_ver = s.msc_ver := by
    unfold sched
    split_ifs <;> rfl
  obtain ⟨g1, g2, g3, g4, g5, g6, g7, g8, g9, g10, g11, g12, g13⟩ := sched_block_good s a hgp
  have hbok := hblk s.num_blocks (by rw [hnb]; omega)
  have hwin : ∀ u ch, s.premix_time ≤ u → u < s.premix_time + s.premix_len → ch < 2 →
      (stb_mixlow_add_playback_raw s a).premix_float (2 * slot s u + ch)
          = acc (sched s a) u ch
        ∧ Converted s (acc (sched s a) u ch)
            ((stb_mixlow_add_playback_raw s a).premix_int (2 * slot s u + ch)) := by
    have e4 : uadd s.premix_time s.premix_len = s.premix_time + s.premix_len := by
      unfold uadd; omega
    rw [heq, e4]
    intro u ch hu1 hu2 hch
    obtain ⟨c1, c2⟩ := hco u ch hu1 hu2 hch
    by_cases hadd : a.start_time < s.premix_time + s.premix_len
    · rw [if_pos hadd]
      have hI : ∀ u ch, (sched s a).premix_time ≤ u →
          u < (sched s a).premix_time + (sched s a).premix_len → ch < 2 →
          Converted (sched s a) ((sched s a).premix_float (2 * slot (sched s a) u + ch))
            ((sched s a).premix_int (2 * slot (sched s a) u + ch)) := by
        intro u ch h1 h2 h3
        rw [r_pt] at h1 h2
        rw [r_pl] at h2
        rw [slot_same s (sched s a) r_po r_pt r_ps, r_F, r_I]
        obtain ⟨d1, d2⟩ := hco u ch h1 h2 h3
        rw [d1]
        exact (converted_congr s _ r_mv _ _).mpr d2
      have hwf : WindowFits (sched s a) := by
        unfold WindowFits
        rw [r_pt, r_mt, r_po, r_ps, r_pl]
        exact ⟨hpt, hoff, hlen, hw, hP⟩
      have p := add_to_premix_window (sched s a) s.num_blocks hwf
        (by rw [r_mt, r_ps]; exact h441) hbok.1 hbok.2.1 hI u ch
        (by rw [r_pt]; exact hu1) (by rw [r_pt, r_pl]; exact hu2) hch
      rw [slot_same s (sched s a) r_po r_pt r_ps, r_F] at p
      obtain ⟨p1, p2⟩ := p
      have e : (stb__add_to_premix (sched s a) s.num_blocks).premix_float (2 * slot s u + ch)
          = acc (sched s a) u ch := by
        rw [p1, hacc u ch hch, c1]
      refine ⟨e, ?_⟩
      rw [e] at p2
      exact (converted_congr s _ r_mv _ _).mp p2
    · rw [if_neg hadd]
      have hz : block_contrib (sched s a) ((sched s a).bl s.num_blocks) u ch = 0 :=
        block_contrib_dead _ _ u ch (by rw [g3]; omega)
      rw [hacc u ch hch, hz, add_zero, r_F, r_I]
      exact ⟨c1, c2⟩
  generalize stb_mixlow_add_playback_raw s a = sf at hsb hwin ⊢
  obtain ⟨f_bl, f_nb, f_ps, f_po, f_pt, f_pl, f_gv, f_mt, f_m16, f_mf, f_brk⟩ :=
    same_but_rings_fields (sched s a) sf hsb
  have f_mv : sf.msc_ver = (sched s a).msc_ver := by
    unfold SameButRings at hsb
    rw [hsb]
  refine ⟨⟨⟨?_, ?_, ?_, ?_, ?_⟩, ?_, ?_, ?_, ?_⟩, ?_⟩
  · rw [f_pt, f_mt, r_pt, r_mt]; exact hpt
  · rw [f_po, f_ps, r_po, r_ps]; exact hoff
  · rw [f_pl, f_ps, r_pl, r_ps]; exact hlen
  · rw [f_mt, f_ps, r_mt, r_ps]; exact hw
  · rw [f_ps, r_ps]; exact hP
  · rw [f_mt, f_ps, r_mt, r_ps]; exact h441
  · rw [f_brk]; omega
  · intro i hi
    rw [f_nb] at hi
    rw [f_bl]
    obtain ⟨a1, a2, a3⟩ := hblk i hi
    exact ⟨a1, a2, by rw [f_brk]; exact a3⟩
  · intro u ch hu1 hu2 hch
    rw [f_pt, r_pt] at hu1 hu2
    rw [f_pl, r_pl] at hu2
    rw [acc_same (sched s a) sf f_bl f_nb f_m16 f_mf f_gv,
      slot_same (sched s a) sf f_po f_pt f_ps, slot_same s (sched s a) r_po r_pt r_ps]
    exact ⟨(hwin u ch hu1 hu2 hch).1,
      (converted_congr s sf (f_mv.trans r_mv) _ _).mpr (hwin u ch hu1 hu2 hch).2⟩
  · rw [f_brk]; exact hbrk'

theorem premix_to_table (s : MixLow) (w : Nat) :
    (stb__premix_to s w).bl = s.bl ∧ (stb__premix_to s w).num_blocks = s.num_blocks
    ∧ (stb__premix_to s w).mem16 = s.mem16 ∧ (stb__premix_to s w).memf = s.memf
    ∧ (stb__premix_to s w).global_volume = s.global_volume
    ∧ (stb__premix_to s w).brk = s.brk := by
  refine ⟨?_, ?_, ?_, ?_, ?_, ?_⟩ <;> rw [premix_to_eta]

/-- The window after `stb__premix_to` reaches the requested tick, when that tick is
within the capacity. -/
theorem premix_to_reaches (s : MixLow) (w : Nat) (hw : WindowFits s)
    (h1 : s.mix_time ≤ w) (h2 : w ≤ s.mix_time + s.premix_size) :
    w ≤ s.premix_time + (stb__premix_to s w).premix_len := by
  obtain ⟨hpt, hoff, hlen, hww, hP⟩ := hw
  rw [premix_to_len]
  have e1 : uadd s.mix_time s.premix_size = s.mix_time + s.premix_size := by
    unfold uadd; omega
  have e2 : uadd s.premix_time s.premix_len = s.premix_time + s.premix_len := by
    unfold uadd; omega
  have hc1 : ¬ w < s.mix_time := by omega
  have hc2 : ¬ w > s.mix_time + s.premix_size := by omega
  rw [e1, e2, if_neg hc1, if_neg hc2]
  split_ifs with h
  · unfold uadd usub
    omega
  · omega

/-- Under the invariant an extract within the capacity delivers, for every tick of the
range and both channels, a 16-bit conversion of the sum of the contributions of the
scheduled blocks. -/
theorem mix_delivers_acc (s : MixLow) (out : Nat → Int) (A N : Nat) (h : Inv s)
    (hA : s.mix_time ≤ A) (hcap : A + N ≤ s.mix_time + s.premix_size)
    (j : Nat) (hj : j < 2 * N) :
    Converted s (acc s (A + j / 2) (j % 2)) ((stb_mixlow_mix s out A N).output j) := by
  have hinv1 := premix_to_inv s (A + N) h
  obtain ⟨⟨hpt, hoff, hlen, hw, hP⟩, h441, hbrk, hblocks, hco⟩ := h
  have hu : uadd A N = A + N := by unfold uadd; omega
  have hreach := premix_to_reaches s (A + N) ⟨hpt, hoff, hlen, hw, hP⟩ (by omega) hcap
  obtain ⟨t_bl, t_nb, t_m16, t_mf, t_gv, t_brk⟩ := premix_to_table s (A + N)
  have f_pt := premix_to_time s (A + N)
  have f_po := premix_to_offset s (A + N)
  have f_ps := premix_to_size s (A + N)
  have f_mv : (stb__premix_to s (A + N)).msc_ver = s.msc_ver := by rw [premix_to_eta]
  rw [mix_output, hu, if_neg (by omega), f_pt, if_neg (by omega)]
  rw [← acc_same s (stb__premix_to s (A + N)) t_bl t_nb t_m16 t_mf t_gv]
  generalize stb__premix_to s (A + N) = s1 at *
  obtain ⟨⟨-, -, hlen1, -, -⟩, -, -, -, hco1⟩ := hinv1
  have hd : mix_duration s1 A N = N :=
    mix_duration_unclamped s1 A N (by omega) (by rw [f_pt]; exact hreach) (by rw [f_pt, f_ps] at *; omega)
  obtain ⟨ho1, ho2⟩ := mix_offset_cases s1 A (by rw [f_po, f_ps]; exact hoff)
    (by rw [f_pt]; omega) (by rw [f_pt, f_ps]; omega) (by omega) (by rw [f_ps]; exact hP)
  rw [mix_copy_apply s1 out A N j ho1 (by rw [hd, f_ps]; omega) (by rw [f_ps]; exact hP)
    (by rw [hd]; exact hj)]
  obtain ⟨-, c2⟩ := hco1 (A + j / 2) (j % 2) (by rw [f_pt]; omega)
    (by rw [f_pt]; omega) (Nat.mod_lt _ (by decide))
  rw [f_po, f_pt, f_ps] at ho2
  rw [f_ps] at ho1 ⊢
  generalize mix_offset s1 A = moff at *
  have hsl : slot s1 (A + j / 2)
      = if j < 2 * (s.premix_size - moff) then moff + j / 2
        else j / 2 - (s.premix_size - moff) := by
    unfold slot
    rw [f_po, f_pt, f_ps]
    split_ifs <;> omega
  have hidx : (if j < 2 * (s.premix_size - moff) then s1.premix_int (moff * 2 + j)
      else s1.premix_int (j - 2 * (s.premix_size - moff)))
      = s1.premix_int (2 * slot s1 (A + j / 2) + j % 2) := by
    rw [hsl]
    split_ifs
    · congr 1; omega
    · congr 1; omega
  rw [hidx]
  exact (converted_congr s s1 f_mv _ _).mp c2

theorem same_table_refl (s : MixLow) : SameTable s s := ⟨rfl, rfl, rfl, rfl, rfl, rfl⟩

theorem same_table_symm (s s1 : MixLow) (h : SameTable s s1) : SameTable s1 s := by
  obtain ⟨h1, h2, h3, h4, h5, h6⟩ := h
  exact ⟨h1.symm, h2.symm, h3.symm, h4.symm, h5.symm, h6.symm⟩

theorem same_table_trans (s s1 s2 : MixLow) (h : SameTable s s1) (k : SameTable s1 s2) :
    SameTable s s2 := by
  obtain ⟨h1, h2, h3, h4, h5, h6⟩ := h
  obtain ⟨k1, k2, k3, k4, k5, k6⟩ := k
  exact ⟨k1.trans h1, k2.trans h2, k3.trans h3, k4.trans h4, k5.trans h5, k6.trans h6⟩

theorem same_table_of_rings (s s1 : MixLow) (h : SameButRings s s1) : SameTable s s1 := by
  obtain ⟨f_bl, f_nb, f_ps, f_po, f_pt, f_pl, f_gv, f_mt, f_m16, f_mf, f_brk⟩ :=
    same_but_rings_fields s s1 h
  exact ⟨f_bl, f_nb, f_m16, f_mf, f_gv, f_brk⟩

/-- An extract changes neither the table nor the clock nor the capacity. -/
theorem extract_state (s : MixLow) (out : Nat → Int) (a n : Nat) :
    SameTable s (stb_mixlow_mix s out a n).state
    ∧ (stb_mixlow_mix s out a n).state.mix_time = s.mix_time
    ∧ (stb_mixlow_mix s out a n).state.premix_size = s.premix_size := by
  rw [mix_state]
  split_ifs
  · exact ⟨same_table_refl s, rfl, rfl⟩
  · obtain ⟨t_bl, t_nb, t_m16, t_mf, t_gv, t_brk⟩ := premix_to_table s (uadd a n)
    exact ⟨⟨t_bl, t_nb, t_m16, t_mf, t_gv, t_brk⟩, premix_to_mix_time s _, premix_to_size s _⟩

theorem extract_inv (s : MixLow) (out : Nat → Int) (a n : Nat) (h : Inv s) :
    Inv (stb_mixlow_mix s out a n).state := by
  rw [mix_state]
  split_ifs
  · exact h
  · exact premix_to_inv s _ h

/-- The table after the store and copy of a scheduling call is determined by the table
before it. -/
theorem sched_table (s s1 : MixLow) (a : Playback) (h : SameTable s s1) :
    SameTable (sched s a) (sched s1 a) := by
  obtain ⟨h1, h2, h3, h4, h5, h6⟩ := h
  unfold sched
  by_cases hc : a.handle = 0 ∧ toUChar a.safe = 0
  · rw [if_pos hc, if_pos hc]
    refine ⟨?_, ?_, ?_, ?_, ?_, ?_⟩
    · show Function.update s1.bl s1.num_blocks _ = Function.update s.bl s.num_blocks _
      rw [h1, h2, h6]
    · show s1.num_blocks + 1 = s.num_blocks + 1
      rw [h2]
    · show (if a.samples ≠ 0 then memcpy_mem s1.mem16 s1.brk a.samples _ else s1.mem16)
        = (if a.samples ≠ 0 then memcpy_mem s.mem16 s.brk a.samples _ else s.mem16)
      rw [h3, h6]
    · show (if a.samples ≠ 0 then s1.memf else memcpy_mem s1.memf s1.brk a.fsamples _)
        = (if a.samples ≠ 0 then s.memf else memcpy_mem s.memf s.brk a.fsamples _)
      rw [h4, h6]
    · exact h5
    · show s1.brk + _ = s.brk + _
      rw [h6]
  · rw [if_neg hc, if_neg hc]
    refine ⟨?_, ?_, h3, h4, h5, h6⟩
    · show Function.update s1.bl s1.num_blocks _ = Function.update s.bl s.num_blocks _
      rw [h1, h2]
    · show s1.num_blocks + 1 = s.num_blocks + 1
      rw [h2]

/-- The table after a scheduling call is determined by the table before it. -/
theorem add_table (s s1 : MixLow) (a : Playback) (h : SameTable s s1) (ha : GoodPlayback a)
    (hbrk : 0 < s.brk) :
    SameTable (stb_mixlow_add_playback_raw s a) (stb_mixlow_add_playback_raw s1 a) := by
  have hnb := h.2.1
  have hb := h.2.2.2.2.2
  by_cases hfull : s.num_blocks = MAX_BLOCKS
  · rw [add_playback_raw_full s a hfull, add_playback_raw_full s1 a (by rw [hnb]; exact hfull)]
    exact h
  · have r1 := same_table_of_rings _ _ (add_playback_raw_rings s a ha hfull hbrk)
    have r2 := same_table_of_rings _ _
      (add_playback_raw_rings s1 a ha (by rw [hnb]; exact hfull) (by rw [hb]; exact hbrk))
    exact same_table_trans _ _ _ (same_table_symm _ _ r1)
      (same_table_trans _ _ _ (sched_table s s1 a h) r2)

/-- A scheduling call changes neither the clock nor the capacity. -/
theorem add_clock (s : MixLow) (a : Playback) (ha : GoodPlayback a) (hbrk : 0 < s.brk) :
    (stb_mixlow_add_playback_raw s a).mix_time = s.mix_time
    ∧ (stb_mixlow_add_playback_raw s a).premix_size = s.premix_size := by
  by_cases hfull : s.num_blocks = MAX_BLOCKS
  · rw [add_playback_raw_full s a hfull]
    exact ⟨rfl, rfl⟩
  · obtain ⟨f_bl, f_nb, f_ps, f_po, f_pt, f_pl, f_gv, f_mt, f_m16, f_mf, f_brk⟩ :=
      same_but_rings_fields _ _ (add_playback_raw_rings s a ha hfull hbrk)
    obtain ⟨r_F, r_I, r_ps, r_po, r_pt, r_pl, r_gv, r_mt⟩ := sched_rest s a
    exact ⟨f_mt.trans r_mt, f_ps.trans r_ps⟩

/-- A trace of extracts and admissible scheduling calls keeps the invariant, the clock
and the capacity. -/
theorem run_inv (f : Nat) (ops : List MixOp) :
    ∀ s : MixLow, Inv s → f ≤ s.brk → (∀ a, MixOp.add a ∈ ops → SchedOK f a) →
      Inv (run s ops) ∧ (run s ops).mix_time = s.mix_time
        ∧ (run s ops).premix_size = s.premix_size ∧ f ≤ (run s ops).brk := by
  induction ops with
  | nil => intro s h hf _; exact ⟨h, rfl, rfl, hf⟩
  | cons op rest ih =>
    intro s h hf hops
    have hrest : ∀ a, MixOp.add a ∈ rest → SchedOK f a :=
      fun a ha => hops a (List.mem_cons_of_mem _ ha)
    cases op with
    | add a =>
      have ha := hops a (List.mem_cons_self _ _)
      obtain ⟨i1, i2⟩ := add_playback_inv s a f hf h ha
      obtain ⟨c1, c2⟩ := add_clock s a ha.1 h.2.2.1
      obtain ⟨j1, j2, j3, j4⟩ := ih (stb_mixlow_add_playback_raw s a) i1 (by omega) hrest
      exact ⟨j1, j2.trans c1, j3.trans c2, j4⟩
    | extract st n =>
      obtain ⟨e1, e2, e3⟩ := extract_state s (fun _ => 0) st n
      obtain ⟨j1, j2, j3, j4⟩ := ih (stb_mixlow_mix s (fun _ => 0) st n).state
        (extract_inv s _ st n h) (by rw [e1.2.2.2.2.2]; exact hf) hrest
      exact ⟨j1, j2.trans e2, j3.trans e3, j4⟩

/-- The table after a trace is the table after its scheduling calls alone. -/
theorem run_table (f : Nat) (ops : List MixOp) :
    ∀ s s1 : MixLow, Inv s → f ≤ s.brk → SameTable s s1 →
      (∀ a, MixOp.add a ∈ ops → SchedOK f a) →
      SameTable (run s ops) (run s1 (adds_only ops)) := by
  induction ops with
  | nil => intro s s1 _ _ h _; exact h
  | cons op rest ih =>
    intro s s1 h hf ht hops
    have hrest : ∀ a, MixOp.add a ∈ rest → SchedOK f a :=
      fun a ha => hops a (List.mem_cons_of_mem _ ha)
    cases op with
    | add a =>
      have ha := hops a (List.mem_cons_self _ _)
      obtain ⟨i1, i2⟩ := add_playback_inv s a f hf h ha
      exact ih (stb_mixlow_add_playback_raw s a) (stb_mixlow_add_playback_raw s1 a) i1
        (by omega) (add_table s s1 a ht ha.1 h.2.2.1) hrest
    | extract st n =>
      obtain ⟨e1, e2, e3⟩ := extract_state s (fun _ => 0) st n
      exact ih (stb_mixlow_mix s (fun _ => 0) st n).state s1
        (extract_inv s _ st n h) (by rw [e1.2.2.2.2.2]; exact hf)
        (same_table_trans _ _ _ (same_table_symm _ _ e1) ht) hrest

theorem adds_only_mem (ops : List MixOp) (a : Playback) (h : MixOp.add a ∈ adds_only ops) :
    MixOp.add a ∈ ops := (List.mem_filter.mp h).1

/-- The state after `stb_mixlow_init(P)` satisfies the invariant when the clock is 0 (as
it is in a fresh process): the window and the table are empty. -/
theorem inv_init (s0 : MixLow) (P : Nat) (hP : 0 < P) (hP4 : 4 * P < 4294967296)
    (hbrk : 0 < s0.brk) (hmt : s0.mix_time = 0) : Inv (stb_mixlow_init s0 P) := by
  refine ⟨⟨?_, ?_, ?_, ?_, ?_⟩, ?_, hbrk, ?_, ?_⟩
  · exact hmt.symm
  · exact hP
  · exact Nat.zero_le _
  · show s0.mix_time + P < 4294967296
    omega
  · exact hP4
  · show s0.mix_time + P + 441 < 4294967296
    omega
  · intro i hi
    exact absurd hi (Nat.not_lt_zero _)
  · intro u ch h1 h2 _
    exfalso
    have e1 : (stb_mixlow_init s0 P).premix_len = 0 := rfl
    omega

/-- The state after `stb_mixlow_init(P); stb_mixlow_reset(0)` satisfies the invariant. -/
theorem inv_reset_init (s0 : MixLow) (P : Nat) (hP : 0 < P) (hP4 : 4 * P < 4294967296)
    (hbrk : 0 < s0.brk) : Inv (stb_mixlow_reset (stb_mixlow_init s0 P) 0) := by
  refine ⟨⟨rfl, hP, Nat.zero_le _, ?_, hP4⟩, ?_, hbrk, ?_, ?_⟩
  · show 0 + P < 4294967296
    omega
  · show 0 + P + 441 < 4294967296
    omega
  · intro i hi
    exact absurd hi (Nat.not_lt_zero _)
  · intro u ch h1 h2 _
    exfalso
    have e1 : (stb_mixlow_reset (stb_mixlow_init s0 P) 0).premix_len = 0 := rfl
    omega

theorem demo_playback_good (st d : Nat) (hd : 0 < d) (hd2 : d ≤ 64) (hst : st < 1000000) :
    SchedOK (demo_init 8).brk (demo_playback st d) := by
  have hstep : (new_block (demo_playback st d)).step = 1 := rfl
  have hfirst : (new_block (demo_playback st d)).first = 0 := rfl
  have hdur : (new_block (demo_playback st d)).duration = d := rfl
  have hfn : frames_needed (new_block (demo_playback st d)) = (d : Int) := by
    unfold frames_needed
    rw [if_pos hstep, hfirst, hdur, Int.floor_zero, zero_add]
  refine ⟨⟨Or.inl ⟨?_, rfl⟩, Or.inl rfl, le_refl _, ?_, hd, ?_, ?_, ?_⟩, Nat.zero_le _,
    Or.inr ?_⟩
  · show 65536 < 1048576
    decide
  · show (0 : ℚ) < 1
    exact zero_lt_one
  · show st + d < 4294967296
    omega
  · rw [hfn]
    show (d : Int) ≤ 64
    omega
  · show (64 : Int) < 2147483648
    decide
  · unfold region_end
    rw [hfn]
    have hs : (new_block (demo_playback st d)).samples = 1048576 := rfl
    have hc : (new_block (demo_playback st d)).channels = 1 := rfl
    have hb : (demo_init 8).brk = 4194304 := rfl
    rw [hs, hc, hb, if_pos (by decide)]
    push_cast
    omega

/-- C4, counterexamples. With a linear fade-in over the first two ticks, the trace
`mix(0, 2); add_playback; mix(0, 4)` delivers 4 at tick 3 and the trace
`add_playback; mix(0, 4)` delivers 3: the envelope is interpolated between knots placed
relative to the start of each mixed range. Without fades, in a build with `_MSC_VER` on a
CPU with SSE2, with a playback that accumulates `37.5` on every tick: the trace
`mix(0, 16); add_playback; mix(0, 9)` delivers 37 at tick 8 (the playback is added to the
window of 16 frames, converted in SSE blocks, which truncate) and the trace
`add_playback; mix(0, 9)` delivers 38 (tick 8 is converted by the scalar loop, which
rounds to nearest). -/
theorem fades_and_fractions_break_incremental_equivalence :
    (stb_mixlow_mix (run (demo_init 8) [MixOp.extract 0 2, MixOp.add fade_playback])
        demo_out 0 4).output 6 = 4
    ∧ (stb_mixlow_mix (run (demo_init 8)
        (adds_only [MixOp.extract 0 2, MixOp.add fade_playback])) demo_out 0 4).output 6 = 3
    ∧ (stb_mixlow_mix (run (demo_msvc_init 16)
        [MixOp.extract 0 16, MixOp.add demo_sixteenth_playback]) demo_out 0 9).output 16 = 37
    ∧ (stb_mixlow_mix (run (demo_msvc_init 16)
        (adds_only [MixOp.extract 0 16, MixOp.add demo_sixteenth_playback]))
        demo_out 0 9).output 16 = 38 := by
  refine ⟨by decide!, by decide!, by decide!, by decide!⟩

/-- A sum of whole numbers is a whole number. -/
theorem list_sum_whole (l : List ℚ) (h : ∀ x ∈ l, ∃ v : Int, x = (v : ℚ)) :
    ∃ v : Int, l.sum = (v : ℚ) := by
  induction l with
  | nil => exact ⟨0, by simp⟩
  | cons x rest ih =>
    obtain ⟨v1, h1⟩ := h x (List.mem_cons_self _ _)
    obtain ⟨v2, h2⟩ := ih (fun y hy => h y (List.mem_cons_of_mem _ hy))
    refine ⟨v1 + v2, ?_⟩
    rw [List.sum_cons, h1, h2]
    push_cast
    rfl

/-- The contribution of a whole block to a tick is a whole number. -/
theorem block_contrib_whole (s : MixLow) (b : stb__block) (h : WholeBlock s.global_volume b)
    (u ch : Nat) : ∃ v : Int, block_contrib s b u ch = (v : ℚ) := by
  obtain ⟨hs, hstep, hg, hl, hr⟩ := h
  unfold block_contrib
  split_ifs with hlive
  · have hv : ∃ m : Int, block_value s b u ch = (m : ℚ) := by
      unfold block_value seg_value
      rw [if_pos hstep]
      unfold direct_value block_rd
      rw [if_pos hs]
      unfold rd16
      split_ifs
      · exact ⟨_, rfl⟩
      · exact ⟨_, rfl⟩
    obtain ⟨m, hm⟩ := hv
    have hsc : block_scale b = 1 := by
      unfold block_scale
      rw [if_pos hs]
    have hp : pan_gain b ch = 0 ∨ pan_gain b ch = 1 := by
      unfold pan_gain
      split_ifs
      · exact hl
      · exact hr
    rw [hm, hg, hsc]
    rcases hp with hp | hp <;> rw [hp]
    · exact ⟨0, by simp⟩
    · exact ⟨m, by simp⟩
  · exact ⟨0, by simp⟩

/-- The target sum of a table of whole blocks is a whole number at every tick. -/
theorem acc_whole (s : MixLow) (h : ∀ i, i < s.num_blocks → WholeBlock s.global_volume (s.bl i))
    (u ch : Nat) : ∃ v : Int, acc s u ch = (v : ℚ) := by
  unfold acc
  apply list_sum_whole
  intro x hx
  obtain ⟨i, hi, rfl⟩ := List.mem_map.mp hx
  exact block_contrib_whole s (s.bl i) (h i (List.mem_range.mp hi)) u ch

/-- The block built from a whole playback is whole. -/
theorem new_block_whole (gv : ℚ) (a : Playback) (h : WholePlayback gv a) :
    WholeBlock gv (new_block a) := by
  obtain ⟨hs, hstep, -, hg, hpan, -⟩ := h
  refine ⟨hs, hstep, hg, ?_, ?_⟩
  · unfold new_block
    dsimp only
    rcases hpan with h | h | h <;> rw [h] <;> norm_num
  · unfold new_block
    dsimp only
    rcases hpan with h | h | h <;> rw [h] <;> norm_num

/-- The block stored by a scheduling call of a whole playback is whole. -/
theorem sched_block_whole (s : MixLow) (a : Playback) (hbrk : 0 < s.brk)
    (h : WholePlayback s.global_volume a) :
    WholeBlock s.global_volume ((sched s a).bl s.num_blocks) := by
  have hw := new_block_whole _ a h
  rw [sched_block]
  split_ifs with h1 h2
  · obtain ⟨-, w2, w3, w4, w5⟩ := hw
    exact ⟨by show s.brk ≠ 0; omega, w2, w3, w4, w5⟩
  · exact absurd h.1 h2
  · exact hw

/-- A scheduling call of a whole playback keeps the table whole and the global volume. -/
theorem add_whole (s : MixLow) (a : Playback) (hbrk : 0 < s.brk) (ha : GoodPlayback a)
    (hw : WholePlayback s.global_volume a)
    (ht : ∀ i, i < s.num_blocks → WholeBlock s.global_volume (s.bl i)) :
    (stb_mixlow_add_playback_raw s a).global_volume = s.global_volume
    ∧ ∀ i, i < (stb_mixlow_add_playback_raw s a).num_blocks →
        WholeBlock s.global_volume ((stb_mixlow_add_playback_raw s a).bl i) := by
  by_cases hfull : s.num_blocks = MAX_BLOCKS
  · rw [add_playback_raw_full s a hfull]
    exact ⟨rfl, ht⟩
  obtain ⟨f_bl, f_nb, -, -, -, -, f_gv, -, -, -, -⟩ :=
    same_but_rings_fields _ _ (add_playback_raw_rings s a ha hfull hbrk)
  obtain ⟨-, -, -, -, -, -, r_gv, -⟩ := sched_rest s a
  refine ⟨f_gv.trans r_gv, fun i hi => ?_⟩
  rw [f_nb, sched_num_blocks] at hi
  rw [f_bl]
  by_cases hi2 : i = s.num_blocks
  · rw [hi2]
    exact sched_block_whole s a hbrk hw
  · rw [sched_block_other s a i hi2]
    exact ht i (by omega)

/-- A trace of scheduling calls of whole playbacks and extracts, started with a whole table,
ends with a whole table. -/
theorem run_whole (f : Nat) (ops : List MixOp) :
    ∀ s : MixLow, Inv s → f ≤ s.brk →
      (∀ i, i < s.num_blocks → WholeBlock s.global_volume (s.bl i)) →
      (∀ a, MixOp.add a ∈ ops → SchedOK f a ∧ WholePlayback s.global_volume a) →
      (run s ops).global_volume = s.global_volume
      ∧ ∀ i, i < (run s ops).num_blocks → WholeBlock s.global_volume ((run s ops).bl i) := by
  induction ops with
  | nil => intro s _ _ ht _; exact ⟨rfl, ht⟩
  | cons op rest ih =>
    intro s h hf ht hops
    have hrest : ∀ a, MixOp.add a ∈ rest → SchedOK f a ∧ WholePlayback s.global_volume a :=
      fun a ha => hops a (List.mem_cons_of_mem _ ha)
    cases op with
    | add a =>
      obtain ⟨ha, hwa⟩ := hops a (List.mem_cons_self _ _)
      obtain ⟨i1, i2⟩ := add_playback_inv s a f hf h ha
      obtain ⟨g1, g2⟩ := add_whole s a h.2.2.1 ha.1 hwa ht
      obtain ⟨k1, k2⟩ := ih (stb_mixlow_add_playback_raw s a) i1 (le_trans hf i2)
        (by rw [g1]; exact g2) (by rw [g1]; exact hrest)
      rw [g1] at k1 k2
      exact ⟨k1, k2⟩
    | extract start n =>
      obtain ⟨⟨t_bl, t_nb, -, -, t_gv, t_brk⟩, -, -⟩ := extract_state s (fun _ => 0) start n
      obtain ⟨k1, k2⟩ := ih (stb_mixlow_mix s (fun _ => 0) start n).state
        (extract_inv s _ start n h) (by rw [t_brk]; exact hf)
        (by rw [t_gv, t_nb, t_bl]; exact ht) (by rw [t_gv]; exact hrest)
      rw [t_gv] at k1 k2
      exact ⟨k1, k2⟩

/-- C4 (amended): incremental equivalence for schedules of whole values. From a state
that satisfies the mixer invariant with an empty table (in particular the state after
`init`), for every trace of at most 512 calls, scheduling calls and extracts, in which
every scheduled playback is well-formed, has its fade-in over when it starts, has (if
borrowed) its source below the allocation frontier, and is whole (a 16-bit source of fewer
than `2^24` frames, step 1, a whole start offset, `vol * global volume = 1`, pan -1, 0 or
1), and for every extract range `[A, A+N)` within the capacity: the final `mix` over the
range delivers the same 16-bit frames after the trace as after the scheduling calls of the
trace alone, whatever intermediate extracts the trace contains, in either build. -/
theorem incremental_equivalence_whole_values (s : MixLow) (ops : List MixOp)
    (out : Nat → Int) (A N : Nat) (hs : Inv s)
    (hempty : s.num_blocks = 0 ∧ ops.length ≤ 512) (hA : s.mix_time ≤ A)
    (hcap : A + N ≤ s.mix_time + s.premix_size)
    (hops : ∀ a, MixOp.add a ∈ ops → SchedOK s.brk a ∧ WholePlayback s.global_volume a) :
    ∀ j, j < 2 * N →
      (stb_mixlow_mix (run s ops) out A N).output j
        = (stb_mixlow_mix (run s (adds_only ops)) out A N).output j := by
  intro j hj
  have hops1 : ∀ a, MixOp.add a ∈ ops → SchedOK s.brk a := fun a ha => (hops a ha).1
  have hops2 : ∀ a, MixOp.add a ∈ adds_only ops → SchedOK s.brk a :=
    fun a ha => hops1 a (adds_only_mem ops a ha)
  obtain ⟨i1, m1, p1, -⟩ := run_inv s.brk ops s hs (le_refl _) hops1
  obtain ⟨i2, m2, p2, -⟩ := run_inv s.brk (adds_only ops) s hs (le_refl _) hops2
  obtain ⟨t_bl, t_nb, t_m16, t_mf, t_gv, -⟩ :=
    run_table s.brk ops s s hs (le_refl _) (same_table_refl s) hops1
  obtain ⟨w1, w2⟩ := run_whole s.brk ops s hs (le_refl _)
    (fun i hi => absurd hi (by rw [hempty.1]; exact Nat.not_lt_zero _)) hops
  have d1 := mix_delivers_acc (run s ops) out A N i1 (by rw [m1]; exact hA)
    (by rw [m1, p1]; exact hcap) j hj
  have d2 := mix_delivers_acc (run s (adds_only ops)) out A N i2 (by rw [m2]; exact hA)
    (by rw [m2, p2]; exact hcap) j hj
  rw [acc_same (run s ops) (run s (adds_only ops)) t_bl t_nb t_m16 t_mf t_gv] at d2
  obtain ⟨v, hv⟩ := acc_whole (run s ops) (by rw [w1]; exact w2) (A + j / 2) (j % 2)
  rw [hv] at d1 d2
  exact converted_unique_int _ _ v _ _ d1 d2

/-- The demo playbacks are whole under the global volume set by `init`. -/
theorem demo_playback_whole (st d : Nat) :
    WholePlayback (demo_init 8).global_volume (demo_playback st d) := by
  refine ⟨?_, rfl, ⟨0, by simp [demo_playback]⟩, ?_, Or.inl rfl, ?_⟩
  · show (1048576 : Nat) ≠ 0
    decide
  · show (1 : ℚ) * 1 = 1
    norm_num
  · unfold demo_playback
    dsimp only
    decide

/-- C4, instance: after `init(8)`, the trace `mix(0, 2); add_playback(start 1, duration 3)`
and the trace `add_playback(start 1, duration 3)` deliver the same frame at tick 1 of the
range `[0, 4)`. -/
theorem incremental_equivalence_whole_values_witness :
    (stb_mixlow_mix (run (demo_init 8) [MixOp.extract 0 2, MixOp.add (demo_playback 1 3)])
        demo_out 0 4).output 2
      = (stb_mixlow_mix (run (demo_init 8)
          (adds_only [MixOp.extract 0 2, MixOp.add (demo_playback 1 3)])) demo_out 0 4).output 2 :=
  incremental_equivalence_whole_values (demo_init 8)
    [MixOp.extract 0 2, MixOp.add (demo_playback 1 3)] demo_out 0 4
    (inv_init _ 8 (by decide) (by decide) (by decide) rfl) ⟨rfl, by decide⟩ (by decide)
    (by decide)
    (fun a ha => by
      have h : a = demo_playback 1 3 := by simpa using ha
      rw [h]
      exact ⟨demo_playback_good 1 3 (by decide) (by decide) (by decide),
        demo_playback_whole 1 3⟩)
    2 (by decide)

/-- An extract within the capacity returns the requested number of frames. -/
theorem mix_ret_inv (s : MixLow) (out : Nat → Int) (A N : Nat) (h : Inv s)
    (hA : s.mix_time ≤ A) (hcap : A + N ≤ s.mix_time + s.premix_size) (hN : 0 < N) :
    (stb_mixlow_mix s out A N).ret = (N : Int) := by
  have hinv1 := premix_to_inv s (A + N) h
  obtain ⟨⟨hpt, hoff, hlen, hw, hP⟩, h441, hbrk, hblocks, hco⟩ := h
  have hu : uadd A N = A + N := by unfold uadd; omega
  have hreach := premix_to_reaches s (A + N) ⟨hpt, hoff, hlen, hw, hP⟩ (by omega) hcap
  have f_pt := premix_to_time s (A + N)
  have f_ps := premix_to_size s (A + N)
  rw [mix_ret, hu, if_neg (by omega), f_pt, if_neg (by omega)]
  obtain ⟨⟨-, -, hlen1, -, -⟩, -⟩ := hinv1
  rw [f_ps] at hlen1
  generalize (stb__premix_to s (A + N)).premix_len = pl1 at *
  have hu2 : uadd s.premix_time pl1 = s.premix_time + pl1 := by unfold uadd; omega
  rw [hu2, if_neg (by omega)]
  unfold toInt32
  rw [if_pos (by omega)]
  congr 1
  omega

/-- The target sum of a table that holds a single mono 16-bit block scheduled with
`first = 0`, `step = 1`, `vol = 1`, `pan = 0` under global volume 1: the source sample
while the block is live, nothing outside. -/
theorem single_block_acc (st : MixLow) (a : Playback) (hnb : st.num_blocks = 0)
    (hg : st.global_volume = 1) (hbrk : 0 < st.brk) (ha : GoodPlayback a)
    (hs : a.samples ≠ 0) (hch : a.channels = 1) (hfirst : a.first = 0) (hstep : a.step = 1)
    (hvol : a.vol = 1) (hpan : a.pan = 0) (u ch : Nat) (hch2 : ch < 2) :
    acc (stb_mixlow_add_playback_raw st a) u ch
      = if a.start_time ≤ u ∧ u < a.start_time + a.duration
        then ((st.mem16 ((a.samples : Int) + 2 * ((u - a.start_time : Nat) : Int)) : Int) : ℚ)
        else 0 := by
  have hfull : st.num_blocks ≠ MAX_BLOCKS := by rw [hnb]; decide
  obtain ⟨f_bl, f_nb, f_ps, f_po, f_pt, f_pl, f_gv, f_mt, f_m16, f_mf, f_brk⟩ :=
    same_but_rings_fields _ _ (add_playback_raw_rings st a ha hfull hbrk)
  rw [acc_same (sched st a) _ f_bl f_nb f_m16 f_mf f_gv,
    sched_acc st a (fun i hi => absurd hi (by rw [hnb]; exact Nat.not_lt_zero _)) u ch hch2]
  have h0 : acc st u ch = 0 := by
    unfold acc
    rw [hnb]
    rfl
  rw [h0, zero_add]
  obtain ⟨g1, g2, g3, g4, g5, g6, g7, g8, g9, g10, g11, g12, g13⟩ := sched_block_good st a ha
  have hrd := sched_block_rd st a ha hbrk
  have hgv : (sched st a).global_volume = 1 := (sched_rest st a).2.2.2.2.2.2.1.trans hg
  have hsc : block_scale ((sched st a).bl st.num_blocks) = 1 := by
    unfold block_scale
    rw [sched_block]
    have hb0 : st.brk ≠ 0 := by omega
    split_ifs <;> first | rfl | (exfalso; simp_all [new_block])
  have hpg : pan_gain ((sched st a).bl st.num_blocks) ch = 1 := by
    unfold pan_gain
    rw [g9, g10]
    have e1 : (new_block a).lpan = 1 := by
      show (if a.pan = 0 then (1 : ℚ) else _) = 1
      rw [if_pos hpan]
    have e2 : (new_block a).rpan = 1 := by
      show (if a.pan = 0 then (1 : ℚ) else _) = 1
      rw [if_pos hpan]
    rw [e1, e2, ite_self]
  have hc1 : toUChar a.channels = 1 := by rw [hch]; rfl
  unfold block_contrib
  rw [g3, g4, g8, hvol, hgv, hsc, hpg]
  by_cases hlive : a.start_time ≤ u ∧ u < a.start_time + a.duration
  · rw [if_pos hlive, if_pos hlive]
    unfold block_value seg_value direct_value
    rw [g6, g5, g7, g3, hc1, if_pos hstep, hfirst, if_neg (by decide), Int.floor_zero, zero_add]
    have hfn : frames_needed (new_block a) = (a.duration : Int) := by
      unfold frames_needed
      have e1 : (new_block a).step = 1 := hstep
      have e2 : (new_block a).first = 0 := hfirst
      have e3 : (new_block a).duration = a.duration := rfl
      rw [if_pos e1, e2, e3, Int.floor_zero, zero_add]
    rw [hrd _ (Int.natCast_nonneg _) (by rw [hc1, hfn]; push_cast; omega)]
    unfold block_rd rd16
    have hs' : (new_block a).samples = a.samples := rfl
    rw [hs', if_pos hs]
    ring
  · rw [if_neg hlive, if_neg hlive]

theorem add_playback_raw_zero (s : MixLow) (a : Playback) (h : a.duration = 0) :
    stb_mixlow_add_playback_raw s a = s := by
  unfold stb_mixlow_add_playback_raw
  dsimp only
  rw [if_pos h]

theorem acc_empty (s : MixLow) (h : s.num_blocks = 0) (u ch : Nat) : acc s u ch = 0 := by
  unfold acc
  rw [h]
  rfl

/-- C1 (amended): a single mono 16-bit block plays its source. After `init(P); reset(0)`
under global volume 1, a block scheduled by `stb_mixlow_add_playback` with `channels = 1`,
`first = 0`, `step = 1`, `vol = 1`, `pan = 0`, `fadein_len = 0` and
`fadein_start <= start_time`, whose source holds `duration` frames of 16-bit values (and,
when it is borrowed rather than copied, lies below the allocation frontier), is the only
active block; then for every `n <= P`, `mix(out, 0, n)` returns `n`, and output frame `t`
is `(s[t - start_time], s[t - start_time])` for `start_time <= t < start_time + duration`
and `(0, 0)` for every other `t < n`. -/
theorem single_block_plays_source (s0 : MixLow) (P n : Nat) (a : Playback) (out : Nat → Int)
    (hg : s0.global_volume = 1) (hbrk : 0 < s0.brk) (hP : 0 < P) (hP4 : 4 * P < 4294967296)
    (hn : n ≤ P) (hptr : 65536 < a.samples) (hch : a.channels = 1) (hfirst : a.first = 0)
    (hstep : a.step = 1) (hvol : a.vol = 1) (hpan : a.pan = 0) (hfl : a.fadein_len = 0)
    (hfs : a.fadein_start ≤ a.start_time) (hend : a.start_time + a.duration < 4294967296)
    (hlen : (a.duration : Int) ≤ a.sample_len) (hsl : a.sample_len < 2147483648)
    (h16 : ∀ k : Nat, k < a.duration →
      -32768 ≤ s0.mem16 ((a.samples : Int) + 2 * (k : Int))
        ∧ s0.mem16 ((a.samples : Int) + 2 * (k : Int)) ≤ 32767)
    (hsrc : (a.handle = 0 ∧ toUChar a.safe = 0) ∨ a.samples + 2 * a.duration ≤ s0.brk) :
    (stb_mixlow_mix (stb_mixlow_add_playback (stb_mixlow_reset (stb_mixlow_init s0 P) 0) a)
        out 0 n).ret = (n : Int)
    ∧ ∀ t, t < n →
      (stb_mixlow_mix (stb_mixlow_add_playback (stb_mixlow_reset (stb_mixlow_init s0 P) 0) a)
          out 0 n).output (2 * t)
        = (if a.start_time ≤ t ∧ t < a.start_time + a.duration
           then s0.mem16 ((a.samples : Int) + 2 * ((t - a.start_time : Nat) : Int)) else 0)
      ∧ (stb_mixlow_mix (stb_mixlow_add_playback (stb_mixlow_reset (stb_mixlow_init s0 P) 0) a)
          out 0 n).output (2 * t + 1)
        = (if a.start_time ≤ t ∧ t < a.start_time + a.duration
           then s0.mem16 ((a.samples : Int) + 2 * ((t - a.start_time : Nat) : Int)) else 0) := by
  have hinv := inv_reset_init s0 P hP hP4 hbrk
  generalize hst : stb_mixlow_reset (stb_mixlow_init s0 P) 0 = st at hinv ⊢
  have hnb : st.num_blocks = 0 := by rw [← hst]; rfl
  have hgv : st.global_volume = 1 := by rw [← hst]; exact hg
  have hm : st.mem16 = s0.mem16 := by rw [← hst]; rfl
  have hb : st.brk = s0.brk := by rw [← hst]; rfl
  have hmt : st.mix_time = 0 := by rw [← hst]; rfl
  have hps : st.premix_size = P := by rw [← hst]; rfl
  have hs : a.samples ≠ 0 := by omega
  have hadd : stb_mixlow_add_playback st a
      = stb_mixlow_add_playback_raw st { a with fsamples := 0 } := by
    unfold stb_mixlow_add_playback
    rw [if_pos hs]
  rw [hadd]
  -- the state after the scheduling call satisfies the invariant, and its target sum
  -- is the source sample on the ticks of the block
  have key : Inv (stb_mixlow_add_playback_raw st { a with fsamples := 0 })
      ∧ (stb_mixlow_add_playback_raw st { a with fsamples := 0 }).mix_time = 0
      ∧ (stb_mixlow_add_playback_raw st { a with fsamples := 0 }).premix_size = P
      ∧ ∀ u ch, ch < 2 → acc (stb_mixlow_add_playback_raw st { a with fsamples := 0 }) u ch
          = if a.start_time ≤ u ∧ u < a.start_time + a.duration
            then ((s0.mem16 ((a.samples : Int) + 2 * ((u - a.start_time : Nat) : Int)) : Int) : ℚ)
            else 0 := by
    by_cases hd : a.duration = 0
    · rw [add_playback_raw_zero st { a with fsamples := 0 } hd]
      refine ⟨hinv, hmt, hps, ?_⟩
      intro u ch _
      rw [acc_empty st hnb, if_neg (by omega)]
    · have hfn : frames_needed (new_block { a with fsamples := 0 }) = (a.duration : Int) := by
        unfold frames_needed
        have e1 : (new_block { a with fsamples := 0 }).step = 1 := hstep
        have e2 : (new_block { a with fsamples := 0 }).first = 0 := hfirst
        have e3 : (new_block { a with fsamples := 0 }).duration = a.duration := rfl
        rw [if_pos e1, e2, e3, Int.floor_zero, zero_add]
      have hgp : GoodPlayback { a with fsamples := 0 } := by
        refine ⟨Or.inl ⟨hptr, rfl⟩, Or.inl hch, ?_, ?_, Nat.pos_of_ne_zero hd, hend, ?_, hsl⟩
        · show (0 : ℚ) ≤ a.first
          rw [hfirst]
        · show (0 : ℚ) < a.step
          rw [hstep]
          exact zero_lt_one
        · rw [hfn]
          exact hlen
      have hok : SchedOK st.brk { a with fsamples := 0 } := by
        refine ⟨hgp, ?_, ?_⟩
        · show a.fadein_start + a.fadein_len ≤ a.start_time
          omega
        · rcases hsrc with h | h
          · exact Or.inl h
          · right
            unfold region_end
            rw [hfn]
            have e1 : (new_block { a with fsamples := 0 }).samples = a.samples := rfl
            have e2 : (new_block { a with fsamples := 0 }).channels = 1 := by
              show toUChar a.channels = 1
              rw [hch]
              rfl
            rw [e1, e2, if_pos hs, hb]
            push_cast
            omega
      obtain ⟨i1, -⟩ := add_playback_inv st _ st.brk (le_refl _) hinv hok
      obtain ⟨c1, c2⟩ := add_clock st _ hgp hinv.2.2.1
      refine ⟨i1, c1.trans hmt, c2.trans hps, ?_⟩
      intro u ch hch2
      rw [single_block_acc st _ hnb hgv hinv.2.2.1 hgp hs hch hfirst hstep hvol hpan u ch hch2,
        hm]
  obtain ⟨kinv, kmt, kps, kacc⟩ := key
  generalize stb_mixlow_add_playback_raw st { a with fsamples := 0 } = s1 at kinv kmt kps kacc ⊢
  have hval : ∀ t ch (k : Int), ch < 2 → Converted s1 (acc s1 t ch) k → k
      = (if a.start_time ≤ t ∧ t < a.start_time + a.duration
         then s0.mem16 ((a.samples : Int) + 2 * ((t - a.start_time : Nat) : Int)) else 0) := by
    intro t ch k hch2 hk
    rw [kacc t ch hch2] at hk
    split_ifs at hk ⊢ with hl
    · obtain ⟨r1, r2⟩ := h16 (t - a.start_time) (by omega)
      rw [converted_int s1 _ k hk]
      exact integerize_one_short false _ r1 r2
    · have h0 : (0 : ℚ) = ((0 : Int) : ℚ) := by norm_num
      rw [h0] at hk
      rw [converted_int s1 _ k hk]
      exact integerize_one_short false 0 (by decide) (by decide)
  constructor
  · by_cases hn0 : n = 0
    · subst hn0
      rw [mix_ret, if_pos (by rw [kmt]; decide)]
      rfl
    · exact mix_ret_inv s1 out 0 n kinv (by rw [kmt]) (by rw [kmt, kps]; omega) (by omega)
  · intro t ht
    have d1 := mix_delivers_acc s1 out 0 n kinv (by rw [kmt]) (by rw [kmt, kps]; omega)
      (2 * t) (by omega)
    have d2 := mix_delivers_acc s1 out 0 n kinv (by rw [kmt]) (by rw [kmt, kps]; omega)
      (2 * t + 1) (by omega)
    have e1 : 0 + 2 * t / 2 = t := by omega
    have e2 : 0 + (2 * t + 1) / 2 = t := by omega
    rw [e1] at d1
    rw [e2] at d2
    exact ⟨hval t _ _ (Nat.mod_lt _ (by decide)) d1, hval t _ _ (Nat.mod_lt _ (by decide)) d2⟩

/-- C1, counterexample: a block with `fadein_len = 0` whose `fadein_start` (tick 2) lies
after its `start_time` (tick 0) is not played at full gain from its start: the envelope is
0 before `fadein_start`, and frame 1 of `mix(out, 0, 4)` is 0 although the source sample
`s[1]` is 2; the call still returns 4. -/
theorem late_fadein_start_attenuates :
    late_gate_playback.fadein_len = 0
    ∧ (stb_mixlow_mix (stb_mixlow_add_playback (stb_mixlow_reset (demo_init 8) 0)
        late_gate_playback) demo_out 0 4).ret = 4
    ∧ (stb_mixlow_mix (stb_mixlow_add_playback (stb_mixlow_reset (demo_init 8) 0)
        late_gate_playback) demo_out 0 4).output 2 = 0
    ∧ demo_mem16 (1048576 + 2 * 1) = 2 := by
  decide!

/-- C1, instance: after `init(8); reset(0)`, the demo ramp scheduled at tick 1 for 2
ticks and `mix(out, 0, 4)`: the call returns 4 and frame 2 carries the second sample of the
source on both channels. -/
theorem single_block_plays_source_witness :
    (stb_mixlow_mix (stb_mixlow_add_playback (stb_mixlow_reset (stb_mixlow_init
        (boot demo_mem16 demo_memf 4194304) 8) 0) (demo_playback 1 2)) demo_out 0 4).ret = 4
    ∧ (stb_mixlow_mix (stb_mixlow_add_playback (stb_mixlow_reset (stb_mixlow_init
        (boot demo_mem16 demo_memf 4194304) 8) 0) (demo_playback 1 2)) demo_out 0 4).output 4 = 2
    ∧ (stb_mixlow_mix (stb_mixlow_add_playback (stb_mixlow_reset (stb_mixlow_init
        (boot demo_mem16 demo_memf 4194304) 8) 0) (demo_playback 1 2)) demo_out 0 4).output 5 = 2 :=
  have h := single_block_plays_source (boot demo_mem16 demo_memf 4194304) 8 4
    (demo_playback 1 2) demo_out rfl (by decide) (by decide) (by decide) (by decide)
    (by decide) rfl rfl rfl rfl rfl rfl (by decide) (by decide) (by decide) (by decide)
    (fun k hk => by
      have hk2 : k < 2 := hk
      interval_cases k <;> decide)
    (Or.inr (by decide))
  ⟨h.1, (h.2 2 (by decide)).1, (h.2 2 (by decide)).2⟩

/-- C2, instance: after `init(8)`, the demo float ramp scheduled at tick 1 for 3 ticks
with volume 1/2 and pan 1/2; mixing the block over the ticks `[0, 8)` adds to element 2
of the accumulator (tick 1, left) the value the closed form gives. -/
theorem float_block_adds_scaled_source_witness :
    (stb__mix_block (stb_mixlow_add_playback_float (demo_init 8) demo_float_playback) 0 0 8
        ((stb_mixlow_add_playback_float (demo_init 8) demo_float_playback).bl
          (demo_init 8).num_blocks)).premix_float 2
      = ring_add (stb_mixlow_add_playback_float (demo_init 8) demo_float_playback).premix_float
          0 0 8
          (fun u ch => if demo_float_playback.start_time ≤ u
              ∧ u < demo_float_playback.start_time + demo_float_playback.duration then
              32767 * demo_float_playback.vol * (demo_init 8).global_volume
                * pan_gain ((stb_mixlow_add_playback_float (demo_init 8) demo_float_playback).bl
                    (demo_init 8).num_blocks) ch
                * (demo_init 8).memf ((demo_float_playback.fsamples : Int)
                    + 4 * ((u - demo_float_playback.start_time : Nat) : Int))
            else 0) 2 :=
  congrFun (float_block_adds_scaled_source (demo_init 8) demo_float_playback 0 0 8
    (by decide) rfl rfl rfl rfl rfl (by decide) (by decide) (by decide) (by decide)
    (by decide) (by decide) (by decide) (by decide) (by decide) (by decide)) 2

theorem demo_owned_good : GoodPlayback demo_owned_playback := by
  have hstep : (new_block demo_owned_playback).step = 1 := rfl
  have hfirst : (new_block demo_owned_playback).first = 0 := rfl
  have hdur : (new_block demo_owned_playback).duration = 3 := rfl
  have hfn : frames_needed (new_block demo_owned_playback) = 3 := by
    unfold frames_needed
    rw [if_pos hstep, hfirst, hdur, Int.floor_zero, zero_add]
    rfl
  refine ⟨Or.inl ⟨by decide, rfl⟩, Or.inl rfl, le_refl _, ?_, by decide, by decide, ?_,
    by decide⟩
  · show (0 : ℚ) < 1
    exact zero_lt_one
  · rw [hfn]
    decide

/-- C3, instance: after `init(8)`, the demo ramp scheduled with no handle and `safe = 0`
is stored as an owned copy, and overwriting the caller's buffer with zeros after the call
changes nothing of what mixing the block over the ticks `[0, 8)` accumulates. -/
theorem owned_copy_covers_reads_witness :
    ((stb_mixlow_add_playback_raw (demo_init 8) demo_owned_playback).bl 0).must_free = 1
    ∧ (stb__mix_block
          { stb_mixlow_add_playback_raw (demo_init 8) demo_owned_playback with
            mem16 := demo_overwritten (stb_mixlow_add_playback_raw (demo_init 8)
              demo_owned_playback),
            memf := (stb_mixlow_add_playback_raw (demo_init 8) demo_owned_playback).memf }
          0 0 8 ((stb_mixlow_add_playback_raw (demo_init 8) demo_owned_playback).bl 0)).premix_float
        = (stb__mix_block (stb_mixlow_add_playback_raw (demo_init 8) demo_owned_playback) 0 0 8
            ((stb_mixlow_add_playback_raw (demo_init 8) demo_owned_playback).bl 0)).premix_float :=
  have h := owned_copy_covers_reads (demo_init 8) demo_owned_playback 0 0 8
    (demo_overwritten (stb_mixlow_add_playback_raw (demo_init 8) demo_owned_playback))
    (stb_mixlow_add_playback_raw (demo_init 8) demo_owned_playback).memf
    demo_owned_good rfl rfl (by decide) (by decide) (by decide) (by decide) (by decide)
    (by decide)
    (fun addr h1 _ => by
      have hb : ((demo_init 8).brk : Int) = 4194304 := rfl
      rw [hb] at h1
      refine ⟨?_, rfl⟩
      unfold demo_overwritten
      rw [if_neg (by omega)])
  ⟨h.1, h.2.2.2⟩

/-! ## Reset and rejected scheduling calls -/

/-- C11, what the code does: for every state and every `t`, after `reset(t)` the active
table is empty, `get_curtime()` is `t`, the window is empty (`premix_len = 0`,
`premix_offset = 0`), but `premix_time` is 0, not `t`: the statement
`stb__premix_time = stb__premix_len = stb__premix_offset = 0` clears it. Hence
`premix_time` equals the clock after `reset(t)` only for `t = 0`. -/
theorem reset_sets_premix_time_to_zero (s : MixLow) (t : Nat) :
    stb_mixlow_num_active (stb_mixlow_reset s t) = 0
    ∧ stb_mixlow_get_curtime (stb_mixlow_reset s t) = t
    ∧ (stb_mixlow_reset s t).premix_len = 0
    ∧ (stb_mixlow_reset s t).premix_offset = 0
    ∧ (stb_mixlow_reset s t).premix_time = 0
    ∧ ((stb_mixlow_reset s t).premix_time = stb_mixlow_get_curtime (stb_mixlow_reset s t)
        ↔ t = 0) := by
  refine ⟨rfl, rfl, rfl, rfl, rfl, ?_⟩
  show (0 : Nat) = t ↔ t = 0
  exact eq_comm

/-- C13, failing input: `init(4); reset(10); mix(out, 10, 1)`. After `reset(10)` the
window starts at tick 0 while the clock is 10, so `stb__premix_to(11)` materializes the 11
ticks `[0, 11)`: the call returns 1 and leaves `premix_len = 11`, more than the capacity 4. -/
theorem reset_then_mix_overfills_window :
    (stb_mixlow_reset (demo_init 4) 10).premix_size = 4
    ∧ (stb_mixlow_mix (stb_mixlow_reset (demo_init 4) 10) demo_out 10 1).ret = 1
    ∧ (stb_mixlow_mix (stb_mixlow_reset (demo_init 4) 10) demo_out 10 1).state.premix_len = 11
    ∧ (low_run (demo_init 4) [LowOp.reset 10, LowOp.mix 10 1]).premix_len = 11
    ∧ (low_run (demo_init 4) [LowOp.reset 10, LowOp.mix 10 1]).premix_size = 4 := by
  decide

/-- C14. A scheduling call with `duration = 0`, or one issued while `MAX_BLOCKS` blocks
are active, changes nothing: the state after `stb_mixlow_add_playback_raw`,
`stb_mixlow_add_playback` and `stb_mixlow_add_playback_float` is the state before, so the
number of active blocks, the active table, the clock and the pre-mix window are unchanged. -/
theorem add_playback_rejected_is_noop (s : MixLow) (a : Playback)
    (h : a.duration = 0 ∨ s.num_blocks = MAX_BLOCKS) :
    stb_mixlow_add_playback_raw s a = s
    ∧ stb_mixlow_add_playback s a = s
    ∧ stb_mixlow_add_playback_float s a = s
    ∧ stb_mixlow_num_active (stb_mixlow_add_playback s a) = stb_mixlow_num_active s
    ∧ active (stb_mixlow_add_playback s a) = active s
    ∧ stb_mixlow_get_curtime (stb_mixlow_add_playback s a) = stb_mixlow_get_curtime s := by
  have hraw : ∀ a1 : Playback, a1.duration = a.duration → stb_mixlow_add_playback_raw s a1 = s := by
    intro a1 hd
    rcases h with h | h
    · exact add_playback_raw_zero s a1 (hd.trans h)
    · exact add_playback_raw_full s a1 h
  have h1 : stb_mixlow_add_playback s a = s := by
    unfold stb_mixlow_add_playback
    split_ifs
    · exact hraw _ rfl
    · rfl
  have h2 : stb_mixlow_add_playback_float s a = s := by
    unfold stb_mixlow_add_playback_float
    split_ifs
    · exact hraw _ rfl
    · rfl
  refine ⟨hraw a rfl, h1, h2, ?_, ?_, ?_⟩ <;> rw [h1]

/-- C14, instance: after `init(8)`, `add_playback` of the demo ramp with `duration = 0`
leaves the state as it was. -/
theorem add_playback_rejected_is_noop_witness :
    stb_mixlow_add_playback (demo_init 8) (demo_playback 3 0) = demo_init 8 :=
  (add_playback_rejected_is_noop (demo_init 8) (demo_playback 3 0) (Or.inl rfl)).2.1

/-- C15, failing input: after `init(8)` (no active block), `add_playback` with the source
pointer 100, an address not above 65536, and `add_playback_float` with the same pointer:
the call returns at the pointer check, but `++stb__num_blocks` has already been executed,
so one block is active afterwards. -/
theorem bogus_pointer_still_counts_a_block :
    stb_mixlow_num_active (demo_init 8) = 0
    ∧ demo_bogus_playback.samples ≤ 65536
    ∧ stb_mixlow_num_active (stb_mixlow_add_playback (demo_init 8) demo_bogus_playback) = 1
    ∧ stb_mixlow_num_active (stb_mixlow_add_playback_float (demo_init 8)
        { demo_bogus_playback with samples := 0, fsamples := 100 }) = 1 := by
  decide

/-- C17, failing input: a stereo block with unit gain and `pan = +1` has
`(lpan, rpan) = (0, 1)`; `mix(out, 0, 4)` delivers for tick 0 the frame `(0, 2)` when the
source frame is `(1, 2)` and also when it is `(1000, 2)`: the right channel carries the
right-channel sample alone and does not depend on the left-channel sample. -/
theorem stereo_pan_does_not_mix_channels :
    demo_mem16 1048576 = 1 ∧ demo_mem16_left 1048576 = 1000
    ∧ demo_mem16 (1048576 + 2) = 2 ∧ demo_mem16_left (1048576 + 2) = 2
    ∧ (stb_mixlow_mix (stb_mixlow_add_playback
        (stb_mixlow_init (boot demo_mem16 demo_memf 4194304) 8) demo_stereo_playback)
        demo_out 0 4).output 0 = 0
    ∧ (stb_mixlow_mix (stb_mixlow_add_playback
        (stb_mixlow_init (boot demo_mem16 demo_memf 4194304) 8) demo_stereo_playback)
        demo_out 0 4).output 1 = 2
    ∧ (stb_mixlow_mix (stb_mixlow_add_playback
        (stb_mixlow_init (boot demo_mem16_left demo_memf 4194304) 8) demo_stereo_playback)
        demo_out 0 4).output 1 = 2 := by
  decide!

/-- C20, failing input: in the state reached by `init(8); add_playback(handle 7, start 0,
duration 50); set_curtime(10)` the clock is 10. `end_set(7, linear, 5, 10)`, whose
`end_start_time` 5 is earlier than the clock, gives the block `fadeout_start = 5` and
`duration = 15`, whereas `end_set(7, linear, 10, 10)` gives `fadeout_start = 10` and
`duration = 20`: only `end_start_time = 0` is replaced by the clock. -/
theorem end_set_in_the_past_is_not_at_clock :
    stb_mixlow_get_curtime demo_at_clock_10 = 10
    ∧ ((stb_mixlow_end_set demo_at_clock_10 7 1 5 10).bl 0).fadeout_start = 5
    ∧ ((stb_mixlow_end_set demo_at_clock_10 7 1 5 10).bl 0).duration = 15
    ∧ ((stb_mixlow_end_set demo_at_clock_10 7 1 10 10).bl 0).fadeout_start = 10
    ∧ ((stb_mixlow_end_set demo_at_clock_10 7 1 10 10).bl 0).duration = 20
    ∧ ((stb_mixlow_end_set demo_at_clock_10 7 1 0 10).bl 0).fadeout_start = 10
    ∧ stb_mixlow_end_set demo_at_clock_10 7 1 5 10
        ≠ stb_mixlow_end_set demo_at_clock_10 7 1 10 10 := by
  have h1 : ((stb_mixlow_end_set demo_at_clock_10 7 1 5 10).bl 0).fadeout_start = 5 := by
    decide
  have h2 : ((stb_mixlow_end_set demo_at_clock_10 7 1 10 10).bl 0).fadeout_start = 10 := by
    decide
  refine ⟨by decide, h1, by decide, h2, by decide, by decide, ?_⟩
  intro he
  rw [he, h2] at h1
  exact absurd h1 (by decide)

/-! ## Clock and window under sequences of calls -/

theorem same_window_refl (s : MixLow) : SameWindow s s := ⟨rfl, rfl, rfl, rfl, rfl⟩

theorem same_window_trans (s s1 s2 : MixLow) (h : SameWindow s s1) (k : SameWindow s1 s2) :
    SameWindow s s2 := by
  obtain ⟨h1, h2, h3, h4, h5⟩ := h
  obtain ⟨k1, k2, k3, k4, k5⟩ := k
  exact ⟨k1.trans h1, k2.trans h2, k3.trans h3, k4.trans h4, k5.trans h5⟩

theorem same_window_of_rings (s s1 : MixLow) (h : SameButRings s s1) : SameWindow s s1 := by
  obtain ⟨f_bl, f_nb, f_ps, f_po, f_pt, f_pl, f_gv, f_mt, f_m16, f_mf, f_brk⟩ :=
    same_but_rings_fields s s1 h
  exact ⟨f_ps, f_po, f_pt, f_pl, f_mt⟩

theorem malloc_fields (s : MixLow) (n : Int) :
    (malloc s n).2 = { s with brk := (malloc s n).2.brk } := by
  unfold malloc
  split_ifs <;> rfl

theorem copy_core (s s1 s2 : MixLow) (h1 : s1 = { s with brk := s1.brk }) (c1 c2 : Prop)
    [Decidable c1] [Decidable c2] (m1 : Int → Int) (m2 : Int → ℚ) (blx : Nat → stb__block)
    (h2 : s2 = if c1 then (if c2 then { s1 with mem16 := m1 } else { s1 with memf := m2 })
      else s1) :
    ({ s2 with bl := blx } : MixLow)
      = { s with bl := blx, mem16 := s2.mem16, memf := s2.memf, brk := s2.brk } := by
  subst h2
  by_cases h : c1 <;> by_cases k : c2 <;> simp only [h, k, if_true, if_false] <;> rw [h1]

theorem copy_samples_eta (s : MixLow) (i : Nat) :
    ∃ (blx : Nat → stb__block) (m1 : Int → Int) (m2 : Int → ℚ) (brk : Nat),
      stb__copy_samples s i = { s with bl := blx, mem16 := m1, memf := m2, brk := brk } := by
  unfold stb__copy_samples
  dsimp only
  by_cases hsafe : (s.bl i).safe ≠ 0
  · rw [if_pos hsafe]
    exact ⟨_, _, _, _, rfl⟩
  rw [if_neg hsafe]
  by_cases hmf : (s.bl i).must_free = 0
  swap
  · rw [if_neg hmf]
    exact ⟨_, _, _, _, rfl⟩
  rw [if_pos hmf]
  exact ⟨_, _, _, _, copy_core s _ _ (malloc_fields s _) _ _ _ _ _ rfl⟩

/-- `stb__copy_samples` touches the table, the sample memory and the allocation frontier
only. -/
theorem copy_samples_window (s : MixLow) (i : Nat) :
    SameWindow s (stb__copy_samples s i)
    ∧ (stb__copy_samples s i).num_blocks = s.num_blocks
    ∧ (stb__copy_samples s i).global_volume = s.global_volume
    ∧ (stb__copy_samples s i).premix_float = s.premix_float
    ∧ (stb__copy_samples s i).premix_int = s.premix_int := by
  obtain ⟨blx, m1, m2, brk, h⟩ := copy_samples_eta s i
  rw [h]
  exact ⟨⟨rfl, rfl, rfl, rfl, rfl⟩, rfl, rfl, rfl, rfl⟩

theorem raw_mid_window (s s2 : MixLow) (i : Nat) (c : Prop) [Decidable c]
    (h : SameWindow s s2) : SameWindow s (if c then stb__copy_samples s2 i else s2) := by
  split_ifs
  · exact same_window_trans s s2 _ h (copy_samples_window s2 i).1
  · exact h

theorem raw_tail_window (s s3 : MixLow) (i : Nat) (c : Prop) [Decidable c]
    (h : SameWindow s s3) : SameWindow s (if c then stb__add_to_premix s3 i else s3) := by
  split_ifs
  · exact same_window_trans s s3 _ h
      (same_window_of_rings _ _ (same_but_rings_add_to_premix s3 i))
  · exact h

/-- A scheduling call, whatever its arguments, changes neither the clock nor the window. -/
theorem add_playback_raw_window (s : MixLow) (a : Playback) :
    SameWindow s (stb_mixlow_add_playback_raw s a) := by
  unfold stb_mixlow_add_playback_raw
  dsimp only
  by_cases h1 : a.duration = 0
  · rw [if_pos h1]; exact same_window_refl s
  rw [if_neg h1]
  by_cases h2 : s.num_blocks = MAX_BLOCKS
  · rw [if_pos h2]; exact same_window_refl s
  rw [if_neg h2]
  by_cases h3 : (a.samples = 0 ∧ a.fsamples ≤ 65536) ∨ (a.samples ≠ 0 ∧ a.samples ≤ 65536)
  · rw [if_pos h3]; exact ⟨rfl, rfl, rfl, rfl, rfl⟩
  rw [if_neg h3]
  exact raw_tail_window s _ _ _ (raw_mid_window s _ _ _ ⟨rfl, rfl, rfl, rfl, rfl⟩)

theorem add_playback_window (s : MixLow) (a : Playback) :
    SameWindow s (stb_mixlow_add_playback s a)
    ∧ SameWindow s (stb_mixlow_add_playback_float s a) := by
  unfold stb_mixlow_add_playback stb_mixlow_add_playback_float
  constructor <;> split_ifs
  · exact add_playback_raw_window s _
  · exact same_window_refl s
  · exact add_playback_raw_window s _
  · exact same_window_refl s

theorem end_set_reset_one_fields (h : Nat) (m : Int) (e d : Nat) (s : MixLow) (i : Nat) :
    SameWindow s (end_set_reset_one h m e d s i)
    ∧ (end_set_reset_one h m e d s i).num_blocks = s.num_blocks
    ∧ (end_set_reset_one h m e d s i).global_volume = s.global_volume
    ∧ (end_set_reset_one h m e d s i).premix_float = s.premix_float
    ∧ (end_set_reset_one h m e d s i).premix_int = s.premix_int := by
  unfold end_set_reset_one
  dsimp only
  obtain ⟨c1, c2, c3, c4, c5⟩ := copy_samples_window s i
  by_cases hh : (s.bl i).handle = h
  · rw [if_pos hh]
    exact ⟨c1, c2, c3, c4, c5⟩
  · rw [if_neg hh]
    exact ⟨same_window_refl s, rfl, rfl, rfl, rfl⟩

theorem end_set_reset_loop_fields (h : Nat) (m : Int) (e d : Nat) (n : Nat) :
    ∀ (i : Nat) (s : MixLow),
      SameWindow s (end_set_reset_loop h m e d n i s)
      ∧ (end_set_reset_loop h m e d n i s).num_blocks = s.num_blocks
      ∧ (end_set_reset_loop h m e d n i s).global_volume = s.global_volume
      ∧ (end_set_reset_loop h m e d n i s).premix_float = s.premix_float
      ∧ (end_set_reset_loop h m e d n i s).premix_int = s.premix_int := by
  induction n with
  | zero => intro i s; exact ⟨same_window_refl s, rfl, rfl, rfl, rfl⟩
  | succ n ih =>
    intro i s
    rw [end_set_reset_loop]
    obtain ⟨a1, a2, a3, a4, a5⟩ := end_set_reset_one_fields h m e d s i
    obtain ⟨b1, b2, b3, b4, b5⟩ := ih (i + 1) (end_set_reset_one h m e d s i)
    exact ⟨same_window_trans _ _ _ a1 b1, b2.trans a2, b3.trans a3, b4.trans a4, b5.trans a5⟩

/-- The window after `stb_mixlow_end_set`: only its length can change, to the part before
the effective end start time. -/
theorem end_set_window (s : MixLow) (h : Nat) (m : Int) (e d : Nat) :
    (stb_mixlow_end_set s h m e d).premix_size = s.premix_size
    ∧ (stb_mixlow_end_set s h m e d).premix_offset = s.premix_offset
    ∧ (stb_mixlow_end_set s h m e d).premix_time = s.premix_time
    ∧ (stb_mixlow_end_set s h m e d).mix_time = s.mix_time
    ∧ (stb_mixlow_end_set s h m e d).global_volume = s.global_volume
    ∧ (stb_mixlow_end_set s h m e d).premix_float = s.premix_float
    ∧ (stb_mixlow_end_set s h m e d).premix_int = s.premix_int
    ∧ (stb_mixlow_end_set s h m e d).premix_len
        = if h = 0 then s.premix_len
          else if end_start s e < uadd s.premix_time s.premix_len then
            (if end_start s e < s.premix_time then 0 else usub (end_start s e) s.premix_time)
          else s.premix_len := by
  unfold stb_mixlow_end_set
  by_cases h0 : h = 0
  · rw [if_pos h0, if_pos h0]
    exact ⟨rfl, rfl, rfl, rfl, rfl, rfl, rfl, rfl⟩
  rw [if_neg h0, if_neg h0]
  dsimp only
  generalize hs1 : (if end_start s e < uadd s.premix_time s.premix_len then
      if end_start s e < s.premix_time then ({ s with premix_len := 0 } : MixLow)
      else { s with premix_len := usub (end_start s e) s.premix_time }
    else s) = s1
  have hf : s1.premix_size = s.premix_size ∧ s1.premix_offset = s.premix_offset
      ∧ s1.premix_time = s.premix_time ∧ s1.mix_time = s.mix_time
      ∧ s1.global_volume = s.global_volume ∧ s1.premix_float = s.premix_float
      ∧ s1.premix_int = s.premix_int
      ∧ s1.premix_len = if end_start s e < uadd s.premix_time s.premix_len then
            (if end_start s e < s.premix_time then 0 else usub (end_start s e) s.premix_time)
          else s.premix_len := by
    rw [← hs1]
    split_ifs <;> exact ⟨rfl, rfl, rfl, rfl, rfl, rfl, rfl, rfl⟩
  obtain ⟨f1, f2, f3, f4, f5, f6, f7, f8⟩ := hf
  obtain ⟨⟨g1, g2, g3, g4, g5⟩, -, g7, g8, g9⟩ := end_set_reset_loop_fields h m
    (end_start s e) d
    (end_set_delete_loop h (uadd (end_start s e) d) s1.num_blocks 0 s1.bl s1.num_blocks).2 0
    { s1 with
      bl := (end_set_delete_loop h (uadd (end_start s e) d) s1.num_blocks 0 s1.bl
        s1.num_blocks).1,
      num_blocks := (end_set_delete_loop h (uadd (end_start s e) d) s1.num_blocks 0 s1.bl
        s1.num_blocks).2 }
  exact ⟨g1.trans f1, g2.trans f2, g3.trans f3, g5.trans f4, g7.trans f5, g8.trans f6,
    g9.trans f7, g4.trans f8⟩

theorem set_curtime_clock (s : MixLow) (t : Nat) :
    s.mix_time ≤ (stb_mixlow_set_curtime s t).mix_time
    ∧ (s.mix_time ≤ s.premix_time →
        (stb_mixlow_set_curtime s t).mix_time ≤ (stb_mixlow_set_curtime s t).premix_time)
    ∧ (s.premix_time = s.mix_time →
        (stb_mixlow_set_curtime s t).premix_time = (stb_mixlow_set_curtime s t).mix_time) := by
  unfold stb_mixlow_set_curtime
  by_cases h : t < s.mix_time
  · rw [if_pos h]
    exact ⟨le_refl _, fun h => h, fun h => h⟩
  rw [if_neg h]
  dsimp only
  by_cases h1 : s.premix_time < t
  · rw [if_pos h1]
    by_cases h2 : uadd s.premix_time s.premix_len < t
    · rw [if_pos h2]
      exact ⟨by show s.mix_time ≤ t; omega, fun _ => le_refl t, fun _ => rfl⟩
    · rw [if_neg h2]
      exact ⟨by show s.mix_time ≤ t; omega, fun _ => le_refl t, fun _ => rfl⟩
  · rw [if_neg h1]
    refine ⟨by show s.mix_time ≤ t; omega, fun _ => ?_, fun hp => ?_⟩
    · show t ≤ s.premix_time
      omega
    · show s.premix_time = t
      omega

theorem clock_of_same (s s1 : MixLow) (h3 : s1.premix_time = s.premix_time)
    (h5 : s1.mix_time = s.mix_time) :
    s.mix_time ≤ s1.mix_time
    ∧ (s.mix_time ≤ s.premix_time → s1.mix_time ≤ s1.premix_time)
    ∧ (s.premix_time = s.mix_time → s1.premix_time = s1.mix_time) := by
  rw [h3, h5]
  exact ⟨le_refl _, fun h => h, fun h => h⟩

/-- One call other than `reset` does not move the clock back and keeps the window at (or
after) the clock. -/
theorem low_step_clock (s : MixLow) (op : LowOp) (hr : is_reset op = false) :
    s.mix_time ≤ (low_step s op).mix_time
    ∧ (s.mix_time ≤ s.premix_time → (low_step s op).mix_time ≤ (low_step s op).premix_time)
    ∧ (s.premix_time = s.mix_time → (low_step s op).premix_time = (low_step s op).mix_time) := by
  cases op with
  | reset t => exact Bool.noConfusion hr
  | set_curtime t => exact set_curtime_clock s t
  | global_volume v => exact clock_of_same s _ rfl rfl
  | add_playback a =>
    obtain ⟨-, -, w3, -, w5⟩ := (add_playback_window s a).1
    exact clock_of_same s _ w3 w5
  | add_playback_float a =>
    obtain ⟨-, -, w3, -, w5⟩ := (add_playback_window s a).2
    exact clock_of_same s _ w3 w5
  | end_set h m e d =>
    obtain ⟨-, -, w3, w4, -⟩ := end_set_window s h m e d
    exact clock_of_same s _ w3 w4
  | mix st n =>
    have e := mix_state s (fun _ => 0) st n
    refine clock_of_same s (stb_mixlow_mix s (fun _ => 0) st n).state ?_ ?_
    · rw [e]
      split_ifs
      · rfl
      · exact premix_to_time s _
    · rw [e]
      split_ifs
      · rfl
      · exact premix_to_mix_time s _

theorem low_run_clock (ops : List LowOp) :
    ∀ s : MixLow, (∀ op ∈ ops, is_reset op = false) →
      s.mix_time ≤ (low_run s ops).mix_time
      ∧ (s.premix_time = s.mix_time →
          (low_run s ops).premix_time = (low_run s ops).mix_time) := by
  induction ops with
  | nil => intro s _; exact ⟨le_refl _, fun h => h⟩
  | cons op rest ih =>
    intro s hops
    obtain ⟨a1, -, a3⟩ := low_step_clock s op (hops op (List.mem_cons_self _ _))
    obtain ⟨b1, b2⟩ := ih (low_step s op) (fun o ho => hops o (List.mem_cons_of_mem _ ho))
    exact ⟨le_trans a1 b1, fun h => b2 (a3 h)⟩

/-- C12. Starting from `init` in a fresh process (clock 0), for every finite sequence of
`add_playback`, `add_playback_float`, `end_set`, `set_curtime`, `global_volume` and `mix`
calls and every point of the sequence: the clock returned by `get_curtime` at that point
is not greater than the clock at any later point, and `premix_time` equals the clock at
that point (so `premix_time >= curtime`, and the assertion `premix_time == curtime` of
`stb__premix_to` holds whenever it is reached). -/
theorem clock_monotone_window_at_clock (s0 : MixLow) (P : Nat) (ops1 ops2 : List LowOp)
    (h0 : s0.mix_time = 0) (hops : ∀ op ∈ ops1 ++ ops2, is_reset op = false) :
    stb_mixlow_get_curtime (low_run (stb_mixlow_init s0 P) ops1)
        ≤ stb_mixlow_get_curtime (low_run (stb_mixlow_init s0 P) (ops1 ++ ops2))
    ∧ (low_run (stb_mixlow_init s0 P) ops1).premix_time
        = stb_mixlow_get_curtime (low_run (stb_mixlow_init s0 P) ops1)
    ∧ stb_mixlow_get_curtime (low_run (stb_mixlow_init s0 P) ops1)
        ≤ (low_run (stb_mixlow_init s0 P) ops1).premix_time := by
  have h1 := low_run_clock ops1 (stb_mixlow_init s0 P)
    (fun o ho => hops o (List.mem_append_left _ ho))
  have h2 := low_run_clock ops2 (low_run (stb_mixlow_init s0 P) ops1)
    (fun o ho => hops o (List.mem_append_right _ ho))
  have hinit : (stb_mixlow_init s0 P).premix_time = (stb_mixlow_init s0 P).mix_time := by
    show 0 = s0.mix_time
    exact h0.symm
  have e : low_run (stb_mixlow_init s0 P) (ops1 ++ ops2)
      = low_run (low_run (stb_mixlow_init s0 P) ops1) ops2 := by
    unfold low_run
    rw [List.foldl_append]
  have hp := h1.2 hinit
  rw [e]
  exact ⟨h2.1, hp, le_of_eq hp.symm⟩

/-- C12, instance: after `init(8)`, the calls `set_curtime(5); add_playback(start 6,
duration 3); mix(5, 2)` followed by `end_set(7, linear, 0, 4); set_curtime(9)`. -/
theorem clock_monotone_window_at_clock_witness :
    stb_mixlow_get_curtime (low_run (stb_mixlow_init (boot demo_mem16 demo_memf 4194304) 8)
        [LowOp.set_curtime 5, LowOp.add_playback (demo_playback 6 3), LowOp.mix 5 2])
      ≤ stb_mixlow_get_curtime (low_run (stb_mixlow_init (boot demo_mem16 demo_memf 4194304) 8)
        ([LowOp.set_curtime 5, LowOp.add_playback (demo_playback 6 3), LowOp.mix 5 2]
          ++ [LowOp.end_set 7 1 0 4, LowOp.set_curtime 9]))
    ∧ (low_run (stb_mixlow_init (boot demo_mem16 demo_memf 4194304) 8)
        [LowOp.set_curtime 5, LowOp.add_playback (demo_playback 6 3), LowOp.mix 5 2]).premix_time
      = stb_mixlow_get_curtime (low_run (stb_mixlow_init (boot demo_mem16 demo_memf 4194304) 8)
        [LowOp.set_curtime 5, LowOp.add_playback (demo_playback 6 3), LowOp.mix 5 2]) :=
  have h := clock_monotone_window_at_clock (boot demo_mem16 demo_memf 4194304) 8
    [LowOp.set_curtime 5, LowOp.add_playback (demo_playback 6 3), LowOp.mix 5 2]
    [LowOp.end_set 7 1 0 4, LowOp.set_curtime 9] rfl
    (fun op hop => by
      simp only [List.cons_append, List.nil_append, List.mem_cons, List.mem_singleton,
        List.not_mem_nil, or_false] at hop
      rcases hop with h | h | h | h | h <;> rw [h] <;> rfl)
  ⟨h.1, h.2.1⟩

/-! ## The loops of `stb_mixlow_end_set` -/

theorem end_set_delete_loop_spec (h ef : Nat) (fuel i : Nat) (bl : Nat → stb__block) (nb : Nat)
    (hf : nb - i ≤ fuel) (hi : i ≤ nb)
    (hkeep : ∀ j, j < i → end_keeps h ef (bl j) = true) :
    (∀ j, j < (end_set_delete_loop h ef fuel i bl nb).2 →
        end_keeps h ef ((end_set_delete_loop h ef fuel i bl nb).1 j) = true)
    ∧ ∀ a : stb__block, end_keeps h ef a = true →
        List.count a ((List.range (end_set_delete_loop h ef fuel i bl nb).2).map
            (end_set_delete_loop h ef fuel i bl nb).1)
          = List.count a ((List.range nb).map bl) := by
  induction fuel generalizing i bl nb with
  | zero =>
    have hin : i = nb := by omega
    subst hin
    rw [end_set_delete_loop]
    exact ⟨hkeep, fun a _ => rfl⟩
  | succ fuel ih =>
    rw [end_set_delete_loop]
    by_cases h1 : i < nb
    · rw [if_pos h1]
      by_cases h2 : (bl i).handle = h ∧ (bl i).start_time ≥ ef
      · rw [if_pos h2]
        have hk : ∀ j, j < i → end_keeps h ef ((Function.update bl i (bl (nb - 1))) j) = true := by
          intro j hj
          rw [Function.update_noteq (by omega)]
          exact hkeep j hj
        obtain ⟨r1, r2⟩ := ih i (Function.update bl i (bl (nb - 1))) (nb - 1) (by omega)
          (by omega) hk
        refine ⟨r1, fun a ha => ?_⟩
        rw [r2 a ha]
        have hne : bl i ≠ a := by
          intro he
          rw [he] at h2
          unfold end_keeps at ha
          have := of_decide_eq_true ha
          exact this h2
        obtain ⟨m, hm⟩ : ∃ m, nb = m + 1 := ⟨nb - 1, by omega⟩
        subst hm
        rw [Nat.add_sub_cancel, count_slots_succ]
        by_cases him : i = m
        · subst him
          rw [map_update_of_le bl i i _ (le_refl i), if_neg hne]
          rfl
        · have := count_slots_update bl i m (bl m) a (by omega)
          rw [if_neg hne] at this
          omega
      · rw [if_neg h2]
        have hk : ∀ j, j < i + 1 → end_keeps h ef (bl j) = true := by
          intro j hj
          by_cases hji : j = i
          · subst hji
            unfold end_keeps
            exact decide_eq_true h2
          · exact hkeep j (by omega)
        exact ih (i + 1) bl nb (by omega) (by omega) hk
    · rw [if_neg h1]
      have hin : i = nb := by omega
      subst hin
      exact ⟨hkeep, fun a _ => rfl⟩

/-- The first loop of `stb_mixlow_end_set` keeps, up to order, exactly the blocks that do
not bear the handle or start before the end of the fade-out. -/
theorem end_set_delete_perm (h ef : Nat) (bl : Nat → stb__block) (nb : Nat) :
    ((List.range (end_set_delete_loop h ef nb 0 bl nb).2).map
        (end_set_delete_loop h ef nb 0 bl nb).1).Perm
      (((List.range nb).map bl).filter (end_keeps h ef)) := by
  have hspec := end_set_delete_loop_spec h ef nb 0 bl nb (by omega) (by omega)
    (by intro j hj; omega)
  rw [List.perm_iff_count]
  intro a
  by_cases ha : end_keeps h ef a = true
  · rw [List.count_filter ha]
    exact hspec.2 a ha
  · have h0 : List.count a (((List.range nb).map bl).filter (end_keeps h ef)) = 0 := by
      rw [List.count_eq_zero]
      intro hmem
      exact ha (List.mem_filter.mp hmem).2
    rw [h0, List.count_eq_zero]
    intro hmem
    obtain ⟨j, hj, hje⟩ := List.mem_map.mp hmem
    have := hspec.1 j (List.mem_range.mp hj)
    rw [hje] at this
    exact ha this

theorem core_bl (s s1 s2 : MixLow) (h1 : s1 = { s with brk := s1.brk }) (c1 c2 : Prop)
    [Decidable c1] [Decidable c2] (m1 : Int → Int) (m2 : Int → ℚ)
    (h2 : s2 = if c1 then (if c2 then { s1 with mem16 := m1 } else { s1 with memf := m2 })
      else s1) : s2.bl = s.bl := by
  subst h2
  by_cases h : c1 <;> by_cases k : c2 <;> simp only [h, k, if_true, if_false] <;> rw [h1]

/-- `stb__copy_samples` changes, in the table, at most the sample pointers and the
ownership flag of the block it is applied to. -/
theorem copy_samples_block (s : MixLow) (i : Nat) :
    (∀ j, j ≠ i → (stb__copy_samples s i).bl j = s.bl j)
    ∧ (stb__copy_samples s i).bl i
        = { s.bl i with samples := ((stb__copy_samples s i).bl i).samples,
                        fsamples := ((stb__copy_samples s i).bl i).fsamples,
                        must_free := ((stb__copy_samples s i).bl i).must_free } := by
  unfold stb__copy_samples
  dsimp only
  by_cases hsafe : (s.bl i).safe ≠ 0
  · rw [if_pos hsafe]
    exact ⟨fun _ _ => rfl, rfl⟩
  rw [if_neg hsafe]
  by_cases hmf : (s.bl i).must_free = 0
  swap
  · rw [if_neg hmf]
    refine ⟨fun j hj => ?_, ?_⟩
    · exact Function.update_noteq hj _ _
    · show Function.update s.bl i _ i = _
      simp only [Function.update_same]
  rw [if_pos hmf]
  have hbl : ∀ (s2 : MixLow) (b1 : stb__block), s2.bl = s.bl →
      b1 = { s.bl i with samples := b1.samples, fsamples := b1.fsamples } →
      (∀ j, j ≠ i → ({ s2 with bl := Function.update s2.bl i { b1 with must_free := 1 } }
          : MixLow).bl j = s.bl j)
      ∧ ({ s2 with bl := Function.update s2.bl i { b1 with must_free := 1 } } : MixLow).bl i
        = { s.bl i with
            samples := (({ s2 with bl := Function.update s2.bl i { b1 with must_free := 1 } }
              : MixLow).bl i).samples,
            fsamples := (({ s2 with bl := Function.update s2.bl i { b1 with must_free := 1 } }
              : MixLow).bl i).fsamples,
            must_free := (({ s2 with bl := Function.update s2.bl i { b1 with must_free := 1 } }
              : MixLow).bl i).must_free } := by
    intro s2 b1 h2 hb1
    refine ⟨fun j hj => ?_, ?_⟩
    · show Function.update s2.bl i _ j = s.bl j
      rw [Function.update_noteq hj, h2]
    · show Function.update s2.bl i _ i = _
      simp only [Function.update_same]
      rw [hb1]
  apply hbl
  · exact core_bl s _ _ (malloc_fields s _) _ _ _ _ rfl
  · split_ifs <;> rfl

/-- The body of the second loop of `stb_mixlow_end_set` for slot `i`: the other slots are
untouched, and slot `i` is ended if it bears the handle, unchanged otherwise. -/
theorem end_set_reset_one_block (h : Nat) (m : Int) (e d : Nat) (s : MixLow) (i : Nat) :
    (∀ j, j ≠ i → (end_set_reset_one h m e d s i).bl j = s.bl j)
    ∧ EndRel h m e d (s.bl i) ((end_set_reset_one h m e d s i).bl i) := by
  unfold end_set_reset_one EndRel
  by_cases hh : (s.bl i).handle = h
  swap
  · rw [if_neg hh, if_neg hh]
    exact ⟨fun _ _ => rfl, rfl⟩
  rw [if_pos hh, if_pos hh]
  dsimp only
  obtain ⟨c1, c2⟩ := copy_samples_block s i
  refine ⟨fun j hj => ?_, ?_⟩
  · rw [Function.update_noteq hj]
    exact c1 j hj
  · rw [Function.update_same]
    unfold EndedFrom
    generalize (stb__copy_samples s i).bl i = b at c2 ⊢
    rw [c2]
    dsimp only
    split_ifs <;> rfl

theorem end_set_reset_loop_block (h : Nat) (m : Int) (e d : Nat) (n : Nat) :
    ∀ (i : Nat) (s : MixLow),
      (∀ j, (j < i ∨ i + n ≤ j) → (end_set_reset_loop h m e d n i s).bl j = s.bl j)
      ∧ (∀ j, i ≤ j → j < i + n →
          EndRel h m e d (s.bl j) ((end_set_reset_loop h m e d n i s).bl j)) := by
  induction n with
  | zero =>
    intro i s
    exact ⟨fun _ _ => rfl, fun j h1 h2 => by omega⟩
  | succ n ih =>
    intro i s
    rw [end_set_reset_loop]
    obtain ⟨a1, a2⟩ := end_set_reset_one_block h m e d s i
    obtain ⟨b1, b2⟩ := ih (i + 1) (end_set_reset_one h m e d s i)
    refine ⟨fun j hj => ?_, fun j hj1 hj2 => ?_⟩
    · rw [b1 j (by omega), a1 j (by omega)]
    · by_cases hji : j = i
      · subst hji
        rw [b1 j (by omega)]
        exact a2
      · have := b2 j (by omega) (by omega)
        rw [a1 j hji] at this
        exact this

/-- The table after `stb_mixlow_end_set`: up to order, the kept blocks of the table
before, each ended if it bore the handle and unchanged otherwise. -/
theorem end_set_blocks (s : MixLow) (h : Nat) (m : Int) (e d : Nat) (hh : h ≠ 0) :
    ∃ l : List stb__block,
      l.Perm ((active s).filter (end_keeps h (uadd (end_start s e) d)))
      ∧ List.Forall₂ (EndRel h m (end_start s e) d) l
          (active (stb_mixlow_end_set s h m e d)) := by
  unfold stb_mixlow_end_set
  rw [if_neg hh]
  dsimp only
  generalize hs1 : (if end_start s e < uadd s.premix_time s.premix_len then
      if end_start s e < s.premix_time then ({ s with premix_len := 0 } : MixLow)
      else { s with premix_len := usub (end_start s e) s.premix_time }
    else s) = s1
  have hbl : s1.bl = s.bl := by rw [← hs1]; split_ifs <;> rfl
  have hnb : s1.num_blocks = s.num_blocks := by rw [← hs1]; split_ifs <;> rfl
  rw [hbl, hnb]
  have hperm := end_set_delete_perm h (uadd (end_start s e) d) s.bl s.num_blocks
  generalize end_set_delete_loop h (uadd (end_start s e) d) s.num_blocks 0 s.bl s.num_blocks
    = r at hperm ⊢
  refine ⟨(List.range r.2).map r.1, hperm, ?_⟩
  obtain ⟨-, f2, -⟩ := end_set_reset_loop_fields h m (end_start s e) d r.2 0
    { s1 with bl := r.1, num_blocks := r.2 }
  obtain ⟨-, g2⟩ := end_set_reset_loop_block h m (end_start s e) d r.2 0
    { s1 with bl := r.1, num_blocks := r.2 }
  unfold active
  rw [f2]
  rw [List.forall₂_map_left_iff, List.forall₂_map_right_iff, List.forall₂_same]
  intro j hj
  exact g2 j (Nat.zero_le _) (by have := List.mem_range.mp hj; omega)

theorem end_rel_handle (h : Nat) (m : Int) (e d : Nat) (hh : h ≠ 0) (b b1 : stb__block)
    (hr : EndRel h m e d b b1) : b1.handle ≠ h := by
  unfold EndRel at hr
  by_cases hb : b.handle = h
  · rw [if_pos hb] at hr
    unfold EndedFrom at hr
    have : b1.handle = 0 := by rw [hr]
    rw [this]
    exact fun h0 => hh h0.symm
  · rw [if_neg hb] at hr
    rw [hr]
    exact hb

theorem forall2_right_mem {α β : Type} (R : α → β → Prop) (l : List α) (l1 : List β)
    (hf : List.Forall₂ R l l1) (y : β) (hy : y ∈ l1) : ∃ x ∈ l, R x y := by
  induction hf with
  | nil => exact absurd hy (List.not_mem_nil _)
  | cons hxy _ ih =>
    rcases List.mem_cons.mp hy with h | h
    · subst h
      exact ⟨_, List.mem_cons_self _ _, hxy⟩
    · obtain ⟨x, hx, hr⟩ := ih h
      exact ⟨x, List.mem_cons_of_mem _ hx, hr⟩

/-- C18. For every state and every non-null handle `h`, after `end_set(h, mode, t0, d)` no
active block bears `h`, so `present(h)` returns 0; and the active table is, up to order,
the table before without the blocks that bore `h` and start at or after `t0' + d` (the
32-bit sum, `t0'` the effective end start time: `t0`, or the clock when `t0 = 0`), where
every remaining block that bore `h` has had its handle cleared (and received the fade-out)
and every other block is unchanged. -/
theorem end_set_clears_handle (s : MixLow) (h : Nat) (m : Int) (e d : Nat) (hh : h ≠ 0) :
    stb_mixlow_present (stb_mixlow_end_set s h m e d) h = 0
    ∧ (∀ b ∈ active (stb_mixlow_end_set s h m e d), b.handle ≠ h)
    ∧ ∃ l : List stb__block,
        l.Perm ((active s).filter (end_keeps h (uadd (end_start s e) d)))
        ∧ List.Forall₂ (EndRel h m (end_start s e) d) l
            (active (stb_mixlow_end_set s h m e d)) := by
  obtain ⟨l, hp, hf⟩ := end_set_blocks s h m e d hh
  have hno : ∀ b ∈ active (stb_mixlow_end_set s h m e d), b.handle ≠ h := by
    intro b hb
    obtain ⟨x, -, hr⟩ := forall2_right_mem _ _ _ hf b hb
    exact end_rel_handle h m _ d hh x b hr
  refine ⟨?_, hno, l, hp, hf⟩
  unfold stb_mixlow_present
  rw [if_neg]
  rintro ⟨i, hi, hih⟩
  refine hno ((stb_mixlow_end_set s h m e d).bl i) ?_ hih
  unfold active
  exact List.mem_map.mpr ⟨i, List.mem_range.mpr hi, rfl⟩

/-- C18, instance: in the state reached by `init(8); add_playback(handle 7, start 0,
duration 50); set_curtime(10)`, `end_set(7, linear, 0, 10)` leaves no block bearing
handle 7. -/
theorem end_set_clears_handle_witness :
    stb_mixlow_present demo_at_clock_10 7 = 1
    ∧ stb_mixlow_present (stb_mixlow_end_set demo_at_clock_10 7 1 0 10) 7 = 0 :=
  ⟨by decide, (end_set_clears_handle demo_at_clock_10 7 1 0 10 (by decide)).1⟩

/-! ## The elements `stb__mix_block` writes -/

/-- A kernel call writes only the `2 * len` elements from `out` on. -/
theorem mix_kernel_outside (rd : Int → ℚ) (F : Nat → ℚ) (out len : Nat) (b : stb__block)
    (st en first : ℚ) (j : Nat) (hj : j < out ∨ out + 2 * len ≤ j) :
    mix_kernel rd F out len b st en first j = F j := by
  unfold mix_kernel
  dsimp only
  split_ifs <;> first
    | rfl
    | (rw [loop_direct_stereo_eq]; exact accum_loop_outside _ _ _ _ _ _ _ hj)
    | (rw [loop_direct_mono_eq]; exact accum_loop_outside _ _ _ _ _ _ _ hj)
    | (rw [loop_resample_stereo_eq]; exact accum_loop_outside _ _ _ _ _ _ _ hj)
    | (rw [loop_resample_mono_eq]; exact accum_loop_outside _ _ _ _ _ _ _ hj)

theorem mix_block_base_outside (s : MixLow) (F : Nat → ℚ) (o ts len : Nat) (b : stb__block)
    (st en first : ℚ) (j : Nat) (hj : j < o ∨ o + 2 * len ≤ j) :
    stb__mix_block_base s F o ts len b st en first j = F j := by
  rw [mix_block_base_eq]
  exact mix_kernel_outside _ _ _ _ _ _ _ _ j hj

/-- The envelope loop writes only the elements of the ticks it passes. -/
theorem mix_block_loop_outside (s : MixLow) (b : stb__block) (att : ℚ) (limit : Nat)
    (hl2 : limit + 441 < 4294967296) (fuel : Nat) (st : SegState)
    (h2 : st.tstart ≤ limit) (h3 : st.tend = st.tstart + 441) :
    st.tstart ≤ (mix_block_loop s b att limit fuel st).tstart
    ∧ (mix_block_loop s b att limit fuel st).tstart ≤ limit
    ∧ (mix_block_loop s b att limit fuel st).output
        = st.output + 2 * ((mix_block_loop s b att limit fuel st).tstart - st.tstart)
    ∧ ∀ j, (j < st.output
          ∨ st.output + 2 * ((mix_block_loop s b att limit fuel st).tstart - st.tstart) ≤ j) →
        (mix_block_loop s b att limit fuel st).F j = st.F j := by
  induction fuel generalizing st with
  | zero => exact ⟨le_refl _, h2, by rw [mix_block_loop]; omega, fun j _ => rfl⟩
  | succ fuel ih =>
    rw [mix_block_loop]
    by_cases hc : st.tend ≤ limit
    · rw [if_pos hc]
      dsimp only
      have hE : ENVELOPE_SAMPLE_TIME = 441 := rfl
      have hadd : uadd st.tend ENVELOPE_SAMPLE_TIME = st.tend + 441 := by
        unfold uadd; rw [hE]; omega
      have hsub : usub st.tend st.tstart = 441 := by unfold usub; omega
      rw [hadd, hsub]
      have key := ih
        { F := stb__mix_block_base s st.F st.output st.tstart 441 b st.vstart
            (stb__compute_fade b st.tend * att) st.first,
          output := st.output + ENVELOPE_SAMPLE_TIME * 2,
          first := st.first + (ENVELOPE_SAMPLE_TIME : ℚ) * b.step,
          vstart := stb__compute_fade b st.tend * att, tstart := st.tend,
          tend := st.tend + 441 } hc rfl
      generalize mix_block_loop s b att limit fuel
        { F := stb__mix_block_base s st.F st.output st.tstart 441 b st.vstart
            (stb__compute_fade b st.tend * att) st.first,
          output := st.output + ENVELOPE_SAMPLE_TIME * 2,
          first := st.first + (ENVELOPE_SAMPLE_TIME : ℚ) * b.step,
          vstart := stb__compute_fade b st.tend * att, tstart := st.tend,
          tend := st.tend + 441 } = R at key ⊢
      obtain ⟨r1, r2, r3, r4⟩ := key
      dsimp only at r1 r2 r3 r4
      refine ⟨by omega, r2, by omega, fun j hj => ?_⟩
      rw [r4 j (by omega)]
      exact mix_block_base_outside s st.F st.output st.tstart 441 b _ _ _ j (by omega)
    · rw [if_neg hc]
      exact ⟨le_refl _, h2, by omega, fun j _ => rfl⟩

theorem trimmed_mix_outside (s : MixLow) (b : stb__block) (o1 t1 l2 : Nat)
    (h3 : t1 + l2 + 441 < 4294967296) (j : Nat) (hj : j < o1 ∨ o1 + 2 * l2 ≤ j) :
    trimmed_mix s b o1 t1 l2 j = s.premix_float j := by
  unfold trimmed_mix
  have key := mix_block_loop_outside s b (b.vol * s.global_volume) (t1 + l2) h3
    (l2 / ENVELOPE_SAMPLE_TIME + 1)
    { F := s.premix_float, output := o1,
      first := b.first + ((t1 - b.start_time : Nat) : ℚ) * b.step,
      vstart := stb__compute_fade b t1 * (b.vol * s.global_volume),
      tstart := t1, tend := t1 + 441 } (by show t1 ≤ t1 + l2; omega) rfl
  generalize mix_block_loop s b (b.vol * s.global_volume) (t1 + l2)
    (l2 / ENVELOPE_SAMPLE_TIME + 1)
    { F := s.premix_float, output := o1,
      first := b.first + ((t1 - b.start_time : Nat) : ℚ) * b.step,
      vstart := stb__compute_fade b t1 * (b.vol * s.global_volume),
      tstart := t1, tend := t1 + 441 } = R at key ⊢
  obtain ⟨r1, r2, r3, r4⟩ := key
  dsimp only at r1 r2 r3 r4
  have hsub : usub (t1 + l2) R.tstart = t1 + l2 - R.tstart := by unfold usub; omega
  split_ifs
  · rw [hsub, mix_block_base_outside s R.F R.output R.tstart _ b _ _ _ j (by omega)]
    exact r4 j (by omega)
  · exact r4 j (by omega)

/-- `stb__mix_block` writes only elements of ticks inside both the requested range and
the life of the block: every other element of the float ring is left as it was. -/
theorem mix_block_outside (s : MixLow) (output t len : Nat) (b : stb__block)
    (hend : b.start_time + b.duration < 4294967296) (hc1 : b.start_time < t + len)
    (hc2 : t ≤ b.start_time + b.duration) (hr : t + len + 441 < 4294967296)
    (hl : 2 * len < 4294967296) (j : Nat)
    (hj : j < output + 2 * (max t b.start_time - t)
      ∨ output + 2 * (min (t + len) (b.start_time + b.duration) - t) ≤ j) :
    (stb__mix_block s output t len b).premix_float j = s.premix_float j := by
  rw [mix_block_normal s output t len b hend hc1 hc2 hr hl]
  apply trimmed_mix_outside
  · omega
  · omega

theorem forall2_imp {α β : Type} (R S : α → β → Prop) (l : List α) (l1 : List β)
    (hf : List.Forall₂ R l l1) (himp : ∀ x ∈ l, ∀ y, R x y → S x y) : List.Forall₂ S l l1 := by
  induction hf with
  | nil => exact List.Forall₂.nil
  | cons hxy _ ih =>
    exact List.Forall₂.cons (himp _ (List.mem_cons_self _ _) _ hxy)
      (ih (fun x hx y hr => himp x (List.mem_cons_of_mem _ hx) y hr))

/-- C19. For every state and non-null handle `h` (ticks within the 32-bit counter), after
`end_set(h, mode, t0, d)`, with `t0'` the effective end start time: the active table is, up
to order, the kept blocks of the table before, where every block that bore `h` keeps its
start, is not longer than before and ends at or before `t0' + d`, and every other block is
unchanged; no tick at or after `t0'` remains in the pre-mix window; and mixing a block
that ends at or before `t0' + d` over any range leaves every element of the float ring for
a tick at or after `t0' + d` as it was. Hence every frame materialized after the call for a
tick `>= t0' + d` holds no contribution of the blocks that bore `h`. -/
theorem end_set_silences_after_end (s : MixLow) (h : Nat) (m : Int) (e d : Nat) (hh : h ≠ 0)
    (hw : end_start s e + d < 4294967296)
    (hb : ∀ b ∈ active s, b.start_time + b.duration < 4294967296)
    (hwin : s.premix_time + s.premix_len < 4294967296) :
    (∃ l : List stb__block,
        l.Perm ((active s).filter (end_keeps h (end_start s e + d)))
        ∧ List.Forall₂ (fun b b1 => if b.handle = h
            then b1.start_time = b.start_time ∧ b1.duration ≤ b.duration
              ∧ b1.start_time + b1.duration ≤ end_start s e + d
            else b1 = b) l (active (stb_mixlow_end_set s h m e d)))
    ∧ (∀ u, (stb_mixlow_end_set s h m e d).premix_time ≤ u →
        u < (stb_mixlow_end_set s h m e d).premix_time
          + (stb_mixlow_end_set s h m e d).premix_len → u < end_start s e)
    ∧ (∀ (x : MixLow) (b1 : stb__block) (output t len j : Nat),
        b1.start_time + b1.duration ≤ end_start s e + d →
        b1.start_time < t + len → t ≤ b1.start_time + b1.duration →
        t + len + 441 < 4294967296 → 2 * len < 4294967296 →
        output + 2 * (end_start s e + d - t) ≤ j →
        (stb__mix_block x output t len b1).premix_float j = x.premix_float j) := by
  have hef : uadd (end_start s e) d = end_start s e + d := by unfold uadd; omega
  refine ⟨?_, ?_, ?_⟩
  · obtain ⟨l, hp, hf⟩ := end_set_blocks s h m e d hh
    rw [hef] at hp
    refine ⟨l, hp, forall2_imp _ _ _ _ hf ?_⟩
    intro b hbl b1 hr
    have hmem := (hp.mem_iff.mp hbl)
    obtain ⟨hact, hkeep⟩ := List.mem_filter.mp hmem
    have hno := hb b hact
    unfold EndRel at hr
    by_cases hbh : b.handle = h
    · rw [if_pos hbh] at hr ⊢
      unfold end_keeps at hkeep
      have hk := of_decide_eq_true hkeep
      have hlt : b.start_time < end_start s e + d := by
        by_contra hc
        exact hk ⟨hbh, by omega⟩
      unfold EndedFrom at hr
      have e1 : b1.start_time = b.start_time := by rw [hr]
      have e2 : b1.duration = (if uadd (end_start s e) d < uadd b.start_time b.duration
          then usub (uadd (end_start s e) d) b.start_time else b.duration) := by rw [hr]
      have hbd : uadd b.start_time b.duration = b.start_time + b.duration := by
        unfold uadd; omega
      rw [hef, hbd] at e2
      rw [e1, e2]
      split_ifs with hc
      · have : usub (end_start s e + d) b.start_time = end_start s e + d - b.start_time := by
          unfold usub; omega
        rw [this]
        omega
      · omega
    · rw [if_neg hbh] at hr ⊢
      exact hr
  · obtain ⟨-, -, w3, -, -, -, -, w8⟩ := end_set_window s h m e d
    rw [w3, w8, if_neg hh]
    have hu : uadd s.premix_time s.premix_len = s.premix_time + s.premix_len := by
      unfold uadd; omega
    rw [hu]
    intro u h1 h2
    split_ifs at h2 with c1 c2
    · omega
    · have : usub (end_start s e) s.premix_time = end_start s e - s.premix_time := by
        unfold usub; omega
      rw [this] at h2
      omega
    · omega
  · intro x b1 output t len j hend hc1 hc2 hr hl hj
    exact mix_block_outside x output t len b1 (by omega) hc1 hc2 hr hl j (by omega)

/-- C19, instance: in the state reached by `init(8); add_playback(handle 7, start 0,
duration 50); mix(out, 0, 8)`, after `end_set(7, linear, 3, 2)` the block ends at tick 5,
and mixing it over the ticks `[0, 8)` leaves the left element of tick 6 as it was. -/
theorem end_set_silences_after_end_witness :
    ((stb_mixlow_end_set demo_windowed 7 1 3 2).bl 0).start_time
        + ((stb_mixlow_end_set demo_windowed 7 1 3 2).bl 0).duration = 5
    ∧ (stb__mix_block (stb_mixlow_end_set demo_windowed 7 1 3 2) 0 0 8
        ((stb_mixlow_end_set demo_windowed 7 1 3 2).bl 0)).premix_float 12
      = (stb_mixlow_end_set demo_windowed 7 1 3 2).premix_float 12 :=
  ⟨by decide,
    (end_set_silences_after_end demo_windowed 7 1 3 2 (by decide) (by decide)
      (by
        intro b hb
        have hact : active demo_windowed = [demo_windowed.bl 0] := rfl
        rw [hact] at hb
        rw [List.mem_singleton.mp hb]
        decide)
      (by decide)).2.2
      (stb_mixlow_end_set demo_windowed 7 1 3 2)
      ((stb_mixlow_end_set demo_windowed 7 1 3 2).bl 0) 0 0 8 12
      (by decide) (by decide) (by decide) (by decide) (by decide) (by decide)⟩

/-! ## Closed form of `stb__mix_block` with fades -/

/-- One envelope segment: the kernel call for the ticks `[ts, ts + len)`, a segment of the
mixing of `[t1, lim)`, adds the contribution of the block for these ticks. -/
theorem mix_block_base_segment (s : MixLow) (F : Nat → ℚ) (o ts len t1 lim m : Nat)
    (b : stb__block) (hb : GoodBlock b) (h1 : b.start_time ≤ ts)
    (h2 : ts + len ≤ b.start_time + b.duration) (hm : ts = t1 + 441 * m)
    (hlen : ts + len = min (ts + 441) lim) :
    stb__mix_block_base s F o ts len b
        (stb__compute_fade b ts * (b.vol * s.global_volume))
        (stb__compute_fade b (ts + len) * (b.vol * s.global_volume))
        (b.first + ((ts - b.start_time : Nat) : ℚ) * b.step)
      = ring_add F o ts len (gen_contrib s b t1 lim) := by
  rw [mix_block_base_general s F o ts len b _ _ hb h1 h2]
  apply ring_add_congr
  intro u ch hu1 hu2 hch
  have hidx : (u - t1) / 441 = m := by omega
  have hlim : u < lim := by omega
  unfold gen_contrib unpanned env_gain
  have hin : t1 ≤ u ∧ u < lim := ⟨by omega, hlim⟩
  rw [if_pos hin]
  dsimp only
  rw [hidx, ← hm, ← hlen]
  have e : ts + len - ts = len := by omega
  rw [e]
  generalize stb__compute_fade b ts * (b.vol * s.global_volume) = st
  generalize stb__compute_fade b (ts + len) * (b.vol * s.global_volume) = en
  generalize block_value s b u ch = v
  generalize pan_gain b ch = pg
  generalize block_scale b = sc
  generalize ((u - ts : Nat) : ℚ) = k
  generalize (len : ℚ) = L
  by_cases hq : st * sc = en * sc
  · rw [if_pos hq]
    have hz : (en - st) / L * sc = 0 := by
      have : (en - st) * sc = 0 := by linear_combination -hq
      rw [div_mul_eq_mul_div, this, zero_div]
    have : k * ((en - st) / L) * sc = 0 := by rw [mul_assoc, hz, mul_zero]
    linear_combination -(v * pg) * this
  · rw [if_neg hq]
    ring

/-- The envelope loop of `stb__mix_block`, started at a segment boundary of the mixing of
`[t1, limit)`: with enough iterations allowed it stops at the last segment boundary not
after the limit, having added the contribution of the block for every tick it passed. -/
theorem mix_block_loop_gen (s : MixLow) (b : stb__block) (t1 limit : Nat)
    (hb : GoodBlock b) (hl1 : limit ≤ b.start_time + b.duration)
    (hl2 : limit + 441 < 4294967296) (fuel : Nat) (st : SegState)
    (h1 : b.start_time ≤ st.tstart) (h2 : st.tstart ≤ limit) (h3 : st.tend = st.tstart + 441)
    (h4 : st.first = b.first + ((st.tstart - b.start_time : Nat) : ℚ) * b.step)
    (h5 : st.vstart = stb__compute_fade b st.tstart * (b.vol * s.global_volume))
    (h6 : ∃ m, st.tstart = t1 + 441 * m)
    (hfuel : (limit - st.tstart) / 441 < fuel) :
    (mix_block_loop s b (b.vol * s.global_volume) limit fuel st).tstart ≤ limit
    ∧ limit < (mix_block_loop s b (b.vol * s.global_volume) limit fuel st).tstart + 441
    ∧ st.tstart ≤ (mix_block_loop s b (b.vol * s.global_volume) limit fuel st).tstart
    ∧ (mix_block_loop s b (b.vol * s.global_volume) limit fuel st).output
        = st.output + 2 * ((mix_block_loop s b (b.vol * s.global_volume) limit fuel st).tstart
            - st.tstart)
    ∧ (mix_block_loop s b (b.vol * s.global_volume) limit fuel st).first
        = b.first + (((mix_block_loop s b (b.vol * s.global_volume) limit fuel st).tstart
            - b.start_time : Nat) : ℚ) * b.step
    ∧ (mix_block_loop s b (b.vol * s.global_volume) limit fuel st).vstart
        = stb__compute_fade b (mix_block_loop s b (b.vol * s.global_volume) limit fuel st).tstart
            * (b.vol * s.global_volume)
    ∧ (∃ m, (mix_block_loop s b (b.vol * s.global_volume) limit fuel st).tstart = t1 + 441 * m)
    ∧ (mix_block_loop s b (b.vol * s.global_volume) limit fuel st).F
        = ring_add st.F st.output st.tstart
            ((mix_block_loop s b (b.vol * s.global_volume) limit fuel st).tstart - st.tstart)
            (gen_contrib s b t1 limit) := by
  induction fuel generalizing st with
  | zero => omega
  | succ fuel ih =>
    rw [mix_block_loop]
    by_cases hc : st.tend ≤ limit
    · rw [if_pos hc]
      obtain ⟨m, hm⟩ := h6
      have hsub : usub st.tend st.tstart = 441 := by unfold usub; omega
      have hadd : uadd st.tend ENVELOPE_SAMPLE_TIME = st.tend + 441 := by
        unfold uadd ENVELOPE_SAMPLE_TIME; omega
      have hbase := mix_block_base_segment s st.F st.output st.tstart 441 t1 limit m b hb h1
        (by omega) hm (by rw [Nat.min_def]; split_ifs <;> omega)
      have hte : st.tend = st.tstart + 441 := h3
      dsimp only
      rw [hsub, h5, h4, hadd]
      rw [hte]
      rw [hbase]
      have hE : ENVELOPE_SAMPLE_TIME = 441 := rfl
      have key := ih
        { F := ring_add st.F st.output st.tstart 441 (gen_contrib s b t1 limit),
          output := st.output + ENVELOPE_SAMPLE_TIME * 2,
          first := b.first + ((st.tstart - b.start_time : Nat) : ℚ) * b.step
            + (ENVELOPE_SAMPLE_TIME : ℚ) * b.step,
          vstart := stb__compute_fade b (st.tstart + 441) * (b.vol * s.global_volume),
          tstart := st.tstart + 441, tend := st.tstart + 441 + 441 }
        (by show b.start_time ≤ st.tstart + 441; omega)
        (by show st.tstart + 441 ≤ limit; omega) rfl
        (by
          show b.first + ((st.tstart - b.start_time : Nat) : ℚ) * b.step
              + (ENVELOPE_SAMPLE_TIME : ℚ) * b.step
            = b.first + ((st.tstart + 441 - b.start_time : Nat) : ℚ) * b.step
          have e : st.tstart + 441 - b.start_time = (st.tstart - b.start_time) + 441 := by omega
          rw [e, hE]
          push_cast
          ring)
        rfl
        ⟨m + 1, by show st.tstart + 441 = t1 + 441 * (m + 1); omega⟩
        (by show (limit - (st.tstart + 441)) / 441 < fuel; omega)
      generalize mix_block_loop s b (b.vol * s.global_volume) limit fuel
        { F := ring_add st.F st.output st.tstart 441 (gen_contrib s b t1 limit),
          output := st.output + ENVELOPE_SAMPLE_TIME * 2,
          first := b.first + ((st.tstart - b.start_time : Nat) : ℚ) * b.step
            + (ENVELOPE_SAMPLE_TIME : ℚ) * b.step,
          vstart := stb__compute_fade b (st.tstart + 441) * (b.vol * s.global_volume),
          tstart := st.tstart + 441, tend := st.tstart + 441 + 441 }
        = R at key ⊢
      obtain ⟨r1, r2, r3, r4, r5, r6, r7, r8⟩ := key
      dsimp only at r1 r2 r3 r4 r5 r6 r7 r8
      refine ⟨r1, r2, by omega, by omega, r5, r6, r7, ?_⟩
      rw [r8]
      have hap := ring_add_append st.F st.output st.tstart 441 (R.tstart - (st.tstart + 441))
        (gen_contrib s b t1 limit)
      have e1 : st.output + ENVELOPE_SAMPLE_TIME * 2 = st.output + 2 * 441 := by omega
      have e3 : 441 + (R.tstart - (st.tstart + 441)) = R.tstart - st.tstart := by omega
      rw [e3] at hap
      rw [e1, hap]
    · rw [if_neg hc]
      refine ⟨h2, by omega, le_refl _, by omega, h4, h5, h6, ?_⟩
      rw [Nat.sub_self, ring_add_zero_len]

/-- The trimmed form of `stb__mix_block` for a well-formed block with any fades. -/
theorem trimmed_mix_gen (s : MixLow) (b : stb__block) (o1 t1 l2 : Nat)
    (hb : GoodBlock b) (h1 : b.start_time ≤ t1)
    (h2 : t1 + l2 ≤ b.start_time + b.duration) (h3 : t1 + l2 + 441 < 4294967296) :
    trimmed_mix s b o1 t1 l2 = ring_add s.premix_float o1 t1 l2 (gen_contrib s b t1 (t1 + l2)) := by
  have hE : ENVELOPE_SAMPLE_TIME = 441 := rfl
  unfold trimmed_mix
  dsimp only
  have key := mix_block_loop_gen s b t1 (t1 + l2) hb h2 h3 (l2 / ENVELOPE_SAMPLE_TIME + 1)
    { F := s.premix_float, output := o1,
      first := b.first + ((t1 - b.start_time : Nat) : ℚ) * b.step,
      vstart := stb__compute_fade b t1 * (b.vol * s.global_volume),
      tstart := t1, tend := t1 + 441 }
    h1 (by show t1 ≤ t1 + l2; omega) rfl rfl rfl ⟨0, rfl⟩
    (by show (t1 + l2 - t1) / 441 < l2 / ENVELOPE_SAMPLE_TIME + 1; rw [hE]; omega)
  generalize mix_block_loop s b (b.vol * s.global_volume) (t1 + l2) (l2 / ENVELOPE_SAMPLE_TIME + 1)
    { F := s.premix_float, output := o1,
      first := b.first + ((t1 - b.start_time : Nat) : ℚ) * b.step,
      vstart := stb__compute_fade b t1 * (b.vol * s.global_volume),
      tstart := t1, tend := t1 + 441 } = R at key ⊢
  obtain ⟨r1, r2, r3, r4, r5, r6, ⟨m, r7⟩, r8⟩ := key
  dsimp only at r1 r2 r3 r4 r5 r6 r7 r8
  by_cases hne : R.tstart ≠ t1 + l2
  · rw [if_pos hne]
    have hsub : usub (t1 + l2) R.tstart = t1 + l2 - R.tstart := by unfold usub; omega
    have hbase := mix_block_base_segment s R.F R.output R.tstart (t1 + l2 - R.tstart) t1
      (t1 + l2) m b hb (by omega) (by omega) r7 (by rw [Nat.min_def]; split_ifs <;> omega)
    have e0 : R.tstart + (t1 + l2 - R.tstart) = t1 + l2 := by omega
    rw [e0] at hbase
    rw [hsub, r6, r5, hbase, r8, r4]
    have hap := ring_add_append s.premix_float o1 t1 (R.tstart - t1) (t1 + l2 - R.tstart)
      (gen_contrib s b t1 (t1 + l2))
    have e1 : t1 + (R.tstart - t1) = R.tstart := by omega
    have e2 : R.tstart - t1 + (t1 + l2 - R.tstart) = l2 := by omega
    rw [e1, e2] at hap
    exact hap
  · rw [if_neg hne]
    push_neg at hne
    have e : t1 + l2 - t1 = l2 := by omega
    rw [r8, hne, e]

/-- Closed form of `stb__mix_block` for a well-formed block with any fades: over the part
of the requested range inside the life of the block, every element gains the pan gain of
its channel times the unpanned signal of the block; nothing else changes. -/
theorem mix_block_gen (s : MixLow) (output t len : Nat) (b : stb__block)
    (hb : GoodBlock b) (hc1 : b.start_time < t + len)
    (hc2 : t ≤ b.start_time + b.duration) (hr : t + len + 441 < 4294967296)
    (hl : 2 * len < 4294967296) :
    (stb__mix_block s output t len b).premix_float
      = ring_add s.premix_float output t len
          (gen_contrib s b (max t b.start_time) (min (t + len) (b.start_time + b.duration))) := by
  have hend := hb.2.2.2.2.1
  rw [mix_block_normal s output t len b hend hc1 hc2 hr hl,
    trimmed_mix_gen s b _ _ _ hb (by omega) (by omega) (by omega)]
  have e : max t b.start_time
      + (min (t + len) (b.start_time + b.duration) - max t b.start_time)
      = min (t + len) (b.start_time + b.duration) := by omega
  rw [e]
  apply ring_add_restrict
  · omega
  · omega
  · intro u ch _ _ hu
    unfold gen_contrib
    rw [if_neg (by omega)]

/-! ## Panning -/

/-- The pan gains that `stb_mixlow_add_playback_raw` computes, with the pan clamped to
`[-1, 1]`. -/
theorem new_block_pan (a : Playback) :
    (new_block a).lpan = (if 0 ≤ max (-1) (min 1 a.pan) then 1 - max (-1) (min 1 a.pan) else 1)
    ∧ (new_block a).rpan = (if 0 ≤ max (-1) (min 1 a.pan) then 1 else 1 + max (-1) (min 1 a.pan))
    ∧ 0 ≤ (new_block a).lpan ∧ (new_block a).lpan ≤ 1
    ∧ 0 ≤ (new_block a).rpan ∧ (new_block a).rpan ≤ 1 := by
  have hl : (new_block a).lpan = if a.pan = 0 then 1 else if a.pan < 0 then 1
      else 1 - (if a.pan < 0 then (if a.pan < -1 then -1 else a.pan)
              else (if a.pan > 1 then 1 else a.pan)) := rfl
  have hr : (new_block a).rpan = if a.pan = 0 then 1 else if a.pan < 0
      then 1 + (if a.pan < 0 then (if a.pan < -1 then -1 else a.pan)
              else (if a.pan > 1 then 1 else a.pan)) else 1 := rfl
  rw [hl, hr]
  rcases lt_trichotomy a.pan 0 with h | h | h
  · have h0 : ¬ a.pan = 0 := ne_of_lt h
    have hmin : min 1 a.pan = a.pan := min_eq_right (by linarith)
    rw [if_neg h0, if_pos h, if_neg h0, if_pos h, if_pos h, hmin]
    by_cases h1 : a.pan < -1
    · have hmax : max (-1) a.pan = -1 := max_eq_left (by linarith)
      rw [if_pos h1, hmax]
      norm_num
    · have hmax : max (-1) a.pan = a.pan := max_eq_right (by linarith)
      rw [if_neg h1, hmax, if_neg (by linarith), if_neg (by linarith)]
      refine ⟨rfl, rfl, ?_, ?_, ?_, ?_⟩ <;> linarith
  · rw [if_pos h, if_pos h, h]
    norm_num
  · have h0 : ¬ a.pan = 0 := ne_of_gt h
    have hn : ¬ a.pan < 0 := not_lt.mpr h.le
    rw [if_neg h0, if_neg hn, if_neg h0, if_neg hn, if_neg hn]
    by_cases h1 : a.pan > 1
    · have hmin : min 1 a.pan = 1 := min_eq_left (by linarith)
      rw [if_pos h1, hmin]
      norm_num
    · have hmin : min 1 a.pan = a.pan := min_eq_right (by linarith)
      have hmax : max (-1) a.pan = a.pan := max_eq_right (by linarith)
      rw [if_neg h1, hmin, hmax, if_pos h.le, if_pos h.le]
      refine ⟨rfl, rfl, ?_, ?_, ?_, ?_⟩ <;> linarith

/-- Panning scales the contribution of a block per channel: what `stb__mix_block` adds to
an element for a block is the pan gain of the element's channel times what it adds for the
same block with both pan gains 1. -/
theorem mix_block_pan_scaling (x : MixLow) (output t len : Nat) (b : stb__block)
    (hb : GoodBlock b) (hc1 : b.start_time < t + len)
    (hc2 : t ≤ b.start_time + b.duration) (hr : t + len + 441 < 4294967296)
    (hl : 2 * len < 4294967296) (j : Nat) :
    (stb__mix_block x output t len b).premix_float j
      = x.premix_float j + pan_gain b ((j - output) % 2)
          * ((stb__mix_block x output t len { b with lpan := 1, rpan := 1 }).premix_float j
              - x.premix_float j) := by
  have hb0 : GoodBlock { b with lpan := 1, rpan := 1 } := hb
  rw [mix_block_gen x output t len b hb hc1 hc2 hr hl,
    mix_block_gen x output t len _ hb0 hc1 hc2 hr hl]
  unfold ring_add
  by_cases hin : output ≤ j ∧ j < output + 2 * len
  · rw [if_pos hin, if_pos hin]
    unfold gen_contrib
    dsimp only
    split_ifs with hlive
    · have hpg : pan_gain { b with lpan := 1, rpan := 1 } ((j - output) % 2) = 1 := by
        unfold pan_gain
        split_ifs <;> rfl
      have hun : unpanned x { b with lpan := 1, rpan := 1 }
          (max t b.start_time) (min (t + len) (b.start_time + b.duration))
          (t + (j - output) / 2) ((j - output) % 2)
          = unpanned x b (max t b.start_time) (min (t + len) (b.start_time + b.duration))
            (t + (j - output) / 2) ((j - output) % 2) := rfl
      rw [hpg, hun]
      ring
    · ring
  · rw [if_neg hin, if_neg hin]
    ring

/-- A mono block with equal pan gains adds the same value to both channels of a tick. -/
theorem mix_block_mono_equal (x : MixLow) (output t len : Nat) (b : stb__block)
    (hb : GoodBlock b) (hc1 : b.start_time < t + len)
    (hc2 : t ≤ b.start_time + b.duration) (hr : t + len + 441 < 4294967296)
    (hl : 2 * len < 4294967296) (hmono : b.channels = 1) (hpan : b.lpan = b.rpan) (k : Nat) :
    (stb__mix_block x output t len b).premix_float (output + 2 * k)
        - x.premix_float (output + 2 * k)
      = (stb__mix_block x output t len b).premix_float (output + 2 * k + 1)
        - x.premix_float (output + 2 * k + 1) := by
  rw [mix_block_gen x output t len b hb hc1 hc2 hr hl]
  unfold ring_add
  have e1 : (output + 2 * k - output) / 2 = k := by omega
  have e2 : (output + 2 * k - output) % 2 = 0 := by omega
  have e3 : (output + 2 * k + 1 - output) / 2 = k := by omega
  have e4 : (output + 2 * k + 1 - output) % 2 = 1 := by omega
  rw [e1, e2, e3, e4]
  have hc : ∀ u, gen_contrib x b (max t b.start_time)
      (min (t + len) (b.start_time + b.duration)) u 0
      = gen_contrib x b (max t b.start_time) (min (t + len) (b.start_time + b.duration)) u 1 := by
    intro u
    have hpg : pan_gain b 0 = pan_gain b 1 := by
      unfold pan_gain
      rw [if_pos rfl, if_neg (by decide)]
      exact hpan
    have hv : block_value x b u 0 = block_value x b u 1 := by
      have h12 : ¬ (1 : Nat) = 2 := by decide
      unfold block_value seg_value direct_value interp_value
      rw [hmono]
      simp only [if_neg h12]
    unfold gen_contrib unpanned
    rw [hpg, hv]
  by_cases hk : k < len
  · rw [if_pos (by omega), if_pos (by omega), hc]
    ring
  · rw [if_neg (by omega), if_neg (by omega)]
    ring

/-- C16. Pan law. For every well-formed scheduling request accepted by
`stb_mixlow_add_playback_raw`, with `p` the pan clamped to `[-1, 1]`: the stored block has
`(lpan, rpan) = (1 - p, 1)` if `p >= 0` and `(1, 1 + p)` if `p < 0`, both in `[0, 1]`; what
`stb__mix_block` adds for the block to any element of the accumulator is the pan gain of
the element's channel (`lpan` left, `rpan` right) times what it adds for the same block
with both gains 1 (its unpanned per-channel signal); in particular for `pan <= -1` the
block adds nothing to the right channel, for `pan >= 1` nothing to the left channel, and
for `pan = 0` a mono source adds the same value to both channels of every tick. -/
theorem pan_law (s : MixLow) (a : Playback) (ha : GoodPlayback a)
    (hfull : s.num_blocks ≠ MAX_BLOCKS) (hbrk : 0 < s.brk) :
    (scheduled_block s a).lpan
        = (if 0 ≤ max (-1) (min 1 a.pan) then 1 - max (-1) (min 1 a.pan) else 1)
    ∧ (scheduled_block s a).rpan
        = (if 0 ≤ max (-1) (min 1 a.pan) then 1 else 1 + max (-1) (min 1 a.pan))
    ∧ 0 ≤ (scheduled_block s a).lpan ∧ (scheduled_block s a).lpan ≤ 1
    ∧ 0 ≤ (scheduled_block s a).rpan ∧ (scheduled_block s a).rpan ≤ 1
    ∧ (∀ (x : MixLow) (output t len j : Nat), a.start_time < t + len →
        t ≤ a.start_time + a.duration → t + len + 441 < 4294967296 → 2 * len < 4294967296 →
        (stb__mix_block x output t len (scheduled_block s a)).premix_float j
          = x.premix_float j + pan_gain (scheduled_block s a) ((j - output) % 2)
              * ((stb__mix_block x output t len
                    { scheduled_block s a with lpan := 1, rpan := 1 }).premix_float j
                  - x.premix_float j))
    ∧ (a.pan ≤ -1 → ∀ (x : MixLow) (output t len k : Nat), a.start_time < t + len →
        t ≤ a.start_time + a.duration → t + len + 441 < 4294967296 → 2 * len < 4294967296 →
        (stb__mix_block x output t len (scheduled_block s a)).premix_float (output + 2 * k + 1)
          = x.premix_float (output + 2 * k + 1))
    ∧ (1 ≤ a.pan → ∀ (x : MixLow) (output t len k : Nat), a.start_time < t + len →
        t ≤ a.start_time + a.duration → t + len + 441 < 4294967296 → 2 * len < 4294967296 →
        (stb__mix_block x output t len (scheduled_block s a)).premix_float (output + 2 * k)
          = x.premix_float (output + 2 * k))
    ∧ (a.pan = 0 → a.channels = 1 → ∀ (x : MixLow) (output t len k : Nat),
        a.start_time < t + len → t ≤ a.start_time + a.duration →
        t + len + 441 < 4294967296 → 2 * len < 4294967296 →
        (stb__mix_block x output t len (scheduled_block s a)).premix_float (output + 2 * k)
            - x.premix_float (output + 2 * k)
          = (stb__mix_block x output t len (scheduled_block s a)).premix_float
              (output + 2 * k + 1) - x.premix_float (output + 2 * k + 1)) := by
  obtain ⟨f_bl, -⟩ := same_but_rings_fields _ _ (add_playback_raw_rings s a ha hfull hbrk)
  obtain ⟨g1, g2, g3, g4, g5, g6, g7, g8, g9, g10, g11, g12, g13⟩ := sched_block_good s a ha
  have hB : scheduled_block s a = (sched s a).bl s.num_blocks := by
    unfold scheduled_block
    rw [f_bl]
  obtain ⟨p1, p2, p3, p4, p5, p6⟩ := new_block_pan a
  rw [hB]
  generalize (sched s a).bl s.num_blocks = B at *
  rw [← g9] at p1 p3 p4
  rw [← g10] at p2 p5 p6
  have hscale : ∀ (x : MixLow) (output t len j : Nat), a.start_time < t + len →
      t ≤ a.start_time + a.duration → t + len + 441 < 4294967296 → 2 * len < 4294967296 →
      (stb__mix_block x output t len B).premix_float j
        = x.premix_float j + pan_gain B ((j - output) % 2)
            * ((stb__mix_block x output t len { B with lpan := 1, rpan := 1 }).premix_float j
                - x.premix_float j) := by
    intro x output t len j hc1 hc2 hr hl
    have h1 : B.start_time < t + len := by rw [g3]; exact hc1
    have h2 : t ≤ B.start_time + B.duration := by rw [g3, g4]; exact hc2
    exact mix_block_pan_scaling x output t len B g1 h1 h2 hr hl j
  refine ⟨p1, p2, p3, p4, p5, p6, ?_, ?_, ?_, ?_⟩
  · intro x output t len j hc1 hc2 hr hl
    have := hscale x output t len j hc1 hc2 hr hl
    dsimp only
    exact this
  · intro hp x output t len k hc1 hc2 hr hl
    have hmax : max (-1) (min 1 a.pan) = -1 := by
      rw [min_eq_right (by linarith)]
      exact max_eq_left hp
    have hr0 : B.rpan = 0 := by
      rw [p2, hmax]
      norm_num
    rw [hscale x output t len _ hc1 hc2 hr hl]
    have e : (output + 2 * k + 1 - output) % 2 = 1 := by omega
    unfold pan_gain
    rw [e, if_neg (by decide), hr0, zero_mul, add_zero]
  · intro hp x output t len k hc1 hc2 hr hl
    have hmax : max (-1) (min 1 a.pan) = 1 := by
      rw [min_eq_left hp]
      exact max_eq_right (by norm_num)
    have hl0 : B.lpan = 0 := by
      rw [p1, hmax]
      norm_num
    rw [hscale x output t len _ hc1 hc2 hr hl]
    have e : (output + 2 * k - output) % 2 = 0 := by omega
    unfold pan_gain
    rw [e, if_pos rfl, hl0, zero_mul, add_zero]
  · intro hp hmono x output t len k hc1 hc2 hr hl
    have hmax : max (-1) (min 1 a.pan) = 0 := by
      rw [hp, min_eq_right (by norm_num)]
      exact max_eq_right (by norm_num)
    have hlr : B.lpan = B.rpan := by
      rw [p1, p2, hmax]
      norm_num
    have hch : B.channels = 1 := by
      rw [g7, hmono]
      rfl
    have h1 : B.start_time < t + len := by rw [g3]; exact hc1
    have h2 : t ≤ B.start_time + B.duration := by rw [g3, g4]; exact hc2
    exact mix_block_mono_equal x output t len B g1 h1 h2 hr hl hch hlr k

theorem demo_stereo_good : GoodPlayback demo_stereo_playback := by
  have hstep : (new_block demo_stereo_playback).step = 1 := rfl
  have hfirst : (new_block demo_stereo_playback).first = 0 := rfl
  have hdur : (new_block demo_stereo_playback).duration = 4 := rfl
  have hfn : frames_needed (new_block demo_stereo_playback) = 4 := by
    unfold frames_needed
    rw [if_pos hstep, hfirst, hdur, Int.floor_zero, zero_add]
    rfl
  refine ⟨Or.inl ⟨by decide, rfl⟩, Or.inr rfl, le_refl _, ?_, by decide, by decide, ?_,
    by decide⟩
  · show (0 : ℚ) < 1
    exact zero_lt_one
  · rw [hfn]
    decide

/-- C16, instance: after `init(8)`, the stereo demo playback with `pan = 1`; mixing the
stored block over the ticks `[0, 8)` leaves the left element of tick 1 as it was. -/
theorem pan_law_witness :
    (stb__mix_block (stb_mixlow_add_playback_raw (demo_init 8) demo_stereo_playback) 0 0 8
        (scheduled_block (demo_init 8) demo_stereo_playback)).premix_float (0 + 2 * 1)
      = (stb_mixlow_add_playback_raw (demo_init 8) demo_stereo_playback).premix_float
          (0 + 2 * 1) :=
  (pan_law (demo_init 8) demo_stereo_playback demo_stereo_good (by decide) (by decide)).2.2.2.2.2.2.2.2.1
    (le_refl _) (stb_mixlow_add_playback_raw (demo_init 8) demo_stereo_playback) 0 0 8 1
    (by decide) (by decide) (by decide) (by decide)

/-! ## The fade curves -/

theorem fade_linear_eq (t : ℚ) : stb__fade FADE_linear t = t := rfl

theorem fade_equalpower_eq (t : ℚ) :
    stb__fade FADE_equalpower t = (157 / 100) * t + t * t * (-(43 / 100) * t - 14 / 100) := rfl

theorem fade_release_eq (t : ℚ) : stb__fade FADE_release t = release_curve t := by
  show (if (t * t * t) * (t * t * t) * (5 / 10) < 1 - (1 - t) * 15 then 1 - (1 - t) * 15
      else (t * t * t) * (t * t * t) * (5 / 10)) = max ((t ^ 3) ^ 2 * (5 / 10)) (1 - (1 - t) * 15)
  have e : (t * t * t) * (t * t * t) * (5 / 10) = (t ^ 3) ^ 2 * (5 / 10) := by ring
  rw [e]
  split_ifs with h
  · exact (max_eq_right (le_of_lt h)).symm
  · exact (max_eq_left (not_lt.mp h)).symm

theorem fade_pulserelease_eq (t : ℚ) :
    stb__fade FADE_pulserelease t = pre_pulse t * max ((t ^ 3) ^ 2 * (5 / 10)) (pulse_ramp t) := by
  show (if |(1 - t) * 20 - 1| < 1 then
        1 + (1 - (3 * |(1 - t) * 20 - 1| * |(1 - t) * 20 - 1|
          - 2 * |(1 - t) * 20 - 1| * |(1 - t) * 20 - 1| * |(1 - t) * 20 - 1|)) * (2 / 10)
        else 1)
      * (if (t * t * t) * (t * t * t) * (5 / 10) < (if t < 95 / 100 then 1 - (95 / 100 - t) * 16 else 1)
          then (if t < 95 / 100 then 1 - (95 / 100 - t) * 16 else 1)
          else (t * t * t) * (t * t * t) * (5 / 10))
      = pre_pulse t * max ((t ^ 3) ^ 2 * (5 / 10)) (pulse_ramp t)
  have e : (t * t * t) * (t * t * t) * (5 / 10) = (t ^ 3) ^ 2 * (5 / 10) := by ring
  have e2 : ∀ d : ℚ, 3 * d * d - 2 * d * d * d = 3 * d ^ 2 - 2 * d ^ 3 := fun d => by ring
  rw [e, e2]
  have hm : (if (t ^ 3) ^ 2 * (5 / 10) < (if t < 95 / 100 then 1 - (95 / 100 - t) * 16 else 1)
          then (if t < 95 / 100 then 1 - (95 / 100 - t) * 16 else 1)
          else (t ^ 3) ^ 2 * (5 / 10)) = max ((t ^ 3) ^ 2 * (5 / 10)) (pulse_ramp t) := by
    show (if (t ^ 3) ^ 2 * (5 / 10) < pulse_ramp t then pulse_ramp t else (t ^ 3) ^ 2 * (5 / 10)) = _
    split_ifs with h
    · exact (max_eq_right (le_of_lt h)).symm
    · exact (max_eq_left (not_lt.mp h)).symm
  rw [hm]
  rfl

theorem pre_pulse_range (t : ℚ) : 1 ≤ pre_pulse t ∧ pre_pulse t ≤ 6 / 5 := by
  unfold pre_pulse
  have hd : 0 ≤ |(1 - t) * 20 - 1| := abs_nonneg _
  generalize |(1 - t) * 20 - 1| = d at hd
  split_ifs with h
  · have e1 : 1 - (3 * d ^ 2 - 2 * d ^ 3) = (1 - d) ^ 2 * (1 + 2 * d) := by ring
    have e2 : 3 * d ^ 2 - 2 * d ^ 3 = d ^ 2 * (3 - 2 * d) := by ring
    have p1 : 0 ≤ (1 - d) ^ 2 * (1 + 2 * d) := mul_nonneg (sq_nonneg _) (by linarith)
    have p2 : 0 ≤ d ^ 2 * (3 - 2 * d) := mul_nonneg (sq_nonneg _) (by linarith)
    constructor
    · rw [e1]; linarith
    · rw [e2]; linarith
  · constructor <;> norm_num

theorem sixth_power_range (t : ℚ) (h0 : 0 ≤ t) (h1 : t ≤ 1) :
    0 ≤ (t ^ 3) ^ 2 * (5 / 10) ∧ (t ^ 3) ^ 2 * (5 / 10) ≤ 1 / 2 := by
  have h3 : t ^ 3 ≤ 1 := pow_le_one₀ h0 h1
  have h30 : 0 ≤ t ^ 3 := pow_nonneg h0 3
  have h6 : (t ^ 3) ^ 2 ≤ 1 := pow_le_one₀ h30 h3
  have h60 : 0 ≤ (t ^ 3) ^ 2 := pow_nonneg h30 2
  constructor <;> linarith

theorem pulse_ramp_le_one (t : ℚ) : pulse_ramp t ≤ 1 := by
  unfold pulse_ramp
  split_ifs with h
  · linarith
  · exact le_refl _

/-- The bounds of the four fade curves on `[0, 1]`. -/
theorem fade_bounds (mode : Nat) (t : ℚ) (h0 : 0 ≤ t) (h1 : t ≤ 1)
    (hm : mode = FADE_linear ∨ mode = FADE_equalpower ∨ mode = FADE_release
      ∨ mode = FADE_pulserelease) :
    0 ≤ stb__fade mode t
      ∧ stb__fade mode t ≤ (if mode = FADE_pulserelease then 6 / 5 else 1) := by
  have hs := sixth_power_range t h0 h1
  rcases hm with hm | hm | hm | hm
  · subst hm
    rw [fade_linear_eq, if_neg (by decide)]
    exact ⟨h0, h1⟩
  · subst hm
    rw [fade_equalpower_eq, if_neg (by decide)]
    constructor
    · nlinarith [mul_nonneg h0 h0, mul_nonneg (mul_nonneg h0 h0) h0,
        mul_nonneg h0 (sub_nonneg.mpr h1), mul_nonneg (mul_nonneg h0 h0) (sub_nonneg.mpr h1)]
    · have e : (1 : ℚ) - ((157 / 100) * t + t * t * (-(43 / 100) * t - 14 / 100))
          = (1 - t) ^ 2 * (1 + (43 / 100) * t) := by ring
      have : 0 ≤ (1 - t) ^ 2 * (1 + (43 / 100) * t) :=
        mul_nonneg (sq_nonneg _) (by linarith)
      linarith
  · subst hm
    rw [fade_release_eq, if_neg (by decide)]
    unfold release_curve
    constructor
    · exact le_trans hs.1 (le_max_left _ _)
    · exact max_le (by linarith) (by linarith)
  · subst hm
    rw [fade_pulserelease_eq, if_pos rfl]
    have hp := pre_pulse_range t
    have hr := pulse_ramp_le_one t
    have hmx0 : 0 ≤ max ((t ^ 3) ^ 2 * (5 / 10)) (pulse_ramp t) := le_trans hs.1 (le_max_left _ _)
    have hmx1 : max ((t ^ 3) ^ 2 * (5 / 10)) (pulse_ramp t) ≤ 1 := max_le (by linarith) hr
    constructor
    · exact mul_nonneg (by linarith) hmx0
    · nlinarith

theorem fade_pulse_peak : stb__fade FADE_pulserelease (19 / 20) = 6 / 5 := by
  rw [fade_pulserelease_eq]
  unfold pre_pulse pulse_ramp
  norm_num

theorem pulse_spec_peak : pulse_release_spec (19 / 20) = 141137643 / 320000000 := by
  unfold pulse_release_spec release_curve pre_pulse
  rw [max_eq_left (by norm_num)]
  norm_num

/-- Up to `t = 71/80` both linear terms are below the pseudo-log term and the pre-pulse
is off, and from there on the ramp of the code lies above the ramp of the release
curve. -/
theorem pulse_release_vs_spec (t : ℚ) (h0 : 0 ≤ t) (h1 : t ≤ 1) :
    pulse_release_spec t ≤ stb__fade FADE_pulserelease t
      ∧ (t ≤ 71 / 80 → stb__fade FADE_pulserelease t = pulse_release_spec t) := by
  have hs := sixth_power_range t h0 h1
  have hp := pre_pulse_range t
  rw [fade_pulserelease_eq]
  unfold pulse_release_spec release_curve
  constructor
  · rw [mul_comm (pre_pulse t)]
    apply mul_le_mul_of_nonneg_right _ (by linarith)
    apply max_le (le_max_left _ _)
    by_cases hc : 1 - (1 - t) * 15 ≤ 0
    · exact le_trans (le_trans hc hs.1) (le_max_left _ _)
    · refine le_trans ?_ (le_max_right _ _)
      unfold pulse_ramp
      split_ifs with h
      · linarith
      · linarith
  · intro ht
    have e1 : max ((t ^ 3) ^ 2 * (5 / 10)) (pulse_ramp t) = (t ^ 3) ^ 2 * (5 / 10) := by
      apply max_eq_left
      unfold pulse_ramp
      rw [if_pos (by linarith)]
      linarith
    have e2 : max ((t ^ 3) ^ 2 * (5 / 10)) (1 - (1 - t) * 15) = (t ^ 3) ^ 2 * (5 / 10) := by
      apply max_eq_left
      linarith
    rw [e1, e2, mul_comm]

/-- C23, counterexample: at `t = 0.95` the pulse-release fade is `1.2`, above 1. -/
theorem pulse_release_fade_exceeds_one :
    (0 : ℚ) ≤ 19 / 20 ∧ (19 / 20 : ℚ) ≤ 1 ∧ stb__fade FADE_pulserelease (19 / 20) = 6 / 5
      ∧ ¬ (stb__fade FADE_pulserelease (19 / 20) ≤ 1) := by
  rw [fade_pulse_peak]
  norm_num

/-- C23, amended: for every `t` with `0 ≤ t ≤ 1`, the fades `linear`, `equal_power` and
`release` have a value in `[0, 1]`, and the fade `pulse_release` has a value in
`[0, 1.2]`. -/
theorem fade_maps_unit_interval (mode : Nat) (t : ℚ) (h0 : 0 ≤ t) (h1 : t ≤ 1)
    (hm : mode = FADE_linear ∨ mode = FADE_equalpower ∨ mode = FADE_release
      ∨ mode = FADE_pulserelease) :
    0 ≤ stb__fade mode t
      ∧ stb__fade mode t ≤ (if mode = FADE_pulserelease then 6 / 5 else 1) :=
  fade_bounds mode t h0 h1 hm

/-- C23, instance: the equal-power fade at `t = 1/2`. -/
theorem fade_maps_unit_interval_witness :
    0 ≤ stb__fade FADE_equalpower (1 / 2)
      ∧ stb__fade FADE_equalpower (1 / 2)
          ≤ (if FADE_equalpower = FADE_pulserelease then 6 / 5 else 1) :=
  fade_maps_unit_interval FADE_equalpower (1 / 2) (by norm_num) (by norm_num) (by decide)

/-- C24, counterexample: at `t = 0.95` the pulse-release fade of the code is `1.2`, and the
release curve times the pre-pulse factor is below `1/2`. -/
theorem pulse_release_is_not_release_times_pulse :
    (0 : ℚ) ≤ 19 / 20 ∧ (19 / 20 : ℚ) ≤ 1
      ∧ stb__fade FADE_pulserelease (19 / 20) = 6 / 5
      ∧ pulse_release_spec (19 / 20) = 141137643 / 320000000
      ∧ stb__fade FADE_pulserelease (19 / 20) ≠ pulse_release_spec (19 / 20) := by
  rw [fade_pulse_peak, pulse_spec_peak]
  norm_num

/-- C24, amended: for every `t` with `0 ≤ t ≤ 1`, the pulse-release fade is the pre-pulse
factor times `max((t^3)^2 * 0.5, e(t))`, where `e(t) = 1 - (0.95 - t) * 16` for `t < 0.95`
and `e(t) = 1` from `0.95` on; it is at least the release curve times the pre-pulse factor,
and equal to it for `t ≤ 0.8875`. -/
theorem pulse_release_curve (t : ℚ) (h0 : 0 ≤ t) (h1 : t ≤ 1) :
    stb__fade FADE_pulserelease t = pre_pulse t * max ((t ^ 3) ^ 2 * (5 / 10)) (pulse_ramp t)
      ∧ pulse_release_spec t ≤ stb__fade FADE_pulserelease t
      ∧ (t ≤ 71 / 80 → stb__fade FADE_pulserelease t = pulse_release_spec t) :=
  ⟨fade_pulserelease_eq t, pulse_release_vs_spec t h0 h1⟩

/-- C24, instance: at `t = 1/2`. -/
theorem pulse_release_curve_witness :
    stb__fade FADE_pulserelease (1 / 2)
        = pre_pulse (1 / 2) * max (((1 / 2 : ℚ) ^ 3) ^ 2 * (5 / 10)) (pulse_ramp (1 / 2))
      ∧ pulse_release_spec (1 / 2) ≤ stb__fade FADE_pulserelease (1 / 2)
      ∧ ((1 / 2 : ℚ) ≤ 71 / 80 → stb__fade FADE_pulserelease (1 / 2) = pulse_release_spec (1 / 2)) :=
  pulse_release_curve (1 / 2) (by norm_num) (by norm_num)

/-! ## The envelope ordering under the public calls -/

theorem mem_active (s : MixLow) (b : stb__block) :
    b ∈ active s ↔ ∃ j, j < s.num_blocks ∧ s.bl j = b := by
  unfold active
  rw [List.mem_map]
  constructor
  · rintro ⟨j, hj, e⟩
    exact ⟨j, List.mem_range.mp hj, e⟩
  · rintro ⟨j, hj, e⟩
    exact ⟨j, List.mem_range.mpr hj, e⟩

theorem add_to_premix_bl (s : MixLow) (i : Nat) :
    (stb__add_to_premix s i).bl = s.bl ∧ (stb__add_to_premix s i).num_blocks = s.num_blocks := by
  constructor <;> rw [add_to_premix_eta]

theorem copy_samples_num_blocks (s : MixLow) (i : Nat) :
    (stb__copy_samples s i).num_blocks = s.num_blocks := by
  obtain ⟨blx, m1, m2, k, e⟩ := copy_samples_eta s i
  rw [e]

/-- The table after a scheduling call with a valid source pointer: the blocks that were
active are unchanged, and a stored block has the envelope fields of the request and an
inert fade-out. -/
theorem add_playback_raw_table (s : MixLow) (a : Playback)
    (hp : ¬ ((a.samples = 0 ∧ a.fsamples ≤ 65536) ∨ (a.samples ≠ 0 ∧ a.samples ≤ 65536))) :
    ∀ b ∈ active (stb_mixlow_add_playback_raw s a),
      b ∈ active s
      ∨ (b.fadein_start = a.fadein_start ∧ b.fadein_len = a.fadein_len
          ∧ b.fadeout_start = 4294967295 ∧ b.fadeout_len = 0) := by
  unfold stb_mixlow_add_playback_raw
  dsimp only
  by_cases h1 : a.duration = 0
  · rw [if_pos h1]; exact fun b hb => Or.inl hb
  rw [if_neg h1]
  by_cases h2 : s.num_blocks = MAX_BLOCKS
  · rw [if_pos h2]; exact fun b hb => Or.inl hb
  rw [if_neg h2, if_neg hp]
  have key : ∀ s3 : MixLow, s3.num_blocks = s.num_blocks + 1 →
      (∀ j, j ≠ s.num_blocks → s3.bl j = s.bl j) →
      (s3.bl s.num_blocks).fadein_start = a.fadein_start →
      (s3.bl s.num_blocks).fadein_len = a.fadein_len →
      (s3.bl s.num_blocks).fadeout_start = 4294967295 →
      (s3.bl s.num_blocks).fadeout_len = 0 →
      ∀ b ∈ active s3, b ∈ active s
        ∨ (b.fadein_start = a.fadein_start ∧ b.fadein_len = a.fadein_len
          ∧ b.fadeout_start = 4294967295 ∧ b.fadeout_len = 0) := by
    intro s3 hn ho f1 f2 f3 f4 b hb
    obtain ⟨j, hj, e⟩ := (mem_active s3 b).mp hb
    by_cases hjn : j = s.num_blocks
    · right
      rw [← e, hjn]
      exact ⟨f1, f2, f3, f4⟩
    · left
      rw [← e, ho j hjn]
      exact (mem_active s _).mpr ⟨j, by omega, rfl⟩
  have k2 : ∀ s3 : MixLow, s3.num_blocks = s.num_blocks + 1 →
      (∀ j, j ≠ s.num_blocks → s3.bl j = s.bl j) →
      (s3.bl s.num_blocks).fadein_start = a.fadein_start →
      (s3.bl s.num_blocks).fadein_len = a.fadein_len →
      (s3.bl s.num_blocks).fadeout_start = 4294967295 →
      (s3.bl s.num_blocks).fadeout_len = 0 →
      ∀ b ∈ active (if a.start_time < uadd s3.premix_time s3.premix_len
          then stb__add_to_premix s3 s.num_blocks else s3), b ∈ active s
        ∨ (b.fadein_start = a.fadein_start ∧ b.fadein_len = a.fadein_len
          ∧ b.fadeout_start = 4294967295 ∧ b.fadeout_len = 0) := by
    intro s3 hn ho f1 f2 f3 f4
    split_ifs
    · have hb := add_to_premix_bl s3 s.num_blocks
      exact key _ (by rw [hb.2]; exact hn) (by rw [hb.1]; exact ho) (by rw [hb.1]; exact f1)
        (by rw [hb.1]; exact f2) (by rw [hb.1]; exact f3) (by rw [hb.1]; exact f4)
    · exact key s3 hn ho f1 f2 f3 f4
  have main : ∀ s2 : MixLow, s2.num_blocks = s.num_blocks + 1 →
      (∀ j, j ≠ s.num_blocks → s2.bl j = s.bl j) → s2.bl s.num_blocks = new_block a →
      ∀ b ∈ active (if a.start_time
            < uadd (if a.handle = 0 then stb__copy_samples s2 s.num_blocks else s2).premix_time
                (if a.handle = 0 then stb__copy_samples s2 s.num_blocks else s2).premix_len
          then stb__add_to_premix (if a.handle = 0 then stb__copy_samples s2 s.num_blocks else s2)
            s.num_blocks
          else (if a.handle = 0 then stb__copy_samples s2 s.num_blocks else s2)), b ∈ active s
        ∨ (b.fadein_start = a.fadein_start ∧ b.fadein_len = a.fadein_len
          ∧ b.fadeout_start = 4294967295 ∧ b.fadeout_len = 0) := by
    intro s2 g0 g1 g2
    by_cases hh : a.handle = 0
    · simp only [if_pos hh]
      obtain ⟨c1, c2⟩ := copy_samples_block s2 s.num_blocks
      refine k2 _ (by rw [copy_samples_num_blocks]; exact g0)
        (fun j hj => by rw [c1 j hj]; exact g1 j hj) ?_ ?_ ?_ ?_
      all_goals rw [c2, g2]; rfl
    · simp only [if_neg hh]
      refine k2 _ g0 g1 ?_ ?_ ?_ ?_
      all_goals rw [g2]; rfl
  exact main _ rfl (fun j hj => Function.update_noteq hj _ _) (Function.update_same _ _ _)

theorem set_curtime_subset (s : MixLow) (t : Nat) :
    ∀ b ∈ active (stb_mixlow_set_curtime s t), b ∈ active s := by
  intro b hb
  by_cases h : t < s.mix_time
  · have e : stb_mixlow_set_curtime s t = s := by
      unfold stb_mixlow_set_curtime
      rw [if_pos h]
    rwa [e] at hb
  · rw [set_curtime_active s t (by omega)] at hb
    obtain ⟨k1, k2⟩ := set_curtime_loop_spec t s.num_blocks 0 s.bl s.num_blocks (by omega)
      (Nat.zero_le _) (fun j hj => absurd hj (Nat.not_lt_zero j))
    obtain ⟨j, hj, e⟩ := List.mem_map.mp hb
    have hlive := k1 j (List.mem_range.mp hj)
    rw [e] at hlive
    have hc := k2 b hlive
    have hpos : 0 < List.count b ((List.range s.num_blocks).map s.bl) := by
      rw [← hc]
      exact List.count_pos_iff.mpr hb
    exact List.count_pos_iff.mp hpos

/-- C25, failing input: after `init(8); add_playback(handle 7, fade-in over [0, 20), start 0,
duration 50); end_set(7, linear, 5, 10)` the one active block has its fade-in ending at
tick 20 and its fade-out starting at tick 5, against the envelope ordering; the block now
ends at tick 15, and during the end duration `[5, 15)` its envelope is that of the fade-in
alone: it rises from `1/4` at tick 5 over `1/2` at tick 10 to `7/10` at tick 14 instead of
being attenuated to 0. -/
theorem end_set_during_fade_in_breaks_ordering :
    (stb_mixlow_end_set (stb_mixlow_add_playback (demo_init 8) demo_fadein_handle_playback)
        7 1 5 10).num_blocks = 1
    ∧ ((stb_mixlow_end_set (stb_mixlow_add_playback (demo_init 8) demo_fadein_handle_playback)
        7 1 5 10).bl 0).fadein_start = 0
    ∧ ((stb_mixlow_end_set (stb_mixlow_add_playback (demo_init 8) demo_fadein_handle_playback)
        7 1 5 10).bl 0).fadein_len = 20
    ∧ ((stb_mixlow_end_set (stb_mixlow_add_playback (demo_init 8) demo_fadein_handle_playback)
        7 1 5 10).bl 0).fadeout_start = 5
    ∧ ((stb_mixlow_end_set (stb_mixlow_add_playback (demo_init 8) demo_fadein_handle_playback)
        7 1 5 10).bl 0).fadeout_len = 10
    ∧ ¬ EnvelopeOrdered ((stb_mixlow_end_set
        (stb_mixlow_add_playback (demo_init 8) demo_fadein_handle_playback) 7 1 5 10).bl 0)
    ∧ stb__compute_fade ((stb_mixlow_end_set
        (stb_mixlow_add_playback (demo_init 8) demo_fadein_handle_playback) 7 1 5 10).bl 0) 10
        = 1 / 2
    ∧ ((stb_mixlow_end_set (stb_mixlow_add_playback (demo_init 8) demo_fadein_handle_playback)
        7 1 5 10).bl 0).start_time = 0
    ∧ ((stb_mixlow_end_set (stb_mixlow_add_playback (demo_init 8) demo_fadein_handle_playback)
        7 1 5 10).bl 0).duration = 15
    ∧ stb__compute_fade ((stb_mixlow_end_set
        (stb_mixlow_add_playback (demo_init 8) demo_fadein_handle_playback) 7 1 5 10).bl 0) 5
        = 1 / 4
    ∧ stb__compute_fade ((stb_mixlow_end_set
        (stb_mixlow_add_playback (demo_init 8) demo_fadein_handle_playback) 7 1 5 10).bl 0) 14
        = 7 / 10 := by
  have h1 : ((stb_mixlow_end_set (stb_mixlow_add_playback (demo_init 8)
      demo_fadein_handle_playback) 7 1 5 10).bl 0).fadein_start = 0 := by decide
  have h2 : ((stb_mixlow_end_set (stb_mixlow_add_playback (demo_init 8)
      demo_fadein_handle_playback) 7 1 5 10).bl 0).fadein_len = 20 := by decide
  have h3 : ((stb_mixlow_end_set (stb_mixlow_add_playback (demo_init 8)
      demo_fadein_handle_playback) 7 1 5 10).bl 0).fadeout_start = 5 := by decide
  refine ⟨by decide, h1, h2, h3, by decide, ?_, by decide!, by decide, by decide, by decide!,
    by decide!⟩
  unfold EnvelopeOrdered
  rw [h1, h2, h3]
  omega

/-! ## A ramp played at half speed -/

theorem half_floor_bounds (d k : Nat) (hk : k < d) :
    0 ≤ ⌊(0 : ℚ) + (k : ℚ) * (1 / 2)⌋
      ∧ ⌊(0 : ℚ) + (k : ℚ) * (1 / 2)⌋ + 1 < ⌈(0 : ℚ) + (d : ℚ) * (1 / 2) + 1⌉ := by
  have hk0 : (0 : ℚ) ≤ (0 : ℚ) + (k : ℚ) * (1 / 2) := by
    have : (0 : ℚ) ≤ (k : ℚ) := Nat.cast_nonneg k
    linarith
  constructor
  · exact Int.floor_nonneg.mpr hk0
  · have h1 : ((⌊(0 : ℚ) + (k : ℚ) * (1 / 2)⌋ : Int) : ℚ) ≤ (0 : ℚ) + (k : ℚ) * (1 / 2) :=
      Int.floor_le _
    have h2 : (0 : ℚ) + (d : ℚ) * (1 / 2) + 1 ≤ ((⌈(0 : ℚ) + (d : ℚ) * (1 / 2) + 1⌉ : Int) : ℚ) :=
      Int.le_ceil _
    have h3 : (k : ℚ) + 1 ≤ (d : ℚ) := by exact_mod_cast hk
    have h4 : ((⌊(0 : ℚ) + (k : ℚ) * (1 / 2)⌋ + 1 : Int) : ℚ)
        < ((⌈(0 : ℚ) + (d : ℚ) * (1 / 2) + 1⌉ : Int) : ℚ) := by
      push_cast
      linarith
    exact_mod_cast h4

/-- The contribution of the half-speed ramp block to a tick. -/
theorem ramp_contrib (s : MixLow) (a : Playback)
    (hptr : 65536 < a.samples) (hf0 : a.fsamples = 0) (hch : a.channels = 1)
    (hfirst : a.first = 0)
    (hstep : a.step = 1 / 2) (hvol : a.vol = 1) (hpan : a.pan = 0)
    (hgv : s.global_volume = 1)
    (hd : 0 < a.duration) (hend : a.start_time + a.duration < 4294967296)
    (hlen : ⌈(0 : ℚ) + (a.duration : ℚ) * (1 / 2) + 1⌉ ≤ a.sample_len)
    (hsl : a.sample_len < 2147483648)
    (hramp : ∀ i : Int, 0 ≤ i → i < a.sample_len → s.mem16 ((a.samples : Int) + 2 * i) = i)
    (hbrk : 0 < s.brk) (u ch : Nat) :
    block_contrib (sched s a) ((sched s a).bl s.num_blocks) u ch
      = if a.start_time ≤ u ∧ u < a.start_time + a.duration then
          (1 / 2) * ((u - a.start_time : Nat) : ℚ)
        else 0 := by
  have hs0 : a.samples ≠ 0 := by omega
  have hstep1 : a.step ≠ 1 := by rw [hstep]; norm_num
  have hfn : frames_needed (new_block a) = ⌈(0 : ℚ) + (a.duration : ℚ) * (1 / 2) + 1⌉ := by
    unfold frames_needed
    show (if a.step = 1 then _ else ⌈a.first + (a.duration : ℚ) * a.step + 1⌉) = _
    rw [if_neg hstep1, hfirst, hstep]
  have ha : GoodPlayback a := by
    refine ⟨Or.inl ⟨hptr, hf0⟩, Or.inl hch, ?_, ?_, hd, hend, ?_, hsl⟩
    · rw [hfirst]
    · rw [hstep]; norm_num
    · rw [hfn]; exact hlen
  obtain ⟨hgood, hfn2, hst, hdu, hfi, hstp, hchn, hvl, hlp, hrp, hfis, hfil, hfos⟩ :=
    sched_block_good s _ ha
  have hgv2 : (sched s a).global_volume = s.global_volume := (sched_rest s _).2.2.2.2.2.2.1
  have hrd : ∀ k : Int, 0 ≤ k → k < ⌈(0 : ℚ) + (a.duration : ℚ) * (1 / 2) + 1⌉ →
      block_rd (sched s a) ((sched s a).bl s.num_blocks) k = (k : ℚ) := by
    intro k hk0 hk1
    rw [sched_block_rd s a ha hbrk k hk0 (by
      rw [hfn, hch]
      have : toUChar 1 = 1 := rfl
      rw [this]
      simpa using hk1)]
    unfold block_rd rd16
    have hnbs : (new_block a).samples = a.samples := rfl
    rw [hnbs, if_pos hs0, hramp k hk0 (by omega)]
  have hsamp : ((sched s a).bl s.num_blocks).samples ≠ 0 := by
    rw [sched_block]
    have hb0 : s.brk ≠ 0 := by omega
    split_ifs
    · exact hb0
    · exact hs0
  have hlp1 : (new_block a).lpan = 1 := by
    show (if a.pan = 0 then (1 : ℚ) else _) = 1
    rw [if_pos hpan]
  have hrp1 : (new_block a).rpan = 1 := by
    show (if a.pan = 0 then (1 : ℚ) else _) = 1
    rw [if_pos hpan]
  unfold block_contrib
  rw [hst, hdu]
  by_cases hlive : a.start_time ≤ u ∧ u < a.start_time + a.duration
  swap
  · rw [if_neg hlive, if_neg hlive]
  rw [if_pos hlive, if_pos hlive]
  obtain ⟨q0, q1⟩ := half_floor_bounds a.duration (u - a.start_time) (by omega)
  have hval : block_value (sched s a) ((sched s a).bl s.num_blocks) u ch
      = (1 / 2) * ((u - a.start_time : Nat) : ℚ) := by
    unfold block_value seg_value interp_value
    have hch1 : ((sched s a).bl s.num_blocks).channels = 1 := by rw [hchn, hch]; rfl
    rw [hstp, hfi, hst, if_neg hstep1, hch1, if_neg (by norm_num), hfirst, hstep]
    rw [hrd _ q0 (by omega), hrd _ (by omega) q1]
    push_cast
    ring
  have hsc : block_scale ((sched s a).bl s.num_blocks) = 1 := by
    unfold block_scale
    rw [if_pos hsamp]
  have hpg : pan_gain ((sched s a).bl s.num_blocks) ch = 1 := by
    unfold pan_gain
    rw [hlp, hrp, hlp1, hrp1, ite_self]
  rw [hval, hsc, hvl, hvol, hgv2, hgv, hpg]
  ring

/-- The half-speed ramp: mixing the block that a scheduling call stores for a mono
source `src[i] = i` with `first = 0`, `step = 1/2`, unit volume, no pan and the fade-in over
before the start, under global volume 1, adds `k / 2` to both accumulators of the tick of
its `k`-th output sample, whatever range is mixed. -/
theorem ramp_half_core (s : MixLow) (a : Playback) (output t len : Nat)
    (hptr : 65536 < a.samples) (hf0 : a.fsamples = 0) (hch : a.channels = 1)
    (hfirst : a.first = 0)
    (hstep : a.step = 1 / 2) (hvol : a.vol = 1) (hpan : a.pan = 0)
    (hfade : a.fadein_start + a.fadein_len ≤ a.start_time) (hgv : s.global_volume = 1)
    (hd : 0 < a.duration) (hend : a.start_time + a.duration < 4294967296)
    (hlen : ⌈(0 : ℚ) + (a.duration : ℚ) * (1 / 2) + 1⌉ ≤ a.sample_len)
    (hsl : a.sample_len < 2147483648)
    (hramp : ∀ i : Int, 0 ≤ i → i < a.sample_len → s.mem16 ((a.samples : Int) + 2 * i) = i)
    (hfull : s.num_blocks ≠ MAX_BLOCKS) (hbrk : 0 < s.brk)
    (hc1 : a.start_time < t + len) (hc2 : t ≤ a.start_time + a.duration)
    (hr : t + len + 441 < 4294967296) (hl : 2 * len < 4294967296) :
    (stb__mix_block (stb_mixlow_add_playback_raw s a) output t len
        ((stb_mixlow_add_playback_raw s a).bl s.num_blocks)).premix_float
      = ring_add (stb_mixlow_add_playback_raw s a).premix_float output t len
          (fun u _ => if a.start_time ≤ u ∧ u < a.start_time + a.duration then
              (1 / 2) * ((u - a.start_time : Nat) : ℚ)
            else 0) := by
  have hstep1 : a.step ≠ 1 := by rw [hstep]; norm_num
  have hfn : frames_needed (new_block a) = ⌈(0 : ℚ) + (a.duration : ℚ) * (1 / 2) + 1⌉ := by
    unfold frames_needed
    show (if a.step = 1 then _ else ⌈a.first + (a.duration : ℚ) * a.step + 1⌉) = _
    rw [if_neg hstep1, hfirst, hstep]
  have ha : GoodPlayback a := by
    refine ⟨Or.inl ⟨hptr, hf0⟩, Or.inl hch, ?_, ?_, hd, hend, ?_, hsl⟩
    · rw [hfirst]
    · rw [hstep]; norm_num
    · rw [hfn]; exact hlen
  have hsbr := add_playback_raw_rings s _ ha hfull hbrk
  obtain ⟨hbl, _, _, _, _, _, hgv1, _, hm16, hmf, _⟩ := same_but_rings_fields _ _ hsbr
  obtain ⟨hgood, hfn2, hst, hdu, hfi, hstp, hchn, hvl, hlp, hrp, hfis, hfil, hfos⟩ :=
    sched_block_good s _ ha
  have hc := ramp_contrib s a hptr hf0 hch hfirst hstep hvol hpan hgv hd hend hlen hsl hramp hbrk
  rw [hbl]
  generalize (sched s a).bl s.num_blocks = b at *
  have hff : FadeFree b := by
    apply fade_free_of_no_fadein b _ hfos
    · rw [hst, hdu]; exact hend
    · rw [hfis, hfil, hst]
      exact hfade
  rw [mix_block_closed _ output t len b hgood hff (by rw [hst]; exact hc1)
    (by rw [hst, hdu]; exact hc2) hr hl]
  apply ring_add_congr
  intro u ch _ _ _
  rw [block_contrib_same (sched s a) _ b u ch hm16 hmf hgv1]
  exact hc u ch

theorem adds_only_extracts (es : List (Nat × Nat)) : adds_only (extracts es) = [] := by
  unfold adds_only extracts
  induction es with
  | nil => rfl
  | cons e es ih =>
    rw [List.map_cons, List.filter_cons_of_neg (by simp [is_add])]
    exact ih

theorem extracts_no_add (es : List (Nat × Nat)) (a : Playback) :
    MixOp.add a ∉ extracts es := by
  unfold extracts
  intro h
  obtain ⟨e, _, he⟩ := List.mem_map.mp h
  exact MixOp.noConfusion he

/-- The half-speed ramp in the materialized window, after any trace of extracts. -/
theorem ramp_half_window (s : MixLow) (a : Playback) (es : List (Nat × Nat))
    (hinv : Inv s) (hnb : s.num_blocks = 0)
    (hptr : 65536 < a.samples) (hf0 : a.fsamples = 0) (hch : a.channels = 1)
    (hfirst : a.first = 0)
    (hstep : a.step = 1 / 2) (hvol : a.vol = 1) (hpan : a.pan = 0)
    (hfade : a.fadein_start + a.fadein_len ≤ a.start_time) (hgv : s.global_volume = 1)
    (hd : 0 < a.duration) (hend : a.start_time + a.duration < 4294967296)
    (hlen : ⌈(0 : ℚ) + (a.duration : ℚ) * (1 / 2) + 1⌉ ≤ a.sample_len)
    (hsl : a.sample_len < 2147483648)
    (hramp : ∀ i : Int, 0 ≤ i → i < a.sample_len → s.mem16 ((a.samples : Int) + 2 * i) = i)
    (hsrc : (a.handle = 0 ∧ toUChar a.safe = 0)
      ∨ (a.samples : Int) + 2 * ⌈(0 : ℚ) + (a.duration : ℚ) * (1 / 2) + 1⌉ ≤ (s.brk : Int))
    (u ch : Nat) (hch2 : ch < 2)
    (hu1 : (run (stb_mixlow_add_playback_raw s a) (extracts es)).premix_time ≤ u)
    (hu2 : u < (run (stb_mixlow_add_playback_raw s a) (extracts es)).premix_time
      + (run (stb_mixlow_add_playback_raw s a) (extracts es)).premix_len) :
    (run (stb_mixlow_add_playback_raw s a) (extracts es)).premix_float
        (2 * slot (run (stb_mixlow_add_playback_raw s a) (extracts es)) u + ch)
      = if a.start_time ≤ u ∧ u < a.start_time + a.duration then
          (1 / 2) * ((u - a.start_time : Nat) : ℚ)
        else 0 := by
  have hs0 : a.samples ≠ 0 := by omega
  have hstep1 : a.step ≠ 1 := by rw [hstep]; norm_num
  have hfull : s.num_blocks ≠ MAX_BLOCKS := by rw [hnb]; decide
  have hbrk : 0 < s.brk := hinv.2.2.1
  have hfn : frames_needed (new_block a) = ⌈(0 : ℚ) + (a.duration : ℚ) * (1 / 2) + 1⌉ := by
    unfold frames_needed
    show (if a.step = 1 then _ else ⌈a.first + (a.duration : ℚ) * a.step + 1⌉) = _
    rw [if_neg hstep1, hfirst, hstep]
  have ha : GoodPlayback a := by
    refine ⟨Or.inl ⟨hptr, hf0⟩, Or.inl hch, ?_, ?_, hd, hend, ?_, hsl⟩
    · rw [hfirst]
    · rw [hstep]; norm_num
    · rw [hfn]; exact hlen
  have hok : SchedOK s.brk a := by
    refine ⟨ha, hfade, ?_⟩
    rcases hsrc with h | h
    · exact Or.inl h
    · right
      unfold region_end
      rw [hfn]
      have e1 : (new_block a).samples = a.samples := rfl
      have e2 : (new_block a).channels = 1 := by
        show toUChar a.channels = 1
        rw [hch]
        rfl
      rw [e1, e2, if_pos hs0]
      push_cast
      omega
  obtain ⟨i1, i2⟩ := add_playback_inv s a s.brk (le_refl _) hinv hok
  have hno : ∀ a', MixOp.add a' ∈ extracts es → SchedOK s.brk a' :=
    fun a' h => absurd h (extracts_no_add es a')
  obtain ⟨j1, -, -, -⟩ := run_inv s.brk (extracts es) _ i1 i2 hno
  have ht := run_table s.brk (extracts es) _ _ i1 i2 (same_table_refl _) hno
  rw [adds_only_extracts] at ht
  obtain ⟨t_bl, t_nb, t_m16, t_mf, t_gv, -⟩ := ht
  have hco := (j1.2.2.2.2 u ch hu1 hu2 hch2).1
  rw [hco]
  have hrun : run (stb_mixlow_add_playback_raw s a) [] = stb_mixlow_add_playback_raw s a := rfl
  rw [hrun] at t_bl t_nb t_m16 t_mf t_gv
  rw [← acc_same _ _ t_bl t_nb t_m16 t_mf t_gv]
  obtain ⟨f_bl, f_nb, -, -, -, -, f_gv, -, f_m16, f_mf, -⟩ :=
    same_but_rings_fields _ _ (add_playback_raw_rings s a ha hfull hbrk)
  rw [acc_same (sched s a) _ f_bl f_nb f_m16 f_mf f_gv,
    sched_acc s a (fun i hi => absurd hi (by rw [hnb]; exact Nat.not_lt_zero _)) u ch hch2,
    acc_empty s hnb, zero_add]
  exact ramp_contrib s a hptr hf0 hch hfirst hstep hvol hpan hgv hd hend hlen hsl hramp hbrk u ch

/-- C22. For a mono 16-bit source holding the ramp `src[i] = i`, scheduled by
`stb_mixlow_add_playback` with `first = 0`, `step = 0.5`, unit volume, pan 0 and the fade-in
over when the block starts, in a state with an empty table under global volume 1 (the
source long enough, and below the allocation frontier when it is borrowed): mixing the
stored block over any range adds exactly `0.5 * k` to both accumulators of the tick of its
`k`-th output sample, for every `0 <= k < duration` in the range (so also across the
441-tick envelope segments), and nothing to any other tick; and after any sequence of
`stb_mixlow_mix` calls every tick in the materialized window holds exactly `0.5 * k` on
both channels (0 outside the life of the block). -/
theorem half_step_ramp_is_exact (s : MixLow) (a : Playback) (es : List (Nat × Nat))
    (output t len u ch : Nat)
    (hinv : Inv s) (hnb : s.num_blocks = 0) (hgv : s.global_volume = 1)
    (hptr : 65536 < a.samples) (hch : a.channels = 1) (hfirst : a.first = 0)
    (hstep : a.step = 1 / 2) (hvol : a.vol = 1) (hpan : a.pan = 0)
    (hfade : a.fadein_start + a.fadein_len ≤ a.start_time)
    (hd : 0 < a.duration) (hend : a.start_time + a.duration < 4294967296)
    (hlen : ⌈(0 : ℚ) + (a.duration : ℚ) * (1 / 2) + 1⌉ ≤ a.sample_len)
    (hsl : a.sample_len < 2147483648)
    (hramp : ∀ i : Int, 0 ≤ i → i < a.sample_len → s.mem16 ((a.samples : Int) + 2 * i) = i)
    (hsrc : (a.handle = 0 ∧ toUChar a.safe = 0)
      ∨ (a.samples : Int) + 2 * ⌈(0 : ℚ) + (a.duration : ℚ) * (1 / 2) + 1⌉ ≤ (s.brk : Int))
    (hc1 : a.start_time < t + len) (hc2 : t ≤ a.start_time + a.duration)
    (hr : t + len + 441 < 4294967296) (hl : 2 * len < 4294967296) (hch2 : ch < 2) :
    (stb__mix_block (stb_mixlow_add_playback s a) output t len
        ((stb_mixlow_add_playback s a).bl 0)).premix_float
      = ring_add (stb_mixlow_add_playback s a).premix_float output t len
          (fun u _ => if a.start_time ≤ u ∧ u < a.start_time + a.duration then
              (1 / 2) * ((u - a.start_time : Nat) : ℚ)
            else 0)
    ∧ ((run (stb_mixlow_add_playback s a) (extracts es)).premix_time ≤ u →
        u < (run (stb_mixlow_add_playback s a) (extracts es)).premix_time
          + (run (stb_mixlow_add_playback s a) (extracts es)).premix_len →
        (run (stb_mixlow_add_playback s a) (extracts es)).premix_float
            (2 * slot (run (stb_mixlow_add_playback s a) (extracts es)) u + ch)
          = if a.start_time ≤ u ∧ u < a.start_time + a.duration then
              (1 / 2) * ((u - a.start_time : Nat) : ℚ)
            else 0) := by
  have hadd : stb_mixlow_add_playback s a
      = stb_mixlow_add_playback_raw s { a with fsamples := 0 } := by
    unfold stb_mixlow_add_playback
    rw [if_pos (by omega)]
  rw [hadd]
  constructor
  · have h := ramp_half_core s { a with fsamples := 0 } output t len hptr rfl hch hfirst hstep
      hvol hpan hfade hgv hd hend hlen hsl hramp (by rw [hnb]; decide) hinv.2.2.1 hc1 hc2 hr hl
    rw [hnb] at h
    exact h
  · intro hu1 hu2
    exact ramp_half_window s { a with fsamples := 0 } es hinv hnb hptr rfl hch hfirst hstep
      hvol hpan hfade hgv hd hend hlen hsl hramp hsrc u ch hch2 hu1 hu2

theorem demo_half_step_len :
    ⌈(0 : ℚ) + ((10 : Nat) : ℚ) * (1 / 2) + 1⌉ = 6 := by
  have e : (0 : ℚ) + ((10 : Nat) : ℚ) * (1 / 2) + 1 = ((6 : Int) : ℚ) := by norm_num
  rw [e, Int.ceil_intCast]

theorem demo_ramp_from_zero (i : Int) (h0 : 0 ≤ i) (h1 : i < 65) :
    demo_mem16 (1048574 + 2 * i) = i := by
  unfold demo_mem16
  split_ifs <;> omega

/-- C22, instance: after `init(16)`, the ramp `0, 1, 2, ...` scheduled at half speed at tick 1
for 10 ticks, `mix(out, 0, 4)` and `mix(out, 4, 8)`: the right accumulator of tick 6 (the
block's output sample 5) holds 5/2. -/
theorem half_step_ramp_is_exact_witness :
    (run (stb_mixlow_add_playback (demo_init 16) demo_half_step_playback)
        (extracts [(0, 4), (4, 8)])).premix_float
      (2 * slot (run (stb_mixlow_add_playback (demo_init 16) demo_half_step_playback)
        (extracts [(0, 4), (4, 8)])) 6 + 1) = 5 / 2 :=
  ((half_step_ramp_is_exact (demo_init 16) demo_half_step_playback [(0, 4), (4, 8)] 0 0 12 6 1
    (inv_init (boot demo_mem16 demo_memf 4194304) 16 (by decide) (by decide) (by decide) rfl)
    rfl rfl (by decide) rfl rfl rfl rfl rfl (by decide) (by decide) (by decide)
    (by
      show ⌈(0 : ℚ) + ((10 : Nat) : ℚ) * (1 / 2) + 1⌉ ≤ (65 : Int)
      rw [demo_half_step_len]
      decide)
    (by decide)
    (fun i h0 h1 => demo_ramp_from_zero i h0 h1)
    (Or.inr (by
      show ((1048574 : Nat) : Int) + 2 * ⌈(0 : ℚ) + ((10 : Nat) : ℚ) * (1 / 2) + 1⌉
        ≤ ((4194304 : Nat) : Int)
      rw [demo_half_step_len]
      decide))
    (by decide) (by decide) (by decide) (by decide) (by decide)).2 (by decide) (by decide)).trans
    (by
      show (if (1 : Nat) ≤ 6 ∧ 6 < 1 + 10 then (1 / 2 : ℚ) * ((6 - 1 : Nat) : ℚ) else 0) = 5 / 2
      norm_num)

/-! ## Closed form of `mix` with fades -/

theorem gen_contrib_same (s s1 : MixLow) (b : stb__block) (t1 lim u ch : Nat)
    (h1 : s1.mem16 = s.mem16) (h2 : s1.memf = s.memf) (h3 : s1.global_volume = s.global_volume) :
    gen_contrib s1 b t1 lim u ch = gen_contrib s b t1 lim u ch := by
  unfold gen_contrib unpanned env_gain block_value
  rw [block_rd_congr_state s s1 b h1 h2, h3]

theorem piece_contrib_same (s s1 : MixLow) (b : stb__block) (t len u ch : Nat)
    (h1 : s1.mem16 = s.mem16) (h2 : s1.memf = s.memf) (h3 : s1.global_volume = s.global_volume) :
    piece_contrib s1 b t len u ch = piece_contrib s b t len u ch := by
  unfold piece_contrib
  rw [gen_contrib_same s s1 b _ _ u ch h1 h2 h3]

/-- Closed form of the block loop of `mix` for well-formed blocks with any fades. -/
theorem mix_blocks_gen (t off len : Nat) (l : List Nat) (s : MixLow)
    (hok : ∀ i ∈ l, GoodBlock (s.bl i))
    (hr : t + len + 441 < 4294967296) (hl : 2 * len < 4294967296) (j : Nat) :
    (mix_blocks t off len l s).premix_float j
      = s.premix_float j + (if off * 2 ≤ j ∧ j < off * 2 + 2 * len then
          (l.map (fun i => piece_contrib s (s.bl i) t len (t + (j - off * 2) / 2)
            ((j - off * 2) % 2))).sum else 0) := by
  induction l generalizing s with
  | nil => simp [mix_blocks]
  | cons i rest ih =>
    rw [mix_blocks]
    have hu : uadd t len = t + len := by unfold uadd; omega
    have hg := hok i (List.mem_cons_self i rest)
    have hend := hg.2.2.2.2.1
    have hue : uadd (s.bl i).start_time (s.bl i).duration
        = (s.bl i).start_time + (s.bl i).duration := by unfold uadd; omega
    rw [hu, hue]
    by_cases hc : (s.bl i).start_time < t + len ∧ (s.bl i).start_time + (s.bl i).duration ≥ t
    · rw [if_pos hc]
      have hsb := same_but_rings_fields _ _ (same_but_rings_mix_block s (off * 2) t len (s.bl i))
      obtain ⟨hbl, _, _, _, _, _, hgv, _, hm16, hmf, _⟩ := hsb
      rw [ih (stb__mix_block s (off * 2) t len (s.bl i)) (by
        intro i' hi'
        rw [hbl]
        exact hok i' (List.mem_cons_of_mem i hi'))]
      rw [mix_block_gen s (off * 2) t len (s.bl i) hg hc.1 hc.2 hr hl, hbl]
      unfold ring_add
      by_cases hin : off * 2 ≤ j ∧ j < off * 2 + 2 * len
      · have : ∀ i' u c, piece_contrib (stb__mix_block s (off * 2) t len (s.bl i)) (s.bl i')
              t len u c = piece_contrib s (s.bl i') t len u c :=
          fun i' u c => piece_contrib_same _ _ _ _ _ _ _ hm16 hmf hgv
        have hp : piece_contrib s (s.bl i) t len (t + (j - off * 2) / 2) ((j - off * 2) % 2)
            = gen_contrib s (s.bl i) (max t (s.bl i).start_time)
                (min (t + len) ((s.bl i).start_time + (s.bl i).duration))
                (t + (j - off * 2) / 2) ((j - off * 2) % 2) := by
          unfold piece_contrib
          rw [if_pos hc]
        simp only [if_pos hin, List.map_cons, List.sum_cons, this, hp]
        ring
      · simp only [if_neg hin, add_zero]
    · rw [if_neg hc, ih s (fun i' hi' => hok i' (List.mem_cons_of_mem i hi'))]
      by_cases hin : off * 2 ≤ j ∧ j < off * 2 + 2 * len
      · have hp : piece_contrib s (s.bl i) t len (t + (j - off * 2) / 2) ((j - off * 2) % 2)
            = 0 := by
          unfold piece_contrib
          rw [if_neg hc]
        simp only [if_pos hin, List.map_cons, List.sum_cons, hp, zero_add]
      · simp only [if_neg hin]

/-- The sum of the contributions of the active blocks to one piece mixed by `mix`. -/
theorem mix_gen (s : MixLow) (t off len : Nat)
    (hok : ∀ i, i < s.num_blocks → GoodBlock (s.bl i))
    (hr : t + len + 441 < 4294967296) (hl : 2 * len < 4294967296) (j : Nat)
    (hin : off * 2 ≤ j ∧ j < off * 2 + 2 * len) :
    (mix s t off len).premix_float j
        = ((List.range s.num_blocks).map (fun i => piece_contrib s (s.bl i) t len
            (t + (j - off * 2) / 2) ((j - off * 2) % 2))).sum
    ∧ (mix s t off len).premix_int j
        = stb__integerize_one (conv_mode s off len j) (((List.range s.num_blocks).map (fun i =>
            piece_contrib s (s.bl i) t len (t + (j - off * 2) / 2) ((j - off * 2) % 2))).sum) := by
  have hti : (toInt32 len * 2).toNat = 2 * len := by
    unfold toInt32
    split_ifs <;> omega
  have hfl : (mix s t off len).premix_float j
      = ((List.range s.num_blocks).map (fun i => piece_contrib s (s.bl i) t len
            (t + (j - off * 2) / 2) ((j - off * 2) % 2))).sum := by
    unfold mix
    dsimp only
    rw [mix_integerize_float, mix_blocks_gen t off len (List.range s.num_blocks)
      { s with premix_float := zero_loop (toInt32 len * 2).toNat (off * 2) s.premix_float }
      (fun i hi => hok i (List.mem_range.mp hi)) hr hl]
    dsimp only
    rw [zero_loop_apply, hti, if_pos hin, if_pos hin, zero_add]
    have : ∀ i u c, piece_contrib
        { s with premix_float := zero_loop (2 * len) (off * 2) s.premix_float } (s.bl i) t len u c
        = piece_contrib s (s.bl i) t len u c :=
      fun i u c => piece_contrib_same _ _ _ _ _ _ _ rfl rfl rfl
    simp only [this]
  refine ⟨hfl, ?_⟩
  have hlen : len ≠ 0 := by omega
  rw [← hfl, mix_int_apply s t off len j hl, if_pos ⟨hlen, hin⟩]

/-! ## Reading a block after `stb_mixlow_end_set` -/

theorem copy_samples_safe (s : MixLow) (i : Nat) (h : (s.bl i).safe ≠ 0) :
    stb__copy_samples s i = s := by
  unfold stb__copy_samples
  dsimp only
  rw [if_pos h]

/-- `stb__copy_samples` on a well-formed 16-bit block that does not own its data: the memory
below the allocation frontier is unchanged and the block reads, in the state after the
call, the values it read before. -/
theorem copy_samples_rd16 (s : MixLow) (i : Nat) (hb : GoodBlock (s.bl i))
    (hlen : frames_needed (s.bl i) ≤ (s.bl i).sample_len) (hmf : (s.bl i).must_free = 0)
    (hbrk : 0 < s.brk) (hs : (s.bl i).samples ≠ 0) (hfs : (s.bl i).fsamples = 0) :
    s.brk ≤ (stb__copy_samples s i).brk
    ∧ (∀ x : Int, x < (s.brk : Int) → (stb__copy_samples s i).mem16 x = s.mem16 x)
    ∧ ((stb__copy_samples s i).bl i).samples ≠ 0
    ∧ ∀ k : Int, 0 ≤ k → k < ((s.bl i).channels : Int) * frames_needed (s.bl i) →
        rd16 (stb__copy_samples s i).mem16 ((stb__copy_samples s i).bl i).samples k
          = rd16 s.mem16 (s.bl i).samples k := by
  by_cases hsafe : (s.bl i).safe ≠ 0
  · rw [copy_samples_safe s i hsafe]
    exact ⟨le_refl _, fun _ _ => rfl, hs, fun _ _ _ => rfl⟩
  · have hsafe0 : (s.bl i).safe = 0 := by
      by_contra hc
      exact hsafe hc
    rw [copy_samples_fresh s i hb hsafe0 hmf hlen hbrk]
    have hb0 : s.brk ≠ 0 := by omega
    have hcb : copy_bytes (s.bl i) = 2 * ((s.bl i).channels : Int) * frames_needed (s.bl i) := by
      unfold copy_bytes
      rw [if_neg (by simp [hfs])]
    refine ⟨Nat.le_add_right _ _, ?_, ?_, ?_⟩
    · intro x hx
      show (if (s.bl i).samples ≠ 0
        then memcpy_mem s.mem16 s.brk (s.bl i).samples (copy_bytes (s.bl i)) else s.mem16) x = _
      rw [if_pos hs]
      unfold memcpy_mem
      rw [if_neg (by omega)]
    · show (Function.update s.bl i _ i).samples ≠ 0
      rw [Function.update_same, if_pos hs]
      exact hb0
    · intro k hk0 hk1
      show rd16 (if (s.bl i).samples ≠ 0
          then memcpy_mem s.mem16 s.brk (s.bl i).samples (copy_bytes (s.bl i)) else s.mem16)
          (Function.update s.bl i _ i).samples k = _
      rw [Function.update_same, if_pos hs, if_pos hs]
      show rd16 (memcpy_mem s.mem16 s.brk (s.bl i).samples (copy_bytes (s.bl i))) s.brk k = _
      unfold rd16 memcpy_mem
      rw [if_pos (by rw [hcb]; constructor <;> linarith)]
      congr 2
      ring

/-- The first loop of `stb_mixlow_end_set` removes nothing when no block from slot `i` on
bears the handle and starts at or after the end of the fade-out. -/
theorem end_set_delete_loop_none (h ef : Nat) (fuel : Nat) :
    ∀ (i : Nat) (bl : Nat → stb__block) (nb : Nat),
      (∀ j, i ≤ j → j < nb → ¬ ((bl j).handle = h ∧ (bl j).start_time ≥ ef)) →
      end_set_delete_loop h ef fuel i bl nb = (bl, nb) := by
  induction fuel with
  | zero => intro i bl nb _; rfl
  | succ n ih =>
    intro i bl nb hk
    rw [end_set_delete_loop]
    by_cases hi : i < nb
    · rw [if_pos hi, if_neg (hk i (le_refl _) hi)]
      exact ih (i + 1) bl nb (fun j h1 h2 => hk j (by omega) h2)
    · rw [if_neg hi]

/-- The body of the second loop of `stb_mixlow_end_set` on a well-formed 16-bit block that
bears the handle and does not own its data. -/
theorem end_set_reset_one_rd16 (h : Nat) (m : Int) (e d : Nat) (s : MixLow) (i : Nat)
    (hb : GoodBlock (s.bl i))
    (hlen : frames_needed (s.bl i) ≤ (s.bl i).sample_len) (hmf : (s.bl i).must_free = 0)
    (hbrk : 0 < s.brk) (hs : (s.bl i).samples ≠ 0) (hfs : (s.bl i).fsamples = 0)
    (hh : (s.bl i).handle = h) :
    s.brk ≤ (end_set_reset_one h m e d s i).brk
    ∧ (∀ x : Int, x < (s.brk : Int) → (end_set_reset_one h m e d s i).mem16 x = s.mem16 x)
    ∧ ((end_set_reset_one h m e d s i).bl i).samples ≠ 0
    ∧ (∀ k : Int, 0 ≤ k → k < ((s.bl i).channels : Int) * frames_needed (s.bl i) →
        rd16 (end_set_reset_one h m e d s i).mem16 ((end_set_reset_one h m e d s i).bl i).samples k
          = rd16 s.mem16 (s.bl i).samples k)
    ∧ (∀ j, j ≠ i → (end_set_reset_one h m e d s i).bl j = s.bl j)
    ∧ EndedFrom m e d (s.bl i) ((end_set_reset_one h m e d s i).bl i) := by
  obtain ⟨c1, c2, c3, c4⟩ := copy_samples_rd16 s i hb hlen hmf hbrk hs hfs
  obtain ⟨b1, b2⟩ := end_set_reset_one_block h m e d s i
  unfold EndRel at b2
  rw [if_pos hh] at b2
  have hsm : ((end_set_reset_one h m e d s i).bl i).samples
      = ((stb__copy_samples s i).bl i).samples := by
    unfold end_set_reset_one
    rw [if_pos hh]
    dsimp only
    rw [Function.update_same]
    split_ifs <;> rfl
  have hmem : (end_set_reset_one h m e d s i).mem16 = (stb__copy_samples s i).mem16 := by
    unfold end_set_reset_one
    rw [if_pos hh]
  have hbk : (end_set_reset_one h m e d s i).brk = (stb__copy_samples s i).brk := by
    unfold end_set_reset_one
    rw [if_pos hh]
  refine ⟨by rw [hbk]; exact c1, fun x hx => by rw [hmem]; exact c2 x hx,
    by rw [hsm]; exact c3, fun k h0 h1 => by rw [hmem, hsm]; exact c4 k h0 h1, b1, b2⟩

theorem sched_handle (s : MixLow) (a : Playback) (hh : a.handle ≠ 0) :
    (sched s a).bl = Function.update s.bl s.num_blocks (new_block a)
    ∧ (sched s a).num_blocks = s.num_blocks + 1 ∧ (sched s a).mem16 = s.mem16
    ∧ (sched s a).memf = s.memf ∧ (sched s a).brk = s.brk
    ∧ (sched s a).global_volume = s.global_volume := by
  unfold sched
  rw [if_neg (fun hc => hh hc.1)]
  exact ⟨rfl, rfl, rfl, rfl, rfl, rfl⟩

/-- A scheduling call with a handle stores the new block as it is and copies nothing. -/
theorem add_handle_table (s : MixLow) (a : Playback) (ha : GoodPlayback a)
    (hfull : s.num_blocks ≠ MAX_BLOCKS) (hbrk : 0 < s.brk) (hh : a.handle ≠ 0) :
    (stb_mixlow_add_playback_raw s a).bl = Function.update s.bl s.num_blocks (new_block a)
    ∧ (stb_mixlow_add_playback_raw s a).num_blocks = s.num_blocks + 1
    ∧ (stb_mixlow_add_playback_raw s a).mem16 = s.mem16
    ∧ (stb_mixlow_add_playback_raw s a).memf = s.memf
    ∧ (stb_mixlow_add_playback_raw s a).brk = s.brk
    ∧ (stb_mixlow_add_playback_raw s a).global_volume = s.global_volume := by
  obtain ⟨f_bl, f_nb, -, -, -, -, f_gv, -, f_m16, f_mf, f_brk⟩ :=
    same_but_rings_fields _ _ (add_playback_raw_rings s a ha hfull hbrk)
  obtain ⟨g1, g2, g3, g4, g5, g6⟩ := sched_handle s a hh
  exact ⟨f_bl.trans g1, f_nb.trans g2, f_m16.trans g3, f_mf.trans g4, f_brk.trans g5,
    f_gv.trans g6⟩

theorem end_set_reset_one_skip (h : Nat) (m : Int) (e d : Nat) (s : MixLow) (i : Nat)
    (hh : (s.bl i).handle ≠ h) : end_set_reset_one h m e d s i = s := by
  unfold end_set_reset_one
  rw [if_neg hh]

/-- `stb_mixlow_end_set` on a table of two blocks of which the first bears the handle and
starts before the end of the fade-out, and the second does not bear it. -/
theorem end_set_two (sB : MixLow) (h : Nat) (m : Int) (e d : Nat) (hh : h ≠ 0)
    (hnb : sB.num_blocks = 2)
    (h0s : (sB.bl 0).start_time < uadd (end_start sB e) d)
    (h1 : (sB.bl 1).handle ≠ h) :
    ∃ s2 : MixLow, s2.bl = sB.bl ∧ s2.mem16 = sB.mem16
      ∧ s2.brk = sB.brk ∧ s2.num_blocks = 2 ∧ s2.global_volume = sB.global_volume
      ∧ stb_mixlow_end_set sB h m e d = end_set_reset_one h m (end_start sB e) d s2 0 := by
  unfold stb_mixlow_end_set
  rw [if_neg hh]
  dsimp only
  generalize hs1 : (if end_start sB e < uadd sB.premix_time sB.premix_len then
      if end_start sB e < sB.premix_time then ({ sB with premix_len := 0 } : MixLow)
      else { sB with premix_len := usub (end_start sB e) sB.premix_time }
    else sB) = s1
  have hbl : s1.bl = sB.bl := by rw [← hs1]; split_ifs <;> rfl
  have hn : s1.num_blocks = 2 := by rw [← hs1]; split_ifs <;> exact hnb
  have hm : s1.mem16 = sB.mem16 := by rw [← hs1]; split_ifs <;> rfl
  have hb : s1.brk = sB.brk := by rw [← hs1]; split_ifs <;> rfl
  have hg : s1.global_volume = sB.global_volume := by rw [← hs1]; split_ifs <;> rfl
  have hnone : end_set_delete_loop h (uadd (end_start sB e) d) s1.num_blocks 0 s1.bl
      s1.num_blocks = (s1.bl, s1.num_blocks) := by
    apply end_set_delete_loop_none
    intro j _ hj
    rw [hbl]
    have hj2 : j = 0 ∨ j = 1 := by omega
    rcases hj2 with hj2 | hj2 <;> subst hj2
    · intro hc
      omega
    · exact fun hc => h1 hc.1
  rw [hnone]
  dsimp only
  refine ⟨s1, hbl, hm, hb, hn, hg, ?_⟩
  have hs1eta : ({ s1 with bl := s1.bl, num_blocks := s1.num_blocks } : MixLow) = s1 := rfl
  rw [hs1eta, hn]
  show end_set_reset_one h m (end_start sB e) d
    (end_set_reset_one h m (end_start sB e) d s1 0) 1 = _
  apply end_set_reset_one_skip
  rw [(end_set_reset_one_block h m (end_start sB e) d s1 0).1 1 (by decide), hbl]
  exact h1

/-- The envelope of a block with a linear fade-out over `[e, e + d]` (and its fade-in
over), at a tick of the fade-out. -/
theorem compute_fade_linear_out (b : stb__block) (t e d : Nat)
    (hfi : b.fadein_start + b.fadein_len ≤ t) (hfi2 : b.fadein_start + b.fadein_len < 4294967296)
    (hm : b.fadeout_mode = FADE_linear) (hs : b.fadeout_start = e) (hl : b.fadeout_len = d)
    (hd : 0 < d) (he : e + d < 4294967296) (h1 : e ≤ t) (h2 : t ≤ e + d) :
    stb__compute_fade b t = 1 - ((t - e : Nat) : ℚ) / (d : ℚ) := by
  unfold stb__compute_fade
  have u1 : uadd b.fadein_start b.fadein_len = b.fadein_start + b.fadein_len := by
    unfold uadd; omega
  have u2 : uadd e d = e + d := by unfold uadd; omega
  rw [u1, if_neg (by omega), hs, hl, u2, hm]
  by_cases ht : t > e
  · rw [if_pos ht, if_neg (by omega)]
    have u3 : usub t e = t - e := by unfold usub; omega
    rw [u3]
    rfl
  · rw [if_neg ht]
    have : t - e = 0 := by omega
    rw [this]
    simp

/-- The gain of a linear fade-out when the mixed range starts inside the fade-out and is
shorter than one envelope segment: the interpolation between its two knots is exact. -/
theorem env_gain_linear_out (x : MixLow) (b : stb__block) (t lim u e d : Nat)
    (hfi : b.fadein_start + b.fadein_len ≤ t) (hfi2 : b.fadein_start + b.fadein_len < 4294967296)
    (hm : b.fadeout_mode = FADE_linear) (hs : b.fadeout_start = e) (hl : b.fadeout_len = d)
    (hd : 0 < d) (he : e + d < 4294967296) (h1 : e ≤ t) (h2 : lim ≤ e + d)
    (hu1 : t ≤ u) (hu2 : u < lim) (hseg : lim ≤ t + 441)
    (hv : b.vol = 1) (hg : x.global_volume = 1) :
    env_gain x b t lim u = 1 - ((u - e : Nat) : ℚ) / (d : ℚ) := by
  unfold env_gain
  have e1 : (u - t) / 441 = 0 := Nat.div_eq_of_lt (by omega)
  have e2 : t + 441 * ((u - t) / 441) = t := by rw [e1]; rfl
  have e3 : min (t + 441) lim = lim := by omega
  simp only [e2, e3]
  rw [compute_fade_linear_out b t e d hfi hfi2 hm hs hl hd he h1 (by omega),
    compute_fade_linear_out b lim e d (by omega) hfi2 hm hs hl hd he (by omega) h2, hv, hg]
  have hdq : (d : ℚ) ≠ 0 := by exact_mod_cast (by omega : d ≠ 0)
  have hlt : ((lim - t : Nat) : ℚ) ≠ 0 := by exact_mod_cast (by omega : lim - t ≠ 0)
  have c1 : ((t - e : Nat) : ℚ) = (t : ℚ) - (e : ℚ) := by
    rw [Nat.cast_sub h1]
  have c2 : ((lim - e : Nat) : ℚ) = (lim : ℚ) - (e : ℚ) := by
    rw [Nat.cast_sub (by omega)]
  have c3 : ((u - e : Nat) : ℚ) = (u : ℚ) - (e : ℚ) := by
    rw [Nat.cast_sub (by omega)]
  have c4 : ((u - t : Nat) : ℚ) = (u : ℚ) - (t : ℚ) := by
    rw [Nat.cast_sub hu1]
  have c5 : ((lim - t : Nat) : ℚ) = (lim : ℚ) - (t : ℚ) := by
    rw [Nat.cast_sub (by omega)]
  rw [c5] at hlt
  rw [c1, c2, c3, c4, c5]
  field_simp
  ring

/-- The gain of a block without fades under unit volume is 1. -/
theorem env_gain_fade_free (x : MixLow) (b : stb__block) (t lim u : Nat) (hf : FadeFree b)
    (hend : b.start_time + b.duration < 4294967296)
    (h1 : b.start_time ≤ t) (h2 : lim ≤ b.start_time + b.duration) (hu1 : t ≤ u) (hu2 : u < lim)
    (hv : b.vol = 1) (hg : x.global_volume = 1) :
    env_gain x b t lim u = 1 := by
  unfold env_gain
  have k1 : 441 * ((u - t) / 441) ≤ u - t := Nat.mul_div_le _ _
  simp only
  rw [compute_fade_one b _ hf (by omega) (by omega) hend,
    compute_fade_one b _ hf (by omega) (by omega) hend, hv, hg]
  simp

theorem ended_fields (m : Int) (e d : Nat) (b b1 : stb__block) (h : EndedFrom m e d b b1) :
    b1.start_time = b.start_time ∧ b1.first = b.first ∧ b1.step = b.step
    ∧ b1.channels = b.channels ∧ b1.vol = b.vol ∧ b1.lpan = b.lpan ∧ b1.rpan = b.rpan
    ∧ b1.fadein_start = b.fadein_start ∧ b1.fadein_len = b.fadein_len
    ∧ b1.fadeout_mode = toUChar m ∧ b1.fadeout_start = e ∧ b1.fadeout_len = d
    ∧ b1.duration = (if uadd e d < uadd b.start_time b.duration
        then usub (uadd e d) b.start_time else b.duration) := by
  unfold EndedFrom at h
  refine ⟨?_, ?_, ?_, ?_, ?_, ?_, ?_, ?_, ?_, ?_, ?_, ?_, ?_⟩ <;> rw [h]

/-- A unit-gain mono 16-bit request with `first = 0` and `step = 1` whose source holds
`duration` frames is well-formed, and its block needs `duration` frames. -/
theorem unit_playback_good (a : Playback) (hp : 65536 < a.samples) (hf : a.fsamples = 0)
    (hc : a.channels = 1) (hfi : a.first = 0) (hs : a.step = 1) (hd : 0 < a.duration)
    (he : a.start_time + a.duration < 4294967296) (hl : (a.duration : Int) ≤ a.sample_len)
    (hsl : a.sample_len < 2147483648) :
    GoodPlayback a ∧ frames_needed (new_block a) = (a.duration : Int) := by
  have hfn : frames_needed (new_block a) = (a.duration : Int) := by
    unfold frames_needed
    have e1 : (new_block a).step = 1 := hs
    have e2 : (new_block a).first = 0 := hfi
    have e3 : (new_block a).duration = a.duration := rfl
    rw [if_pos e1, e2, e3, Int.floor_zero, zero_add]
  refine ⟨⟨Or.inl ⟨hp, hf⟩, Or.inl hc, ?_, ?_, hd, he, ?_, hsl⟩, hfn⟩
  · rw [hfi]
  · rw [hs]; exact zero_lt_one
  · rw [hfn]; exact hl

/-- The value a mono block with `first = 0` and `step = 1` plays at a tick of its life. -/
theorem unit_block_value (x : MixLow) (b : stb__block) (u ch : Nat) (hs : b.samples ≠ 0)
    (hc : b.channels = 1) (hfi : b.first = 0) (hst : b.step = 1) :
    block_value x b u ch = rd16 x.mem16 b.samples ((u - b.start_time : Nat) : Int) := by
  unfold block_value seg_value direct_value block_rd
  rw [if_pos hst, hc, if_neg (by decide), hfi, if_pos hs, Int.floor_zero, zero_add]

/-- The linear fade-out of the first of two unit-gain mono blocks, as mixed by one call of
`mix` over a range that starts at or after the start of the fade-out. -/
theorem linear_end_core (s : MixLow) (a1 a2 : Playback) (t off len u ch : Nat)
    (hnb : s.num_blocks = 0) (hbrk : 0 < s.brk) (hgv : s.global_volume = 1)
    (hp1 : 65536 < a1.samples) (hf1 : a1.fsamples = 0) (hc1 : a1.channels = 1)
    (hfi1 : a1.first = 0) (hs1 : a1.step = 1) (hv1 : a1.vol = 1) (hpan1 : a1.pan = 0)
    (hfd1 : a1.fadein_start + a1.fadein_len ≤ a1.start_time)
    (hst1 : a1.start_time < 200) (hd1 : 300 < a1.start_time + a1.duration)
    (he1 : a1.start_time + a1.duration < 4294967296)
    (hl1 : (a1.duration : Int) ≤ a1.sample_len) (hsl1 : a1.sample_len < 2147483648)
    (hh1 : a1.handle ≠ 0)
    (hp2 : 65536 < a2.samples) (hf2 : a2.fsamples = 0) (hc2 : a2.channels = 1)
    (hfi2 : a2.first = 0) (hs2 : a2.step = 1) (hv2 : a2.vol = 1) (hpan2 : a2.pan = 0)
    (hfd2 : a2.fadein_start + a2.fadein_len ≤ a2.start_time)
    (hst2 : a2.start_time = a1.start_time) (hd2 : 300 < a2.start_time + a2.duration)
    (he2 : a2.start_time + a2.duration < 4294967296)
    (hl2 : (a2.duration : Int) ≤ a2.sample_len) (hsl2 : a2.sample_len < 2147483648)
    (hh2 : a2.handle ≠ 0) (hsrc2 : a2.samples + 2 * a2.duration ≤ s.brk)
    (hne : a2.handle ≠ a1.handle)
    (ht : 200 ≤ t) (hu1 : t ≤ u) (hu2 : u < t + len) (hu3 : u < 300)
    (hr : t + len + 441 < 4294967296) (hl : 2 * len < 4294967296) (hch : ch < 2) :
    (mix (stb_mixlow_end_set
        (stb_mixlow_add_playback_raw (stb_mixlow_add_playback_raw s a1) a2) a1.handle 1 200 100)
        t off len).premix_float (off * 2 + 2 * (u - t) + ch)
      = ((s.mem16 ((a1.samples : Int) + 2 * ((u - a1.start_time : Nat) : Int)) : Int) : ℚ)
          * (1 - ((u - 200 : Nat) : ℚ) / 100)
        + ((s.mem16 ((a2.samples : Int) + 2 * ((u - a1.start_time : Nat) : Int)) : Int) : ℚ)
    ∧ (mix (stb_mixlow_end_set
        (stb_mixlow_add_playback_raw (stb_mixlow_add_playback_raw s a1) a2) a1.handle 1 200 100)
        t off len).premix_int (off * 2 + 2 * (u - t) + ch)
      = stb__integerize_one
        (conv_mode (stb_mixlow_end_set
          (stb_mixlow_add_playback_raw (stb_mixlow_add_playback_raw s a1) a2) a1.handle 1 200 100)
          off len (off * 2 + 2 * (u - t) + ch))
        (((s.mem16 ((a1.samples : Int) + 2 * ((u - a1.start_time : Nat) : Int)) : Int) : ℚ)
          * (1 - ((u - 200 : Nat) : ℚ) / 100)
        + ((s.mem16 ((a2.samples : Int) + 2 * ((u - a1.start_time : Nat) : Int)) : Int) : ℚ)) := by
  obtain ⟨ha1, hfn1⟩ := unit_playback_good a1 hp1 hf1 hc1 hfi1 hs1 (by omega) he1 hl1 hsl1
  obtain ⟨ha2, hfn2⟩ := unit_playback_good a2 hp2 hf2 hc2 hfi2 hs2 (by omega) he2 hl2 hsl2
  -- the table after the two scheduling calls
  obtain ⟨A_bl, A_nb, A_m, -, A_brk, A_gv⟩ :=
    add_handle_table s a1 ha1 (by rw [hnb]; decide) hbrk hh1
  obtain ⟨B_bl, B_nb, B_m, -, B_brk, B_gv⟩ :=
    add_handle_table (stb_mixlow_add_playback_raw s a1) a2 ha2
      (by rw [A_nb, hnb]; decide) (by rw [A_brk]; exact hbrk) hh2
  rw [A_nb, hnb] at B_nb B_bl
  rw [A_bl, hnb] at B_bl
  rw [A_m] at B_m
  rw [A_brk] at B_brk
  rw [A_gv, hgv] at B_gv
  generalize stb_mixlow_add_playback_raw (stb_mixlow_add_playback_raw s a1) a2 = sB
    at B_bl B_nb B_m B_brk B_gv ⊢
  have hB0 : sB.bl 0 = new_block a1 := by
    rw [B_bl, Function.update_noteq (by decide), Function.update_same]
  have hB1 : sB.bl 1 = new_block a2 := by
    rw [B_bl, Function.update_same]
  have hest : end_start sB 200 = 200 := by
    unfold end_start
    rw [if_neg (by decide)]
  have hu300 : uadd 200 100 = 300 := rfl
  obtain ⟨s2, C_bl, C_m, C_brk, C_nb, C_gv, hx⟩ := end_set_two sB a1.handle 1 200 100 hh1 B_nb
    (by rw [hest, hu300, hB0]; show a1.start_time < 300; omega)
    (by rw [hB1]; exact hne)
  rw [hx, hest]
  have hs20 : s2.bl 0 = new_block a1 := by rw [C_bl, hB0]
  have hs21 : s2.bl 1 = new_block a2 := by rw [C_bl, hB1]
  obtain ⟨D_brk, D_m, D_s, D_rd, D_bl, D_end⟩ :=
    end_set_reset_one_rd16 a1.handle 1 200 100 s2 0
      (by rw [hs20]; exact good_new_block a1 ha1)
      (by rw [hs20, hfn1]; exact hl1) (by rw [hs20]; rfl) (by rw [C_brk, B_brk]; exact hbrk)
      (by rw [hs20]; show a1.samples ≠ 0; omega) (by rw [hs20]; exact hf1) (by rw [hs20]; rfl)
  obtain ⟨-, D_nb, D_gv, -, -⟩ := end_set_reset_one_fields a1.handle 1 200 100 s2 0
  rw [C_nb] at D_nb
  rw [C_gv, B_gv] at D_gv
  rw [C_brk, B_brk] at D_brk D_m
  rw [C_m, B_m] at D_m D_rd
  rw [hs20] at D_rd D_end
  have D_bl1 : (end_set_reset_one a1.handle 1 200 100 s2 0).bl 1 = new_block a2 := by
    rw [D_bl 1 (by decide), hs21]
  generalize end_set_reset_one a1.handle 1 200 100 s2 0 = x
    at D_brk D_m D_s D_rd D_bl1 D_end D_nb D_gv ⊢
  clear D_bl hx C_bl C_m C_brk C_nb C_gv hs20 hs21 hB0 hB1 B_bl B_nb B_m B_brk B_gv
  -- the two blocks
  obtain ⟨E_st, E_fi, E_step, E_ch, E_vol, E_lp, E_rp, E_fis, E_fil, E_fom, E_fos, E_fol, E_dur⟩ :=
    ended_fields 1 200 100 _ _ D_end
  have n_st : (new_block a1).start_time = a1.start_time := rfl
  have n_dur : (new_block a1).duration = a1.duration := rfl
  have n_lp : (new_block a1).lpan = 1 := by
    show (if a1.pan = 0 then (1 : ℚ) else _) = 1
    rw [if_pos hpan1]
  have n_rp : (new_block a1).rpan = 1 := by
    show (if a1.pan = 0 then (1 : ℚ) else _) = 1
    rw [if_pos hpan1]
  have n_ch : (new_block a1).channels = 1 := by
    show toUChar a1.channels = 1
    rw [hc1]; rfl
  have hue : uadd (new_block a1).start_time (new_block a1).duration
      = a1.start_time + a1.duration := by
    rw [n_st, n_dur]; unfold uadd; omega
  rw [hu300, hue, if_pos hd1, n_st] at E_dur
  have hus : usub 300 a1.start_time = 300 - a1.start_time := by unfold usub; omega
  rw [hus] at E_dur
  rw [n_st] at E_st
  have E_fi' : (x.bl 0).first = 0 := E_fi.trans hfi1
  have E_step' : (x.bl 0).step = 1 := E_step.trans hs1
  have E_ch' : (x.bl 0).channels = 1 := E_ch.trans n_ch
  have E_vol' : (x.bl 0).vol = 1 := E_vol.trans hv1
  have E_fom' : (x.bl 0).fadeout_mode = FADE_linear := E_fom
  have E_fin : (x.bl 0).fadein_start + (x.bl 0).fadein_len ≤ a1.start_time := by
    rw [E_fis, E_fil]; exact hfd1
  have g0 : GoodBlock (x.bl 0) := by
    refine ⟨Or.inl E_ch', by rw [E_fi'], by rw [E_step']; exact zero_lt_one, by omega, by omega, ?_⟩
    unfold frames_needed
    rw [if_pos E_step', E_fi', E_dur, Int.floor_zero, zero_add]
    omega
  have g1 : GoodBlock (x.bl 1) := by rw [D_bl1]; exact good_new_block a2 ha2
  have ff1 : FadeFree (x.bl 1) := by
    rw [D_bl1]
    exact fade_free_of_no_fadein _ hfd2 rfl he2
  have m_st : (x.bl 1).start_time = a1.start_time := by rw [D_bl1]; exact hst2
  have m_dur : (x.bl 1).duration = a2.duration := by rw [D_bl1]; rfl
  have m_vol : (x.bl 1).vol = 1 := by rw [D_bl1]; exact hv2
  have m_s : (x.bl 1).samples = a2.samples := by rw [D_bl1]; rfl
  have m_ch : (x.bl 1).channels = 1 := by
    rw [D_bl1]
    show toUChar a2.channels = 1
    rw [hc2]; rfl
  have m_fi : (x.bl 1).first = 0 := by rw [D_bl1]; exact hfi2
  have m_step : (x.bl 1).step = 1 := by rw [D_bl1]; exact hs2
  have m_lp : (x.bl 1).lpan = 1 := by
    rw [D_bl1]
    show (if a2.pan = 0 then (1 : ℚ) else _) = 1
    rw [if_pos hpan2]
  have m_rp : (x.bl 1).rpan = 1 := by
    rw [D_bl1]
    show (if a2.pan = 0 then (1 : ℚ) else _) = 1
    rw [if_pos hpan2]
  -- the two contributions
  have hk : (off * 2 + 2 * (u - t) + ch - off * 2) / 2 = u - t := by omega
  have hk2 : (off * 2 + 2 * (u - t) + ch - off * 2) % 2 = ch := by omega
  have htu : t + (u - t) = u := by omega
  have p0 : piece_contrib x (x.bl 0) t len u ch
      = ((s.mem16 ((a1.samples : Int) + 2 * ((u - a1.start_time : Nat) : Int)) : Int) : ℚ)
          * (1 - ((u - 200 : Nat) : ℚ) / 100) := by
    unfold piece_contrib
    rw [if_pos (by rw [E_st, E_dur]; omega), E_st, E_dur]
    have e1 : max t a1.start_time = t := by omega
    have e2 : a1.start_time + (300 - a1.start_time) = 300 := by omega
    rw [e1, e2]
    unfold gen_contrib
    rw [if_pos (by omega)]
    unfold unpanned
    have hg := env_gain_linear_out x (x.bl 0) t (min (t + len) 300) u 200 100 (by omega)
      (by omega) E_fom' E_fos E_fol (by decide) (by decide) ht (by omega) hu1 (by omega)
      (by omega) E_vol' D_gv
    rw [hg, unit_block_value x (x.bl 0) u ch D_s E_ch' E_fi' E_step', E_st,
      D_rd _ (Int.natCast_nonneg _) (by rw [n_ch, hfn1]; push_cast; omega)]
    have hsc : block_scale (x.bl 0) = 1 := by
      unfold block_scale
      rw [if_pos D_s]
    have hpg : pan_gain (x.bl 0) ch = 1 := by
      unfold pan_gain
      rw [E_lp, E_rp, n_lp, n_rp, ite_self]
    rw [hsc, hpg]
    unfold rd16
    have n_s : (new_block a1).samples = a1.samples := rfl
    rw [n_s]
    push_cast
    ring
  have p1 : piece_contrib x (x.bl 1) t len u ch
      = ((s.mem16 ((a2.samples : Int) + 2 * ((u - a1.start_time : Nat) : Int)) : Int) : ℚ) := by
    unfold piece_contrib
    rw [if_pos (by rw [m_st, m_dur]; omega), m_st, m_dur]
    have e1 : max t a1.start_time = t := by omega
    rw [e1]
    unfold gen_contrib
    rw [if_pos (by omega)]
    unfold unpanned
    have hg := env_gain_fade_free x (x.bl 1) t (min (t + len) (a1.start_time + a2.duration)) u
      ff1 (by rw [m_st, m_dur]; omega) (by rw [m_st]; omega) (by rw [m_st, m_dur]; omega) hu1
      (by omega) m_vol D_gv
    have hs0 : (x.bl 1).samples ≠ 0 := by rw [m_s]; omega
    rw [hg, unit_block_value x (x.bl 1) u ch hs0 m_ch m_fi m_step, m_st, m_s]
    have hsc : block_scale (x.bl 1) = 1 := by
      unfold block_scale
      rw [if_pos hs0]
    have hpg : pan_gain (x.bl 1) ch = 1 := by
      unfold pan_gain
      rw [m_lp, m_rp, ite_self]
    rw [hsc, hpg]
    unfold rd16
    rw [D_m _ (by omega)]
    ring
  have hsum : ((List.range x.num_blocks).map (fun i => piece_contrib x (x.bl i) t len
      (t + (off * 2 + 2 * (u - t) + ch - off * 2) / 2)
      ((off * 2 + 2 * (u - t) + ch - off * 2) % 2))).sum
      = ((s.mem16 ((a1.samples : Int) + 2 * ((u - a1.start_time : Nat) : Int)) : Int) : ℚ)
          * (1 - ((u - 200 : Nat) : ℚ) / 100)
        + ((s.mem16 ((a2.samples : Int) + 2 * ((u - a1.start_time : Nat) : Int)) : Int) : ℚ) := by
    rw [D_nb, hk, hk2, htu]
    have hr2 : List.range 2 = [0, 1] := rfl
    rw [hr2]
    simp only [List.map_cons, List.map_nil, List.sum_cons, List.sum_nil, add_zero]
    rw [p0, p1]
  have hok : ∀ i, i < x.num_blocks → GoodBlock (x.bl i) := by
    intro i hi
    rw [D_nb] at hi
    have : i = 0 ∨ i = 1 := by omega
    rcases this with h | h <;> subst h
    · exact g0
    · exact g1
  obtain ⟨r1, r2⟩ := mix_gen x t off len hok hr hl (off * 2 + 2 * (u - t) + ch) (by omega)
  rw [r1, r2, hsum]
  exact ⟨rfl, rfl⟩

/-- C21, counterexample: two unit-gain mono blocks on a flat source of value 600, started at
tick 190 and lasting to tick 390, with handles 1 and 2; the clock is at 196 and the window
is empty when `end_set(1, linear, 200, 100)` is called. The following `mix(out, 196, 8)`
re-mixes from tick 196, and the value accumulated for tick 202 is 1182 on the left channel,
not `600 * (1 - 2/100) + 600 = 1188`: the gain of the ended block is interpolated between 1
at tick 196 and 0.96 at tick 204. -/
theorem end_set_fade_depends_on_remix_start :
    (stb_mixlow_mix demo_faded demo_out 196 8).ret = 8
    ∧ (stb_mixlow_mix demo_faded demo_out 196 8).state.premix_float (2 * (202 - 196)) = 1182
    ∧ (stb_mixlow_mix demo_faded demo_out 196 8).output (2 * (202 - 196)) = 1182
    ∧ ((demo_flat_mem16 (1048576 + 2 * (202 - 190)) : Int) : ℚ) * (1 - (202 - 200) / 100)
        + ((demo_flat_mem16 (1048576 + 2 * (202 - 190)) : Int) : ℚ) = 1188 := by
  refine ⟨by decide, by decide!, by decide!, by decide!⟩

/-- C21, amended: two mono 16-bit blocks with signals `s1` and `s2` (unit gain, pan 0,
`first = 0`, step 1, the fade-in over when they start) start at the same tick before 200 and
last beyond 300, scheduled into an empty table under global volume 1 with distinct non-null
handles `h1` and `h2` (the second source below the allocation frontier). After
`end_set(h1, linear, 200, 100)`, when the static function `mix` (called by `stb__premix_to`
for the ticks that are not materialized) mixes a range that starts at a tick `>= 200`, every
tick `u` of the range in `[200, 300)` receives `s1(u) * (1 - (u-200)/100) + s2(u)` in the
float ring, and its conversion (by `fistp` or by truncation, as `conv_mode` tells for the
element) in the 16-bit ring, on each channel. -/
theorem end_set_linear_fade_from_fade_start (s : MixLow) (a1 a2 : Playback)
    (t off len u ch : Nat)
    (hnb : s.num_blocks = 0) (hbrk : 0 < s.brk) (hgv : s.global_volume = 1)
    (hp1 : 65536 < a1.samples) (hc1 : a1.channels = 1)
    (hfi1 : a1.first = 0) (hs1 : a1.step = 1) (hv1 : a1.vol = 1) (hpan1 : a1.pan = 0)
    (hfd1 : a1.fadein_start + a1.fadein_len ≤ a1.start_time)
    (hst1 : a1.start_time < 200) (hd1 : 300 < a1.start_time + a1.duration)
    (he1 : a1.start_time + a1.duration < 4294967296)
    (hl1 : (a1.duration : Int) ≤ a1.sample_len) (hsl1 : a1.sample_len < 2147483648)
    (hh1 : a1.handle ≠ 0)
    (hp2 : 65536 < a2.samples) (hc2 : a2.channels = 1)
    (hfi2 : a2.first = 0) (hs2 : a2.step = 1) (hv2 : a2.vol = 1) (hpan2 : a2.pan = 0)
    (hfd2 : a2.fadein_start + a2.fadein_len ≤ a2.start_time)
    (hst2 : a2.start_time = a1.start_time) (hd2 : 300 < a2.start_time + a2.duration)
    (he2 : a2.start_time + a2.duration < 4294967296)
    (hl2 : (a2.duration : Int) ≤ a2.sample_len) (hsl2 : a2.sample_len < 2147483648)
    (hh2 : a2.handle ≠ 0) (hsrc2 : a2.samples + 2 * a2.duration ≤ s.brk)
    (hne : a2.handle ≠ a1.handle)
    (ht : 200 ≤ t) (hu1 : t ≤ u) (hu2 : u < t + len) (hu3 : u < 300)
    (hr : t + len + 441 < 4294967296) (hl : 2 * len < 4294967296) (hch : ch < 2) :
    (mix (stb_mixlow_end_set
        (stb_mixlow_add_playback (stb_mixlow_add_playback s a1) a2) a1.handle 1 200 100)
        t off len).premix_float (off * 2 + 2 * (u - t) + ch)
      = ((s.mem16 ((a1.samples : Int) + 2 * ((u - a1.start_time : Nat) : Int)) : Int) : ℚ)
          * (1 - ((u - 200 : Nat) : ℚ) / 100)
        + ((s.mem16 ((a2.samples : Int) + 2 * ((u - a1.start_time : Nat) : Int)) : Int) : ℚ)
    ∧ (mix (stb_mixlow_end_set
        (stb_mixlow_add_playback (stb_mixlow_add_playback s a1) a2) a1.handle 1 200 100)
        t off len).premix_int (off * 2 + 2 * (u - t) + ch)
      = stb__integerize_one
        (conv_mode (stb_mixlow_end_set
          (stb_mixlow_add_playback (stb_mixlow_add_playback s a1) a2) a1.handle 1 200 100)
          off len (off * 2 + 2 * (u - t) + ch))
        (((s.mem16 ((a1.samples : Int) + 2 * ((u - a1.start_time : Nat) : Int)) : Int) : ℚ)
          * (1 - ((u - 200 : Nat) : ℚ) / 100)
        + ((s.mem16 ((a2.samples : Int) + 2 * ((u - a1.start_time : Nat) : Int)) : Int) : ℚ)) := by
  have e1 : stb_mixlow_add_playback s a1
      = stb_mixlow_add_playback_raw s { a1 with fsamples := 0 } := by
    unfold stb_mixlow_add_playback
    rw [if_pos (by omega)]
  have e2 : ∀ x : MixLow, stb_mixlow_add_playback x a2
      = stb_mixlow_add_playback_raw x { a2 with fsamples := 0 } := by
    intro x
    unfold stb_mixlow_add_playback
    rw [if_pos (by omega)]
  rw [e2, e1]
  exact linear_end_core s { a1 with fsamples := 0 } { a2 with fsamples := 0 } t off len u ch
    hnb hbrk hgv hp1 rfl hc1 hfi1 hs1 hv1 hpan1 hfd1 hst1 hd1 he1 hl1 hsl1 hh1
    hp2 rfl hc2 hfi2 hs2 hv2 hpan2 hfd2 hst2 hd2 he2 hl2 hsl2 hh2 hsrc2 hne
    ht hu1 hu2 hu3 hr hl hch

/-- C21, instance: in the state of the counterexample, a `mix` piece that starts at tick
200 gives tick 202 the value `600 * (1 - 2/100) + 600 = 1188` on the left channel. -/
theorem end_set_linear_fade_from_fade_start_witness :
    (mix demo_faded 200 4 8).premix_float (4 * 2 + 2 * (202 - 200) + 0) = 1188 :=
  (end_set_linear_fade_from_fade_start
    (stb_mixlow_set_curtime (stb_mixlow_init (boot demo_flat_mem16 demo_memf 4194304) 512) 196)
    (demo_flat_playback 1) (demo_flat_playback 2) 200 4 8 202 0
    (by decide) (by decide) rfl
    (by decide) rfl rfl rfl rfl rfl (by decide) (by decide) (by decide) (by decide) (by decide)
    (by decide) (by decide)
    (by decide) rfl rfl rfl rfl rfl (by decide) rfl (by decide) (by decide) (by decide)
    (by decide) (by decide) (by decide) (by decide)
    (by decide) (by decide) (by decide) (by decide) (by decide) (by decide) (by decide)).1.trans
    (by decide!)

/-! ## The loops of `stb__synth_raw` -/

theorem iadd_small (a b : Int) (h0 : 0 ≤ a + b) (h1 : a + b < 2147483648) : iadd a b = a + b := by
  unfold iadd ofInt32 toInt32
  have e : ((a + b) % 4294967296).toNat = (a + b).toNat := by
    rw [Int.emod_eq_of_lt h0 (by omega)]
  rw [e]
  have e2 : (a + b).toNat % 4294967296 = (a + b).toNat := Nat.mod_eq_of_lt (by omega)
  rw [e2, if_pos (by omega)]
  omega

theorem wave_loop_spec (c : SynthConsts) (n : Nat) :
    ∀ (k : Nat) (data : Nat → ℚ) (w : SynthWave),
      (wave_loop c n k data w).2 = (wave_advance c)^[n] w
      ∧ ∀ i, (wave_loop c n k data w).1 i
          = if k ≤ i ∧ i < k + n then wave_pcm ((wave_advance c)^[i - k] w) else data i := by
  induction n with
  | zero =>
    intro k data w
    refine ⟨rfl, fun i => ?_⟩
    rw [if_neg (by omega)]
    rfl
  | succ n ih =>
    intro k data w
    rw [wave_loop]
    obtain ⟨h1, h2⟩ := ih (k + 1) (Function.update data k (wave_pcm w)) (wave_advance c w)
    refine ⟨?_, fun i => ?_⟩
    · rw [h1, Function.iterate_succ_apply]
    · rw [h2]
      by_cases hi : k + 1 ≤ i ∧ i < k + 1 + n
      · rw [if_pos hi, if_pos (by omega), ← Function.iterate_succ_apply]
        congr 2
        omega
      · rw [if_neg hi]
        by_cases hk : i = k
        · subst hk
          rw [Function.update_same, if_pos (by omega), Nat.sub_self]
          rfl
        · rw [Function.update_noteq hk, if_neg (by omega)]

theorem env_loop_spec (c : SynthConsts) (n : Nat) :
    ∀ (k : Nat) (data : Nat → ℚ) (e : SynthEnv),
      (env_loop c n k data e).2 = (env_next c)^[n] e
      ∧ ∀ i, (env_loop c n k data e).1 i
          = if k ≤ i ∧ i < k + n
            then data i * (env_scale c ((env_next c)^[i - k] e)).scale else data i := by
  induction n with
  | zero =>
    intro k data e
    refine ⟨rfl, fun i => ?_⟩
    rw [if_neg (by omega)]
    rfl
  | succ n ih =>
    intro k data e
    rw [env_loop]
    obtain ⟨h1, h2⟩ := ih (k + 1) (Function.update data k (data k * (env_scale c e).scale))
      { env_scale c e with sec := (env_scale c e).sec + c.dsec }
    have hn : ({ env_scale c e with sec := (env_scale c e).sec + c.dsec } : SynthEnv)
        = env_next c e := rfl
    rw [hn] at h1 h2
    refine ⟨?_, fun i => ?_⟩
    · rw [hn, h1, Function.iterate_succ_apply]
    · rw [hn, h2]
      by_cases hi : k + 1 ≤ i ∧ i < k + 1 + n
      · rw [if_pos hi, if_pos (by omega), Function.update_noteq (by omega)]
        have e3 : i - k = (i - (k + 1)) + 1 := by omega
        rw [e3, Function.iterate_succ_apply]
      · rw [if_neg hi]
        by_cases hk : i = k
        · subst hk
          rw [Function.update_same, if_pos (by omega), Nat.sub_self]
          rfl
        · rw [Function.update_noteq hk, if_neg (by omega)]

theorem store_loop_spec (v : ℚ) (data : Nat → ℚ) (n : Nat) :
    ∀ (i : Int) (k : Nat) (out : Int → ℚ) (x : Int),
      store_loop v data n i k out x
        = if i ≤ x ∧ x < i + n then data (k + (x - i).toNat) * v else out x := by
  induction n with
  | zero =>
    intro i k out x
    rw [if_neg (by omega)]
    rfl
  | succ n ih =>
    intro i k out x
    rw [store_loop, ih]
    by_cases hi : i + 1 ≤ x ∧ x < i + 1 + n
    · rw [if_pos hi, if_pos (by omega)]
      congr 2
      omega
    · rw [if_neg hi]
      by_cases hk : x = i
      · subst hk
        rw [Function.update_same, if_pos (by omega)]
        simp
      · rw [Function.update_noteq hk, if_neg (by omega)]

theorem add_loop_spec (v : ℚ) (data : Nat → ℚ) (n : Nat) :
    ∀ (i : Int) (k : Nat) (out : Int → ℚ) (x : Int),
      add_loop v data n i k out x
        = if i ≤ x ∧ x < i + n then out x + data (k + (x - i).toNat) * v else out x := by
  induction n with
  | zero =>
    intro i k out x
    rw [if_neg (by omega)]
    rfl
  | succ n ih =>
    intro i k out x
    rw [add_loop, ih]
    by_cases hi : i + 1 ≤ x ∧ x < i + 1 + n
    · rw [if_pos hi, if_pos (by omega), Function.update_noteq (by omega)]
      congr 3
      omega
    · rw [if_neg hi]
      by_cases hk : x = i
      · subst hk
        rw [Function.update_same, if_pos (by omega)]
        simp
      · rw [Function.update_noteq hk, if_neg (by omega)]

/-- The value that a call stores in, or adds to, element `x` of the buffer. -/
theorem synth_blocks_spec (c : SynthConsts) (len : Int) (hlen : len + 256 < 2147483648)
    (fuel : Nat) :
    ∀ (j : Int) (st : SynthState), 0 ≤ j → (len - j).toNat ≤ fuel →
      (j < len → st.wave = wave_at c j.toNat ∧ st.env = env_at c j.toNat) →
      ∀ x, (synth_blocks c len fuel j st).output x
        = if j ≤ x ∧ x < len then
            (if c.zero ≠ 0 then synth_sample c x.toNat
             else st.output x + synth_sample c x.toNat)
          else st.output x := by
  induction fuel with
  | zero =>
    intro j st hj hf _ x
    rw [synth_blocks, if_neg (by omega)]
  | succ fuel ih =>
    intro j st hj hf hst x
    rw [synth_blocks]
    by_cases hjl : j < len
    swap
    · rw [if_neg hjl, if_neg (by omega)]
    rw [if_pos hjl]
    obtain ⟨hw, he⟩ := hst hjl
    have hia : iadd j STB_SYNTH_BLOCK_SIZE = j + 256 :=
      iadd_small j 256 (by omega) (by omega)
    dsimp only
    rw [hia]
    generalize hn : ((if j + 256 > len then len else j + 256) - j).toNat = n
    have hn1 : (n : Int) = (if j + 256 > len then len else j + 256) - j := by
      rw [← hn]
      split_ifs <;> omega
    obtain ⟨w1, w2⟩ := wave_loop_spec c n 0 (fun _ => 0) st.wave
    obtain ⟨e1, e2⟩ := env_loop_spec c n 0 (wave_loop c n 0 (fun _ => 0) st.wave).1 st.env
    have hdata : ∀ i, i < n →
        (env_loop c n 0 (wave_loop c n 0 (fun _ => 0) st.wave).1 st.env).1 i * c.volume
          = synth_sample c (j.toNat + i) := by
      intro i hi
      rw [e2, if_pos (by omega), w2, if_pos (by omega), hw, he]
      unfold synth_sample wave_at env_at
      rw [Nat.sub_zero, ← Function.iterate_add_apply, ← Function.iterate_add_apply,
        Nat.add_comm i j.toNat]
    rw [ih (j + 256) _ (by omega) (by omega) (by
      intro hlt
      have hn256 : n = 256 := by
        have : (n : Int) = 256 := by
          rw [hn1, if_neg (by omega)]
          omega
        omega
      have ht : (j + 256).toNat = j.toNat + n := by omega
      dsimp only
      rw [w1, e1, hw, he, ht]
      unfold wave_at env_at
      rw [← Function.iterate_add_apply, ← Function.iterate_add_apply, Nat.add_comm n j.toNat]
      exact ⟨rfl, rfl⟩) x]
    dsimp only
    have hout : ∀ y : Int, (if c.zero ≠ 0 then
          store_loop c.volume (env_loop c n 0 (wave_loop c n 0 (fun _ => 0) st.wave).1 st.env).1
            n j 0 st.output
        else add_loop c.volume (env_loop c n 0 (wave_loop c n 0 (fun _ => 0) st.wave).1 st.env).1
            n j 0 st.output) y
        = if j ≤ y ∧ y < j + n then
            (if c.zero ≠ 0 then synth_sample c y.toNat else st.output y + synth_sample c y.toNat)
          else st.output y := by
      intro y
      by_cases hz : c.zero ≠ 0
      · rw [if_pos hz, store_loop_spec]
        by_cases hy : j ≤ y ∧ y < j + n
        · rw [if_pos hy, if_pos hy, if_pos hz, Nat.zero_add, hdata _ (by omega)]
          congr 1
          omega
        · rw [if_neg hy, if_neg hy]
      · rw [if_neg hz, add_loop_spec]
        by_cases hy : j ≤ y ∧ y < j + n
        · rw [if_pos hy, if_pos hy, if_neg hz, Nat.zero_add, hdata _ (by omega)]
          congr 2
          omega
        · rw [if_neg hy, if_neg hy]
    rw [hout]
    have hn2 : (j + 256 > len ∧ (n : Int) = len - j) ∨ (¬ j + 256 > len ∧ (n : Int) = 256) := by
      by_cases hbig : j + 256 > len
      · rw [if_pos hbig] at hn1
        exact Or.inl ⟨hbig, hn1⟩
      · rw [if_neg hbig] at hn1
        exact Or.inr ⟨hbig, by omega⟩
    clear hn1 hn hout hdata e2 e1 w2 w1 ih
    split_ifs <;> first | rfl | (exfalso; omega)

/-- Closed form of `stb__synth_raw` for a buffer limit below `2^31 - 256`: the call returns
`len`; it stores (`zero != 0`) the sample value in, or adds it to, each of the elements
`0 .. len - 1` of the buffer, and leaves every other element as it was. -/
theorem synth_raw_spec (pow2 : ℚ → ℚ) (out : Int → ℚ) (buffer_limit zero sps : Int)
    (ndur pitch volume : ℚ) (adsr : Option stb_synth_adsr) (w1 : stb_synth_waveform)
    (w2 : Option stb_synth_waveform) (hlim : buffer_limit + 256 < 2147483648) :
    (stb__synth_raw pow2 out buffer_limit zero sps ndur pitch volume adsr w1 w2).ret
        = synth_len buffer_limit sps ndur adsr
    ∧ ∀ x, (stb__synth_raw pow2 out buffer_limit zero sps ndur pitch volume adsr w1 w2).output x
        = if 0 ≤ x ∧ x < synth_len buffer_limit sps ndur adsr then
            (if zero ≠ 0 then
              synth_sample (synth_consts pow2 zero sps ndur pitch volume adsr w1 w2) x.toNat
             else out x
              + synth_sample (synth_consts pow2 zero sps ndur pitch volume adsr w1 w2) x.toNat)
          else out x := by
  refine ⟨rfl, fun x => ?_⟩
  have hle : synth_len buffer_limit sps ndur adsr ≤ buffer_limit := by
    unfold synth_len
    dsimp only
    split_ifs <;> omega
  unfold stb__synth_raw
  dsimp only
  rw [synth_blocks_spec _ _ (by omega) _ 0 _ (le_refl _) (by simp) (fun _ => ⟨rfl, rfl⟩) x]
  rfl

/-! ## Length and accumulation of the synthesizer -/

theorem synth_len_eq (buffer_limit sps : Int) (ndur : ℚ) (adsr : Option stb_synth_adsr)
    (hdur : 0 ≤ ndur + (adsr_or_default adsr).release_time) (hsps : 0 < sps)
    (hfit : (ndur + (adsr_or_default adsr).release_time) * (sps : ℚ) < 2147483648) :
    synth_len buffer_limit sps ndur adsr
      = min buffer_limit ⌊(ndur + (adsr_or_default adsr).release_time) * (sps : ℚ)⌋ := by
  have hq : (0 : ℚ) ≤ (ndur + (adsr_or_default adsr).release_time) * (sps : ℚ) :=
    mul_nonneg hdur (by exact_mod_cast hsps.le)
  have hfl : ⌊(ndur + (adsr_or_default adsr).release_time) * (sps : ℚ)⌋ < 2147483648 := by
    apply Int.floor_lt.mpr
    exact_mod_cast hfit
  unfold synth_len
  dsimp only
  rw [float_to_int_nonneg _ hq hfl]
  split_ifs with h
  · exact (min_eq_left (le_of_lt h)).symm
  · exact (min_eq_right (not_lt.mp h)).symm

theorem synth_sample_zero_irrelevant (pow2 : ℚ → ℚ) (z z' sps : Int) (ndur pitch volume : ℚ)
    (adsr : Option stb_synth_adsr) (w1 : stb_synth_waveform) (w2 : Option stb_synth_waveform)
    (n : Nat) :
    synth_sample (synth_consts pow2 z sps ndur pitch volume adsr w1 w2) n
      = synth_sample (synth_consts pow2 z' sps ndur pitch volume adsr w1 w2) n := rfl

/-- C26. For every call of `stb_synth` or `stb_synth_add` with `buffer_limit > 0`,
`samples_per_second > 0` and `note_duration_until_release + release_time >= 0` (the release
time of the envelope in effect; the product with the rate within the range of `int`, and the
buffer limit below `2^31 - 256` so that the block counter does not overflow), the returned
count is `len = min(buffer_limit, trunc((note_duration_until_release + release_time) *
samples_per_second))`, with `0 <= len <= buffer_limit`; `stb_synth` stores the sample value
in each of the elements `0 .. len-1` and `stb_synth_add` adds it to each of them; every other
element of the buffer, in particular every element at or beyond `buffer_limit`, is left as
it was. -/
theorem synth_length_and_writes (pow2 : ℚ → ℚ) (out : Int → ℚ) (buffer_limit sps : Int)
    (ndur pitch volume : ℚ) (adsr : Option stb_synth_adsr) (w1 : stb_synth_waveform)
    (w2 : Option stb_synth_waveform)
    (hlim0 : 0 < buffer_limit) (hlim : buffer_limit + 256 < 2147483648) (hsps : 0 < sps)
    (hdur : 0 ≤ ndur + (adsr_or_default adsr).release_time)
    (hfit : (ndur + (adsr_or_default adsr).release_time) * (sps : ℚ) < 2147483648) :
    (stb_synth pow2 out buffer_limit sps ndur pitch volume adsr w1 w2).ret
        = min buffer_limit ⌊(ndur + (adsr_or_default adsr).release_time) * (sps : ℚ)⌋
    ∧ (stb_synth_add pow2 out buffer_limit sps ndur pitch volume adsr w1 w2).ret
        = min buffer_limit ⌊(ndur + (adsr_or_default adsr).release_time) * (sps : ℚ)⌋
    ∧ 0 ≤ min buffer_limit ⌊(ndur + (adsr_or_default adsr).release_time) * (sps : ℚ)⌋
    ∧ min buffer_limit ⌊(ndur + (adsr_or_default adsr).release_time) * (sps : ℚ)⌋ ≤ buffer_limit
    ∧ (∀ x, (stb_synth pow2 out buffer_limit sps ndur pitch volume adsr w1 w2).output x
        = if 0 ≤ x ∧ x < min buffer_limit
              ⌊(ndur + (adsr_or_default adsr).release_time) * (sps : ℚ)⌋ then
            synth_sample (synth_consts pow2 1 sps ndur pitch volume adsr w1 w2) x.toNat
          else out x)
    ∧ (∀ x, (stb_synth_add pow2 out buffer_limit sps ndur pitch volume adsr w1 w2).output x
        = if 0 ≤ x ∧ x < min buffer_limit
              ⌊(ndur + (adsr_or_default adsr).release_time) * (sps : ℚ)⌋ then
            out x + synth_sample (synth_consts pow2 1 sps ndur pitch volume adsr w1 w2) x.toNat
          else out x) := by
  have hl := synth_len_eq buffer_limit sps ndur adsr hdur hsps hfit
  have hq : (0 : ℚ) ≤ (ndur + (adsr_or_default adsr).release_time) * (sps : ℚ) :=
    mul_nonneg hdur (by exact_mod_cast hsps.le)
  obtain ⟨a1, a2⟩ := synth_raw_spec pow2 out buffer_limit 1 sps ndur pitch volume adsr w1 w2 hlim
  obtain ⟨b1, b2⟩ := synth_raw_spec pow2 out buffer_limit 0 sps ndur pitch volume adsr w1 w2 hlim
  rw [hl] at a1 a2 b1 b2
  refine ⟨a1, b1, le_min hlim0.le (Int.floor_nonneg.mpr hq), min_le_left _ _, ?_, ?_⟩
  · intro x
    show (stb__synth_raw pow2 out buffer_limit 1 sps ndur pitch volume adsr w1 w2).output x = _
    have h10 : (1 : Int) ≠ 0 := by decide
    rw [a2 x, if_pos h10]
  · intro x
    show (stb__synth_raw pow2 out buffer_limit 0 sps ndur pitch volume adsr w1 w2).output x = _
    have h00 : ¬ ((0 : Int) ≠ 0) := by decide
    rw [b2 x, if_neg h00]
    rfl

/-- C26, instance: a buffer of 16 samples at 4400 samples per second for a note of 1/100 s
without release: 44 samples are due, 16 are written; element 16 keeps its value 7. -/
theorem synth_length_and_writes_witness :
    (stb_synth demo_pow2 (fun _ => 7) 16 4400 (1 / 100) 69 1 (some demo_flat_adsr)
        demo_pwm_wave none).ret = 16
    ∧ (stb_synth demo_pow2 (fun _ => 7) 16 4400 (1 / 100) 69 1 (some demo_flat_adsr)
        demo_pwm_wave none).output 16 = 7 :=
  have h := synth_length_and_writes demo_pow2 (fun _ => 7) 16 4400 (1 / 100) 69 1
    (some demo_flat_adsr) demo_pwm_wave none (by decide) (by decide) (by decide)
    (by decide!) (by decide!)
  ⟨h.1.trans (by decide!), (h.2.2.2.2.1 16).trans (by decide!)⟩

/-- C28. For every parameter set (buffer limit below `2^31 - 256`) and every buffer, calling
`stb_synth` and then `stb_synth_add` with the same parameters into the same buffer leaves
`out[i] = 2 * s[i]` for every `0 <= i < len`, where `s` is the buffer after `stb_synth`
alone; both calls return the same `len`; `stb_synth` overwrites the previous contents (the
elements below `len` are those it writes into a zero buffer), and the elements outside
`0 .. len-1` keep their initial values through both calls. -/
theorem synth_then_add_doubles (pow2 : ℚ → ℚ) (out : Int → ℚ) (buffer_limit sps : Int)
    (ndur pitch volume : ℚ) (adsr : Option stb_synth_adsr) (w1 : stb_synth_waveform)
    (w2 : Option stb_synth_waveform) (hlim : buffer_limit + 256 < 2147483648) :
    (stb_synth_add pow2
        (stb_synth pow2 out buffer_limit sps ndur pitch volume adsr w1 w2).output
        buffer_limit sps ndur pitch volume adsr w1 w2).ret
      = (stb_synth pow2 out buffer_limit sps ndur pitch volume adsr w1 w2).ret
    ∧ (∀ x, 0 ≤ x → x < (stb_synth pow2 out buffer_limit sps ndur pitch volume adsr w1 w2).ret →
        (stb_synth_add pow2
            (stb_synth pow2 out buffer_limit sps ndur pitch volume adsr w1 w2).output
            buffer_limit sps ndur pitch volume adsr w1 w2).output x
          = 2 * (stb_synth pow2 out buffer_limit sps ndur pitch volume adsr w1 w2).output x
        ∧ (stb_synth pow2 out buffer_limit sps ndur pitch volume adsr w1 w2).output x
          = (stb_synth pow2 (fun _ => 0) buffer_limit sps ndur pitch volume adsr w1 w2).output x)
    ∧ (∀ x, ¬ (0 ≤ x
          ∧ x < (stb_synth pow2 out buffer_limit sps ndur pitch volume adsr w1 w2).ret) →
        (stb_synth_add pow2
            (stb_synth pow2 out buffer_limit sps ndur pitch volume adsr w1 w2).output
            buffer_limit sps ndur pitch volume adsr w1 w2).output x = out x) := by
  obtain ⟨a1, a2⟩ := synth_raw_spec pow2 out buffer_limit 1 sps ndur pitch volume adsr w1 w2 hlim
  obtain ⟨z1, z2⟩ := synth_raw_spec pow2 (fun _ => 0) buffer_limit 1 sps ndur pitch volume adsr
    w1 w2 hlim
  obtain ⟨b1, b2⟩ := synth_raw_spec pow2
    (stb__synth_raw pow2 out buffer_limit 1 sps ndur pitch volume adsr w1 w2).output
    buffer_limit 0 sps ndur pitch volume adsr w1 w2 hlim
  have e1 : stb_synth pow2 out buffer_limit sps ndur pitch volume adsr w1 w2
      = stb__synth_raw pow2 out buffer_limit 1 sps ndur pitch volume adsr w1 w2 := rfl
  have e0 : stb_synth pow2 (fun _ => 0) buffer_limit sps ndur pitch volume adsr w1 w2
      = stb__synth_raw pow2 (fun _ => 0) buffer_limit 1 sps ndur pitch volume adsr w1 w2 := rfl
  have e2 : ∀ o, stb_synth_add pow2 o buffer_limit sps ndur pitch volume adsr w1 w2
      = stb__synth_raw pow2 o buffer_limit 0 sps ndur pitch volume adsr w1 w2 := fun _ => rfl
  rw [e1, e0, e2]
  refine ⟨b1.trans a1.symm, ?_, ?_⟩
  · intro x hx0 hx1
    rw [a1] at hx1
    have h10 : (1 : Int) ≠ 0 := by decide
    have h00 : ¬ ((0 : Int) ≠ 0) := by decide
    have hin : 0 ≤ x ∧ x < synth_len buffer_limit sps ndur adsr := ⟨hx0, hx1⟩
    have A := a2 x
    rw [if_pos hin, if_pos h10] at A
    have Z := z2 x
    rw [if_pos hin, if_pos h10] at Z
    have B := b2 x
    rw [if_pos hin, if_neg h00,
      synth_sample_zero_irrelevant pow2 0 1 sps ndur pitch volume adsr w1 w2, A] at B
    rw [B, A, Z]
    exact ⟨by ring, rfl⟩
  · intro x hx
    rw [a1] at hx
    rw [b2 x, if_neg hx, a2 x, if_neg hx]

/-- C28, instance: sample 13 of a 16-sample buffer that held 7 everywhere. -/
theorem synth_then_add_doubles_witness :
    (stb_synth_add demo_pow2
        (stb_synth demo_pow2 (fun _ => 7) 16 4400 (1 / 100) 69 1 (some demo_flat_adsr)
          demo_pwm_wave none).output
        16 4400 (1 / 100) 69 1 (some demo_flat_adsr) demo_pwm_wave none).output 13
      = 2 * (stb_synth demo_pow2 (fun _ => 7) 16 4400 (1 / 100) 69 1 (some demo_flat_adsr)
          demo_pwm_wave none).output 13 :=
  ((synth_then_add_doubles demo_pow2 (fun _ => 7) 16 4400 (1 / 100) 69 1 (some demo_flat_adsr)
    demo_pwm_wave none (by decide)).2.1 13 (by decide) (by decide!)).1

/-! ## The shape locals without a morph -/

theorem lerp_same (t a : ℚ) : stb__synth_lerp t a a = a := by
  unfold stb__synth_lerp
  ring

theorem wave_advance_p (c : SynthConsts) (w : SynthWave) :
    (wave_advance c w).p = phase_next c.wavesteps w.p := by
  unfold wave_advance phase_next
  dsimp only
  split_ifs <;> rfl

theorem wave_advance_t (c : SynthConsts) (w : SynthWave) :
    (wave_advance c w).t
      = if w.p + c.wavesteps ≥ 2 then (if w.t + c.dt > 1 then 1 else w.t + c.dt) else w.t := by
  unfold wave_advance
  dsimp only
  split_ifs <;> rfl

theorem no_morph_advance (c : SynthConsts) (w : SynthWave)
    (hl : c.left_half_b = c.left_half_a) (hr : c.right_half_b = c.right_half_a)
    (h : NoMorph c w) : NoMorph c (wave_advance c w) := by
  unfold NoMorph at h ⊢
  have hlh : w.left_half = c.left_half_a := by rw [h]; rfl
  have hrh : w.right_half = c.right_half_a := by rw [h]; rfl
  have h0 : w.r0 = (synth_wave_init c).r0 := by rw [h]
  have h1 : w.r1 = (synth_wave_init c).r1 := by rw [h]
  have h2 : w.r2 = (synth_wave_init c).r2 := by rw [h]
  have h3 : w.r3 = (synth_wave_init c).r3 := by rw [h]
  unfold wave_advance
  dsimp only
  by_cases hp : w.p + c.wavesteps ≥ 2
  · rw [if_pos hp]
    simp only [hl, hr, lerp_same, hlh]
    rfl
  · rw [if_neg hp]
    show ({ w with p := w.p + c.wavesteps } : SynthWave) = _
    rw [h]

theorem no_morph_init (c : SynthConsts) : NoMorph c (synth_wave_init c) := rfl

theorem wave_at_succ (c : SynthConsts) (n : Nat) :
    wave_at c (n + 1) = wave_advance c (wave_at c n) := by
  unfold wave_at
  rw [Function.iterate_succ_apply']

theorem phase_at_succ (ws : ℚ) (n : Nat) :
    phase_at ws (n + 1) = phase_next ws (phase_at ws n) := by
  unfold phase_at
  rw [Function.iterate_succ_apply']

/-- The phase of the shape locals follows `p += wavesteps; if (p >= 2) p -= 2;`. -/
theorem wave_at_p (c : SynthConsts) (n : Nat) : (wave_at c n).p = phase_at c.wavesteps n := by
  induction n with
  | zero => rfl
  | succ n ih => rw [wave_at_succ, phase_at_succ, wave_advance_p, ih]

theorem wave_at_no_morph (c : SynthConsts) (hl : c.left_half_b = c.left_half_a)
    (hr : c.right_half_b = c.right_half_a) (n : Nat) : NoMorph c (wave_at c n) := by
  induction n with
  | zero => exact no_morph_init c
  | succ n ih =>
    rw [wave_at_succ]
    exact no_morph_advance c _ hl hr ih

theorem no_morph_pcm (c : SynthConsts) (w : SynthWave) (h : NoMorph c w) :
    wave_pcm w = wave_shape c w.p := by
  unfold NoMorph at h
  unfold wave_shape
  rw [h]
  rfl

/-- Without a second waveform the shape value of sample `n` is the shape of `waveform1` at
the phase of sample `n`. -/
theorem wave_pcm_at (c : SynthConsts) (hl : c.left_half_b = c.left_half_a)
    (hr : c.right_half_b = c.right_half_a) (n : Nat) :
    wave_pcm (wave_at c n) = wave_shape c (phase_at c.wavesteps n) := by
  rw [no_morph_pcm c _ (wave_at_no_morph c hl hr n), wave_at_p]

/-! ## The canonical shapes -/

theorem make_right_square (m : Int) :
    stb__make_right (square_wave m)
      = if m ≠ 0 then
          { start_height := -1, start_zero := 1, peak_time := 2, end_height := 0, end_zero := 2 }
        else
          { start_height := 0, start_zero := 1, peak_time := 1, end_height := -1, end_zero := 2 } := by
  unfold stb__make_right square_wave stb__synth_lerp
  dsimp only
  split_ifs <;> norm_num

theorem make_right_triangle (m : Int) :
    stb__make_right (triangle_wave m)
      = { start_height := 0, start_zero := 1, peak_time := 3 / 2, end_height := 0,
          end_zero := 2 } := by
  unfold stb__make_right triangle_wave stb__synth_lerp
  dsimp only
  split_ifs <;> norm_num

/-- The shape of the canonical square wave, for either value of the reflect flag. -/
theorem square_wave_shape (pow2 : ℚ → ℚ) (z sps : Int) (ndur pitch volume : ℚ)
    (adsr : Option stb_synth_adsr) (m : Int) (w2 : Option stb_synth_waveform) (p : ℚ) :
    wave_shape (synth_consts pow2 z sps ndur pitch volume adsr (square_wave m) w2) p
      = square_shape p := by
  have hr : (synth_consts pow2 z sps ndur pitch volume adsr (square_wave m) w2).right_half_a
      = stb__make_right (square_wave m) := rfl
  have hz : (synth_consts pow2 z sps ndur pitch volume adsr (square_wave m) w2).left_half_a.zero_wait
      = 0 := rfl
  have hp : (synth_consts pow2 z sps ndur pitch volume adsr (square_wave m) w2).left_half_a.peak_time
      = 0 := by
    show stb__synth_lerp 0 0 1 = 0
    unfold stb__synth_lerp
    norm_num
  have hh : (synth_consts pow2 z sps ndur pitch volume adsr
      (square_wave m) w2).left_half_a.half_height = 1 := rfl
  generalize synth_consts pow2 z sps ndur pitch volume adsr (square_wave m) w2 = c at hr hz hp hh
  unfold wave_shape wave_pcm synth_wave_init square_shape
  dsimp only
  rw [hr, hz, hp, hh, make_right_square]
  unfold stb__synth_remap_r stb__synth_reciprocal
  by_cases h1 : p ≥ 1
  · have n1 : ¬ p < 1 := not_lt.mpr h1
    rw [if_pos h1, if_pos h1]
    by_cases h2 : p > 2
    · have c1 : p < 1 ∨ p > 2 := Or.inr h2
      rw [if_pos h2]
      by_cases hm : m ≠ 0
      · rw [if_pos hm]
        dsimp only
        rw [if_pos c1]
      · rw [if_neg hm]
        dsimp only
        rw [if_pos c1]
    · have c1 : ¬ (p < 1 ∨ p > 2) := fun hc => hc.elim n1 h2
      rw [if_neg h2]
      by_cases hm : m ≠ 0
      · rw [if_pos hm]
        dsimp only
        rw [if_neg c1]
        by_cases h3 : p < 2
        · rw [if_pos h3]
          ring
        · rw [if_neg h3]
          have e : p = 2 := le_antisymm (not_lt.mp h2) (not_lt.mp h3)
          rw [e]
          ring
      · rw [if_neg hm]
        dsimp only
        rw [if_neg c1, if_neg n1]
        ring
  · have n1 : p < 1 := not_le.mp h1
    rw [if_neg h1, if_neg h1]
    by_cases h0 : p < 0
    · rw [if_pos h0, if_pos h0]
    · rw [if_neg h0, if_neg h0, if_neg h0]
      ring

/-! ## Two runs of the synthesizer that differ in the half waves only -/

theorem same_but_waves_fields (c0 c1 : SynthConsts) (h : SameButWaves c0 c1) :
    c1.wavesteps = c0.wavesteps ∧ c1.dt = c0.dt ∧ c1.zero = c0.zero ∧ c1.volume = c0.volume := by
  unfold SameButWaves at h
  refine ⟨?_, ?_, ?_, ?_⟩ <;> rw [h]

theorem env_scale_same (c0 c1 : SynthConsts) (h : SameButWaves c0 c1) (e : SynthEnv) :
    env_scale c1 e = env_scale c0 e := by
  unfold SameButWaves at h
  rw [h]
  rfl

theorem env_loop_same (c0 c1 : SynthConsts) (h : SameButWaves c0 c1) (n : Nat) :
    ∀ (k : Nat) (data : Nat → ℚ) (e : SynthEnv),
      env_loop c1 n k data e = env_loop c0 n k data e := by
  have hd : c1.dsec = c0.dsec := by
    unfold SameButWaves at h
    rw [h]
  induction n with
  | zero => intro k data e; rfl
  | succ n ih =>
    intro k data e
    rw [env_loop, env_loop, env_scale_same c0 c1 h, hd, ih]

theorem wave_loop_sim (c0 c1 : SynthConsts) (R : SynthWave → SynthWave → Prop)
    (hpcm : ∀ w0 w1, R w0 w1 → wave_pcm w0 = wave_pcm w1)
    (hadv : ∀ w0 w1, R w0 w1 → R (wave_advance c0 w0) (wave_advance c1 w1)) (n : Nat) :
    ∀ (k : Nat) (data : Nat → ℚ) (w0 w1 : SynthWave), R w0 w1 →
      (wave_loop c0 n k data w0).1 = (wave_loop c1 n k data w1).1
      ∧ R (wave_loop c0 n k data w0).2 (wave_loop c1 n k data w1).2 := by
  induction n with
  | zero => intro k data w0 w1 h; exact ⟨rfl, h⟩
  | succ n ih =>
    intro k data w0 w1 h
    rw [wave_loop, wave_loop, hpcm w0 w1 h]
    exact ih (k + 1) _ _ _ (hadv w0 w1 h)

/-- Two runs of the block loop whose constants differ in the half waves only, and whose
shape locals stay related by a relation under which the shape values agree, leave the same
buffer. -/
theorem synth_blocks_sim (c0 c1 : SynthConsts) (hs : SameButWaves c0 c1)
    (R : SynthWave → SynthWave → Prop)
    (hpcm : ∀ w0 w1, R w0 w1 → wave_pcm w0 = wave_pcm w1)
    (hadv : ∀ w0 w1, R w0 w1 → R (wave_advance c0 w0) (wave_advance c1 w1))
    (len : Int) (fuel : Nat) :
    ∀ (j : Int) (st0 st1 : SynthState), R st0.wave st1.wave → st0.env = st1.env →
      st0.output = st1.output →
      (synth_blocks c0 len fuel j st0).output = (synth_blocks c1 len fuel j st1).output := by
  obtain ⟨-, -, hz, hv⟩ := same_but_waves_fields c0 c1 hs
  induction fuel with
  | zero => intro j st0 st1 _ _ ho; exact ho
  | succ fuel ih =>
    intro j st0 st1 hw he ho
    rw [synth_blocks, synth_blocks]
    by_cases hj : j < len
    · rw [if_pos hj, if_pos hj]
      dsimp only
      generalize ((if iadd j STB_SYNTH_BLOCK_SIZE > len then len
        else iadd j STB_SYNTH_BLOCK_SIZE) - j).toNat = n
      obtain ⟨d1, d2⟩ := wave_loop_sim c0 c1 R hpcm hadv n 0 (fun _ => 0) _ _ hw
      apply ih
      · exact d2
      · show (env_loop c0 n 0 _ st0.env).2 = (env_loop c1 n 0 _ st1.env).2
        rw [env_loop_same c0 c1 hs, d1, he]
      · show (if c0.zero ≠ 0 then _ else _) = (if c1.zero ≠ 0 then _ else _)
        rw [env_loop_same c0 c1 hs n 0 (wave_loop c1 n 0 (fun _ => 0) st1.wave).1 st1.env,
          hz, hv, d1, he, ho]
    · rw [if_neg hj, if_neg hj]
      exact ho

theorem wave_shape_congr (c0 c1 : SynthConsts)
    (h1 : c1.left_half_a.zero_wait = c0.left_half_a.zero_wait)
    (h2 : c1.left_half_a.peak_time = c0.left_half_a.peak_time)
    (h3 : c1.left_half_a.half_height = c0.left_half_a.half_height)
    (h4 : c1.right_half_a = c0.right_half_a) (p : ℚ) :
    wave_shape c1 p = wave_shape c0 p := by
  unfold wave_shape wave_pcm synth_wave_init
  dsimp only
  rw [h1, h2, h3, h4]

/-- Two waveforms with the same shape, synthesized without a second waveform and with all
other parameters equal, give the same result. -/
theorem synth_same_shape (pow2 : ℚ → ℚ) (out : Int → ℚ) (buffer_limit zero sps : Int)
    (ndur pitch volume : ℚ) (adsr : Option stb_synth_adsr) (w w' : stb_synth_waveform)
    (hshape : ∀ p,
      wave_shape (synth_consts pow2 zero sps ndur pitch volume adsr w none) p
        = wave_shape (synth_consts pow2 zero sps ndur pitch volume adsr w' none) p) :
    stb__synth_raw pow2 out buffer_limit zero sps ndur pitch volume adsr w none
      = stb__synth_raw pow2 out buffer_limit zero sps ndur pitch volume adsr w' none := by
  unfold stb__synth_raw
  dsimp only
  congr 1
  have hs : SameButWaves (synth_consts pow2 zero sps ndur pitch volume adsr w none)
      (synth_consts pow2 zero sps ndur pitch volume adsr w' none) := by
    unfold SameButWaves
    rfl
  apply synth_blocks_sim _ _ hs
    (fun w0 w1 =>
      NoMorph (synth_consts pow2 zero sps ndur pitch volume adsr w none) w0
      ∧ NoMorph (synth_consts pow2 zero sps ndur pitch volume adsr w' none) w1
      ∧ w0.p = w1.p ∧ w0.t = w1.t)
  · intro w0 w1 ⟨n0, n1, hp, _⟩
    rw [no_morph_pcm _ w0 n0, no_morph_pcm _ w1 n1, hp]
    exact hshape _
  · intro w0 w1 ⟨n0, n1, hp, ht⟩
    refine ⟨no_morph_advance _ w0 rfl rfl n0, no_morph_advance _ w1 rfl rfl n1, ?_, ?_⟩
    · rw [wave_advance_p, wave_advance_p, hp]
      rfl
    · rw [wave_advance_t, wave_advance_t, hp, ht]
      rfl
  · exact ⟨no_morph_init _, no_morph_init _, rfl, rfl⟩
  · rfl
  · rfl

/-- C30. For the canonical triangle wave `Z=0, P=0.5, H=0` and the canonical square wave
`Z=0, P=0, H=1`, with `waveform2 = NULL` and all other parameters equal, `stb_synth` gives the
same result (returned count and buffer) for any two values of the reflect flag; and the
square shape is `+1` at every sample whose phase is in `[0, 1)` and `-1` at every sample
whose phase is in `[1, 2)`, for either value of the flag. -/
theorem canonical_shapes_ignore_reflect (pow2 : ℚ → ℚ) (out : Int → ℚ)
    (buffer_limit sps : Int) (ndur pitch volume : ℚ) (adsr : Option stb_synth_adsr)
    (m m' : Int) :
    stb_synth pow2 out buffer_limit sps ndur pitch volume adsr (triangle_wave m) none
      = stb_synth pow2 out buffer_limit sps ndur pitch volume adsr (triangle_wave m') none
    ∧ stb_synth pow2 out buffer_limit sps ndur pitch volume adsr (square_wave m) none
      = stb_synth pow2 out buffer_limit sps ndur pitch volume adsr (square_wave m') none
    ∧ ∀ n : Nat,
        (0 ≤ (wave_at (synth_consts pow2 1 sps ndur pitch volume adsr (square_wave m) none) n).p
          → (wave_at (synth_consts pow2 1 sps ndur pitch volume adsr (square_wave m) none) n).p < 1
          → wave_pcm (wave_at (synth_consts pow2 1 sps ndur pitch volume adsr (square_wave m)
              none) n) = 1)
        ∧ (1 ≤ (wave_at (synth_consts pow2 1 sps ndur pitch volume adsr (square_wave m) none) n).p
          → (wave_at (synth_consts pow2 1 sps ndur pitch volume adsr (square_wave m) none) n).p < 2
          → wave_pcm (wave_at (synth_consts pow2 1 sps ndur pitch volume adsr (square_wave m)
              none) n) = -1) := by
  refine ⟨?_, ?_, ?_⟩
  · apply synth_same_shape
    intro p
    apply wave_shape_congr
    · rfl
    · rfl
    · rfl
    · show stb__make_right (triangle_wave m) = stb__make_right (triangle_wave m')
      rw [make_right_triangle, make_right_triangle]
  · apply synth_same_shape
    intro p
    rw [square_wave_shape, square_wave_shape]
  · intro n
    have hpcm := no_morph_pcm _ _ (wave_at_no_morph
      (synth_consts pow2 1 sps ndur pitch volume adsr (square_wave m) none) rfl rfl n)
    rw [hpcm, square_wave_shape]
    generalize (wave_at (synth_consts pow2 1 sps ndur pitch volume adsr (square_wave m) none)
      n).p = p
    unfold square_shape
    constructor
    · intro h0 h1
      rw [if_neg (not_le.mpr h1), if_neg (not_lt.mpr h0)]
    · intro h1 h2
      rw [if_pos h1, if_neg (not_lt.mpr h2.le)]

/-! ## Phase and envelope of the synthesizer -/

/-- With a phase increment in `[0, 2)` the phase stays in `[0, 2)`. -/
theorem phase_at_range (ws : ℚ) (h0 : 0 ≤ ws) (h2 : ws < 2) (n : Nat) :
    0 ≤ phase_at ws n ∧ phase_at ws n < 2 := by
  induction n with
  | zero =>
    show (0 : ℚ) ≤ 0 ∧ (0 : ℚ) < 2
    norm_num
  | succ n ih =>
    rw [phase_at_succ]
    unfold phase_next
    obtain ⟨i0, i2⟩ := ih
    split_ifs with h
    · constructor <;> linarith
    · constructor <;> linarith

theorem env_scale_sec (c : SynthConsts) (e : SynthEnv) : (env_scale c e).sec = e.sec := by
  unfold env_scale
  split_ifs <;> rfl

theorem env_at_succ (c : SynthConsts) (n : Nat) : env_at c (n + 1) = env_next c (env_at c n) := by
  unfold env_at
  rw [Function.iterate_succ_apply']

/-- The time of sample `n` in the envelope loop is `n * dsec`. -/
theorem env_at_sec (c : SynthConsts) (n : Nat) : (env_at c n).sec = (n : ℚ) * c.dsec := by
  induction n with
  | zero =>
    show (0 : ℚ) = ((0 : Nat) : ℚ) * c.dsec
    simp
  | succ n ih =>
    rw [env_at_succ]
    show (env_scale c (env_at c n)).sec + c.dsec = _
    rw [env_scale_sec, ih]
    push_cast
    ring

/-- In the sustain phase the scale is the sustain level. -/
theorem env_scale_sustain (c : SynthConsts) (e : SynthEnv) (h1 : c.env.attack_time ≤ e.sec)
    (h2 : c.env.decay_time ≤ e.sec) (h3 : e.sec ≤ c.note_duration_until_release) :
    (env_scale c e).scale = c.env.sustain_level := by
  unfold env_scale
  rw [if_neg (not_lt.mpr h1), if_neg (not_lt.mpr h2), if_neg (not_lt.mpr h3)]

/-- At time 0 of a non-zero attack the scale is 0. -/
theorem env_scale_start (c : SynthConsts) (e : SynthEnv) (h0 : e.sec = 0)
    (h1 : 0 < c.env.attack_time) : (env_scale c e).scale = 0 := by
  unfold env_scale
  rw [h0, if_pos h1]
  show stb__synth_remap_r 0 0 c.r4 0 1 = 0
  unfold stb__synth_remap_r
  ring

/-- The worked example: `stb_synth(out, 44100, 44100, 1.0, 69, 1.0, {0.01,0.01,0.5,0.1},
square, NULL)` with `pow(2.0, 0) = 1`. -/
theorem synth_example_core (pow2 : ℚ → ℚ) (out : Int → ℚ) (hpow : pow2 0 = 1) :
    (stb_synth pow2 out 44100 44100 1 69 1 (some example_adsr) (square_wave 0) none).ret = 44100
    ∧ (stb_synth pow2 out 44100 44100 1 69 1 (some example_adsr) (square_wave 0) none).output 0 = 0
    ∧ ∀ i : Int, 882 ≤ i → i < 44100 →
        (stb_synth pow2 out 44100 44100 1 69 1 (some example_adsr) (square_wave 0) none).output i
            = 1 / 2
        ∨ (stb_synth pow2 out 44100 44100 1 69 1 (some example_adsr) (square_wave 0) none).output i
            = -(1 / 2) := by
  obtain ⟨a1, a2⟩ := synth_raw_spec pow2 out 44100 1 44100 1 69 1 (some example_adsr)
    (square_wave 0) none (by decide)
  have hlen : synth_len 44100 44100 1 (some example_adsr) = 44100 := by decide!
  rw [hlen] at a1 a2
  have h10 : (1 : Int) ≠ 0 := by decide
  have hws : (synth_consts pow2 1 44100 1 69 1 (some example_adsr) (square_wave 0) none).wavesteps
      = 44 / 2205 := by
    show (2 : ℚ) / (((44100 : Int) : ℚ) / (440 * pow2 ((69 - 69) / 12))) = 44 / 2205
    have e : ((69 : ℚ) - 69) / 12 = 0 := by norm_num
    rw [e, hpow]
    norm_num
  have hds : (synth_consts pow2 1 44100 1 69 1 (some example_adsr) (square_wave 0) none).dsec
      = 1 / 44100 := by
    show (1 : ℚ) / ((44100 : Int) : ℚ) = 1 / 44100
    norm_num
  have hat : (synth_consts pow2 1 44100 1 69 1 (some example_adsr) (square_wave 0)
      none).env.attack_time = 1 / 100 := rfl
  have hde : (synth_consts pow2 1 44100 1 69 1 (some example_adsr) (square_wave 0)
      none).env.decay_time = 2 / 100 := by
    show (1 / 100 : ℚ) + 1 / 100 = 2 / 100
    norm_num
  have hsu : (synth_consts pow2 1 44100 1 69 1 (some example_adsr) (square_wave 0)
      none).env.sustain_level = 1 / 2 := rfl
  have hnd : (synth_consts pow2 1 44100 1 69 1 (some example_adsr) (square_wave 0)
      none).note_duration_until_release = 1 := rfl
  have hvo : (synth_consts pow2 1 44100 1 69 1 (some example_adsr) (square_wave 0)
      none).volume = 1 := rfl
  have hpcm : ∀ n : Nat, wave_pcm (wave_at (synth_consts pow2 1 44100 1 69 1 (some example_adsr)
      (square_wave 0) none) n) = 1 ∨ wave_pcm (wave_at (synth_consts pow2 1 44100 1 69 1
      (some example_adsr) (square_wave 0) none) n) = -1 := by
    intro n
    rw [wave_pcm_at _ rfl rfl n, square_wave_shape, hws]
    obtain ⟨p0, p2⟩ := phase_at_range (44 / 2205) (by norm_num) (by norm_num) n
    unfold square_shape
    by_cases h1 : phase_at (44 / 2205) n ≥ 1
    · rw [if_pos h1, if_neg (not_lt.mpr p2.le)]
      exact Or.inr rfl
    · rw [if_neg h1, if_neg (not_lt.mpr p0)]
      exact Or.inl rfl
  generalize synth_consts pow2 1 44100 1 69 1 (some example_adsr) (square_wave 0) none = c
    at a2 hws hds hat hde hsu hnd hvo hpcm
  have e1 : stb_synth pow2 out 44100 44100 1 69 1 (some example_adsr) (square_wave 0) none
      = stb__synth_raw pow2 out 44100 1 44100 1 69 1 (some example_adsr) (square_wave 0) none :=
    rfl
  rw [e1]
  refine ⟨a1, ?_, ?_⟩
  · rw [a2 0, if_pos (by decide), if_pos h10]
    unfold synth_sample
    rw [env_scale_start c _ (by rw [env_at_sec]; simp) (by rw [hat]; norm_num)]
    ring
  · intro i hi1 hi2
    have hin : 0 ≤ i ∧ i < 44100 := ⟨by omega, hi2⟩
    rw [a2 i, if_pos hin, if_pos h10]
    unfold synth_sample
    have hn1 : (882 : ℚ) ≤ ((i.toNat : Nat) : ℚ) := by
      have : 882 ≤ i.toNat := by omega
      exact_mod_cast this
    have hn2 : ((i.toNat : Nat) : ℚ) ≤ 44100 := by
      have : i.toNat ≤ 44100 := by omega
      exact_mod_cast this
    have hsec : (env_at c i.toNat).sec = ((i.toNat : Nat) : ℚ) / 44100 := by
      rw [env_at_sec, hds]
      ring
    rw [env_scale_sustain c _ (by rw [hat, hsec]; linarith) (by rw [hde, hsec]; linarith)
      (by rw [hnd, hsec]; linarith), hsu, hvo]
    rcases hpcm i.toNat with h | h <;> rw [h]
    · left; norm_num
    · right; norm_num

theorem demo_pow2_zero : demo_pow2 0 = 1 := by
  unfold demo_pow2
  simp

/-- C27, counterexample: in the worked example (into a zero buffer) 48510 samples are due
and the buffer limit 44100 cuts the release phase off: the call returns 44100 and the last
written sample `out[44099]`, a sample of the sustain phase, is not 0. -/
theorem synth_example_last_sample_not_zero :
    float_to_int ((1 + example_adsr.release_time) * ((44100 : Int) : ℚ)) = 48510
    ∧ (stb_synth demo_pow2 (fun _ => 0) 44100 44100 1 69 1 (some example_adsr) (square_wave 0)
        none).ret = 44100
    ∧ (stb_synth demo_pow2 (fun _ => 0) 44100 44100 1 69 1 (some example_adsr) (square_wave 0)
        none).output (44100 - 1) ≠ 0 := by
  obtain ⟨h1, -, h3⟩ := synth_example_core demo_pow2 (fun _ => 0) demo_pow2_zero
  refine ⟨by decide!, h1, ?_⟩
  rcases h3 (44100 - 1) (by decide) (by decide) with h | h <;> rw [h] <;> norm_num

/-- C27, amended: for `stb_synth(out, 44100, 44100, 1.0, 69, 1.0, adsr={0.01,0.01,0.5,0.1},
square={0,0,1,0}, NULL)` (with `pow(2.0, 0) = 1`): the call returns `len = 44100`, the first
written sample `out[0]` is 0, and every sample `i` with `0.02 <= i/44100` up to the last
written one, `out[44099]`, is `+0.5` or `-0.5`: the release phase lies beyond the buffer
limit and is not written. -/
theorem synth_example_square_envelope (pow2 : ℚ → ℚ) (out : Int → ℚ) (hpow : pow2 0 = 1) :
    (stb_synth pow2 out 44100 44100 1 69 1 (some example_adsr) (square_wave 0) none).ret = 44100
    ∧ (stb_synth pow2 out 44100 44100 1 69 1 (some example_adsr) (square_wave 0) none).output 0 = 0
    ∧ (∀ i : Int, 882 ≤ i → i < 44100 →
        (stb_synth pow2 out 44100 44100 1 69 1 (some example_adsr) (square_wave 0) none).output i
            = 1 / 2
        ∨ (stb_synth pow2 out 44100 44100 1 69 1 (some example_adsr) (square_wave 0) none).output i
            = -(1 / 2))
    ∧ ((stb_synth pow2 out 44100 44100 1 69 1 (some example_adsr) (square_wave 0)
          none).output 44099 = 1 / 2
        ∨ (stb_synth pow2 out 44100 44100 1 69 1 (some example_adsr) (square_wave 0)
          none).output 44099 = -(1 / 2)) := by
  obtain ⟨h1, h2, h3⟩ := synth_example_core pow2 out hpow
  exact ⟨h1, h2, h3, h3 44099 (by decide) (by decide)⟩

/-- C27, instance: with the stand-in for `pow` and a buffer that held 7 everywhere, the call
returns 44100 and the first sample is 0. -/
theorem synth_example_square_envelope_witness :
    (stb_synth demo_pow2 (fun _ => 7) 44100 44100 1 69 1 (some example_adsr) (square_wave 0)
        none).ret = 44100
    ∧ (stb_synth demo_pow2 (fun _ => 7) 44100 44100 1 69 1 (some example_adsr) (square_wave 0)
        none).output 0 = 0 :=
  have h := synth_example_square_envelope demo_pow2 (fun _ => 7) demo_pow2_zero
  ⟨h.1, h.2.1⟩

/-- A second waveform equal to the first gives the result of no second waveform when the
remapped peak time of the first half equals the given one (`zero_wait = 0` or
`peak_time = 1`). -/
theorem morph_to_copy_same_when_peak_unmoved (pow2 : ℚ → ℚ) (out : Int → ℚ)
    (buffer_limit zero sps : Int) (ndur pitch volume : ℚ) (adsr : Option stb_synth_adsr)
    (w : stb_synth_waveform) (h : stb__synth_lerp w.peak_time w.zero_wait 1 = w.peak_time) :
    stb__synth_raw pow2 out buffer_limit zero sps ndur pitch volume adsr w (some w)
      = stb__synth_raw pow2 out buffer_limit zero sps ndur pitch volume adsr w none := by
  have hc : synth_consts pow2 zero sps ndur pitch volume adsr w (some w)
      = synth_consts pow2 zero sps ndur pitch volume adsr w none := by
    unfold synth_consts
    dsimp only
    rw [h]
  unfold stb__synth_raw
  rw [hc]

/-- C29: with `waveform1 = {Z=0.5, P=0.5, H=0, M=0}`, 4400 samples per second, pitch 69 (a
cycle of 10 samples), a note of 1/100 s under a flat envelope and a buffer of 16 samples,
sample 13 (phase 0.6 of the second cycle) is `2/5` with `waveform2 = NULL` and `44/85`
with `waveform2` a copy of `waveform1`: the morph target of the first half keeps the peak
time `P = 0.5` as given, while the first half of `waveform1` has it remapped to `0.75`. -/
theorem morph_to_copy_differs_from_no_morph :
    (stb_synth demo_pow2 (fun _ => 0) 16 4400 (1 / 100) 69 1 (some demo_flat_adsr)
        demo_pwm_wave none).output 13 = 2 / 5
    ∧ (stb_synth demo_pow2 (fun _ => 0) 16 4400 (1 / 100) 69 1 (some demo_flat_adsr)
        demo_pwm_wave (some demo_pwm_wave)).output 13 = 44 / 85
    ∧ (synth_consts demo_pow2 1 4400 (1 / 100) 69 1 (some demo_flat_adsr)
        demo_pwm_wave (some demo_pwm_wave)).left_half_a.peak_time = 3 / 4
    ∧ (synth_consts demo_pow2 1 4400 (1 / 100) 69 1 (some demo_flat_adsr)
        demo_pwm_wave (some demo_pwm_wave)).left_half_b.peak_time = 1 / 2
    ∧ (synth_consts demo_pow2 1 4400 (1 / 100) 69 1 (some demo_flat_adsr)
        demo_pwm_wave none).left_half_b.peak_time = 3 / 4
    ∧ stb_synth demo_pow2 (fun _ => 0) 16 4400 (1 / 100) 69 1 (some demo_flat_adsr)
        demo_pwm_wave (some demo_pwm_wave)
      ≠ stb_synth demo_pow2 (fun _ => 0) 16 4400 (1 / 100) 69 1 (some demo_flat_adsr)
        demo_pwm_wave none := by
  have h1 : (stb_synth demo_pow2 (fun _ => 0) 16 4400 (1 / 100) 69 1 (some demo_flat_adsr)
      demo_pwm_wave none).output 13 = 2 / 5 := by decide!
  have h2 : (stb_synth demo_pow2 (fun _ => 0) 16 4400 (1 / 100) 69 1 (some demo_flat_adsr)
      demo_pwm_wave (some demo_pwm_wave)).output 13 = 44 / 85 := by decide!
  refine ⟨h1, h2, by decide!, by decide!, by decide!, ?_⟩
  intro he
  rw [he, h1] at h2
  exact absurd h2 (by norm_num)

/-! ## Endpoints of the fades -/

theorem fade_at_zero (mode : Nat)
    (hm : mode = FADE_linear ∨ mode = FADE_equalpower ∨ mode = FADE_release
      ∨ mode = FADE_pulserelease) : stb__fade mode 0 = 0 := by
  rcases hm with h | h | h | h <;> subst h
  · rfl
  · rw [fade_equalpower_eq]; norm_num
  · rw [fade_release_eq]
    unfold release_curve
    norm_num
  · rw [fade_pulserelease_eq]
    unfold pre_pulse pulse_ramp
    norm_num [abs_of_nonneg]

theorem fade_at_one (mode : Nat)
    (hm : mode = FADE_linear ∨ mode = FADE_equalpower ∨ mode = FADE_release
      ∨ mode = FADE_pulserelease) : stb__fade mode 1 = 1 := by
  rcases hm with h | h | h | h <;> subst h
  · rfl
  · rw [fade_equalpower_eq]; norm_num
  · rw [fade_release_eq]
    unfold release_curve
    norm_num
  · rw [fade_pulserelease_eq]
    unfold pre_pulse pulse_ramp
    norm_num

/-- The envelope at the two ends of a fade-in and of a fade-out. -/
theorem compute_fade_ends (b : stb__block) :
    (b.fadein_start + b.fadein_len < 4294967296 → 0 < b.fadein_len →
      (b.fadein_mode = FADE_linear ∨ b.fadein_mode = FADE_equalpower
        ∨ b.fadein_mode = FADE_release ∨ b.fadein_mode = FADE_pulserelease) →
      stb__compute_fade b b.fadein_start = 0
      ∧ (b.fadein_start + b.fadein_len ≤ b.fadeout_start →
          stb__compute_fade b (b.fadein_start + b.fadein_len) = 1))
    ∧ (b.fadein_start + b.fadein_len ≤ b.fadeout_start →
      b.fadeout_start + b.fadeout_len < 4294967296 → 0 < b.fadeout_len →
      (b.fadeout_mode = FADE_linear ∨ b.fadeout_mode = FADE_equalpower
        ∨ b.fadeout_mode = FADE_release ∨ b.fadeout_mode = FADE_pulserelease) →
      stb__compute_fade b b.fadeout_start = 1
      ∧ stb__compute_fade b (b.fadeout_start + b.fadeout_len) = 0) := by
  constructor
  · intro h1 h2 hm
    have u1 : uadd b.fadein_start b.fadein_len = b.fadein_start + b.fadein_len := by
      unfold uadd; omega
    constructor
    · unfold stb__compute_fade
      rw [u1, if_pos (by omega), if_neg (by omega)]
      have u2 : usub b.fadein_start b.fadein_start = 0 := by unfold usub; omega
      rw [u2]
      simp only [Nat.cast_zero, zero_div]
      exact fade_at_zero _ hm
    · intro h3
      unfold stb__compute_fade
      rw [u1, if_neg (by omega), if_neg (by omega)]
  · intro h0 h1 h2 hm
    have u0 : uadd b.fadein_start b.fadein_len = b.fadein_start + b.fadein_len := by
      unfold uadd; omega
    have u1 : uadd b.fadeout_start b.fadeout_len = b.fadeout_start + b.fadeout_len := by
      unfold uadd; omega
    constructor
    · unfold stb__compute_fade
      rw [u0, if_neg (by omega), if_neg (by omega)]
    · unfold stb__compute_fade
      rw [u0, if_neg (by omega), if_pos (by omega), u1, if_neg (by omega)]
      have u2 : usub (b.fadeout_start + b.fadeout_len) b.fadeout_start = b.fadeout_len := by
        unfold usub; omega
      rw [u2]
      have hq : (b.fadeout_len : ℚ) ≠ 0 := by exact_mod_cast (by omega : b.fadeout_len ≠ 0)
      rw [div_self hq, sub_self]
      exact fade_at_zero _ hm

/-- C36. Every fade curve has the endpoints of a fade: in exact arithmetic, for each of the
modes linear, equal_power, release and pulse_release, `fade(mode, 0) = 0` and
`fade(mode, 1) = 1`; for equal_power `1.57 - 0.43 - 0.14 = 1`, and `1 - fade(t)` has the
factor `(1 - t)^2`, so the derivative at 1 (`1.57 - 2*0.14 - 3*0.43`) is 0. Hence the
envelope of a block is 0 at the first tick of its fade-in, 1 at the end of the fade-in and at
the start of the fade-out, and 0 at the end of the fade-out. -/
theorem fade_endpoints :
    (∀ mode : Nat, mode = FADE_linear ∨ mode = FADE_equalpower ∨ mode = FADE_release
        ∨ mode = FADE_pulserelease → stb__fade mode 0 = 0 ∧ stb__fade mode 1 = 1)
    ∧ (157 / 100 : ℚ) - 43 / 100 - 14 / 100 = 1
    ∧ (∀ t : ℚ, 1 - stb__fade FADE_equalpower t = (1 - t) ^ 2 * (1 + 43 / 100 * t))
    ∧ (157 / 100 : ℚ) - 2 * (14 / 100) - 3 * (43 / 100) = 0
    ∧ ∀ b : stb__block,
      (b.fadein_start + b.fadein_len < 4294967296 → 0 < b.fadein_len →
        (b.fadein_mode = FADE_linear ∨ b.fadein_mode = FADE_equalpower
          ∨ b.fadein_mode = FADE_release ∨ b.fadein_mode = FADE_pulserelease) →
        stb__compute_fade b b.fadein_start = 0
        ∧ (b.fadein_start + b.fadein_len ≤ b.fadeout_start →
            stb__compute_fade b (b.fadein_start + b.fadein_len) = 1))
      ∧ (b.fadein_start + b.fadein_len ≤ b.fadeout_start →
        b.fadeout_start + b.fadeout_len < 4294967296 → 0 < b.fadeout_len →
        (b.fadeout_mode = FADE_linear ∨ b.fadeout_mode = FADE_equalpower
          ∨ b.fadeout_mode = FADE_release ∨ b.fadeout_mode = FADE_pulserelease) →
        stb__compute_fade b b.fadeout_start = 1
        ∧ stb__compute_fade b (b.fadeout_start + b.fadeout_len) = 0) := by
  refine ⟨fun mode hm => ⟨fade_at_zero mode hm, fade_at_one mode hm⟩, by norm_num, ?_,
    by norm_num, compute_fade_ends⟩
  intro t
  rw [fade_equalpower_eq]
  ring

/-- C34. For every state whose window end `premix_time + premix_len` does not wrap and every
non-null handle, `stb_mixlow_end_set` invalidates the pre-mix window from the effective end
start time `t0` (the clock when the argument is 0) onward and nothing else: the window start,
its ring offset, the ring size and the ring contents are unchanged and `premix_len` becomes
`min(old premix_len, max(0, t0 - premix_time))`; so the window does not grow, holds no tick
`>= t0` afterwards, and keeps every tick `< t0` it held before. -/
theorem end_set_invalidates_window_from_end_start (s : MixLow) (h : Nat) (m : Int) (e d : Nat)
    (hh : h ≠ 0) (he : e < 4294967296) (hc : s.mix_time < 4294967296)
    (hw : s.premix_time + s.premix_len < 4294967296) :
    (stb_mixlow_end_set s h m e d).premix_time = s.premix_time
    ∧ (stb_mixlow_end_set s h m e d).premix_offset = s.premix_offset
    ∧ (stb_mixlow_end_set s h m e d).premix_size = s.premix_size
    ∧ (stb_mixlow_end_set s h m e d).premix_int = s.premix_int
    ∧ (stb_mixlow_end_set s h m e d).premix_float = s.premix_float
    ∧ ((stb_mixlow_end_set s h m e d).premix_len : Int)
        = min (s.premix_len : Int) (max 0 ((end_start s e : Int) - (s.premix_time : Int)))
    ∧ (stb_mixlow_end_set s h m e d).premix_len ≤ s.premix_len
    ∧ (∀ u, (stb_mixlow_end_set s h m e d).premix_time ≤ u →
        u < (stb_mixlow_end_set s h m e d).premix_time
              + (stb_mixlow_end_set s h m e d).premix_len → u < end_start s e)
    ∧ (∀ u, s.premix_time ≤ u → u < s.premix_time + s.premix_len → u < end_start s e →
        u < (stb_mixlow_end_set s h m e d).premix_time
              + (stb_mixlow_end_set s h m e d).premix_len) := by
  obtain ⟨a1, a2, a3, _, _, a6, a7, a8⟩ := end_set_window s h m e d
  rw [if_neg hh] at a8
  have ht : end_start s e < 4294967296 := by
    unfold end_start
    split_ifs <;> omega
  have hu : uadd s.premix_time s.premix_len = s.premix_time + s.premix_len := by
    unfold uadd; omega
  rw [hu] at a8
  generalize end_start s e = t0 at a8 ht ⊢
  generalize (stb_mixlow_end_set s h m e d).premix_len = l at a8 ⊢
  rw [a3]
  have hl : (l : Int) = min (s.premix_len : Int) (max 0 ((t0 : Int) - (s.premix_time : Int))) := by
    by_cases c1 : t0 < s.premix_time + s.premix_len
    · rw [if_pos c1] at a8
      by_cases c2 : t0 < s.premix_time
      · rw [if_pos c2] at a8
        omega
      · rw [if_neg c2] at a8
        unfold usub at a8
        omega
    · rw [if_neg c1] at a8
      omega
  refine ⟨rfl, a2, a1, a7, a6, hl, by omega, fun u h1 h2 => by omega,
    fun u h1 h2 h3 => by omega⟩

/-- An instance of `end_set_invalidates_window_from_end_start`: with the window `[0, 8)`
materialized, ending handle 7 from tick 3 on leaves the window `[0, 3)`. -/
theorem end_set_invalidates_window_from_end_start_witness :
    (stb_mixlow_end_set demo_windowed 7 1 3 2).premix_time = demo_windowed.premix_time
    ∧ (stb_mixlow_end_set demo_windowed 7 1 3 2).premix_offset = demo_windowed.premix_offset
    ∧ ((stb_mixlow_end_set demo_windowed 7 1 3 2).premix_len : Int)
        = min (demo_windowed.premix_len : Int)
            (max 0 ((end_start demo_windowed 3 : Int) - (demo_windowed.premix_time : Int)))
    ∧ demo_windowed.premix_len = 8 ∧ end_start demo_windowed 3 = 3
    ∧ demo_windowed.premix_time = 0 :=
  have A := end_set_invalidates_window_from_end_start demo_windowed 7 1 3 2 (by decide)
    (by decide) (by decide) (by decide)
  ⟨A.1, A.2.1, A.2.2.2.2.2.1, by decide, by decide, by decide⟩

/-- The window part of `stb_mixlow_set_curtime` when the clock moves past the window start. -/
theorem set_curtime_window_fields (s : MixLow) (t : Nat) (hc : s.mix_time ≤ t)
    (hp : s.premix_time < t) :
    (stb_mixlow_set_curtime s t).premix_time = t
    ∧ (stb_mixlow_set_curtime s t).premix_size = s.premix_size
    ∧ (stb_mixlow_set_curtime s t).premix_int = s.premix_int
    ∧ (stb_mixlow_set_curtime s t).premix_float = s.premix_float
    ∧ (stb_mixlow_set_curtime s t).premix_len
        = (if uadd s.premix_time s.premix_len < t then 0
           else usub s.premix_len (usub t s.premix_time))
    ∧ (stb_mixlow_set_curtime s t).premix_offset
        = (if uadd s.premix_time s.premix_len < t then 0
           else stb__wrap s (uadd s.premix_offset (usub t s.premix_time))) := by
  unfold stb_mixlow_set_curtime
  rw [if_neg (by omega)]
  dsimp only
  rw [if_pos hp]
  by_cases h2 : uadd s.premix_time s.premix_len < t
  · rw [if_pos h2, if_pos h2, if_pos h2]
    exact ⟨rfl, rfl, rfl, rfl, rfl, rfl⟩
  · rw [if_neg h2, if_neg h2, if_neg h2]
    exact ⟨rfl, rfl, rfl, rfl, rfl, rfl⟩

/-- C33. For every state with `premix_offset < P` and `premix_len <= P` (and no 32-bit wrap
of the window end or of the ring size in bytes) and every `t > premix_time` that is not
before the clock, after `stb_mixlow_set_curtime(t)`: `premix_time = t`,
`premix_len = max(0, old_len - (t - old_time))`, `premix_offset < P`, the rings are
untouched, and every tick `u` still in the window keeps its ring slot:
`(new_offset + (u - t)) mod P = (old_offset + (u - old_time)) mod P`; when
`old_time + old_len <= t` the window is empty. -/
theorem set_curtime_slides_window (s : MixLow) (t : Nat)
    (ho : s.premix_offset < s.premix_size) (hl : s.premix_len ≤ s.premix_size)
    (hP : 4 * s.premix_size < 4294967296) (hw : s.premix_time + s.premix_len < 4294967296)
    (ht : t < 4294967296) (hc : s.mix_time ≤ t) (hp : s.premix_time < t) :
    (stb_mixlow_set_curtime s t).premix_time = t
    ∧ ((stb_mixlow_set_curtime s t).premix_len : Int)
        = max 0 ((s.premix_len : Int) - ((t : Int) - (s.premix_time : Int)))
    ∧ (stb_mixlow_set_curtime s t).premix_offset < s.premix_size
    ∧ (stb_mixlow_set_curtime s t).premix_size = s.premix_size
    ∧ (stb_mixlow_set_curtime s t).premix_int = s.premix_int
    ∧ (stb_mixlow_set_curtime s t).premix_float = s.premix_float
    ∧ (∀ u, t ≤ u → u < t + (stb_mixlow_set_curtime s t).premix_len →
        s.premix_time ≤ u ∧ u < s.premix_time + s.premix_len
        ∧ ((stb_mixlow_set_curtime s t).premix_offset + (u - t)) % s.premix_size
            = (s.premix_offset + (u - s.premix_time)) % s.premix_size)
    ∧ (s.premix_time + s.premix_len ≤ t → (stb_mixlow_set_curtime s t).premix_len = 0) := by
  obtain ⟨a1, a2, a3, a4, a5, a6⟩ := set_curtime_window_fields s t hc hp
  have hu : uadd s.premix_time s.premix_len = s.premix_time + s.premix_len := by
    unfold uadd; omega
  have hd : usub t s.premix_time = t - s.premix_time := by
    unfold usub; omega
  rw [hu, hd] at a5 a6
  generalize (stb_mixlow_set_curtime s t).premix_len = l at a5 ⊢
  generalize (stb_mixlow_set_curtime s t).premix_offset = o at a6 ⊢
  by_cases h2 : s.premix_time + s.premix_len < t
  · rw [if_pos h2] at a5 a6
    subst a5 a6
    refine ⟨a1, by push_cast; omega, by omega, a2, a3, a4, fun u h3 h4 => by omega,
      fun _ => rfl⟩
  · rw [if_neg h2] at a5 a6
    have e5 : l = s.premix_len - (t - s.premix_time) := by
      rw [a5]; unfold usub; omega
    have e6 : (o = s.premix_offset + (t - s.premix_time)
          ∧ s.premix_offset + (t - s.premix_time) < s.premix_size)
        ∨ o + s.premix_size = s.premix_offset + (t - s.premix_time) := by
      rw [a6]
      unfold stb__wrap uadd usub
      split_ifs <;> omega
    refine ⟨a1, by omega, by omega, a2, a3, a4, fun u h3 h4 => ⟨by omega, by omega, ?_⟩,
      fun _ => by omega⟩
    rcases e6 with ⟨e, _⟩ | e
    · congr 1; omega
    · have e7 : s.premix_offset + (u - s.premix_time) = (o + (u - t)) + s.premix_size := by
        omega
      rw [e7, Nat.add_mod_right]

/-- An instance of `set_curtime_slides_window`: with the window `[0, 8)` at ring offset 0,
moving the clock to tick 3 leaves the window `[3, 8)` at ring offset 3. -/
theorem set_curtime_slides_window_witness :
    (stb_mixlow_set_curtime demo_windowed 3).premix_time = 3
    ∧ ((stb_mixlow_set_curtime demo_windowed 3).premix_len : Int)
        = max 0 ((demo_windowed.premix_len : Int) - ((3 : Nat) - (demo_windowed.premix_time : Int)))
    ∧ (stb_mixlow_set_curtime demo_windowed 3).premix_offset < demo_windowed.premix_size
    ∧ demo_windowed.premix_len = 8 ∧ demo_windowed.premix_time = 0
    ∧ demo_windowed.premix_size = 8 :=
  have A := set_curtime_slides_window demo_windowed 3 (by decide) (by decide) (by decide)
    (by decide) (by decide) (by decide) (by decide)
  ⟨A.1, A.2.1, A.2.2.1, by decide, by decide, by decide⟩

/-- C32, failing inputs. With a sound buffer of 1000 frames, write cursor offset 20 and the
previous write cursor at frame 0, a step that reads the write cursor at frame 10 (byte 40),
mixes 16 frames and then reads the write cursor at frame 15 (byte 60) discards `d = 5`
frames and writes the remaining 11 frames (44 bytes, from element 10 of the mix buffer) at
byte 220, i.e. frame `15 + 20 + 4*5 = 55` and not frame `(15 + 20 + 5) mod 1000 = 40`.
With write cursor offset 10 and the write cursor at frame 990 both times, `d = 0` and the
16 frames are written at byte 4000, i.e. frame 1000, which is not in `[0, 1000)`. -/
theorem mixhigh_step_writes_at_wrong_position :
    (stb_mixhigh_step_raw (demo_high 20) 1600 40 1600 60 16).state.prev_write = 10
    ∧ stb__dist (demo_high 20) 10 15 = 5
    ∧ (stb_mixhigh_step_raw (demo_high 20) 1600 40 1600 60 16).sink.map
        (fun w => (w.write_loc_bytes, w.size_in_bytes, w.data)) = some (220, 44, 10)
    ∧ (15 + 20 + 5 : Int) % 1000 = 40
    ∧ (220 : Int) = 4 * (15 + 20 + 4 * 5)
    ∧ stb__dist (demo_high 10) 990 990 = 0
    ∧ (stb_mixhigh_step_raw (demo_high 10) 2000 3960 2000 3960 16).sink.map
        (fun w => (w.write_loc_bytes, w.size_in_bytes, w.data)) = some (4000, 64, 0)
    ∧ (demo_high 10).dsound_buffer_size = 1000
    ∧ MixHigh.stb__wrap (demo_high 10) (990 + 10 + 0) = 1000 := by
  decide

/-! ## The frequency of the synthesized tone -/

theorem pitch_69_is_440 (pow2 : ℚ → ℚ) (hpow : pow2 0 = 1) : stb__pitch_to_freq pow2 69 = 440 := by
  unfold stb__pitch_to_freq
  have e : ((69 : ℚ) - 69) / 12 = 0 := by norm_num
  rw [e, hpow]
  norm_num

theorem wavesteps_eq (pow2 : ℚ → ℚ) (zero sps : Int) (ndur pitch volume : ℚ)
    (adsr : Option stb_synth_adsr) (w1 : stb_synth_waveform) (w2 : Option stb_synth_waveform) :
    (synth_consts pow2 zero sps ndur pitch volume adsr w1 w2).wavesteps
      = 2 / ((sps : ℚ) / stb__pitch_to_freq pow2 pitch) := rfl

/-- The phase after `n` samples is `n * wavesteps` minus 2 for every wrap. -/
theorem phase_wraps_identity (c : SynthConsts) (n : Nat) :
    (wave_at c n).p = (n : ℚ) * c.wavesteps - 2 * (phase_wraps c n : ℚ) := by
  induction n with
  | zero =>
    show (0 : ℚ) = ((0 : Nat) : ℚ) * c.wavesteps - 2 * ((0 : Nat) : ℚ)
    simp
  | succ n ih =>
    rw [wave_at_succ, wave_advance_p]
    unfold phase_next
    show _ = _ - 2 * ((phase_wraps c n + (if (wave_at c n).p + c.wavesteps ≥ 2 then 1 else 0)
      : Nat) : ℚ)
    by_cases h : (wave_at c n).p + c.wavesteps ≥ 2
    · rw [if_pos h, if_pos h, ih]
      push_cast
      ring
    · rw [if_neg h, if_neg h, ih]
      push_cast
      ring

/-- The number of wraps in the first `n` samples is the integer part of `n * wavesteps / 2`. -/
theorem phase_wraps_floor (c : SynthConsts) (h0 : 0 ≤ c.wavesteps) (h2 : c.wavesteps < 2)
    (n : Nat) : (phase_wraps c n : Int) = ⌊(n : ℚ) * c.wavesteps / 2⌋ := by
  have hr := phase_at_range c.wavesteps h0 h2 n
  rw [← wave_at_p, phase_wraps_identity] at hr
  symm
  rw [Int.floor_eq_iff]
  push_cast
  constructor <;> linarith

/-- C31. For `pitch = 69` and `samples_per_second = 44100` (with `pow(2, 0) = 1`) the tone is
at 440 Hz: the frequency is 440, the per-sample phase increment is `2*440/44100`, the phase
accumulator `p` lies in `[0, 2)` at every sample, and in every run of 44100 consecutive
samples `p` wraps past 2 exactly 440 times, hence between 439 and 441 times. -/
theorem pitch_69_tone_is_440_hz (pow2 : ℚ → ℚ) (zero : Int) (ndur volume : ℚ)
    (adsr : Option stb_synth_adsr) (w1 : stb_synth_waveform) (w2 : Option stb_synth_waveform)
    (hpow : pow2 0 = 1) :
    stb__pitch_to_freq pow2 69 = 440
    ∧ (synth_consts pow2 zero 44100 ndur 69 volume adsr w1 w2).wavesteps = 2 * 440 / 44100
    ∧ (∀ n, 0 ≤ (wave_at (synth_consts pow2 zero 44100 ndur 69 volume adsr w1 w2) n).p
        ∧ (wave_at (synth_consts pow2 zero 44100 ndur 69 volume adsr w1 w2) n).p < 2)
    ∧ ∀ a,
        phase_wraps (synth_consts pow2 zero 44100 ndur 69 volume adsr w1 w2) (a + 44100)
          = phase_wraps (synth_consts pow2 zero 44100 ndur 69 volume adsr w1 w2) a + 440
        ∧ 439 ≤ phase_wraps (synth_consts pow2 zero 44100 ndur 69 volume adsr w1 w2) (a + 44100)
            - phase_wraps (synth_consts pow2 zero 44100 ndur 69 volume adsr w1 w2) a
        ∧ phase_wraps (synth_consts pow2 zero 44100 ndur 69 volume adsr w1 w2) (a + 44100)
            - phase_wraps (synth_consts pow2 zero 44100 ndur 69 volume adsr w1 w2) a ≤ 441 := by
  have hf := pitch_69_is_440 pow2 hpow
  have hws : (synth_consts pow2 zero 44100 ndur 69 volume adsr w1 w2).wavesteps
      = 2 * 440 / 44100 := by
    rw [wavesteps_eq, hf]
    norm_num
  generalize synth_consts pow2 zero 44100 ndur 69 volume adsr w1 w2 = c at hws ⊢
  have h0 : 0 ≤ c.wavesteps := by rw [hws]; norm_num
  have h2 : c.wavesteps < 2 := by rw [hws]; norm_num
  refine ⟨hf, hws, fun n => ?_, fun a => ?_⟩
  · rw [wave_at_p]
    exact phase_at_range c.wavesteps h0 h2 n
  · have e1 := phase_wraps_floor c h0 h2 (a + 44100)
    have e2 := phase_wraps_floor c h0 h2 a
    have e3 : ((a + 44100 : Nat) : ℚ) * c.wavesteps / 2
        = (a : ℚ) * c.wavesteps / 2 + ((440 : Int) : ℚ) := by
      rw [hws]
      push_cast
      ring
    rw [e3, Int.floor_add_int] at e1
    omega

/-- An instance of `pitch_69_tone_is_440_hz` with `pow(2, x) = 2^floor(x)` in the place of
`pow`: a square wave at pitch 69 and 44100 samples per second wraps 440 times in the first
44100 samples. -/
theorem pitch_69_tone_is_440_hz_witness :
    (synth_consts demo_pow2 1 44100 1 69 1 none (square_wave 0) none).wavesteps = 2 * 440 / 44100
    ∧ phase_wraps (synth_consts demo_pow2 1 44100 1 69 1 none (square_wave 0) none) (0 + 44100)
        = phase_wraps (synth_consts demo_pow2 1 44100 1 69 1 none (square_wave 0) none) 0 + 440 :=
  have A := pitch_69_tone_is_440_hz demo_pow2 1 1 1 none (square_wave 0) none demo_pow2_zero
  ⟨A.2.1, (A.2.2.2 0).1⟩

/-! ## Bounds of the synthesized samples -/

/-- Between `a` and `b` the product with the reciprocal of `b - a` is a fraction. -/
theorem reciprocal_fraction (x a b : ℚ) (h1 : a ≤ x) (h2 : x ≤ b) :
    0 ≤ (x - a) * stb__synth_reciprocal a b ∧ (x - a) * stb__synth_reciprocal a b ≤ 1 := by
  unfold stb__synth_reciprocal
  by_cases h : b ≠ a
  · rw [if_pos h]
    have hba : 0 < b - a := by
      rcases lt_or_eq_of_le (le_trans h1 h2) with h3 | h3
      · linarith
      · exact absurd h3.symm h
    rw [mul_one_div]
    exact ⟨div_nonneg (by linarith) hba.le, (div_le_one hba).mpr (by linarith)⟩
  · rw [if_neg h]
    have hb : b = a := not_not.mp h
    have hx : x = a := le_antisymm (by linarith) h1
    rw [hx]
    norm_num

/-- A blend of two values of an interval with a fraction lies in the interval. -/
theorem blend_between (lo hi c d f : ℚ) (hf0 : 0 ≤ f) (hf1 : f ≤ 1) (hc0 : lo ≤ c) (hc1 : c ≤ hi)
    (hd0 : lo ≤ d) (hd1 : d ≤ hi) : lo ≤ c + (d - c) * f ∧ c + (d - c) * f ≤ hi := by
  have e : c + (d - c) * f = c * (1 - f) + d * f := by ring
  rw [e]
  have g : 0 ≤ 1 - f := by linarith
  constructor
  · nlinarith [mul_nonneg (sub_nonneg.mpr hc0) g, mul_nonneg (sub_nonneg.mpr hd0) hf0]
  · nlinarith [mul_nonneg (sub_nonneg.mpr hc1) g, mul_nonneg (sub_nonneg.mpr hd1) hf0]

theorem remap_between (lo hi t a b c d : ℚ) (h1 : a ≤ t) (h2 : t ≤ b) (hc0 : lo ≤ c)
    (hc1 : c ≤ hi) (hd0 : lo ≤ d) (hd1 : d ≤ hi) :
    lo ≤ stb__synth_remap_r t a (stb__synth_reciprocal a b) c d
      ∧ stb__synth_remap_r t a (stb__synth_reciprocal a b) c d ≤ hi := by
  unfold stb__synth_remap_r
  obtain ⟨f0, f1⟩ := reciprocal_fraction t a b h1 h2
  rw [mul_assoc]
  exact blend_between lo hi c d _ f0 f1 hc0 hc1 hd0 hd1

theorem lerp_between (lo hi t a b : ℚ) (h0 : 0 ≤ t) (h1 : t ≤ 1) (ha0 : lo ≤ a) (ha1 : a ≤ hi)
    (hb0 : lo ≤ b) (hb1 : b ≤ hi) :
    lo ≤ stb__synth_lerp t a b ∧ stb__synth_lerp t a b ≤ hi := by
  unfold stb__synth_lerp
  exact blend_between lo hi a b t h0 h1 ha0 ha1 hb0 hb1

/-- The shape value lies in `[-1, 1]` whenever the shape locals are consistent and bounded. -/
theorem wave_pcm_bounds (w : SynthWave) (h : WaveOK w) : -1 ≤ wave_pcm w ∧ wave_pcm w ≤ 1 := by
  obtain ⟨h0, h1, h2, h3, ⟨hH0, hH1⟩, ⟨hs0, hs1⟩, ⟨he0, he1⟩, -⟩ := h
  unfold wave_pcm
  by_cases c1 : w.p ≥ 1
  · rw [if_pos c1]
    by_cases c2 : w.p < w.right_half.start_zero ∨ w.p > w.right_half.end_zero
    · rw [if_pos c2]
      norm_num
    · rw [if_neg c2]
      have c3 : w.right_half.start_zero ≤ w.p := by
        by_contra hc
        exact c2 (Or.inl (lt_of_not_le hc))
      have c4 : w.p ≤ w.right_half.end_zero := by
        by_contra hc
        exact c2 (Or.inr (lt_of_not_le hc))
      by_cases c5 : w.p < w.right_half.peak_time
      · rw [if_pos c5, h0]
        obtain ⟨b0, b1⟩ := remap_between (-1) 0 w.p w.right_half.start_zero
          w.right_half.peak_time w.right_half.start_height (-1) c3 c5.le hs0 hs1 (le_refl _)
          (by norm_num)
        exact ⟨b0, by linarith⟩
      · rw [if_neg c5, h1]
        obtain ⟨b0, b1⟩ := remap_between (-1) 0 w.p w.right_half.peak_time
          w.right_half.end_zero (-1) w.right_half.end_height (le_of_not_lt c5) c4 (le_refl _)
          (by norm_num) he0 he1
        exact ⟨b0, by linarith⟩
  · rw [if_neg c1]
    by_cases c2 : w.p < w.left_half.zero_wait
    · rw [if_pos c2]
      norm_num
    · rw [if_neg c2]
      by_cases c5 : w.p < w.left_half.peak_time
      · rw [if_pos c5, h2]
        obtain ⟨b0, b1⟩ := remap_between 0 1 w.p w.left_half.zero_wait
          w.left_half.peak_time 0 1 (le_of_not_lt c2) c5.le (le_refl _) (by norm_num)
          (by norm_num) (le_refl _)
        exact ⟨by linarith, b1⟩
      · rw [if_neg c5, h3]
        obtain ⟨b0, b1⟩ := remap_between 0 1 w.p w.left_half.peak_time 1 1
          w.left_half.half_height (le_of_not_lt c5) (le_of_lt (lt_of_not_le c1)) (by norm_num)
          (le_refl _) hH0 hH1
        exact ⟨by linarith, b1⟩

theorem wave_init_ok (c : SynthConsts) (h : HalvesOK c) : WaveOK (synth_wave_init c) := by
  obtain ⟨a1, -, a3, -, a5, -, -⟩ := h
  exact ⟨rfl, rfl, rfl, rfl, a1, a3, a5, le_refl _, by show (0 : ℚ) ≤ 1; norm_num⟩

theorem wave_advance_ok (c : SynthConsts) (h : HalvesOK c) (w : SynthWave) (hw : WaveOK w) :
    WaveOK (wave_advance c w) := by
  obtain ⟨a1, a2, a3, a4, a5, a6, hdt⟩ := h
  unfold wave_advance
  dsimp only
  by_cases c1 : w.p + c.wavesteps ≥ 2
  · rw [if_pos c1]
    obtain ⟨-, -, -, -, -, -, -, ht0, ht1⟩ := hw
    have t0 : (0 : ℚ) ≤ (if w.t + c.dt > 1 then 1 else w.t + c.dt) := by
      split_ifs
      · norm_num
      · linarith
    have t1 : (if w.t + c.dt > 1 then 1 else w.t + c.dt) ≤ (1 : ℚ) := by
      split_ifs with hc
      · exact le_refl _
      · exact le_of_not_lt hc
    exact ⟨rfl, rfl, rfl, rfl,
      lerp_between 0 1 _ _ _ t0 t1 a1.1 a1.2 a2.1 a2.2,
      lerp_between (-1) 0 _ _ _ t0 t1 a3.1 a3.2 a4.1 a4.2,
      lerp_between (-1) 0 _ _ _ t0 t1 a5.1 a5.2 a6.1 a6.2, t0, t1⟩
  · rw [if_neg c1]
    exact hw

theorem wave_at_ok (c : SynthConsts) (h : HalvesOK c) (n : Nat) : WaveOK (wave_at c n) := by
  induction n with
  | zero => exact wave_init_ok c h
  | succ n ih =>
    rw [wave_at_succ]
    exact wave_advance_ok c h _ ih

theorem make_right_heights (w : stb_synth_waveform) (h0 : 0 ≤ w.half_height)
    (h1 : w.half_height ≤ 1) :
    (-1 ≤ (stb__make_right w).start_height ∧ (stb__make_right w).start_height ≤ 0)
    ∧ (-1 ≤ (stb__make_right w).end_height ∧ (stb__make_right w).end_height ≤ 0) := by
  unfold stb__make_right
  dsimp only
  by_cases c : w.reflect ≠ 0
  · rw [if_pos c]
    dsimp only
    refine ⟨⟨by linarith, by linarith⟩, by norm_num, le_refl _⟩
  · rw [if_neg c]
    dsimp only
    refine ⟨⟨by norm_num, le_refl _⟩, by linarith, by linarith⟩


theorem synth_consts_halves_ok (pow2 : ℚ → ℚ) (zero sps : Int) (ndur pitch volume : ℚ)
    (adsr : Option stb_synth_adsr) (w1 : stb_synth_waveform) (w2 : Option stb_synth_waveform)
    (hpow : 0 < pow2 ((pitch - 69) / 12)) (hsps : 0 < sps) (hdur : 0 < ndur)
    (hR : 0 ≤ (adsr_or_default adsr).release_time)
    (hH1 : 0 ≤ w1.half_height ∧ w1.half_height ≤ 1)
    (hH2 : ∀ w, w2 = some w → 0 ≤ w.half_height ∧ w.half_height ≤ 1) :
    HalvesOK (synth_consts pow2 zero sps ndur pitch volume adsr w1 w2) := by
  have hs : (0 : ℚ) < (sps : ℚ) := by exact_mod_cast hsps
  have hdt : 0 ≤ (synth_consts pow2 zero sps ndur pitch volume adsr w1 w2).dt := by
    show 0 ≤ 1 / ((ndur + (adsr_or_default adsr).release_time / 4) * (sps : ℚ))
      * ((sps : ℚ) / stb__pitch_to_freq pow2 pitch)
    have hf : 0 < stb__pitch_to_freq pow2 pitch := by
      unfold stb__pitch_to_freq
      linarith
    have h1 : 0 < (ndur + (adsr_or_default adsr).release_time / 4) * (sps : ℚ) :=
      mul_pos (by linarith) hs
    exact mul_nonneg (one_div_pos.mpr h1).le (div_pos hs hf).le
  obtain ⟨r1, r2⟩ := make_right_heights w1 hH1.1 hH1.2
  cases w2 with
  | none => exact ⟨hH1, hH1, r1, r1, r2, r2, hdt⟩
  | some w =>
    obtain ⟨q1, q2⟩ := make_right_heights w (hH2 w rfl).1 (hH2 w rfl).2
    exact ⟨hH1, hH2 w rfl, r1, q1, r2, q2, hdt⟩

/-- One evaluation of the envelope keeps the envelope locals bounded, as long as the release
phase has not run longer than the release time. -/
theorem env_scale_ok (c : SynthConsts) (e : SynthEnv)
    (h4 : c.r4 = stb__synth_reciprocal 0 c.env.attack_time)
    (h5 : c.r5 = stb__synth_reciprocal c.env.attack_time c.env.decay_time)
    (h6 : c.r6 = stb__synth_reciprocal 0 c.env.release_time)
    (hS : 0 ≤ c.env.sustain_level ∧ c.env.sustain_level ≤ 1) (hsec : 0 ≤ e.sec)
    (hrel : e.sec - c.note_duration_until_release ≤ c.env.release_time) (he : EnvOK e) :
    EnvOK (env_scale c e) := by
  obtain ⟨⟨s0, s1⟩, hl⟩ := he
  unfold env_scale
  by_cases c1 : e.sec < c.env.attack_time
  · rw [if_pos c1, h4]
    exact ⟨remap_between 0 1 e.sec 0 c.env.attack_time 0 1 hsec c1.le (le_refl _) (by norm_num)
      (by norm_num) (le_refl _), hl⟩
  rw [if_neg c1]
  by_cases c2 : e.sec < c.env.decay_time
  · rw [if_pos c2, h5]
    exact ⟨remap_between 0 1 e.sec c.env.attack_time c.env.decay_time 1 c.env.sustain_level
      (le_of_not_lt c1) c2.le (by norm_num) (le_refl _) hS.1 hS.2, hl⟩
  rw [if_neg c2]
  by_cases c3 : e.sec > c.note_duration_until_release
  · rw [if_pos c3, h6]
    dsimp only
    have hl2 : 0 ≤ (if e.release_level = -1 then e.scale else e.release_level)
        ∧ (if e.release_level = -1 then e.scale else e.release_level) ≤ 1 := by
      split_ifs with hc
      · exact ⟨s0, s1⟩
      · exact hl.resolve_left hc
    obtain ⟨f0, f1⟩ := reciprocal_fraction (e.sec - c.note_duration_until_release) 0
      c.env.release_time (by linarith) hrel
    rw [sub_zero] at f0 f1
    generalize (e.sec - c.note_duration_until_release) * stb__synth_reciprocal 0
      c.env.release_time = f at f0 f1 ⊢
    generalize (if e.release_level = -1 then e.scale else e.release_level) = l at hl2 ⊢
    have x0 : 0 ≤ 1 - f := by linarith
    have x1 : 1 - f ≤ 1 := by linarith
    have y0 : 0 ≤ (1 - f) * (1 - f) := mul_nonneg x0 x0
    have y1 : (1 - f) * (1 - f) ≤ 1 := by nlinarith
    have z0 : 0 ≤ (1 - f) * (1 - f) * (1 - f) := mul_nonneg y0 x0
    have z1 : (1 - f) * (1 - f) * (1 - f) ≤ 1 := by nlinarith
    refine ⟨⟨mul_nonneg z0 hl2.1, ?_⟩, Or.inr hl2⟩
    show (1 - f) * (1 - f) * (1 - f) * l ≤ 1
    nlinarith [mul_nonneg z0 hl2.1, hl2.2]
  · rw [if_neg c3]
    exact ⟨hS, hl⟩

theorem env_next_ok (c : SynthConsts) (e : SynthEnv) (h : EnvOK (env_scale c e)) :
    EnvOK (env_next c e) := h

/-- The envelope locals are bounded before and at every sample that lies within the release
time after the note. -/
theorem env_at_ok (c : SynthConsts)
    (h4 : c.r4 = stb__synth_reciprocal 0 c.env.attack_time)
    (h5 : c.r5 = stb__synth_reciprocal c.env.attack_time c.env.decay_time)
    (h6 : c.r6 = stb__synth_reciprocal 0 c.env.release_time)
    (hS : 0 ≤ c.env.sustain_level ∧ c.env.sustain_level ≤ 1) (hd : 0 ≤ c.dsec) (n : Nat)
    (hn : (n : ℚ) * c.dsec ≤ c.note_duration_until_release + c.env.release_time) :
    EnvOK (env_at c n) ∧ EnvOK (env_scale c (env_at c n)) := by
  have step : ∀ m : Nat, (m : ℚ) * c.dsec ≤ c.note_duration_until_release + c.env.release_time →
      EnvOK (env_at c m) → EnvOK (env_scale c (env_at c m)) := by
    intro m hm hok
    apply env_scale_ok c _ h4 h5 h6 hS _ _ hok
    · rw [env_at_sec]
      exact mul_nonneg (Nat.cast_nonneg m) hd
    · rw [env_at_sec]
      linarith
  have base : ∀ m : Nat, (m : ℚ) * c.dsec ≤ c.note_duration_until_release + c.env.release_time →
      EnvOK (env_at c m) := by
    intro m
    induction m with
    | zero =>
      intro _
      exact ⟨⟨le_refl _, by show (0 : ℚ) ≤ 1; norm_num⟩, Or.inl rfl⟩
    | succ m ih =>
      intro hm
      have hm2 : (m : ℚ) * c.dsec ≤ c.note_duration_until_release + c.env.release_time := by
        push_cast at hm
        nlinarith
      rw [env_at_succ]
      exact env_next_ok c _ (step m hm2 (ih hm2))
  exact ⟨base n hn, step n hn (base n hn)⟩

/-- Every sample index below the computed length lies before the end of the release. -/
theorem synth_len_within_release (buffer_limit sps : Int) (ndur : ℚ)
    (adsr : Option stb_synth_adsr) (hsps : 0 < sps) (x : Int) (h0 : 0 ≤ x)
    (hx : x < synth_len buffer_limit sps ndur adsr) :
    (x : ℚ) * (1 / (sps : ℚ)) ≤ ndur + (adsr_or_default adsr).release_time := by
  have hs : (0 : ℚ) < (sps : ℚ) := by exact_mod_cast hsps
  have h1 : synth_len buffer_limit sps ndur adsr
      ≤ float_to_int ((ndur + (adsr_or_default adsr).release_time) * (sps : ℚ)) := by
    unfold synth_len
    dsimp only
    split_ifs with hc
    · exact le_of_lt hc
    · exact le_refl _
  generalize hq : (ndur + (adsr_or_default adsr).release_time) * (sps : ℚ) = q at h1
  have h3 : x < float_to_int q := lt_of_lt_of_le hx h1
  have h2 : (x : ℚ) ≤ q := by
    unfold float_to_int truncQ at h3
    by_cases c0 : 0 ≤ q
    · simp only [if_pos c0] at h3
      split_ifs at h3
      · have h4 : ((x : Int) : ℚ) < ((⌊q⌋ : Int) : ℚ) := by exact_mod_cast h3
        linarith [Int.floor_le q]
      · omega
    · simp only [if_neg c0] at h3
      have h5 : ⌈q⌉ ≤ 0 := Int.ceil_le.mpr (by push_cast; linarith)
      split_ifs at h3 <;> omega
  calc (x : ℚ) * (1 / (sps : ℚ)) ≤ q * (1 / (sps : ℚ)) :=
        mul_le_mul_of_nonneg_right h2 (one_div_pos.mpr hs).le
    _ = ndur + (adsr_or_default adsr).release_time := by
        rw [← hq]
        field_simp

/-- C37. For every pair of waveforms whose `half_height` lies in `[0, 1]`, every envelope
with `sustain_level` in `[0, 1]` and a non-negative release time, and every duration and
rate `> 0` (with `pow(2, x) > 0` at the pitch, and a buffer limit that keeps the block
counter within `int`), each sample written by `stb_synth` satisfies
`|out[i]| <= |volume|`: the morphed wave shape value lies in `[-1, 1]` at every sample and
the ADSR scale lies in `[0, 1]` at every written sample. The ranges of `zero_wait` and
`peak_time` and the signs of the attack and decay times are not needed. -/
theorem synth_output_within_volume (pow2 : ℚ → ℚ) (out : Int → ℚ) (buffer_limit sps : Int)
    (ndur pitch volume : ℚ) (adsr : Option stb_synth_adsr) (w1 : stb_synth_waveform)
    (w2 : Option stb_synth_waveform) (hlim : buffer_limit + 256 < 2147483648)
    (hpow : 0 < pow2 ((pitch - 69) / 12)) (hsps : 0 < sps) (hdur : 0 < ndur)
    (hR : 0 ≤ (adsr_or_default adsr).release_time)
    (hS : 0 ≤ (adsr_or_default adsr).sustain_level ∧ (adsr_or_default adsr).sustain_level ≤ 1)
    (hH1 : 0 ≤ w1.half_height ∧ w1.half_height ≤ 1)
    (hH2 : ∀ w, w2 = some w → 0 ≤ w.half_height ∧ w.half_height ≤ 1) :
    (∀ x, 0 ≤ x → x < (stb_synth pow2 out buffer_limit sps ndur pitch volume adsr w1 w2).ret →
      |(stb_synth pow2 out buffer_limit sps ndur pitch volume adsr w1 w2).output x| ≤ |volume|)
    ∧ (∀ n, -1 ≤ wave_pcm (wave_at (synth_consts pow2 1 sps ndur pitch volume adsr w1 w2) n)
        ∧ wave_pcm (wave_at (synth_consts pow2 1 sps ndur pitch volume adsr w1 w2) n) ≤ 1)
    ∧ (∀ n : Nat,
        (n : Int) < (stb_synth pow2 out buffer_limit sps ndur pitch volume adsr w1 w2).ret →
        0 ≤ (env_scale (synth_consts pow2 1 sps ndur pitch volume adsr w1 w2)
              (env_at (synth_consts pow2 1 sps ndur pitch volume adsr w1 w2) n)).scale
        ∧ (env_scale (synth_consts pow2 1 sps ndur pitch volume adsr w1 w2)
              (env_at (synth_consts pow2 1 sps ndur pitch volume adsr w1 w2) n)).scale ≤ 1) := by
  obtain ⟨a1, a2⟩ := synth_raw_spec pow2 out buffer_limit 1 sps ndur pitch volume adsr w1 w2 hlim
  have hs : (0 : ℚ) < (sps : ℚ) := by exact_mod_cast hsps
  have hok := synth_consts_halves_ok pow2 1 sps ndur pitch volume adsr w1 w2 hpow hsps hdur hR
    hH1 hH2
  have hw : ∀ n, -1 ≤ wave_pcm (wave_at (synth_consts pow2 1 sps ndur pitch volume adsr w1 w2) n)
      ∧ wave_pcm (wave_at (synth_consts pow2 1 sps ndur pitch volume adsr w1 w2) n) ≤ 1 :=
    fun n => wave_pcm_bounds _ (wave_at_ok _ hok n)
  have he : ∀ n : Nat, (n : Int) < synth_len buffer_limit sps ndur adsr →
      0 ≤ (env_scale (synth_consts pow2 1 sps ndur pitch volume adsr w1 w2)
            (env_at (synth_consts pow2 1 sps ndur pitch volume adsr w1 w2) n)).scale
      ∧ (env_scale (synth_consts pow2 1 sps ndur pitch volume adsr w1 w2)
            (env_at (synth_consts pow2 1 sps ndur pitch volume adsr w1 w2) n)).scale ≤ 1 := by
    intro n hn
    have hb := synth_len_within_release buffer_limit sps ndur adsr hsps (n : Int)
      (Int.ofNat_nonneg n) hn
    rw [Int.cast_natCast] at hb
    exact (env_at_ok (synth_consts pow2 1 sps ndur pitch volume adsr w1 w2) rfl rfl rfl hS
      (one_div_pos.mpr hs).le n hb).2.1
  refine ⟨fun x h0 hx => ?_, hw, fun n hn => he n (by rw [← a1]; exact hn)⟩
  have hx1 : x < synth_len buffer_limit sps ndur adsr := by rw [← a1]; exact hx
  have hin : 0 ≤ x ∧ x < synth_len buffer_limit sps ndur adsr := ⟨h0, hx1⟩
  have h10 : (1 : Int) ≠ 0 := by decide
  have A := a2 x
  rw [if_pos hin, if_pos h10] at A
  have B : (stb_synth pow2 out buffer_limit sps ndur pitch volume adsr w1 w2).output x
      = synth_sample (synth_consts pow2 1 sps ndur pitch volume adsr w1 w2) x.toNat := A
  rw [B]
  unfold synth_sample
  have hn : ((x.toNat : Nat) : Int) < synth_len buffer_limit sps ndur adsr := by
    rw [Int.toNat_of_nonneg h0]
    exact hx1
  obtain ⟨e0, e1⟩ := he x.toNat hn
  obtain ⟨w0, w1'⟩ := hw x.toNat
  rw [abs_mul, abs_mul]
  have hv : (synth_consts pow2 1 sps ndur pitch volume adsr w1 w2).volume = volume := rfl
  rw [hv]
  have p1 : |wave_pcm (wave_at (synth_consts pow2 1 sps ndur pitch volume adsr w1 w2) x.toNat)|
      ≤ 1 := abs_le.mpr ⟨w0, w1'⟩
  have p2 : |(env_scale (synth_consts pow2 1 sps ndur pitch volume adsr w1 w2)
      (env_at (synth_consts pow2 1 sps ndur pitch volume adsr w1 w2) x.toNat)).scale| ≤ 1 :=
    abs_le.mpr ⟨by linarith, e1⟩
  have p3 := mul_le_of_le_one_right (abs_nonneg (wave_pcm
    (wave_at (synth_consts pow2 1 sps ndur pitch volume adsr w1 w2) x.toNat))) p2
  calc _ ≤ 1 * |volume| := mul_le_mul_of_nonneg_right (le_trans p3 p1) (abs_nonneg volume)
    _ = |volume| := one_mul _

/-- An instance of `synth_output_within_volume`: the first sample of a one-second note at
pitch 69 that morphs from the square to the triangle wave, with the envelope
`{0.01, 0.01, 0.5, 0.1}` and volume 1, lies in `[-1, 1]`. -/
theorem synth_output_within_volume_witness :
    |(stb_synth demo_pow2 (fun _ => 0) 44100 44100 1 69 1 (some example_adsr) (square_wave 0)
        (some (triangle_wave 0))).output 0| ≤ |(1 : ℚ)| :=
  (synth_output_within_volume demo_pow2 (fun _ => 0) 44100 44100 1 69 1 (some example_adsr)
    (square_wave 0) (some (triangle_wave 0)) (by decide)
    (by
      have e : ((69 : ℚ) - 69) / 12 = 0 := by norm_num
      rw [e, demo_pow2_zero]
      norm_num)
    (by decide) (by norm_num) (by decide!) (by decide!) (by decide!)
    (fun w h => by
      cases h
      decide!)).1 0 (le_refl _)
    (by
      show (0 : Int) < synth_len 44100 44100 1 (some example_adsr)
      decide!)

end Stb
